import Mathlib

/-!
# SNEX function parser: syntax tree, tree finaliser and expression parser

A shallow embedding of `hi_snex/snex_jit/snex_jit_FunctionParser.cpp`.

The parser builds a tree of `Operations::Statement` objects.  Every node of
that tree owns an ordered list of child statements (`addStatement` appends to
it; expressions are statements as well, the source hands the result of
`parseExpression()` to `addStatement`).  The tree is embedded as a rose tree:
a node is a kind tag, carrying the data of the node that is not a child, and
the list of its children.  Source locations are diagnostics only and are
left out.

`finaliseSyntaxTree` works in place and may throw; it is embedded as a
function from the tree to the outcome and the tree it leaves.

The parse functions read and write the token cursor and a few members of the
parser; they are embedded as functions from a parser state to a result and a
new state.  They are mutually recursive without a structural measure, so
each takes a recursion budget that every call lowers by one; a result that
is stated holds for every budget from some budget on.

The file begins with the result codes of the documentation updater of
`hi_components/markdown_components/MarkdownPreview.h`, which do not depend
on the parser.
-/

namespace hise
namespace DocUpdater

/-! ## The result codes of the documentation updater

A shallow embedding of the enumeration `DocUpdater::DownloadResult` and of
the helpers `DocUpdater::Helpers::wasOk` and `somethingDownloaded` of
`hi_components/markdown_components/MarkdownPreview.h`.  An `int` is an
integer, `&` is the bitwise conjunction of integers, a comparison gives a
`bool`, which `&` promotes to the integer 0 or 1, and an integer that is
returned as `bool` is true when it is not zero. -/

/-- The enumeration `DocUpdater::DownloadResult`. -/
inductive DownloadResult
  | NotExecuted
  | FileErrorContent
  | FileErrorImage
  | CantResolveServer
  | UserCancelled
  | ImagesUpdated
  | ContentUpdated
  | EverythingUpdated
  | NothingUpdated
  deriving DecidableEq, Repr

/-- The value of an enumerator of `DownloadResult`. -/
def DownloadResult.toInt : DownloadResult → Int
  | .NotExecuted => 0b0000
  | .FileErrorContent => 0b1110
  | .FileErrorImage => 0b1101
  | .CantResolveServer => 0b1000
  | .UserCancelled => 0b11000
  | .ImagesUpdated => 0b0101
  | .ContentUpdated => 0b0110
  | .EverythingUpdated => 0b0111
  | .NothingUpdated => 0b0100

namespace Helpers

/-- The promotion of a `bool` to `int`. -/
def boolToInt (b : Bool) : Int :=
  if b then 1 else 0

/-- The conversion of an `int` to `bool`. -/
def intToBool (i : Int) : Bool :=
  i != 0

/-- The function `DocUpdater::Helpers::wasOk`: `return r & 0b1000 == 0;`, in
which `==` binds tighter than `&`. -/
def wasOk (r : Int) : Bool :=
  intToBool (Int.land r (boolToInt ((0b1000 : Int) == 0)))

/-- The function `DocUpdater::Helpers::somethingDownloaded`:
`return wasOk(r) && (r & 0xb0100 != 0);`, in which `!=` binds tighter than
`&`. -/
def somethingDownloaded (r : DownloadResult) : Bool :=
  wasOk r.toInt && intToBool (Int.land r.toInt (boolToInt ((0xb0100 : Int) != 0)))

/-- The error bit `0b1000` of a result code is clear: `(r & 0b1000) == 0`,
with the parentheses that `wasOk` does not have. -/
def errorBitClear (r : Int) : Bool :=
  Int.land r 0b1000 == 0

end Helpers

end DocUpdater
end hise

namespace snex
namespace jit

/-! ## Values, symbols and token kinds -/

namespace Types

/-- Modelled from the spec: the type tags `Types::ID` of values (the
enumeration is not part of the sources, which name `Integer`, `Float` and
`Double`). -/
inductive ID where
  | Void
  | Integer
  | Float
  | Double
  | Event
  | Block
  deriving DecidableEq

end Types

/-- Modelled from the spec: a finite binary floating point value, held as the
pair of a signed mantissa and a binary exponent (the value is
`mantissa * 2 ^ exponent`).  The arithmetic of `float` and `double` is not
part of the sources; the parser only ever multiplies such a value by minus
one. -/
structure FloatValue where
  mantissa : Int
  exponent : Int
  deriving DecidableEq

namespace FloatValue

/-- The negated value. -/
def neg (v : FloatValue) : FloatValue := ⟨-v.mantissa, v.exponent⟩

/-- The product `v * -1.0`: minus one is `-1 * 2 ^ 0`, mantissas multiply and
exponents add; no rounding takes place for this factor. -/
def timesMinusOne (v : FloatValue) : FloatValue := ⟨v.mantissa * -1, v.exponent + 0⟩

end FloatValue

/-- Wrap an integer into the range of a 32 bit two's complement `int`. -/
def wrapInt32 (x : Int) : Int := (x + 2 ^ 31) % 2 ^ 32 - 2 ^ 31

/-- Modelled from the spec: the typed scalar `VariableStorage` (its class is
not part of the sources): a value together with its own type tag. -/
inductive VariableStorage where
  | Void
  | Integer (value : Int)
  | Float (value : FloatValue)
  | Double (value : FloatValue)
  deriving DecidableEq

namespace VariableStorage

/-- The type tag `getType()` of a stored value. -/
def getType : VariableStorage → Types.ID
  | Void => .Void
  | Integer _ => .Integer
  | Float _ => .Float
  | Double _ => .Double

end VariableStorage

/-- Modelled from the spec: the token kinds `JitTokens` (their declaration
is not part of the sources). The kinds the parse functions name keep their
names; the type keywords are the kinds `int_`, `float_`, `double_`, `event_`,
`block_` and `void_`, and the assignment operators `assign_` to
`moduloEquals`. The kind `eof` is what the token source shows at the end of
input. -/
inductive TokenType where
  | identifier | literal
  | plus | minus | times | divide | modulo
  | plusplus | minusminus
  | logicalNot | logicalAnd | logicalOr
  | greaterThan | greaterThanOrEqual | lessThan | lessThanOrEqual | equals | notEquals
  | question | colon | comma | semicolon | dot
  | openParen | closeParen | openBrace | closeBrace | openBracket | closeBracket
  | assign_ | plusEquals | minusEquals | timesEquals | divideEquals | moduloEquals
  | bitwiseAnd
  | const_ | if_ | else_ | return_ | for_ | auto_ | true_ | false_
  | int_ | float_ | double_ | event_ | block_ | void_
  | eof
  deriving DecidableEq

/-- Modelled from the spec: the symbol `BaseScope::Symbol` that a matched
identifier resolves to: its name and whether it was declared `const`. -/
structure Symbol where
  id : String
  const_ : Bool
  deriving DecidableEq

/-! ## The syntax tree -/

namespace Operations

/-- The node classes of `Operations`, each with the data of the node that is
not a child statement. -/
inductive Kind where
  | StatementBlock
  | IfStatement
  | ReturnStatement
  | BlockLoop (variableId : Symbol)
  | Assignment (assignmentType : TokenType)
  | BlockAssignment (assignmentType : TokenType)
  | Immediate (value : VariableStorage)
  | VariableReference (symbol : Symbol)
  | BinaryOp (op : TokenType)
  | Compare (op : TokenType)
  | LogicalNot
  | TernaryOp
  | Cast (type : Types.ID)
  | Negation
  | Increment (isPre : Bool) (isDecrement : Bool)
  | FunctionCall (symbol : Symbol)
  | BlockAccess
  deriving DecidableEq

/-- A node `Operations::Statement`: its class and its child statements. -/
inductive Statement where
  | node (kind : Kind) (childStatements : List Statement)

end Operations

open Operations (Statement Kind)

namespace Operations

mutual
/-- Decide whether two nodes are equal. -/
def Statement.decEq : (a b : Statement) → Decidable (a = b)
  | .node k cs, .node k2 cs2 =>
    if hk : k = k2 then
      match Statement.decEqList cs cs2 with
      | isTrue h => isTrue (by rw [hk, h])
      | isFalse h => isFalse (by intro e; cases e; exact h rfl)
    else isFalse (by intro e; cases e; exact hk rfl)
/-- Decide whether two child lists are equal. -/
def Statement.decEqList : (a b : List Statement) → Decidable (a = b)
  | [], [] => isTrue rfl
  | [], _ :: _ => isFalse (by intro e; cases e)
  | _ :: _, [] => isFalse (by intro e; cases e)
  | a :: as, b :: bs =>
    match Statement.decEq a b, Statement.decEqList as bs with
    | isTrue h, isTrue h2 => isTrue (by rw [h, h2])
    | isFalse h, _ => isFalse (by intro e; cases e; exact h rfl)
    | _, isFalse h => isFalse (by intro e; cases e; exact h rfl)
end

instance : DecidableEq Statement := Statement.decEq

namespace Statement

/-- The class of a node (what `dynamic_cast` inspects). -/
def kind : Statement → Kind
  | node k _ => k

/-- The child statements of a node. -/
def childStatements : Statement → List Statement
  | node _ cs => cs

/-- Modelled from the spec: `Statement::addStatement` (the class is not part
of the sources): the new statement becomes the last child. -/
def addStatement : Statement → Statement → Statement
  | node k cs, newStatement => node k (cs ++ [newStatement])

/-- Modelled from the spec: `getLastStatement()` of a node: its last child,
null when it has none. -/
def getLastStatement (s : Statement) : Option Statement :=
  s.childStatements.getLast?

end Statement

/-- Modelled from the spec: `new Operations::ReturnStatement(location, expr)`;
a null expression gives the value-less return. -/
def ReturnStatement (expr : Option Statement) : Statement :=
  .node .ReturnStatement expr.toList

/-- Modelled from the spec: `new Operations::IfStatement(location, cond,
trueBranch, falseBranch)`: the condition, the true branch and, when it is
not null, the false branch. -/
def IfStatement (cond trueBranch : Statement) (falseBranch : Option Statement) : Statement :=
  .node .IfStatement ([cond, trueBranch] ++ falseBranch.toList)

/-- Modelled from the spec: `new Operations::StatementBlock(location)`
followed by `addStatement` for each statement of the list. -/
def StatementBlock (statements : List Statement) : Statement :=
  .node .StatementBlock statements

/-- Modelled from the spec: `new Operations::Immediate(location, value)`. -/
def Immediate (value : VariableStorage) : Statement :=
  .node (.Immediate value) []

/-- Modelled from the spec: `new Operations::VariableReference(location,
symbol)`. -/
def VariableReference (symbol : Symbol) : Statement :=
  .node (.VariableReference symbol) []

/-- Modelled from the spec: `new Operations::BinaryOp(location, l, r, op)`. -/
def BinaryOp (l r : Statement) (op : TokenType) : Statement :=
  .node (.BinaryOp op) [l, r]

/-- Modelled from the spec: `new Operations::Compare(location, left, right,
op)`. -/
def Compare (left right : Statement) (op : TokenType) : Statement :=
  .node (.Compare op) [left, right]

/-- Modelled from the spec: `new Operations::LogicalNot(location, expr)`. -/
def LogicalNot (expr : Statement) : Statement :=
  .node .LogicalNot [expr]

/-- Modelled from the spec: `new Operations::TernaryOp(location, condition,
trueBranch, falseBranch)`. -/
def TernaryOp (condition trueBranch falseBranch : Statement) : Statement :=
  .node .TernaryOp [condition, trueBranch, falseBranch]

/-- Modelled from the spec: `new Operations::Cast(location, source, type)`. -/
def Cast (source : Statement) (type : Types.ID) : Statement :=
  .node (.Cast type) [source]

/-- Modelled from the spec: `new Operations::Negation(location, expr)`. -/
def Negation (expr : Statement) : Statement :=
  .node .Negation [expr]

/-- Modelled from the spec: `new Operations::Increment(location, expr,
isPre, isDecrement)`. -/
def Increment (expr : Statement) (isPre isDecrement : Bool) : Statement :=
  .node (.Increment isPre isDecrement) [expr]

/-- Modelled from the spec: `new Operations::FunctionCall(location, symbol)`;
the arguments are added afterwards with `addStatement`. -/
def FunctionCall (symbol : Symbol) : Statement :=
  .node (.FunctionCall symbol) []

/-- Modelled from the spec: `new Operations::BlockAccess(location, expr,
idx)`. -/
def BlockAccess (expr idx : Statement) : Statement :=
  .node .BlockAccess [expr, idx]

/-- Modelled from the spec: `new Operations::Assignment(location, target,
assignmentType, expr)`. -/
def Assignment (target : Statement) (assignmentType : TokenType) (expr : Statement) :
    Statement :=
  .node (.Assignment assignmentType) [target, expr]

/-- Modelled from the spec: `new Operations::BlockAssignment(location, left,
assignmentType, right)`. -/
def BlockAssignment (left : Statement) (assignmentType : TokenType) (right : Statement) :
    Statement :=
  .node (.BlockAssignment assignmentType) [left, right]

/-- Modelled from the spec: `new Operations::BlockLoop(location, variableId,
loopBlock, block)`. -/
def BlockLoop (variableId : Symbol) (loopBlock block : Statement) : Statement :=
  .node (.BlockLoop variableId) [loopBlock, block]

/-- Modelled from the spec: `IfStatement::getTrueBranch()`. -/
def getTrueBranch (is : Statement) : Option Statement :=
  is.childStatements.get? 1

/-- Modelled from the spec: `IfStatement::getFalseBranch()`, null when the
statement was built without a false branch. -/
def getFalseBranch (is : Statement) : Option Statement :=
  is.childStatements.get? 2

/-- Modelled from the spec: `IfStatement::hasFalseBranch()`. -/
def hasFalseBranch (is : Statement) : Bool :=
  (getFalseBranch is).isSome

/-- The effect on an if statement of a mutation of the statement that
`getTrueBranch()` points to. -/
def modifyTrueBranch (f : Statement → Statement) : Statement → Statement
  | .node k (c :: t :: r) => .node k (c :: f t :: r)
  | s => s

/-- The effect on an if statement of a mutation of the statement that
`getFalseBranch()` points to. -/
def modifyFalseBranch (f : Statement → Statement) : Statement → Statement
  | .node k (c :: t :: e :: r) => .node k (c :: t :: f e :: r)
  | s => s

end Operations

/-- Modelled from the spec: the root `SyntaxTree` of a function body (the
class is not part of the sources): the ordered list of its statements. -/
structure SyntaxTree where
  statements : List Statement
  deriving DecidableEq

namespace SyntaxTree

/-- Modelled from the spec: `SyntaxTree::getLastStatement()`, null for an
empty tree. -/
def getLastStatement (tree : SyntaxTree) : Option Statement :=
  tree.statements.getLast?

/-- Modelled from the spec: `SyntaxTree::addStatement`. -/
def addStatement (tree : SyntaxTree) (newStatement : Statement) : SyntaxTree :=
  ⟨tree.statements ++ [newStatement]⟩

end SyntaxTree

/-- The error `ParserHelpers::CodeLocation::Error`: either raised by
`throwError(message)` or by a `match(expected)` that met another token. -/
inductive SyntaxError where
  | message (text : String)
  | expected (token : TokenType)
  deriving DecidableEq

deriving instance DecidableEq for Except

/-! ## finaliseSyntaxTree -/

mutual
/-- The loop `while (auto bl = dynamic_cast<StatementBlock*>(s)) s =
bl->getLastStatement();` started at a statement that is not null. -/
def descendBlocks : Statement → Option Statement
  | .node .StatementBlock cs => descendLastOf cs
  | s => some s
/-- The same loop started at the last statement of a child list. -/
def descendLastOf : List Statement → Option Statement
  | [] => none
  | [s] => descendBlocks s
  | _ :: t :: r => descendLastOf (t :: r)
end

/-- The loop `while (auto bl = dynamic_cast<StatementBlock*>(s)) s =
bl->getLastStatement();` for a pointer that may be null. -/
def whileStatementBlock : Option Statement → Option Statement
  | none => none
  | some s => descendBlocks s

/-- The lambda `isReturn` of `finaliseSyntaxTree`. -/
def isReturn : Option Statement → Bool
  | some (.node .ReturnStatement _) => true
  | _ => false

mutual
/-- The effect on a statement of a mutation `f` of the statement the descent
through trailing blocks ends at. -/
def updateResolved (f : Statement → Statement) : Statement → Statement
  | .node .StatementBlock cs => .node .StatementBlock (updateResolvedLast f cs)
  | s => f s
/-- The effect on a child list of a mutation `f` of the statement the descent
from its last statement ends at. -/
def updateResolvedLast (f : Statement → Statement) : List Statement → List Statement
  | [] => []
  | [s] => [updateResolved f s]
  | a :: t :: r => a :: updateResolvedLast f (t :: r)
end

/-- The mutation `branch->addStatement(new Operations::ReturnStatement(location,
nullptr))` of a branch of an if statement. -/
def addReturn (branch : Statement) : Statement :=
  branch.addStatement (Operations.ReturnStatement none)

/-- The function `FunctionParser::finaliseSyntaxTree`. It works in place and
may throw: the result is the outcome together with the tree as the call
leaves it. -/
def finaliseSyntaxTree (tree : SyntaxTree) : Except SyntaxError Unit × SyntaxTree :=
  let lastStatement := whileStatementBlock tree.getLastStatement
  if isReturn lastStatement then
    (.ok (), tree)
  else
    match lastStatement with
    | some (.node .IfStatement cs) =>
      let is : Statement := .node .IfStatement cs
      if !Operations.hasFalseBranch is then
        (.error (.message "Not all paths return a value"), tree)
      else
        let lastTrueStatement := Operations.getTrueBranch is
        let lastFalseStatement := Operations.getFalseBranch is
        let lastTrueStatement := whileStatementBlock lastTrueStatement
        let lastTrueStatement := whileStatementBlock lastTrueStatement
        let lastTrueStatementOK := isReturn lastTrueStatement
        let lastFalseStatementOK := isReturn lastFalseStatement
        if lastFalseStatementOK && lastTrueStatementOK then
          (.ok (), tree)
        else
          let tree : SyntaxTree :=
            ⟨updateResolvedLast (Operations.modifyTrueBranch addReturn) tree.statements⟩
          let tree : SyntaxTree :=
            ⟨updateResolvedLast (Operations.modifyFalseBranch addReturn) tree.statements⟩
          (.ok (), tree.addStatement (Operations.ReturnStatement none))
    | _ => (.ok (), tree.addStatement (Operations.ReturnStatement none))

/-! ## Ending in a return -/

mutual
/-- A statement ends in return when, after the descent through trailing
blocks, it is a return statement, or an if statement with a false branch
whose true and false branch both end in return. -/
def endsInReturn : Statement → Bool
  | .node .ReturnStatement _ => true
  | .node .StatementBlock cs => listEndsInReturn cs
  | .node .IfStatement (_ :: t :: f :: _) => endsInReturn t && endsInReturn f
  | _ => false
/-- A statement list ends in return when its last statement does. -/
def listEndsInReturn : List Statement → Bool
  | [] => false
  | [s] => endsInReturn s
  | _ :: t :: r => listEndsInReturn (t :: r)
end

/-! ## Growth by value-less returns -/

mutual
/-- The number of nodes of a statement, itself included. -/
def countNodes : Statement → Nat
  | .node _ cs => 1 + countNodesList cs
/-- The number of nodes of the statements of a list. -/
def countNodesList : List Statement → Nat
  | [] => 0
  | s :: r => countNodes s + countNodesList r
end

mutual
/-- The statement `new` is the statement `old` with return statements
without a value added at the end of child lists: the kind is the same and
the child list is the old one, child by child grown in the same way,
followed by value-less return statements only. -/
def extendsByReturns : Statement → Statement → Bool
  | .node k cs, .node k2 cs2 => decide (k = k2) && extendsListByReturns cs cs2
/-- The list `new` is the list `old`, statement by statement grown by
value-less return statements, followed by value-less return statements only. -/
def extendsListByReturns : List Statement → List Statement → Bool
  | [], new => new.all (fun r => decide (r = .node .ReturnStatement []))
  | _ :: _, [] => false
  | a :: old, b :: new => extendsByReturns a b && extendsListByReturns old new
end

/-! ## The token source and the parser state -/

/-- Modelled from the spec: a token of the token source: its kind, the text
of an identifier and the typed value of a literal. -/
structure Token where
  type : TokenType
  text : String
  value : VariableStorage
  deriving DecidableEq

namespace Token

/-- A keyword, operator or punctuation token. -/
def op (type : TokenType) : Token := ⟨type, "", .Void⟩

/-- An identifier token. -/
def ident (name : String) : Token := ⟨.identifier, name, .Void⟩

/-- A literal token with its typed value. -/
def lit (value : VariableStorage) : Token := ⟨.literal, "", value⟩

end Token

/-- The failure of a parse: a syntax error, or the recursion budget of the
embedding ran out (the source has no such budget). -/
inductive Failure where
  | syntaxError (error : SyntaxError)
  | outOfFuel
  deriving DecidableEq

/-- The mutable members of the parser that the parse functions read and
write: the tokens not yet consumed (the current token is the first, the end
of input is the empty list), and the members `currentSymbol`,
`currentHnodeType` and `currentAssignmentType`. -/
structure ParserState where
  tokens : List Token
  currentSymbol : Symbol
  currentHnodeType : Types.ID
  currentAssignmentType : TokenType
  deriving DecidableEq

/-- The outcome of a parse function that builds a node: the node and the
state the function leaves, or a failure. -/
abbrev ParseResult := Except Failure (Statement × ParserState)

namespace ParserState

/-- The state of a parser that starts on a token list. -/
def init (tokens : List Token) : ParserState :=
  ⟨tokens, ⟨"", false⟩, .Void, .assign_⟩

/-- Modelled from the spec: the member `currentType`, the kind of the
current token, `eof` at the end of input. -/
def currentType (s : ParserState) : TokenType :=
  match s.tokens with
  | [] => .eof
  | t :: _ => t.type

/-- Modelled from the spec: `isEOF()`. -/
def isEOF (s : ParserState) : Bool :=
  s.currentType == .eof

/-- Modelled from the spec: `skip()`, the cursor moves to the next token. -/
def skip (s : ParserState) : ParserState :=
  { s with tokens := s.tokens.tail }

/-- Modelled from the spec: `matchIf(expected)`: the current token is
consumed when it has the expected kind. -/
def matchIf (s : ParserState) (expected : TokenType) : Bool × ParserState :=
  if s.currentType = expected then (true, s.skip) else (false, s)

/-- Modelled from the spec: the symbol that `getCurrentSymbol` shows once
`match` has consumed the current token: the identifier itself when the token
is an identifier (the loop header reads its iteration variable this way),
the stored symbol otherwise. -/
def symbolBehind (s : ParserState) : Symbol :=
  match s.tokens with
  | t :: _ => if t.type = .identifier then ⟨t.text, false⟩ else s.currentSymbol
  | [] => s.currentSymbol

/-- Modelled from the spec: `match(expected)`: the current token is consumed
when it has the expected kind, otherwise a syntax error is raised. -/
def match_ (s : ParserState) (expected : TokenType) : Except Failure ParserState :=
  if s.currentType = expected then .ok { s.skip with currentSymbol := s.symbolBehind }
  else .error (.syntaxError (.expected expected))

/-- Modelled from the spec: the type that a type keyword names. -/
def typeOfToken : TokenType → Option Types.ID
  | .int_ => some .Integer
  | .float_ => some .Float
  | .double_ => some .Double
  | .event_ => some .Event
  | .block_ => some .Block
  | .void_ => some .Void
  | _ => none

/-- Modelled from the spec: `matchIfTypeToken()`: a type keyword is consumed
and its type stored in `currentHnodeType`. -/
def matchIfTypeToken (s : ParserState) : Bool × ParserState :=
  match typeOfToken s.currentType with
  | some t => (true, { s.skip with currentHnodeType := t })
  | none => (false, s)

/-- Modelled from the spec: the kinds of the assignment operators. -/
def isAssignmentType : TokenType → Bool
  | .assign_ | .plusEquals | .minusEquals | .timesEquals | .divideEquals
  | .moduloEquals => true
  | _ => false

/-- Modelled from the spec: `matchIfAssignmentType()`: an assignment operator
is consumed and stored in `currentAssignmentType`. -/
def matchIfAssignmentType (s : ParserState) : Bool × ParserState :=
  if isAssignmentType s.currentType then
    (true, { s.skip with currentAssignmentType := s.currentType })
  else (false, s)

/-- Modelled from the spec: `getCurrentSymbol(flag)`: the symbol of the
identifier consumed last, as stored by `matchIfSymbol` or `match`. -/
def getCurrentSymbol (s : ParserState) (_flag : Bool) : Symbol :=
  s.currentSymbol

/-- Modelled from the spec: `parseVariableStorageLiteral()`: the typed value
of the current literal token, which is consumed. -/
def parseVariableStorageLiteral (s : ParserState) : Except Failure (VariableStorage × ParserState) :=
  match s.tokens with
  | t :: _ =>
    if t.type = .literal then .ok (t.value, s.skip)
    else .error (.syntaxError (.expected .literal))
  | [] => .error (.syntaxError (.expected .literal))

end ParserState

/-- The collaborators of a `FunctionParser` that are not part of the sources:
the predicate of the symbol table that tells whether a name is a symbol. -/
structure FunctionParser where
  isSymbol : String → Bool

namespace FunctionParser

/-- Modelled from the spec: `matchIfSymbol(isConst)`: an identifier that is a
symbol is consumed and stored, with its constness, in `currentSymbol`. -/
def matchIfSymbol (p : FunctionParser) (isConst : Bool) (s : ParserState) :
    Bool × ParserState :=
  match s.tokens with
  | t :: _ =>
    if t.type = .identifier ∧ p.isSymbol t.text = true then
      (true, { s.skip with currentSymbol := ⟨t.text, isConst⟩ })
    else (false, s)
  | [] => (false, s)

/-- The function `FunctionParser::createBinaryNode`. -/
def createBinaryNode (l r : Statement) (op : TokenType) : Statement :=
  Operations.BinaryOp l r op

/-- The function `FunctionParser::parseReference`. -/
def parseReference (s : ParserState) : Statement :=
  Operations.VariableReference (s.getCurrentSymbol false)

/-- The product `v.toInt() * -1` of 32 bit integers. -/
def intTimesMinusOne (v : Int) : Int := wrapInt32 (v * -1)

/-- The function `FunctionParser::parseLiteral`. -/
def parseLiteral (isNegative : Bool) (s : ParserState) : ParseResult := do
  let (v, s) ← s.parseVariableStorageLiteral
  let v :=
    if isNegative then
      match v with
      | .Integer i => VariableStorage.Integer (intTimesMinusOne i)
      | .Float f => VariableStorage.Float f.timesMinusOne
      | .Double d => VariableStorage.Double d.timesMinusOne
      | v => v
    else v
  pure (Operations.Immediate v, s)

mutual

/-- The function `FunctionParser::parseFunctionCall`, from its loop on: one
round of `while (!isEOF() && currentType != JitTokens::closeParen)`. -/
def parseFunctionCallLoop (p : FunctionParser) :
    Nat → Statement → ParserState → ParseResult
  | 0, _, _ => .error .outOfFuel
  | n + 1, f, s =>
    if !s.isEOF && s.currentType != .closeParen then do
      let (e, s) ← parseExpression p n s
      let s := (s.matchIf .comma).2
      parseFunctionCallLoop p n (f.addStatement e) s
    else
      pure (f, s)

/-- The function `FunctionParser::parseFunctionCall`. -/
def parseFunctionCall (p : FunctionParser) : Nat → ParserState → ParseResult
  | 0, _ => .error .outOfFuel
  | n + 1, s => do
    let f := Operations.FunctionCall (s.getCurrentSymbol false)
    let (f, s) ← parseFunctionCallLoop p n f s
    let s ← s.match_ .closeParen
    pure (f, s)

/-- The function `FunctionParser::parseExpression`. -/
def parseExpression (p : FunctionParser) : Nat → ParserState → ParseResult
  | 0, _ => .error .outOfFuel
  | n + 1, s => parseTernaryOperator p n s

/-- The function `FunctionParser::parseTernaryOperator`. -/
def parseTernaryOperator (p : FunctionParser) : Nat → ParserState → ParseResult
  | 0, _ => .error .outOfFuel
  | n + 1, s => do
    let (condition, s) ← parseBool p n s
    match s.matchIf .question with
    | (true, s) =>
      let (trueBranch, s) ← parseExpression p n s
      let s ← s.match_ .colon
      let (falseBranch, s) ← parseExpression p n s
      pure (Operations.TernaryOp condition trueBranch falseBranch, s)
    | (false, s) =>
      pure (condition, s)

/-- The function `FunctionParser::parseBool`. -/
def parseBool (p : FunctionParser) : Nat → ParserState → ParseResult
  | 0, _ => .error .outOfFuel
  | n + 1, s => do
    let (isInverted, s) := s.matchIf .logicalNot
    let (result, s) ← parseLogicOperation p n s
    if !isInverted then
      pure (result, s)
    else
      pure (Operations.LogicalNot result, s)

/-- The function `FunctionParser::parseLogicOperation`. -/
def parseLogicOperation (p : FunctionParser) : Nat → ParserState → ParseResult
  | 0, _ => .error .outOfFuel
  | n + 1, s => do
    let (left, s) ← parseComparation p n s
    match s.matchIf .logicalAnd with
    | (true, s) =>
      let (right, s) ← parseLogicOperation p n s
      pure (Operations.BinaryOp left right .logicalAnd, s)
    | (false, s) =>
      match s.matchIf .logicalOr with
      | (true, s) =>
        let (right, s) ← parseLogicOperation p n s
        pure (Operations.BinaryOp left right .logicalOr, s)
      | (false, s) =>
        pure (left, s)

/-- The function `FunctionParser::parseComparation`. -/
def parseComparation (p : FunctionParser) : Nat → ParserState → ParseResult
  | 0, _ => .error .outOfFuel
  | n + 1, s => do
    let (left, s) ← parseSum p n s
    if s.currentType = .greaterThan ∨
        s.currentType = .greaterThanOrEqual ∨
        s.currentType = .lessThan ∨
        s.currentType = .lessThanOrEqual ∨
        s.currentType = .equals ∨
        s.currentType = .notEquals then
      let op := s.currentType
      let s := s.skip
      let (right, s) ← parseSum p n s
      pure (Operations.Compare left right op, s)
    else
      pure (left, s)

/-- The function `FunctionParser::parseSum`. -/
def parseSum (p : FunctionParser) : Nat → ParserState → ParseResult
  | 0, _ => .error .outOfFuel
  | n + 1, s => do
    let (left, s) ← parseDifference p n s
    if s.currentType = .plus then
      let op := s.currentType
      let s := s.skip
      let (right, s) ← parseSum p n s
      pure (createBinaryNode left right op, s)
    else
      pure (left, s)

/-- The function `FunctionParser::parseProduct`. -/
def parseProduct (p : FunctionParser) : Nat → ParserState → ParseResult
  | 0, _ => .error .outOfFuel
  | n + 1, s => do
    let (left, s) ← parseTerm p n s
    if s.currentType = .times ∨
        s.currentType = .divide ∨
        s.currentType = .modulo then
      let op := s.currentType
      let s := s.skip
      let (right, s) ← parseProduct p n s
      pure (createBinaryNode left right op, s)
    else
      pure (left, s)

/-- The function `FunctionParser::parseDifference`. -/
def parseDifference (p : FunctionParser) : Nat → ParserState → ParseResult
  | 0, _ => .error .outOfFuel
  | n + 1, s => do
    let (left, s) ← parseProduct p n s
    if s.currentType = .minus then
      let op := s.currentType
      let s := s.skip
      let (right, s) ← parseDifference p n s
      pure (createBinaryNode left right op, s)
    else
      pure (left, s)

/-- The function `FunctionParser::parseTerm`. -/
def parseTerm (p : FunctionParser) : Nat → ParserState → ParseResult
  | 0, _ => .error .outOfFuel
  | n + 1, s =>
    match s.matchIf .openParen with
    | (true, s) =>
      match s.matchIfTypeToken with
      | (true, s) => parseCast p n s.currentHnodeType s
      | (false, s) => do
        let (result, s) ← parseExpression p n s
        let s ← s.match_ .closeParen
        pure (result, s)
    | (false, s) => parseUnary p n s

/-- The function `FunctionParser::parseCast`. -/
def parseCast (p : FunctionParser) : Nat → Types.ID → ParserState → ParseResult
  | 0, _, _ => .error .outOfFuel
  | n + 1, type, s => do
    let s ← s.match_ .closeParen
    let (source, s) ← parseTerm p n s
    pure (Operations.Cast source type, s)

/-- The function `FunctionParser::parseUnary`. -/
def parseUnary (p : FunctionParser) : Nat → ParserState → ParseResult
  | 0, _ => .error .outOfFuel
  | n + 1, s =>
    if s.currentType = .identifier ∨
        s.currentType = .literal ∨
        s.currentType = .minus ∨
        s.currentType = .plusplus ∨
        s.currentType = .minusminus then
      parseFactor p n s
    else
      match s.matchIf .true_ with
      | (true, s) => pure (Operations.Immediate (.Integer 1), s)
      | (false, s) =>
        match s.matchIf .false_ with
        | (true, s) => pure (Operations.Immediate (.Integer 0), s)
        | (false, s) =>
          if s.currentType = .logicalNot then
            parseBool p n s
          else
            .error (.syntaxError (.message "Parsing error"))

/-- The function `FunctionParser::parseFactor`. -/
def parseFactor (p : FunctionParser) : Nat → ParserState → ParseResult
  | 0, _ => .error .outOfFuel
  | n + 1, s =>
    match s.matchIf .plusplus with
    | (true, s) =>
      let s := (p.matchIfSymbol false s).2
      let expr := parseReference s
      pure (Operations.Increment expr true false, s)
    | (false, s) =>
      match s.matchIf .minusminus with
      | (true, s) =>
        let s := (p.matchIfSymbol false s).2
        let expr := parseReference s
        pure (Operations.Increment expr true true, s)
      | (false, s) =>
        match s.matchIf .minus with
        | (true, s) =>
          if s.currentType = .literal then
            parseLiteral true s
          else do
            let (expr, s) ← parseSymbolOrLiteral p n s
            pure (Operations.Negation expr, s)
        | (false, s) => parseSymbolOrLiteral p n s

/-- The function `FunctionParser::parseSymbolOrLiteral`. -/
def parseSymbolOrLiteral (p : FunctionParser) : Nat → ParserState → ParseResult
  | 0, _ => .error .outOfFuel
  | n + 1, s =>
    match p.matchIfSymbol false s with
    | (true, s) =>
      match s.matchIf .openParen with
      | (true, s) => parseFunctionCall p n s
      | (false, s) =>
        let expr := parseReference s
        match s.matchIf .plusplus with
        | (true, s) => pure (Operations.Increment expr false false, s)
        | (false, s) =>
          match s.matchIf .minusminus with
          | (true, s) => pure (Operations.Increment expr false true, s)
          | (false, s) =>
            match s.matchIf .openBracket with
            | (true, s) => do
              let (idx, s) ← parseExpression p n s
              let s ← s.match_ .closeBracket
              pure (Operations.BlockAccess expr idx, s)
            | (false, s) => pure (expr, s)
    | (false, s) => parseLiteral false s

end

end FunctionParser

/-! ## The statement parser -/

namespace FunctionParser

/-- The function `FunctionParser::parseReturnStatement`. -/
def parseReturnStatement (p : FunctionParser) : Nat → ParserState → ParseResult
  | 0, _ => .error .outOfFuel
  | n + 1, s =>
    if s.currentType = .semicolon then
      pure (Operations.ReturnStatement none, s)
    else do
      let (expr, s) ← parseExpression p n s
      pure (Operations.ReturnStatement (some expr), s)

/-- The function `FunctionParser::parseVariableDefinition`. -/
def parseVariableDefinition (p : FunctionParser) : Nat → Bool → ParserState → ParseResult
  | 0, _, _ => .error .outOfFuel
  | n + 1, isConst, s =>
    match p.matchIfSymbol isConst s with
    | (false, _) => .error (.syntaxError (.message "Expected symbol"))
    | (true, s) => do
      let target := Operations.VariableReference (s.getCurrentSymbol true)
      let s ← s.match_ .assign_
      let (expr, s) ← parseExpression p n s
      pure (Operations.Assignment target .assign_ expr, s)

/-- The test `dynamic_cast<Operations::BlockAccess*>(left.get())` of
`parseAssignment`. -/
def isBlockAccess (left : Statement) : Bool :=
  left.kind == .BlockAccess

/-- The function `FunctionParser::parseAssignment`. -/
def parseAssignment (p : FunctionParser) : Nat → ParserState → ParseResult
  | 0, _ => .error .outOfFuel
  | n + 1, s => do
    let (left, s) ← parseExpression p n s
    match s.matchIfAssignmentType with
    | (true, s) =>
      let t := s.currentAssignmentType
      let (right, s) ← parseExpression p n s
      if isBlockAccess left then
        pure (Operations.BlockAssignment left t right, s)
      else
        pure (Operations.Assignment left t right, s)
    | (false, s) => pure (left, s)

mutual

/-- The function `FunctionParser::parseStatementBlock`, from its loop on: one
round of `while (!isEOF() && currentType != JitTokens::closeBrace)`. -/
def parseStatementBlockLoop (p : FunctionParser) :
    Nat → Statement → ParserState → ParseResult
  | 0, _, _ => .error .outOfFuel
  | n + 1, b, s =>
    if !s.isEOF && s.currentType != .closeBrace then do
      let (statement, s) ← parseStatement p n s
      parseStatementBlockLoop p n (b.addStatement statement) s
    else
      pure (b, s)

/-- The function `FunctionParser::parseStatementBlock`. The calls
`pushAnonymousScopeId()` and `popAnonymousScopeId()` around the loop keep the
books of the symbol table; they touch neither the tokens nor the tree and
undo each other, so they leave no trace in the state. -/
def parseStatementBlock (p : FunctionParser) : Nat → ParserState → ParseResult
  | 0, _ => .error .outOfFuel
  | n + 1, s => do
    let b := Operations.StatementBlock []
    let (b, s) ← parseStatementBlockLoop p n b s
    let s ← s.match_ .closeBrace
    pure (b, s)

/-- The function `FunctionParser::parseStatement`. -/
def parseStatement (p : FunctionParser) : Nat → ParserState → ParseResult
  | 0, _ => .error .outOfFuel
  | n + 1, s =>
    match s.matchIf .const_ with
    | (isConst, s) =>
      match s.matchIf .if_ with
      | (true, s) => parseIfStatement p n s
      | (false, s) =>
        match s.matchIf .openBrace with
        | (true, s) => do
          let (statement, s) ← parseStatementBlock p n s
          let s := (s.matchIf .semicolon).2
          pure (statement, s)
        | (false, s) =>
          match s.matchIf .return_ with
          | (true, s) => do
            let (statement, s) ← parseReturnStatement p n s
            let s ← s.match_ .semicolon
            pure (statement, s)
          | (false, s) =>
            match s.matchIf .for_ with
            | (true, s) => parseLoopStatement p n s
            | (false, s) =>
              match s.matchIfTypeToken with
              | (true, s) => do
                let (statement, s) ← parseVariableDefinition p n isConst s
                let s ← s.match_ .semicolon
                pure (statement, s)
              | (false, s) => do
                let (statement, s) ← parseAssignment p n s
                let s ← s.match_ .semicolon
                pure (statement, s)

/-- The function `FunctionParser::parseLoopStatement`. -/
def parseLoopStatement (p : FunctionParser) : Nat → ParserState → ParseResult
  | 0, _ => .error .outOfFuel
  | n + 1, s => do
    let s ← s.match_ .openParen
    let s ← s.match_ .auto_
    let s ← s.match_ .bitwiseAnd
    let s ← s.match_ .identifier
    let variableId := s.getCurrentSymbol true
    let s ← s.match_ .colon
    let (loopBlock, s) ← parseExpression p n s
    let s ← s.match_ .closeParen
    let (block, s) ← parseStatement p n s
    pure (Operations.BlockLoop variableId loopBlock block, s)

/-- The function `FunctionParser::parseIfStatement`. -/
def parseIfStatement (p : FunctionParser) : Nat → ParserState → ParseResult
  | 0, _ => .error .outOfFuel
  | n + 1, s => do
    let s ← s.match_ .openParen
    let (cond, s) ← parseBool p n s
    let s ← s.match_ .closeParen
    let (trueBranch, s) ← parseStatement p n s
    match s.matchIf .else_ with
    | (true, s) => do
      let (falseBranch, s) ← parseStatement p n s
      pure (Operations.IfStatement cond trueBranch (some falseBranch), s)
    | (false, s) =>
      pure (Operations.IfStatement cond trueBranch none, s)

end

end FunctionParser

/-! ## Notions used to state the properties of the parser -/

namespace FunctionParser

/-- The parse function `F` returns the node `x` on the state `s` and leaves
the state `t`, for every recursion budget from some budget on. -/
def Parses (F : Nat → ParserState → ParseResult) (s : ParserState) (x : Statement)
    (t : ParserState) : Prop :=
  ∃ n, ∀ m, n ≤ m → F m s = .ok (x, t)

/-- A larger recursion budget does not change a result: the statement for
every parse function at the budget `n`. -/
structure MonoAt (p : FunctionParser) (n : Nat) : Prop where
  functionCallLoop : ∀ f s r, p.parseFunctionCallLoop n f s = .ok r →
    p.parseFunctionCallLoop (n + 1) f s = .ok r
  functionCall : ∀ s r, p.parseFunctionCall n s = .ok r → p.parseFunctionCall (n + 1) s = .ok r
  expression : ∀ s r, p.parseExpression n s = .ok r → p.parseExpression (n + 1) s = .ok r
  ternary : ∀ s r, p.parseTernaryOperator n s = .ok r →
    p.parseTernaryOperator (n + 1) s = .ok r
  bool : ∀ s r, p.parseBool n s = .ok r → p.parseBool (n + 1) s = .ok r
  logic : ∀ s r, p.parseLogicOperation n s = .ok r → p.parseLogicOperation (n + 1) s = .ok r
  comparation : ∀ s r, p.parseComparation n s = .ok r → p.parseComparation (n + 1) s = .ok r
  sum : ∀ s r, p.parseSum n s = .ok r → p.parseSum (n + 1) s = .ok r
  product : ∀ s r, p.parseProduct n s = .ok r → p.parseProduct (n + 1) s = .ok r
  difference : ∀ s r, p.parseDifference n s = .ok r → p.parseDifference (n + 1) s = .ok r
  term : ∀ s r, p.parseTerm n s = .ok r → p.parseTerm (n + 1) s = .ok r
  cast : ∀ t s r, p.parseCast n t s = .ok r → p.parseCast (n + 1) t s = .ok r
  unary : ∀ s r, p.parseUnary n s = .ok r → p.parseUnary (n + 1) s = .ok r
  factor : ∀ s r, p.parseFactor n s = .ok r → p.parseFactor (n + 1) s = .ok r
  symbolOrLiteral : ∀ s r, p.parseSymbolOrLiteral n s = .ok r →
    p.parseSymbolOrLiteral (n + 1) s = .ok r

/-- The binary arithmetic operators. -/
def isArithmeticOp : TokenType → Bool
  | .plus | .minus | .times | .divide | .modulo => true
  | _ => false

/-- The tokens that make the expression parser go on after a sum: the binary
operators, the comparison and logic operators and the question mark. -/
def continuesExpression : TokenType → Bool
  | .plus | .minus | .times | .divide | .modulo
  | .greaterThan | .greaterThanOrEqual | .lessThan | .lessThanOrEqual | .equals | .notEquals
  | .logicalAnd | .logicalOr | .question => true
  | _ => false

/-- The tokens from the state `s` to the state `t` are operands, each parsed
by `F`, with the operator `op` between one operand and the next; the list
holds the nodes of the operands in source order. -/
inductive OperandChain (F : Nat → ParserState → ParseResult) (op : TokenType) :
    ParserState → List Statement → ParserState → Prop where
  | single {s t : ParserState} {x : Statement} :
      Parses F s x t → OperandChain F op s [x] t
  | cons {s u t : ParserState} {x : Statement} {xs : List Statement} :
      Parses F s x u → u.currentType = op → OperandChain F op u.skip xs t →
      OperandChain F op s (x :: xs) t

/-- The parse function `F` raises the syntax error `e` on the state `s`, for
every recursion budget from some budget on. -/
def Fails (F : Nat → ParserState → ParseResult) (s : ParserState) (e : SyntaxError) :
    Prop :=
  ∃ n, ∀ m, n ≤ m → F m s = .error (.syntaxError e)

/-- A larger recursion budget does not change a result: the statement for
the mutually recursive functions of the statement parser at the budget
`n`. -/
structure MonoStatementAt (p : FunctionParser) (n : Nat) : Prop where
  blockLoop : ∀ b s r, p.parseStatementBlockLoop n b s = .ok r →
    p.parseStatementBlockLoop (n + 1) b s = .ok r
  block : ∀ s r, p.parseStatementBlock n s = .ok r → p.parseStatementBlock (n + 1) s = .ok r
  statement : ∀ s r, p.parseStatement n s = .ok r → p.parseStatement (n + 1) s = .ok r
  loop : ∀ s r, p.parseLoopStatement n s = .ok r → p.parseLoopStatement (n + 1) s = .ok r
  ifStatement : ∀ s r, p.parseIfStatement n s = .ok r → p.parseIfStatement (n + 1) s = .ok r

/-- The tokens an expression can begin with. -/
def startsExpression : TokenType → Bool
  | .identifier | .literal | .minus | .plusplus | .minusminus | .true_ | .false_
  | .logicalNot | .openParen => true
  | _ => false

/-- The tokens from the state `s` to the state `t` are statements, each
parsed by parseStatement; the list holds their nodes in source order. -/
inductive StatementSeq (p : FunctionParser) :
    ParserState → List Statement → ParserState → Prop where
  | nil {s : ParserState} : StatementSeq p s [] s
  | cons {s u t : ParserState} {x : Statement} {xs : List Statement} :
      Parses p.parseStatement s x u → StatementSeq p u xs t →
      StatementSeq p s (x :: xs) t

/-- The tokens from the state `s` to the state `t` are the arguments of a
call, each parsed by parseExpression and each followed by a comma that
`matchIf` consumes when it is there; the list holds the nodes of the
arguments in source order. -/
inductive ArgumentList (p : FunctionParser) :
    ParserState → List Statement → ParserState → Prop where
  | nil {s : ParserState} : ArgumentList p s [] s
  | cons {s u t : ParserState} {e : Statement} {es : List Statement} :
      Parses p.parseExpression s e u → ArgumentList p (u.matchIf .comma).2 es t →
      ArgumentList p s (e :: es) t

/-- The right-nested tree `x1 op (x2 op (... op xn))` of a nonempty list of
operand nodes. -/
def rightNested (op : TokenType) : Statement → List Statement → Statement
  | x, [] => x
  | x, y :: ys => Operations.BinaryOp x (rightNested op y ys) op

/-- Progress of the expression parser at the recursion budget `n`: a
function that returns has moved the cursor, the loop of parseFunctionCall
has not moved it back. -/
structure ProgressAt (p : FunctionParser) (n : Nat) : Prop where
  functionCallLoop : ∀ f s x t, p.parseFunctionCallLoop n f s = .ok (x, t) →
    t.tokens.length ≤ s.tokens.length
  functionCall : ∀ s x t, p.parseFunctionCall n s = .ok (x, t) →
    t.tokens.length < s.tokens.length
  expression : ∀ s x t, p.parseExpression n s = .ok (x, t) →
    t.tokens.length < s.tokens.length
  ternary : ∀ s x t, p.parseTernaryOperator n s = .ok (x, t) →
    t.tokens.length < s.tokens.length
  bool : ∀ s x t, p.parseBool n s = .ok (x, t) → t.tokens.length < s.tokens.length
  logic : ∀ s x t, p.parseLogicOperation n s = .ok (x, t) →
    t.tokens.length < s.tokens.length
  comparation : ∀ s x t, p.parseComparation n s = .ok (x, t) →
    t.tokens.length < s.tokens.length
  sum : ∀ s x t, p.parseSum n s = .ok (x, t) → t.tokens.length < s.tokens.length
  product : ∀ s x t, p.parseProduct n s = .ok (x, t) → t.tokens.length < s.tokens.length
  difference : ∀ s x t, p.parseDifference n s = .ok (x, t) →
    t.tokens.length < s.tokens.length
  term : ∀ s x t, p.parseTerm n s = .ok (x, t) → t.tokens.length < s.tokens.length
  cast : ∀ ty s x t, p.parseCast n ty s = .ok (x, t) → t.tokens.length < s.tokens.length
  unary : ∀ s x t, p.parseUnary n s = .ok (x, t) → t.tokens.length < s.tokens.length
  factor : ∀ s x t, p.parseFactor n s = .ok (x, t) → t.tokens.length < s.tokens.length
  symbolOrLiteral : ∀ s x t, p.parseSymbolOrLiteral n s = .ok (x, t) →
    t.tokens.length < s.tokens.length

/-- Progress of the mutually recursive functions of the statement parser at
the recursion budget `n`. -/
structure ProgressStatementAt (p : FunctionParser) (n : Nat) : Prop where
  blockLoop : ∀ b s x t, p.parseStatementBlockLoop n b s = .ok (x, t) →
    t.tokens.length ≤ s.tokens.length
  block : ∀ s x t, p.parseStatementBlock n s = .ok (x, t) →
    t.tokens.length < s.tokens.length
  statement : ∀ s x t, p.parseStatement n s = .ok (x, t) →
    t.tokens.length < s.tokens.length
  loop : ∀ s x t, p.parseLoopStatement n s = .ok (x, t) →
    t.tokens.length < s.tokens.length
  ifStatement : ∀ s x t, p.parseIfStatement n s = .ok (x, t) →
    t.tokens.length < s.tokens.length

/-- A larger recursion budget does not change a result that is there, a
syntax error included: the statement for every function of the expression
parser at the budget `n`. -/
structure StableAt (p : FunctionParser) (n : Nat) : Prop where
  functionCallLoop : ∀ f s r, p.parseFunctionCallLoop n f s = r → r ≠ .error .outOfFuel →
    p.parseFunctionCallLoop (n + 1) f s = r
  functionCall : ∀ s r, p.parseFunctionCall n s = r → r ≠ .error .outOfFuel →
    p.parseFunctionCall (n + 1) s = r
  expression : ∀ s r, p.parseExpression n s = r → r ≠ .error .outOfFuel →
    p.parseExpression (n + 1) s = r
  ternary : ∀ s r, p.parseTernaryOperator n s = r → r ≠ .error .outOfFuel →
    p.parseTernaryOperator (n + 1) s = r
  bool : ∀ s r, p.parseBool n s = r → r ≠ .error .outOfFuel → p.parseBool (n + 1) s = r
  logic : ∀ s r, p.parseLogicOperation n s = r → r ≠ .error .outOfFuel →
    p.parseLogicOperation (n + 1) s = r
  comparation : ∀ s r, p.parseComparation n s = r → r ≠ .error .outOfFuel →
    p.parseComparation (n + 1) s = r
  sum : ∀ s r, p.parseSum n s = r → r ≠ .error .outOfFuel → p.parseSum (n + 1) s = r
  product : ∀ s r, p.parseProduct n s = r → r ≠ .error .outOfFuel →
    p.parseProduct (n + 1) s = r
  difference : ∀ s r, p.parseDifference n s = r → r ≠ .error .outOfFuel →
    p.parseDifference (n + 1) s = r
  term : ∀ s r, p.parseTerm n s = r → r ≠ .error .outOfFuel → p.parseTerm (n + 1) s = r
  cast : ∀ t s r, p.parseCast n t s = r → r ≠ .error .outOfFuel →
    p.parseCast (n + 1) t s = r
  unary : ∀ s r, p.parseUnary n s = r → r ≠ .error .outOfFuel → p.parseUnary (n + 1) s = r
  factor : ∀ s r, p.parseFactor n s = r → r ≠ .error .outOfFuel →
    p.parseFactor (n + 1) s = r
  symbolOrLiteral : ∀ s r, p.parseSymbolOrLiteral n s = r → r ≠ .error .outOfFuel →
    p.parseSymbolOrLiteral (n + 1) s = r

/-- A larger recursion budget does not change a result that is there, a
syntax error included: the statement for the mutually recursive functions of
the statement parser at the budget `n`. -/
structure StableStatementAt (p : FunctionParser) (n : Nat) : Prop where
  blockLoop : ∀ b s r, p.parseStatementBlockLoop n b s = r → r ≠ .error .outOfFuel →
    p.parseStatementBlockLoop (n + 1) b s = r
  block : ∀ s r, p.parseStatementBlock n s = r → r ≠ .error .outOfFuel →
    p.parseStatementBlock (n + 1) s = r
  statement : ∀ s r, p.parseStatement n s = r → r ≠ .error .outOfFuel →
    p.parseStatement (n + 1) s = r
  loop : ∀ s r, p.parseLoopStatement n s = r → r ≠ .error .outOfFuel →
    p.parseLoopStatement (n + 1) s = r
  ifStatement : ∀ s r, p.parseIfStatement n s = r → r ≠ .error .outOfFuel →
    p.parseIfStatement (n + 1) s = r

/-- The recursion budget `20 * tokens + rank` is enough for a result: the
statement for every function of the expression parser at the budget `n`. The
rank of a function is larger than the rank of every function it calls on the
same state; parseBool, which parseUnary calls on a `!` without having moved
the cursor, consumes the `!` before it calls anything. -/
structure SettledAt (p : FunctionParser) (n : Nat) : Prop where
  functionCallLoop : ∀ f s, 20 * s.tokens.length + 13 ≤ n →
    p.parseFunctionCallLoop n f s ≠ .error .outOfFuel
  functionCall : ∀ s, 20 * s.tokens.length + 14 ≤ n →
    p.parseFunctionCall n s ≠ .error .outOfFuel
  expression : ∀ s, 20 * s.tokens.length + 12 ≤ n →
    p.parseExpression n s ≠ .error .outOfFuel
  ternary : ∀ s, 20 * s.tokens.length + 11 ≤ n →
    p.parseTernaryOperator n s ≠ .error .outOfFuel
  bool : ∀ s, 20 * s.tokens.length + 10 ≤ n → p.parseBool n s ≠ .error .outOfFuel
  boolNot : ∀ s, s.currentType = .logicalNot → 20 * s.tokens.length + 1 ≤ n →
    p.parseBool n s ≠ .error .outOfFuel
  logic : ∀ s, 20 * s.tokens.length + 9 ≤ n →
    p.parseLogicOperation n s ≠ .error .outOfFuel
  comparation : ∀ s, 20 * s.tokens.length + 8 ≤ n →
    p.parseComparation n s ≠ .error .outOfFuel
  sum : ∀ s, 20 * s.tokens.length + 7 ≤ n → p.parseSum n s ≠ .error .outOfFuel
  difference : ∀ s, 20 * s.tokens.length + 6 ≤ n →
    p.parseDifference n s ≠ .error .outOfFuel
  product : ∀ s, 20 * s.tokens.length + 5 ≤ n → p.parseProduct n s ≠ .error .outOfFuel
  term : ∀ s, 20 * s.tokens.length + 4 ≤ n → p.parseTerm n s ≠ .error .outOfFuel
  cast : ∀ ty s, 20 * s.tokens.length + 1 ≤ n → p.parseCast n ty s ≠ .error .outOfFuel
  unary : ∀ s, 20 * s.tokens.length + 3 ≤ n → p.parseUnary n s ≠ .error .outOfFuel
  factor : ∀ s, 20 * s.tokens.length + 2 ≤ n → p.parseFactor n s ≠ .error .outOfFuel
  symbolOrLiteral : ∀ s, 20 * s.tokens.length + 1 ≤ n →
    p.parseSymbolOrLiteral n s ≠ .error .outOfFuel

/-- The recursion budget `20 * tokens + rank` is enough for a result: the
statement for the mutually recursive functions of the statement parser at
the budget `n`. -/
structure SettledStatementAt (p : FunctionParser) (n : Nat) : Prop where
  blockLoop : ∀ b s, 20 * s.tokens.length + 15 ≤ n →
    p.parseStatementBlockLoop n b s ≠ .error .outOfFuel
  block : ∀ s, 20 * s.tokens.length + 16 ≤ n →
    p.parseStatementBlock n s ≠ .error .outOfFuel
  statement : ∀ s, 20 * s.tokens.length + 14 ≤ n →
    p.parseStatement n s ≠ .error .outOfFuel
  loop : ∀ s, 20 * s.tokens.length + 1 ≤ n → p.parseLoopStatement n s ≠ .error .outOfFuel
  ifStatement : ∀ s, 20 * s.tokens.length + 1 ≤ n →
    p.parseIfStatement n s ≠ .error .outOfFuel

/-- A recursion budget that is enough for every parse function on the state
`s`: twenty levels for each token that is left and twenty more. -/
def recursionBudget (s : ParserState) : Nat :=
  20 * s.tokens.length + 20

/-- The parse function `F` terminates on the state `s`: from the recursion
budget of `s` on, every budget gives one and the same result, and that
result is a tree or a syntax error, not the end of the budget. -/
def Terminates (F : Nat → ParserState → ParseResult) (s : ParserState) : Prop :=
  ∃ r : ParseResult, r ≠ .error .outOfFuel ∧ ∀ n, recursionBudget s ≤ n → F n s = r

/-- The operators `*`, `/` and `%` of the product level. -/
def isProductOp : TokenType → Bool
  | .times | .divide | .modulo => true
  | _ => false

/-- The operators `+` and `-` of the sum and difference levels. -/
def isSumOp : TokenType → Bool
  | .plus | .minus => true
  | _ => false

/-- The conventional left-associative tree `((x1 op1 x2) op2 x3) ...` of a
first operand and the further operands with their operators. -/
def leftNested : Statement → List (TokenType × Statement) → Statement
  | x, [] => x
  | x, (op, y) :: rest => leftNested (Operations.BinaryOp x y op) rest

/-- The two parts of the tree of a chain of operands joined by `+` and `-`:
the right-nested difference of the operands in front of the first `+`, and
behind the first `+`, when there is one, the tree of the rest of the
chain. -/
def sumParts : Statement → List (TokenType × Statement) → Statement × Option Statement
  | x, [] => (x, none)
  | x, (op, y) :: rest =>
    if op = .minus then
      (Operations.BinaryOp x (sumParts y rest).1 .minus, (sumParts y rest).2)
    else
      (x, some (match (sumParts y rest).2 with
        | none => (sumParts y rest).1
        | some r => Operations.BinaryOp (sumParts y rest).1 r .plus))

/-- The tree of a chain of operands joined by `+` and `-`: the difference in
front of the first `+` is the left operand of that `+` and the tree of the
rest of the chain its right operand. -/
def sumTree (x : Statement) (rest : List (TokenType × Statement)) : Statement :=
  match (sumParts x rest).2 with
  | none => (sumParts x rest).1
  | some r => Operations.BinaryOp (sumParts x rest).1 r .plus

/-- The first child of a node, the node itself when it has none. -/
def leftChild : Statement → Statement
  | .node _ (l :: _) => l
  | s => s

/-- The number of nodes that the further operands of a chain and their
operators bring with them. -/
def chainWeight : List (TokenType × Statement) → Nat
  | [] => 0
  | (_, y) :: rest => 1 + countNodes y + chainWeight rest

/-- The kinds of the operator nodes: binary operation, comparison and
ternary operation. -/
def isOperatorKind : Kind → Bool
  | .BinaryOp _ | .Compare _ | .TernaryOp => true
  | _ => false

mutual
/-- The leaves of a tree, the nodes without children, from left to right. -/
def leaves : Statement → List Statement
  | .node k [] => [.node k []]
  | .node _ (c :: cs) => leavesList (c :: cs)
/-- The leaves of the trees of a list, from left to right. -/
def leavesList : List Statement → List Statement
  | [] => []
  | s :: r => leaves s ++ leavesList r
end

mutual
/-- The number of operator nodes of a tree. -/
def operatorNodes : Statement → Nat
  | .node k cs => (if isOperatorKind k then 1 else 0) + operatorNodesList cs
/-- The number of operator nodes of the trees of a list. -/
def operatorNodesList : List Statement → Nat
  | [] => 0
  | s :: r => operatorNodes s + operatorNodesList r
end

/-- The leaf that an operand token stands for: the reference to the symbol
of an identifier, the Immediate with the value of a literal. -/
def leafOfToken (t : Token) : Option Statement :=
  if t.type = .identifier then some (Operations.VariableReference ⟨t.text, false⟩)
  else if t.type = .literal then some (Operations.Immediate t.value)
  else none

/-- The leaves that the identifier and literal tokens of a token list stand
for, in source order. -/
def operandLeaves (ts : List Token) : List Statement :=
  ts.filterMap leafOfToken

/-- The operator tokens: the binary, comparison and logic operators and the
`?` of the ternary operator (its `:` is counted with it). -/
def isOperatorToken : TokenType → Bool
  | .plus | .minus | .times | .divide | .modulo
  | .greaterThan | .greaterThanOrEqual | .lessThan | .lessThanOrEqual | .equals | .notEquals
  | .logicalAnd | .logicalOr | .question => true
  | _ => false

/-- The number of operator tokens of a token list. -/
def operatorTokens (ts : List Token) : Nat :=
  (ts.filter (fun t => isOperatorToken t.type)).length

/-- The scan of a token list for an expression built from identifiers,
literals, grouping parentheses and the binary, comparison, logic and ternary
operators only. The flag tells whether an operand is expected: an
identifier or a literal is an operand, `(` opens a group where an operand is
expected, an operator or the `:` of a ternary follows an operand and asks
for the next one, `)` follows an operand. The result is the flag at the end,
none when a token stands where the scan does not allow it (a `-` or `!` in
front of an operand, the `(` of a call or a cast, `++`, `[`, `true`). -/
def plainScan : Bool → List Token → Option Bool
  | b, [] => some b
  | true, t :: ts =>
    if t.type = .identifier ∨ t.type = .literal then plainScan false ts
    else if t.type = .openParen then plainScan true ts
    else none
  | false, t :: ts =>
    if isOperatorToken t.type = true ∨ t.type = .colon then plainScan true ts
    else if t.type = .closeParen then plainScan false ts
    else none

/-- The tree `x` keeps the order of the operands of the consumed tokens `c`:
when `c` is an expression of identifiers, literals, grouping parentheses and
binary, comparison, logic and ternary operators, the leaves of `x` are the
leaves of the operand tokens of `c` in source order and `x` has as many
operator nodes as `c` has operator tokens. -/
def KeepsOrder (x : Statement) (c : List Token) : Prop :=
  plainScan true c = some false →
    leaves x = operandLeaves c ∧ operatorNodes x = operatorTokens c

/-- Operand order at the recursion budget `n`: every function of the
expression parser that returns has consumed a prefix of the tokens it found,
and the node it returns keeps the order of the operands of that prefix. -/
structure OrderAt (p : FunctionParser) (n : Nat) : Prop where
  functionCallLoop : ∀ f s x t, p.parseFunctionCallLoop n f s = .ok (x, t) →
    ∃ c, s.tokens = c ++ t.tokens
  functionCall : ∀ s x t, p.parseFunctionCall n s = .ok (x, t) →
    ∃ c, s.tokens = c ++ t.tokens
  expression : ∀ s x t, p.parseExpression n s = .ok (x, t) →
    ∃ c, s.tokens = c ++ t.tokens ∧ KeepsOrder x c
  ternary : ∀ s x t, p.parseTernaryOperator n s = .ok (x, t) →
    ∃ c, s.tokens = c ++ t.tokens ∧ KeepsOrder x c
  bool : ∀ s x t, p.parseBool n s = .ok (x, t) →
    ∃ c, s.tokens = c ++ t.tokens ∧ KeepsOrder x c
  logic : ∀ s x t, p.parseLogicOperation n s = .ok (x, t) →
    ∃ c, s.tokens = c ++ t.tokens ∧ KeepsOrder x c
  comparation : ∀ s x t, p.parseComparation n s = .ok (x, t) →
    ∃ c, s.tokens = c ++ t.tokens ∧ KeepsOrder x c
  sum : ∀ s x t, p.parseSum n s = .ok (x, t) →
    ∃ c, s.tokens = c ++ t.tokens ∧ KeepsOrder x c
  product : ∀ s x t, p.parseProduct n s = .ok (x, t) →
    ∃ c, s.tokens = c ++ t.tokens ∧ KeepsOrder x c
  difference : ∀ s x t, p.parseDifference n s = .ok (x, t) →
    ∃ c, s.tokens = c ++ t.tokens ∧ KeepsOrder x c
  term : ∀ s x t, p.parseTerm n s = .ok (x, t) →
    ∃ c, s.tokens = c ++ t.tokens ∧ KeepsOrder x c
  cast : ∀ ty s x t, p.parseCast n ty s = .ok (x, t) →
    ∃ tk c, s.tokens = tk :: c ++ t.tokens ∧ tk.type = .closeParen
  unary : ∀ s x t, p.parseUnary n s = .ok (x, t) →
    ∃ c, s.tokens = c ++ t.tokens ∧ KeepsOrder x c
  factor : ∀ s x t, p.parseFactor n s = .ok (x, t) →
    ∃ c, s.tokens = c ++ t.tokens ∧ KeepsOrder x c
  symbolOrLiteral : ∀ s x t, p.parseSymbolOrLiteral n s = .ok (x, t) →
    ∃ c, s.tokens = c ++ t.tokens ∧ KeepsOrder x c

/-- The logic operators `&&` and `||`. -/
def isLogicOp : TokenType → Bool
  | .logicalAnd | .logicalOr => true
  | _ => false

/-- The relational operators `>`, `>=`, `<`, `<=`, `==` and `!=`. -/
def isComparisonOp : TokenType → Bool
  | .greaterThan | .greaterThanOrEqual | .lessThan | .lessThanOrEqual | .equals
  | .notEquals => true
  | _ => false

/-- The tokens from the state `s` to the state `t` are operands, each parsed
by `F`, with an operator of the class `isOp` between one operand and the
next, not the same one everywhere; the first operand stands alone and the
list holds each further operand with the operator in front of it, in source
order. -/
inductive OperatorChain (F : Nat → ParserState → ParseResult) (isOp : TokenType → Bool) :
    ParserState → Statement → List (TokenType × Statement) → ParserState → Prop where
  | single {s t : ParserState} {x : Statement} :
      Parses F s x t → OperatorChain F isOp s x [] t
  | cons {s u t : ParserState} {x y : Statement} {rest : List (TokenType × Statement)} :
      Parses F s x u → isOp u.currentType = true → OperatorChain F isOp u.skip y rest t →
      OperatorChain F isOp s x ((u.currentType, y) :: rest) t

/-- The right-nested tree `x1 op1 (x2 op2 (... xn))` of a first operand and
the further operands with their operators. -/
def rightNestedMixed : Statement → List (TokenType × Statement) → Statement
  | x, [] => x
  | x, (op, y) :: rest => Operations.BinaryOp x (rightNestedMixed y rest) op

end FunctionParser

/-! ## Example trees -/

namespace Examples

/-- The reference to the variable `name`. -/
def var (name : String) : Statement :=
  Operations.VariableReference ⟨name, false⟩

/-- The integer literal `n`. -/
def int (n : Int) : Statement :=
  Operations.Immediate (.Integer n)

/-- The body `if (x > 0) return 1;`. -/
def ifWithoutElse : SyntaxTree :=
  ⟨[Operations.IfStatement (Operations.Compare (var "x") (int 0) .greaterThan)
      (Operations.ReturnStatement (some (int 1))) none]⟩

/-- The body `if (c) { return 1; } else { return 2; }`. -/
def ifBothBlocksReturn : SyntaxTree :=
  ⟨[Operations.IfStatement (var "c")
      (Operations.StatementBlock [Operations.ReturnStatement (some (int 1))])
      (some (Operations.StatementBlock [Operations.ReturnStatement (some (int 2))]))]⟩

/-- The body `if (c) { return 1; } else { x = 2; }`. -/
def ifOnlyTrueReturns : SyntaxTree :=
  ⟨[Operations.IfStatement (var "c")
      (Operations.StatementBlock [Operations.ReturnStatement (some (int 1))])
      (some (Operations.StatementBlock [Operations.Assignment (var "x") .assign_ (int 2)]))]⟩

/-- The body `x = 2; { { return x; } }`. -/
def returnInBlocks : SyntaxTree :=
  ⟨[Operations.Assignment (var "x") .assign_ (int 2),
    Operations.StatementBlock
      [Operations.StatementBlock [Operations.ReturnStatement (some (var "x"))]]]⟩

/-- The body `x = 2; { }`. -/
def endsInEmptyBlock : SyntaxTree :=
  ⟨[Operations.Assignment (var "x") .assign_ (int 2), Operations.StatementBlock []]⟩

/-- The body `if (c) { x = 1; } else { x = 2; }`. -/
def ifNeitherReturns : SyntaxTree :=
  ⟨[Operations.IfStatement (var "c")
      (Operations.StatementBlock [Operations.Assignment (var "x") .assign_ (int 1)])
      (some (Operations.StatementBlock [Operations.Assignment (var "x") .assign_ (int 2)]))]⟩

/-- A parser whose symbol table knows every name. -/
def knowsAll : FunctionParser := ⟨fun _ => true⟩

/-- The tokens `for ( auto & i : buffer ) { x = x + i ; }`. -/
def loopTokens : List Token :=
  [.op .for_, .op .openParen, .op .auto_, .op .bitwiseAnd, .ident "i", .op .colon,
    .ident "buffer", .op .closeParen, .op .openBrace, .ident "x", .op .assign_, .ident "x",
    .op .plus, .ident "i", .op .semicolon, .op .closeBrace]

/-- The state of a parser that has last matched the symbol `name` and has
the given tokens left. -/
def after (name : String) (tokens : List Token) : ParserState :=
  ⟨tokens, ⟨name, false⟩, .Void, .assign_⟩

end Examples

/-! ## Facts about the descent through trailing blocks -/

theorem descendLastOf_eq_while (cs : List Statement) :
    descendLastOf cs = whileStatementBlock cs.getLast? := by
  induction cs with
  | nil => rfl
  | cons a t ih =>
    cases t with
    | nil => simp [descendLastOf, whileStatementBlock]
    | cons b r =>
      rw [descendLastOf, ih]
      simp [List.getLast?_cons_cons]

theorem whileStatementBlock_tree (tree : SyntaxTree) :
    whileStatementBlock tree.getLastStatement = descendLastOf tree.statements := by
  rw [descendLastOf_eq_while]; rfl

mutual
theorem descendBlocks_not_block : ∀ (s r : Statement), descendBlocks s = some r →
    r.kind ≠ .StatementBlock
  | .node k cs, r, h => by
    cases k
    case StatementBlock =>
      rw [descendBlocks] at h
      exact descendLastOf_not_block cs r h
    all_goals
      simp only [descendBlocks, Option.some.injEq] at h
      subst h
      simp [Statement.kind]
theorem descendLastOf_not_block : ∀ (cs : List Statement) (r : Statement),
    descendLastOf cs = some r → r.kind ≠ .StatementBlock
  | [], r, h => by simp [descendLastOf] at h
  | [s], r, h => by
    rw [descendLastOf] at h
    exact descendBlocks_not_block s r h
  | _ :: t :: l, r, h => by
    rw [descendLastOf] at h
    exact descendLastOf_not_block (t :: l) r h
end

theorem descendBlocks_of_not_block (r : Statement) (h : r.kind ≠ .StatementBlock) :
    descendBlocks r = some r := by
  cases r with
  | node k cs =>
    cases k <;> first | rfl | exact absurd rfl h

theorem whileStatementBlock_idem (o : Option Statement) :
    whileStatementBlock (whileStatementBlock o) = whileStatementBlock o := by
  cases o with
  | none => rfl
  | some s =>
    simp only [whileStatementBlock]
    cases h : descendBlocks s with
    | none => rfl
    | some r =>
      exact descendBlocks_of_not_block r (descendBlocks_not_block s r h)

mutual
theorem endsInReturn_of_descend : ∀ (s : Statement),
    isReturn (descendBlocks s) = true → endsInReturn s = true
  | .node k cs, h => by
    cases k
    case StatementBlock =>
      rw [descendBlocks] at h
      rw [endsInReturn]
      exact listEndsInReturn_of_descend cs h
    case ReturnStatement => simp [endsInReturn]
    all_goals simp [descendBlocks, isReturn] at h
theorem listEndsInReturn_of_descend : ∀ (cs : List Statement),
    isReturn (descendLastOf cs) = true → listEndsInReturn cs = true
  | [], h => by simp [descendLastOf, isReturn] at h
  | [s], h => by
    rw [descendLastOf] at h
    rw [listEndsInReturn]
    exact endsInReturn_of_descend s h
  | _ :: t :: l, h => by
    rw [descendLastOf] at h
    rw [listEndsInReturn]
    exact listEndsInReturn_of_descend (t :: l) h
end

mutual
theorem endsInReturn_of_descend_if : ∀ (s : Statement) (cs : List Statement),
    descendBlocks s = some (.node .IfStatement cs) →
    endsInReturn (.node .IfStatement cs) = true → endsInReturn s = true
  | .node k l, cs, h, h2 => by
    cases k
    case StatementBlock =>
      rw [descendBlocks] at h
      rw [endsInReturn]
      exact listEndsInReturn_of_descend_if l cs h h2
    case IfStatement =>
      simp only [descendBlocks, Option.some.injEq, Statement.node.injEq, true_and] at h
      rw [h]; exact h2
    all_goals simp [descendBlocks] at h
theorem listEndsInReturn_of_descend_if : ∀ (l cs : List Statement),
    descendLastOf l = some (.node .IfStatement cs) →
    endsInReturn (.node .IfStatement cs) = true → listEndsInReturn l = true
  | [], cs, h, _ => by simp [descendLastOf] at h
  | [s], cs, h, h2 => by
    rw [descendLastOf] at h
    rw [listEndsInReturn]
    exact endsInReturn_of_descend_if s cs h h2
  | _ :: t :: r, cs, h, h2 => by
    rw [descendLastOf] at h
    rw [listEndsInReturn]
    exact listEndsInReturn_of_descend_if (t :: r) cs h h2
end

theorem listEndsInReturn_append_return (cs : List Statement) :
    listEndsInReturn (cs ++ [Operations.ReturnStatement none]) = true := by
  induction cs with
  | nil => rfl
  | cons a t ih =>
    cases t with
    | nil => rfl
    | cons b r =>
      simp only [List.cons_append] at ih ⊢
      rw [listEndsInReturn]
      exact ih

/-! ## The branches of finaliseSyntaxTree -/

theorem finalise_of_return (tree : SyntaxTree)
    (h : isReturn (whileStatementBlock tree.getLastStatement) = true) :
    finaliseSyntaxTree tree = (.ok (), tree) := by
  simp [finaliseSyntaxTree, h]

theorem finalise_of_other (tree : SyntaxTree)
    (hr : isReturn (whileStatementBlock tree.getLastStatement) = false)
    (hif : ∀ s, whileStatementBlock tree.getLastStatement = some s → s.kind ≠ .IfStatement) :
    finaliseSyntaxTree tree =
      (.ok (), tree.addStatement (Operations.ReturnStatement none)) := by
  unfold finaliseSyntaxTree
  simp only [hr, Bool.false_eq_true, if_false]
  split
  · next cs heq => exact absurd rfl (hif _ heq)
  · rfl

theorem finalise_of_if_without_else (tree : SyntaxTree) (cs : List Statement)
    (hlast : whileStatementBlock tree.getLastStatement = some (.node .IfStatement cs))
    (hno : Operations.hasFalseBranch (.node .IfStatement cs) = false) :
    finaliseSyntaxTree tree =
      (.error (.message "Not all paths return a value"), tree) := by
  unfold finaliseSyntaxTree
  simp [hlast, isReturn, hno]

theorem isReturn_if (cs : List Statement) :
    isReturn (some (.node .IfStatement cs)) = false := rfl

theorem finalise_of_if_both_ok (tree : SyntaxTree) (cs : List Statement)
    (hlast : whileStatementBlock tree.getLastStatement = some (.node .IfStatement cs))
    (helse : Operations.hasFalseBranch (.node .IfStatement cs) = true)
    (hfalse : isReturn (Operations.getFalseBranch (.node .IfStatement cs)) = true)
    (htrue : isReturn (whileStatementBlock
      (Operations.getTrueBranch (.node .IfStatement cs))) = true) :
    finaliseSyntaxTree tree = (.ok (), tree) := by
  unfold finaliseSyntaxTree
  simp only [hlast, isReturn_if, helse, whileStatementBlock_idem, hfalse, htrue]
  simp

theorem finalise_of_if_not_ok (tree : SyntaxTree) (cs : List Statement)
    (hlast : whileStatementBlock tree.getLastStatement = some (.node .IfStatement cs))
    (helse : Operations.hasFalseBranch (.node .IfStatement cs) = true)
    (hnot : (isReturn (Operations.getFalseBranch (.node .IfStatement cs)) &&
      isReturn (whileStatementBlock
        (Operations.getTrueBranch (.node .IfStatement cs)))) = false) :
    finaliseSyntaxTree tree =
      (.ok (), SyntaxTree.addStatement
        ⟨updateResolvedLast (Operations.modifyFalseBranch addReturn)
          (updateResolvedLast (Operations.modifyTrueBranch addReturn) tree.statements)⟩
        (Operations.ReturnStatement none)) := by
  unfold finaliseSyntaxTree
  simp only [hlast, isReturn_if, helse, whileStatementBlock_idem, hnot]
  simp [addReturn]

theorem isReturn_iff_kind (s : Statement) :
    isReturn (some s) = true ↔ s.kind = .ReturnStatement := by
  cases s with
  | node k cs => cases k <;> simp [isReturn, Statement.kind]

theorem isReturn_while_of_isReturn (o : Option Statement) (h : isReturn o = true) :
    isReturn (whileStatementBlock o) = true := by
  cases o with
  | none => simp [isReturn] at h
  | some s =>
    cases s with
    | node k cs => cases k <;> simp_all [isReturn, whileStatementBlock, descendBlocks]

mutual
theorem updateResolved_congr (f g : Statement → Statement) : ∀ (s x : Statement),
    descendBlocks s = some x → f x = g x → updateResolved f s = updateResolved g s
  | .node k cs, x, h, hx => by
    cases k
    case StatementBlock =>
      rw [descendBlocks] at h
      rw [updateResolved, updateResolved, updateResolvedLast_congr f g cs x h hx]
    all_goals
      simp only [descendBlocks, Option.some.injEq] at h
      subst h
      simpa [updateResolved] using hx
theorem updateResolvedLast_congr (f g : Statement → Statement) :
    ∀ (l : List Statement) (x : Statement),
    descendLastOf l = some x → f x = g x → updateResolvedLast f l = updateResolvedLast g l
  | [], x, h, _ => by simp [descendLastOf] at h
  | [s], x, h, hx => by
    rw [descendLastOf] at h
    rw [updateResolvedLast, updateResolvedLast, updateResolved_congr f g s x h hx]
  | _ :: t :: r, x, h, hx => by
    rw [descendLastOf] at h
    rw [updateResolvedLast, updateResolvedLast, updateResolvedLast_congr f g (t :: r) x h hx]
end

theorem updateResolved_of_not_block (g : Statement → Statement) (y : Statement)
    (h : y.kind ≠ .StatementBlock) : updateResolved g y = g y := by
  cases y with
  | node k cs => cases k <;> first | rfl | exact absurd rfl h

mutual
theorem updateResolved_comp (f g : Statement → Statement)
    (hf : ∀ s, (f s).kind = s.kind) : ∀ (s : Statement),
    updateResolved g (updateResolved f s) = updateResolved (fun y => g (f y)) s
  | .node k cs => by
    cases k
    case StatementBlock =>
      rw [updateResolved, updateResolved, updateResolved, updateResolvedLast_comp f g hf cs]
    all_goals
      simp only [updateResolved]
      apply updateResolved_of_not_block
      rw [hf]
      simp [Statement.kind]
theorem updateResolvedLast_comp (f g : Statement → Statement)
    (hf : ∀ s, (f s).kind = s.kind) : ∀ (l : List Statement),
    updateResolvedLast g (updateResolvedLast f l) = updateResolvedLast (fun y => g (f y)) l
  | [] => by simp [updateResolvedLast]
  | [s] => by
    simp only [updateResolvedLast]
    rw [updateResolved_comp f g hf s]
  | a :: t :: r => by
    have ih := updateResolvedLast_comp f g hf (t :: r)
    rw [updateResolvedLast]
    cases hu : updateResolvedLast f (t :: r) with
    | nil =>
      cases r <;> simp [updateResolvedLast] at hu
    | cons b q =>
      rw [hu] at ih
      rw [updateResolvedLast, ih, updateResolvedLast]
end

theorem modifyTrueBranch_kind (f : Statement → Statement) (s : Statement) :
    (Operations.modifyTrueBranch f s).kind = s.kind := by
  unfold Operations.modifyTrueBranch
  split <;> rfl

theorem getTrueBranch_IfStatement (c t : Statement) (f : Option Statement) :
    Operations.getTrueBranch (Operations.IfStatement c t f) = some t := rfl

theorem getFalseBranch_IfStatement (c t : Statement) (f : Option Statement) :
    Operations.getFalseBranch (Operations.IfStatement c t f) = f := by
  cases f <;> rfl

theorem hasFalseBranch_IfStatement (c t : Statement) (f : Option Statement) :
    Operations.hasFalseBranch (Operations.IfStatement c t f) = f.isSome := by
  cases f <;> rfl

theorem hasFalseBranch_cases (cs : List Statement)
    (h : Operations.hasFalseBranch (.node .IfStatement cs) = true) :
    ∃ c t f r, cs = c :: t :: f :: r := by
  match cs, h with
  | [], h => simp [Operations.hasFalseBranch, Operations.getFalseBranch,
      Statement.childStatements] at h
  | [_], h => simp [Operations.hasFalseBranch, Operations.getFalseBranch,
      Statement.childStatements] at h
  | [_, _], h => simp [Operations.hasFalseBranch, Operations.getFalseBranch,
      Statement.childStatements] at h
  | c :: t :: f :: r, _ => exact ⟨c, t, f, r, rfl⟩

theorem endsInReturn_of_isReturn (s : Statement) (h : isReturn (some s) = true) :
    endsInReturn s = true := by
  cases s with
  | node k cs => cases k <;> simp_all [isReturn, endsInReturn]

/-! ## The tree finaliser: properties -/

/-- C1: whenever finaliseSyntaxTree does not raise, the statement list of the
tree it leaves ends in return: its last statement, after the descent through
trailing blocks, is a return statement, or an if statement with a false
branch whose two branches both end in return. The empty tree and a tree
whose trailing block is empty are covered. -/
theorem finaliseSyntaxTree_ends_in_return (tree : SyntaxTree)
    (h : (finaliseSyntaxTree tree).1 = .ok ()) :
    listEndsInReturn (finaliseSyntaxTree tree).2.statements = true := by
  by_cases hr : isReturn (whileStatementBlock tree.getLastStatement) = true
  · rw [finalise_of_return tree hr]
    rw [whileStatementBlock_tree] at hr
    exact listEndsInReturn_of_descend _ hr
  · have hr2 : isReturn (whileStatementBlock tree.getLastStatement) = false := by
      simpa using hr
    by_cases hif : ∀ s, whileStatementBlock tree.getLastStatement = some s →
        s.kind ≠ .IfStatement
    · rw [finalise_of_other tree hr2 hif]
      exact listEndsInReturn_append_return _
    · simp only [ne_eq, not_forall, not_not] at hif
      obtain ⟨s, hs, hk⟩ := hif
      obtain ⟨k, cs⟩ := s
      simp only [Statement.kind] at hk
      subst hk
      cases helse : Operations.hasFalseBranch (.node .IfStatement cs) with
      | false =>
        rw [finalise_of_if_without_else tree cs hs helse] at h
        simp at h
      | true =>
        cases hok : (isReturn (Operations.getFalseBranch (.node .IfStatement cs)) &&
          isReturn (whileStatementBlock
            (Operations.getTrueBranch (.node .IfStatement cs)))) with
        | false =>
          rw [finalise_of_if_not_ok tree cs hs helse hok]
          exact listEndsInReturn_append_return _
        | true =>
          simp only [Bool.and_eq_true] at hok
          rw [finalise_of_if_both_ok tree cs hs helse hok.1 hok.2]
          obtain ⟨c, t, f, r, rfl⟩ := hasFalseBranch_cases cs helse
          rw [whileStatementBlock_tree] at hs
          apply listEndsInReturn_of_descend_if _ _ hs
          rw [endsInReturn]
          have h1 : endsInReturn t = true :=
            endsInReturn_of_descend t hok.2
          have h2 : endsInReturn f = true :=
            endsInReturn_of_isReturn f hok.1
          simp [h1, h2]

/-- Witness of C1 at the empty tree and at the body `x = 2; { }`. -/
theorem finaliseSyntaxTree_ends_in_return_witness :
    ((finaliseSyntaxTree ⟨[]⟩).1 = .ok () ∧
      listEndsInReturn (finaliseSyntaxTree ⟨[]⟩).2.statements = true) ∧
    ((finaliseSyntaxTree Examples.endsInEmptyBlock).1 = .ok () ∧
      listEndsInReturn (finaliseSyntaxTree Examples.endsInEmptyBlock).2.statements = true) :=
  ⟨⟨by decide, finaliseSyntaxTree_ends_in_return ⟨[]⟩ (by decide)⟩,
   ⟨by decide, finaliseSyntaxTree_ends_in_return Examples.endsInEmptyBlock (by decide)⟩⟩

/-- C2: when the last statement of the tree, after the descent through
trailing blocks, is an if statement without a false branch, finaliseSyntaxTree
raises the syntax error "Not all paths return a value", whatever the children
of the if statement are, and the tree is as it was when the error is raised. -/
theorem finaliseSyntaxTree_if_without_else (tree : SyntaxTree) (cs : List Statement)
    (hlast : whileStatementBlock tree.getLastStatement = some (.node .IfStatement cs))
    (hno : Operations.hasFalseBranch (.node .IfStatement cs) = false) :
    finaliseSyntaxTree tree =
      (.error (.message "Not all paths return a value"), tree) :=
  finalise_of_if_without_else tree cs hlast hno

/-- Witness of C2 at the body `if (x > 0) return 1;`, whose true branch is a
return statement. -/
theorem finaliseSyntaxTree_if_without_else_witness :
    isReturn (Operations.getTrueBranch (Operations.IfStatement
      (Operations.Compare (Examples.var "x") (Examples.int 0) .greaterThan)
      (Operations.ReturnStatement (some (Examples.int 1))) none)) = true ∧
    finaliseSyntaxTree Examples.ifWithoutElse =
      (.error (.message "Not all paths return a value"), Examples.ifWithoutElse) :=
  ⟨by decide,
   finaliseSyntaxTree_if_without_else Examples.ifWithoutElse
    [Operations.Compare (Examples.var "x") (Examples.int 0) .greaterThan,
     Operations.ReturnStatement (some (Examples.int 1))] (by decide) (by decide)⟩

/-- C3, evaluated on `if (c) { return 1; } else { return 2; }`: the last
statement is an if statement with a false branch and both branches resolve,
through their blocks, to a return statement; finaliseSyntaxTree nevertheless
adds a return to the block of each branch and one to the outer tree, so the
tree does not stay unchanged. -/
theorem finaliseSyntaxTree_changes_if_with_returning_blocks :
    (∃ c t f, Examples.ifBothBlocksReturn.getLastStatement =
        some (Operations.IfStatement c t (some f)) ∧
      isReturn (whileStatementBlock (some t)) = true ∧
      isReturn (whileStatementBlock (some f)) = true) ∧
    finaliseSyntaxTree Examples.ifBothBlocksReturn =
      (.ok (), ⟨[Operations.IfStatement (Examples.var "c")
        (Operations.StatementBlock [Operations.ReturnStatement (some (Examples.int 1)),
          Operations.ReturnStatement none])
        (some (Operations.StatementBlock [Operations.ReturnStatement (some (Examples.int 2)),
          Operations.ReturnStatement none])),
        Operations.ReturnStatement none]⟩) ∧
    (finaliseSyntaxTree Examples.ifBothBlocksReturn).2 ≠ Examples.ifBothBlocksReturn :=
  ⟨⟨Examples.var "c",
    Operations.StatementBlock [Operations.ReturnStatement (some (Examples.int 1))],
    Operations.StatementBlock [Operations.ReturnStatement (some (Examples.int 2))],
    by decide, by decide, by decide⟩, by decide, by decide⟩

/-- C4 as stated fails on `if (c) { return 1; } else { x = 2; }`: the true
branch ends in a return and the false branch does not, yet after the call the
true branch is not what it was: it has received a return as well. -/
theorem finaliseSyntaxTree_extends_returning_branch :
    (Examples.ifOnlyTrueReturns.getLastStatement.bind Operations.getTrueBranch =
        some (Operations.StatementBlock [Operations.ReturnStatement (some (Examples.int 1))]) ∧
      isReturn (whileStatementBlock
        (Examples.ifOnlyTrueReturns.getLastStatement.bind Operations.getTrueBranch)) = true ∧
      isReturn (whileStatementBlock
        (Examples.ifOnlyTrueReturns.getLastStatement.bind Operations.getFalseBranch)) = false) ∧
    (finaliseSyntaxTree Examples.ifOnlyTrueReturns).1 = .ok () ∧
    (finaliseSyntaxTree Examples.ifOnlyTrueReturns).2.statements.head?.bind
        Operations.getTrueBranch =
      some (Operations.StatementBlock [Operations.ReturnStatement (some (Examples.int 1)),
        Operations.ReturnStatement none]) ∧
    (finaliseSyntaxTree Examples.ifOnlyTrueReturns).2.statements.head?.bind
        Operations.getTrueBranch ≠
      Examples.ifOnlyTrueReturns.getLastStatement.bind Operations.getTrueBranch := by
  decide

/-- C4, amended: when the last statement of the tree, after the descent
through trailing blocks, is an if statement with a false branch and exactly
one of the two branches ends in a return statement, finaliseSyntaxTree
succeeds and adds a value-less return statement as the last child of each of
the two branches, the branch that already ends in a return included, and one
at the end of the statement list of the outer tree; nothing else changes. -/
theorem finaliseSyntaxTree_adds_return_to_both_branches (tree : SyntaxTree)
    (c t f : Statement) (r : List Statement)
    (hlast : whileStatementBlock tree.getLastStatement =
      some (.node .IfStatement (c :: t :: f :: r)))
    (hone : isReturn (whileStatementBlock (some t)) ≠
      isReturn (whileStatementBlock (some f))) :
    finaliseSyntaxTree tree =
      (.ok (), ⟨updateResolvedLast
          (fun _ => .node .IfStatement
            (c :: t.addStatement (.node .ReturnStatement []) ::
              f.addStatement (.node .ReturnStatement []) :: r))
          tree.statements ++ [.node .ReturnStatement []]⟩) := by
  have hnot : (isReturn (Operations.getFalseBranch (.node .IfStatement (c :: t :: f :: r))) &&
      isReturn (whileStatementBlock
        (Operations.getTrueBranch (.node .IfStatement (c :: t :: f :: r))))) = false := by
    cases hf : isReturn (Operations.getFalseBranch (.node .IfStatement (c :: t :: f :: r))) with
    | false => rfl
    | true =>
      have hf2 : isReturn (whileStatementBlock (some f)) = true :=
        isReturn_while_of_isReturn (some f) hf
      rw [hf2] at hone
      have ht : isReturn (whileStatementBlock (some t)) = false := by simpa using hone
      simpa [Operations.getTrueBranch, Statement.childStatements] using ht
  rw [finalise_of_if_not_ok tree _ hlast rfl hnot]
  rw [updateResolvedLast_comp _ _ (modifyTrueBranch_kind addReturn)]
  rw [whileStatementBlock_tree] at hlast
  rw [updateResolvedLast_congr _
    (fun _ => .node .IfStatement
      (c :: t.addStatement (.node .ReturnStatement []) ::
        f.addStatement (.node .ReturnStatement []) :: r)) _ _ hlast rfl]
  rfl

/-- Witness of the amended C4 at `if (c) { return 1; } else { x = 2; }`. -/
theorem finaliseSyntaxTree_adds_return_to_both_branches_witness :
    finaliseSyntaxTree Examples.ifOnlyTrueReturns =
      (.ok (), ⟨[Operations.IfStatement (Examples.var "c")
        (Operations.StatementBlock [Operations.ReturnStatement (some (Examples.int 1)),
          Operations.ReturnStatement none])
        (some (Operations.StatementBlock
          [Operations.Assignment (Examples.var "x") .assign_ (Examples.int 2),
           Operations.ReturnStatement none])),
        Operations.ReturnStatement none]⟩) :=
  finaliseSyntaxTree_adds_return_to_both_branches Examples.ifOnlyTrueReturns
    (Examples.var "c")
    (Operations.StatementBlock [Operations.ReturnStatement (some (Examples.int 1))])
    (Operations.StatementBlock
      [Operations.Assignment (Examples.var "x") .assign_ (Examples.int 2)])
    [] (by decide) (by decide)

/-- C5: when the last statement of the tree, after the descent through any
number of trailing blocks, is a return statement, with or without a value,
finaliseSyntaxTree does not raise and leaves the whole tree unchanged. -/
theorem finaliseSyntaxTree_keeps_tree_ending_in_return (tree : SyntaxTree)
    (s : Statement)
    (hlast : whileStatementBlock tree.getLastStatement = some s)
    (hret : s.kind = .ReturnStatement) :
    finaliseSyntaxTree tree = (.ok (), tree) := by
  apply finalise_of_return
  rw [hlast]
  exact (isReturn_iff_kind s).mpr hret

/-- Witness of C5 at the body `x = 2; { { return x; } }`. -/
theorem finaliseSyntaxTree_keeps_tree_ending_in_return_witness :
    finaliseSyntaxTree Examples.returnInBlocks = (.ok (), Examples.returnInBlocks) :=
  finaliseSyntaxTree_keeps_tree_ending_in_return Examples.returnInBlocks
    (Operations.ReturnStatement (some (Examples.var "x"))) (by decide) (by decide)

/-- C6: when the last statement of the tree, after the descent through
trailing blocks, is neither a return statement nor an if statement (also
when there is none: the tree is empty or ends in an empty block),
finaliseSyntaxTree does not raise and the tree it leaves is the old tree with
one return statement without children, so without a value, added at the end
of the statement list of the outer tree. -/
theorem finaliseSyntaxTree_appends_return_to_outer_tree (tree : SyntaxTree)
    (hlast : ∀ s, whileStatementBlock tree.getLastStatement = some s →
      s.kind ≠ .ReturnStatement ∧ s.kind ≠ .IfStatement) :
    finaliseSyntaxTree tree =
      (.ok (), ⟨tree.statements ++ [.node .ReturnStatement []]⟩) := by
  have hr : isReturn (whileStatementBlock tree.getLastStatement) = false := by
    cases h : whileStatementBlock tree.getLastStatement with
    | none => rfl
    | some s =>
      have := (hlast s h).1
      cases hs : isReturn (some s) with
      | false => rfl
      | true => exact absurd ((isReturn_iff_kind s).mp hs) this
  rw [finalise_of_other tree hr (fun s hs => (hlast s hs).2)]
  rfl

/-- Witness of C6 at the empty tree, at the body `x = 2; { }` (the return
goes behind the empty block, not into it) and at the body `x = 2;`. -/
theorem finaliseSyntaxTree_appends_return_to_outer_tree_witness :
    finaliseSyntaxTree ⟨[]⟩ = (.ok (), ⟨[Operations.ReturnStatement none]⟩) ∧
    finaliseSyntaxTree Examples.endsInEmptyBlock =
      (.ok (), ⟨[Operations.Assignment (Examples.var "x") .assign_ (Examples.int 2),
        Operations.StatementBlock [], Operations.ReturnStatement none]⟩) ∧
    finaliseSyntaxTree ⟨[Operations.Assignment (Examples.var "x") .assign_ (Examples.int 2)]⟩ =
      (.ok (), ⟨[Operations.Assignment (Examples.var "x") .assign_ (Examples.int 2),
        Operations.ReturnStatement none]⟩) :=
  ⟨finaliseSyntaxTree_appends_return_to_outer_tree ⟨[]⟩ (by decide),
   finaliseSyntaxTree_appends_return_to_outer_tree Examples.endsInEmptyBlock (by decide),
   finaliseSyntaxTree_appends_return_to_outer_tree
    ⟨[Operations.Assignment (Examples.var "x") .assign_ (Examples.int 2)]⟩
    (by intro s h; cases h; decide)⟩

/-! ### What a second run and the growth of the tree need -/

theorem getLast_addStatement (tree : SyntaxTree) (r : Statement) :
    (tree.addStatement r).getLastStatement = some r := by
  simp [SyntaxTree.addStatement, SyntaxTree.getLastStatement]

theorem finalise_of_appended_return (tree : SyntaxTree) :
    finaliseSyntaxTree (tree.addStatement (Operations.ReturnStatement none)) =
      (.ok (), tree.addStatement (Operations.ReturnStatement none)) := by
  apply finalise_of_return
  rw [getLast_addStatement]
  rfl

theorem updateResolvedLast_length (f : Statement → Statement) :
    ∀ l : List Statement, (updateResolvedLast f l).length = l.length
  | [] => rfl
  | [_] => rfl
  | a :: t :: r => by
    rw [updateResolvedLast, List.length_cons, updateResolvedLast_length f (t :: r)]
    rfl

mutual
theorem extendsByReturns_refl : ∀ s : Statement, extendsByReturns s s = true
  | .node k cs => by
    rw [extendsByReturns, extendsListByReturns_refl cs]
    simp
theorem extendsListByReturns_refl : ∀ l : List Statement, extendsListByReturns l l = true
  | [] => rfl
  | a :: r => by
    rw [extendsListByReturns, extendsByReturns_refl a, extendsListByReturns_refl r]
    rfl
end

theorem extendsListByReturns_append : ∀ (l l2 : List Statement),
    extendsListByReturns l l2 = true →
    extendsListByReturns l (l2 ++ [.node .ReturnStatement []]) = true
  | [], l2, h => by
    simp only [extendsListByReturns, List.all_append, Bool.and_eq_true] at h ⊢
    exact ⟨h, by simp⟩
  | _ :: _, [], h => by simp [extendsListByReturns] at h
  | a :: l, b :: l2, h => by
    simp only [extendsListByReturns, List.cons_append, Bool.and_eq_true] at h ⊢
    exact ⟨h.1, extendsListByReturns_append l l2 h.2⟩

theorem extendsByReturns_addReturn (s : Statement) :
    extendsByReturns s (addReturn s) = true := by
  obtain ⟨k, cs⟩ := s
  simp only [addReturn, Statement.addStatement, extendsByReturns, decide_True, Bool.true_and]
  exact extendsListByReturns_append cs cs (extendsListByReturns_refl cs)

mutual
theorem extendsByReturns_updateResolved (g : Statement → Statement)
    (hg : ∀ x, extendsByReturns x (g x) = true) :
    ∀ s : Statement, extendsByReturns s (updateResolved g s) = true
  | .node k cs => by
    cases k
    case StatementBlock =>
      rw [updateResolved, extendsByReturns, extendsListByReturns_updateResolvedLast g hg cs]
      simp
    all_goals
      simp only [updateResolved]
      exact hg _
theorem extendsListByReturns_updateResolvedLast (g : Statement → Statement)
    (hg : ∀ x, extendsByReturns x (g x) = true) :
    ∀ l : List Statement, extendsListByReturns l (updateResolvedLast g l) = true
  | [] => rfl
  | [s] => by
    rw [updateResolvedLast, extendsListByReturns, extendsByReturns_updateResolved g hg s]
    rfl
  | a :: t :: r => by
    rw [updateResolvedLast, extendsListByReturns, extendsByReturns_refl,
      extendsListByReturns_updateResolvedLast g hg (t :: r)]
    rfl
end

theorem extendsByReturns_branches (x : Statement) :
    extendsByReturns x
      (Operations.modifyFalseBranch addReturn (Operations.modifyTrueBranch addReturn x)) =
      true := by
  obtain ⟨k, cs⟩ := x
  match cs with
  | [] => exact extendsByReturns_refl _
  | [_] => exact extendsByReturns_refl _
  | [c, t] =>
    simp [Operations.modifyTrueBranch, Operations.modifyFalseBranch, extendsByReturns,
      extendsListByReturns, extendsByReturns_refl, extendsByReturns_addReturn]
  | c :: t :: e :: r =>
    simp [Operations.modifyTrueBranch, Operations.modifyFalseBranch, extendsByReturns,
      extendsListByReturns, extendsByReturns_refl, extendsByReturns_addReturn,
      extendsListByReturns_refl]

theorem countNodesList_append (l : List Statement) (r : Statement) :
    countNodesList (l ++ [r]) = countNodesList l + countNodes r := by
  induction l with
  | nil => simp [countNodesList]
  | cons a t ih =>
    rw [List.cons_append, countNodesList, countNodesList, ih]
    omega

mutual
theorem countNodes_le_of_extends : ∀ (s s2 : Statement),
    extendsByReturns s s2 = true → countNodes s ≤ countNodes s2
  | .node k cs, .node k2 cs2, h => by
    simp only [extendsByReturns, Bool.and_eq_true] at h
    have := countNodesList_le_of_extends cs cs2 h.2
    rw [countNodes, countNodes]
    omega
theorem countNodesList_le_of_extends : ∀ (l l2 : List Statement),
    extendsListByReturns l l2 = true → countNodesList l ≤ countNodesList l2
  | [], _, _ => by simp [countNodesList]
  | _ :: _, [], h => by simp [extendsListByReturns] at h
  | a :: l, b :: l2, h => by
    simp only [extendsListByReturns, Bool.and_eq_true] at h
    have h1 := countNodes_le_of_extends a b h.1
    have h2 := countNodesList_le_of_extends l l2 h.2
    rw [countNodesList, countNodesList]
    omega
end

theorem countNodes_addReturn (s : Statement) :
    countNodes (addReturn s) = countNodes s + 1 := by
  obtain ⟨k, cs⟩ := s
  simp only [addReturn, Statement.addStatement, countNodes, countNodesList_append]
  rfl

mutual
theorem countNodes_updateResolved (g : Statement → Statement) (d : Nat)
    (hg : ∀ x, countNodes (g x) ≤ countNodes x + d) :
    ∀ s : Statement, countNodes (updateResolved g s) ≤ countNodes s + d
  | .node k cs => by
    cases k
    case StatementBlock =>
      have := countNodesList_updateResolvedLast g d hg cs
      rw [updateResolved, countNodes, countNodes]
      omega
    all_goals
      simp only [updateResolved]
      exact hg _
theorem countNodesList_updateResolvedLast (g : Statement → Statement) (d : Nat)
    (hg : ∀ x, countNodes (g x) ≤ countNodes x + d) :
    ∀ l : List Statement, countNodesList (updateResolvedLast g l) ≤ countNodesList l + d
  | [] => by simp [updateResolvedLast]
  | [s] => by
    have := countNodes_updateResolved g d hg s
    simp only [updateResolvedLast, countNodesList]
    omega
  | a :: t :: r => by
    have := countNodesList_updateResolvedLast g d hg (t :: r)
    rw [updateResolvedLast, countNodesList, countNodesList]
    omega
end

theorem countNodes_branches (x : Statement) :
    countNodes (Operations.modifyFalseBranch addReturn
      (Operations.modifyTrueBranch addReturn x)) ≤ countNodes x + 2 := by
  obtain ⟨k, cs⟩ := x
  match cs with
  | [] => simp [Operations.modifyTrueBranch, Operations.modifyFalseBranch]
  | [_] => simp [Operations.modifyTrueBranch, Operations.modifyFalseBranch]
  | [c, t] =>
    simp only [Operations.modifyTrueBranch, Operations.modifyFalseBranch, countNodes,
      countNodesList, countNodes_addReturn]
    omega
  | c :: t :: e :: r =>
    simp only [Operations.modifyTrueBranch, Operations.modifyFalseBranch, countNodes,
      countNodesList, countNodes_addReturn]
    omega

/-- The outcome of finaliseSyntaxTree is one of four: the tree is left as it
is, without or with an error, or it grows by a return at the end of the
outer list, with or without a return added to the two branches of the
trailing if statement. -/
theorem finalise_cases (tree : SyntaxTree) :
    (finaliseSyntaxTree tree).2 = tree ∨
    (finaliseSyntaxTree tree = (.ok (), tree.addStatement (Operations.ReturnStatement none))) ∨
    (finaliseSyntaxTree tree =
      (.ok (), SyntaxTree.addStatement
        ⟨updateResolvedLast (fun y => Operations.modifyFalseBranch addReturn
          (Operations.modifyTrueBranch addReturn y)) tree.statements⟩
        (Operations.ReturnStatement none))) := by
  by_cases hr : isReturn (whileStatementBlock tree.getLastStatement) = true
  · rw [finalise_of_return tree hr]; exact .inl rfl
  · have hr2 : isReturn (whileStatementBlock tree.getLastStatement) = false := by
      simpa using hr
    by_cases hif : ∀ s, whileStatementBlock tree.getLastStatement = some s →
        s.kind ≠ .IfStatement
    · exact .inr (.inl (finalise_of_other tree hr2 hif))
    · simp only [ne_eq, not_forall, not_not] at hif
      obtain ⟨s, hs, hk⟩ := hif
      obtain ⟨k, cs⟩ := s
      simp only [Statement.kind] at hk
      subst hk
      cases helse : Operations.hasFalseBranch (.node .IfStatement cs) with
      | false =>
        rw [finalise_of_if_without_else tree cs hs helse]; exact .inl rfl
      | true =>
        cases hok : (isReturn (Operations.getFalseBranch (.node .IfStatement cs)) &&
          isReturn (whileStatementBlock
            (Operations.getTrueBranch (.node .IfStatement cs)))) with
        | false =>
          refine .inr (.inr ?_)
          rw [finalise_of_if_not_ok tree cs hs helse hok,
            updateResolvedLast_comp _ _ (modifyTrueBranch_kind addReturn)]
        | true =>
          simp only [Bool.and_eq_true] at hok
          rw [finalise_of_if_both_ok tree cs hs helse hok.1 hok.2]; exact .inl rfl

/-! ### The tree finaliser: frame and repetition -/

/-- C23 as stated fails on `if (c) { x = 1; } else { x = 2; }`: the last
statement of the tree is an if statement with a false branch, and after the
call the statement list of the outer tree has two statements instead of one
and its last statement is a return statement, not the if statement. -/
theorem finaliseSyntaxTree_grows_outer_list_behind_if :
    (∃ c t f, Examples.ifNeitherReturns.getLastStatement =
      some (Operations.IfStatement c t (some f))) ∧
    (finaliseSyntaxTree Examples.ifNeitherReturns).1 = .ok () ∧
    Examples.ifNeitherReturns.statements.length = 1 ∧
    (finaliseSyntaxTree Examples.ifNeitherReturns).2.statements.length = 2 ∧
    (finaliseSyntaxTree Examples.ifNeitherReturns).2.getLastStatement =
      some (Operations.ReturnStatement none) :=
  ⟨⟨Examples.var "c",
    Operations.StatementBlock
      [Operations.Assignment (Examples.var "x") .assign_ (Examples.int 1)],
    Operations.StatementBlock
      [Operations.Assignment (Examples.var "x") .assign_ (Examples.int 2)], by decide⟩,
   by decide, by decide, by decide, by decide⟩

/-- C23, amended: when the last statement of the tree, after the descent
through trailing blocks, is an if statement with a false branch, and the two
branches, each resolved through its trailing blocks, do not both end in a
return statement, finaliseSyntaxTree succeeds and synthesizes the returns
not only inside the branches: it adds a value-less return statement to each
of the two branches and one more at the end of the statement list of the
outer tree. That list is one statement longer than before and its last
statement is the new return statement, not the if statement. -/
theorem finaliseSyntaxTree_if_with_else (tree : SyntaxTree) (c t f : Statement)
    (r : List Statement)
    (hlast : whileStatementBlock tree.getLastStatement =
      some (.node .IfStatement (c :: t :: f :: r)))
    (hnot : (isReturn (whileStatementBlock (some t)) &&
      isReturn (whileStatementBlock (some f))) = false) :
    finaliseSyntaxTree tree =
      (.ok (), ⟨updateResolvedLast
        (fun _ => .node .IfStatement
          (c :: t.addStatement (.node .ReturnStatement []) ::
            f.addStatement (.node .ReturnStatement []) :: r))
        tree.statements ++ [.node .ReturnStatement []]⟩) ∧
    (finaliseSyntaxTree tree).2.statements.length = tree.statements.length + 1 ∧
    (finaliseSyntaxTree tree).2.getLastStatement = some (.node .ReturnStatement []) := by
  have h : (isReturn (Operations.getFalseBranch (.node .IfStatement (c :: t :: f :: r))) &&
      isReturn (whileStatementBlock
        (Operations.getTrueBranch (.node .IfStatement (c :: t :: f :: r))))) = false := by
    cases hf : isReturn (Operations.getFalseBranch (.node .IfStatement (c :: t :: f :: r))) with
    | false => rfl
    | true =>
      have hf2 : isReturn (whileStatementBlock (some f)) = true :=
        isReturn_while_of_isReturn (some f) hf
      rw [hf2, Bool.and_true] at hnot
      simpa [Operations.getTrueBranch, Statement.childStatements] using hnot
  have hfin : finaliseSyntaxTree tree =
      (.ok (), ⟨updateResolvedLast
        (fun _ => .node .IfStatement
          (c :: t.addStatement (.node .ReturnStatement []) ::
            f.addStatement (.node .ReturnStatement []) :: r))
        tree.statements ++ [.node .ReturnStatement []]⟩) := by
    rw [finalise_of_if_not_ok tree _ hlast rfl h]
    rw [updateResolvedLast_comp _ _ (modifyTrueBranch_kind addReturn)]
    rw [whileStatementBlock_tree] at hlast
    rw [updateResolvedLast_congr _
      (fun _ => .node .IfStatement
        (c :: t.addStatement (.node .ReturnStatement []) ::
          f.addStatement (.node .ReturnStatement []) :: r)) _ _ hlast rfl]
    rfl
  refine ⟨hfin, ?_, ?_⟩
  · rw [hfin]
    simp [updateResolvedLast_length]
  · rw [hfin]
    simp [SyntaxTree.getLastStatement]

/-- Witness of the amended C23 at `if (c) { x = 1; } else { x = 2; }`, where
neither branch ends in a return statement. -/
theorem finaliseSyntaxTree_if_with_else_witness :
    finaliseSyntaxTree Examples.ifNeitherReturns =
      (.ok (), ⟨[Operations.IfStatement (Examples.var "c")
        (Operations.StatementBlock
          [Operations.Assignment (Examples.var "x") .assign_ (Examples.int 1),
           Operations.ReturnStatement none])
        (some (Operations.StatementBlock
          [Operations.Assignment (Examples.var "x") .assign_ (Examples.int 2),
           Operations.ReturnStatement none])),
        Operations.ReturnStatement none]⟩) ∧
    (finaliseSyntaxTree Examples.ifNeitherReturns).2.statements.length =
      Examples.ifNeitherReturns.statements.length + 1 ∧
    (finaliseSyntaxTree Examples.ifNeitherReturns).2.getLastStatement =
      some (.node .ReturnStatement []) :=
  finaliseSyntaxTree_if_with_else Examples.ifNeitherReturns (Examples.var "c")
    (Operations.StatementBlock
      [Operations.Assignment (Examples.var "x") .assign_ (Examples.int 1)])
    (Operations.StatementBlock
      [Operations.Assignment (Examples.var "x") .assign_ (Examples.int 2)])
    [] (by decide) (by decide)

/-- C24: finaliseSyntaxTree is idempotent. For every tree on which it does
not raise, a second run on the tree it leaves does not raise either and
leaves that tree as it is. -/
theorem finaliseSyntaxTree_idempotent (tree : SyntaxTree)
    (h : (finaliseSyntaxTree tree).1 = .ok ()) :
    finaliseSyntaxTree (finaliseSyntaxTree tree).2 = (.ok (), (finaliseSyntaxTree tree).2) := by
  rcases finalise_cases tree with h1 | h1 | h1
  · rw [h1]
    have : finaliseSyntaxTree tree = ((finaliseSyntaxTree tree).1, (finaliseSyntaxTree tree).2) :=
      rfl
    rw [h, h1] at this
    exact this
  · rw [h1]
    exact finalise_of_appended_return tree
  · rw [h1]
    exact finalise_of_appended_return _

/-- Witness of C24 at `if (c) { x = 1; } else { x = 2; }`, which the first
run changes, and at the empty tree. -/
theorem finaliseSyntaxTree_idempotent_witness :
    ((finaliseSyntaxTree Examples.ifNeitherReturns).2 ≠ Examples.ifNeitherReturns ∧
      finaliseSyntaxTree (finaliseSyntaxTree Examples.ifNeitherReturns).2 =
        (.ok (), (finaliseSyntaxTree Examples.ifNeitherReturns).2)) ∧
    finaliseSyntaxTree (finaliseSyntaxTree ⟨[]⟩).2 = (.ok (), (finaliseSyntaxTree ⟨[]⟩).2) :=
  ⟨⟨by decide, finaliseSyntaxTree_idempotent Examples.ifNeitherReturns (by decide)⟩,
   finaliseSyntaxTree_idempotent ⟨[]⟩ (by decide)⟩

/-- C25: finaliseSyntaxTree only appends, and at most three nodes. Whatever
the tree is and whether or not the call raises, the statement list it leaves
is the old list grown by value-less return statements: every statement list
of the tree keeps its statements at their positions, with their kinds, and
anything new in a list is a return statement without children behind the old
ones. The number of nodes of the tree grows by at most three. -/
theorem finaliseSyntaxTree_append_only (tree : SyntaxTree) :
    extendsListByReturns tree.statements (finaliseSyntaxTree tree).2.statements = true ∧
    countNodesList tree.statements ≤ countNodesList (finaliseSyntaxTree tree).2.statements ∧
    countNodesList (finaliseSyntaxTree tree).2.statements ≤
      countNodesList tree.statements + 3 := by
  have hone : countNodes (Operations.ReturnStatement none) = 1 := by decide
  have hext : extendsListByReturns tree.statements
      (finaliseSyntaxTree tree).2.statements = true := by
    rcases finalise_cases tree with h1 | h1 | h1
    · rw [h1]
      exact extendsListByReturns_refl _
    · rw [h1]
      exact extendsListByReturns_append _ _ (extendsListByReturns_refl _)
    · rw [h1]
      exact extendsListByReturns_append _ _
        (extendsListByReturns_updateResolvedLast _ extendsByReturns_branches _)
  refine ⟨hext, countNodesList_le_of_extends _ _ hext, ?_⟩
  rcases finalise_cases tree with h1 | h1 | h1
  · rw [h1]
    omega
  · rw [h1]
    simp only [SyntaxTree.addStatement, countNodesList_append, hone]
    omega
  · rw [h1]
    have hc := countNodesList_updateResolvedLast _ 2 countNodes_branches tree.statements
    simp only [SyntaxTree.addStatement, countNodesList_append, hone]
    omega

/-! ## The expression parser: recursion budget -/

namespace FunctionParser

theorem bind_mono {α β : Type} {x y : Except Failure α} {f g : α → Except Failure β}
    {r : β} (hx : ∀ v, x = .ok v → y = .ok v) (hf : ∀ v r, f v = .ok r → g v = .ok r)
    (h : x >>= f = .ok r) : y >>= g = .ok r := by
  cases x with
  | error e => simp [bind, Except.bind] at h
  | ok v =>
    rw [hx v rfl]
    exact hf v r h

theorem monoAt_zero (p : FunctionParser) : MonoAt p 0 := by
  constructor <;> intros <;> simp_all [parseFunctionCallLoop, parseFunctionCall,
    parseExpression, parseTernaryOperator, parseBool, parseLogicOperation, parseComparation,
    parseSum, parseProduct, parseDifference, parseTerm, parseCast, parseUnary, parseFactor,
    parseSymbolOrLiteral]

theorem monoAt_succ (p : FunctionParser) (n : Nat) (ih : MonoAt p n) : MonoAt p (n + 1) := by
  constructor
  · intro f s r h
    rw [parseFunctionCallLoop] at h ⊢
    split at h
    · rename_i hc
      rw [if_pos hc]
      refine bind_mono (ih.expression s) ?_ h
      rintro ⟨e, s1⟩ r h
      exact ih.functionCallLoop _ _ _ h
    · rename_i hc
      rw [if_neg hc]
      exact h
  · intro s r h
    rw [parseFunctionCall] at h ⊢
    refine bind_mono (ih.functionCallLoop _ s) ?_ h
    rintro ⟨e, s1⟩ r h
    exact h
  · intro s r h
    rw [parseExpression] at h ⊢
    exact ih.ternary s r h
  · intro s r h
    rw [parseTernaryOperator] at h ⊢
    refine bind_mono (ih.bool s) ?_ h
    rintro ⟨c, s1⟩ r h
    dsimp only at h ⊢
    split at h
    · refine bind_mono (ih.expression _) ?_ h
      rintro ⟨t, s2⟩ r h
      refine bind_mono (fun v hv => hv) ?_ h
      intro s3 r h
      refine bind_mono (ih.expression _) ?_ h
      rintro ⟨t, s2⟩ r h
      exact h
    · exact h
  · intro s r h
    rw [parseBool] at h ⊢
    refine bind_mono (ih.logic _) ?_ h
    rintro ⟨c, s1⟩ r h
    exact h
  · intro s r h
    rw [parseLogicOperation] at h ⊢
    refine bind_mono (ih.comparation s) ?_ h
    rintro ⟨c, s1⟩ r h
    dsimp only at h ⊢
    split at h
    · refine bind_mono (ih.logic _) ?_ h
      rintro ⟨t, s2⟩ r h
      exact h
    · split at h
      · refine bind_mono (ih.logic _) ?_ h
        rintro ⟨t, s2⟩ r h
        exact h
      · exact h
  · intro s r h
    rw [parseComparation] at h ⊢
    refine bind_mono (ih.sum s) ?_ h
    rintro ⟨c, s1⟩ r h
    dsimp only at h ⊢
    split at h
    · rename_i hc
      rw [if_pos hc]
      refine bind_mono (ih.sum _) ?_ h
      rintro ⟨t, s2⟩ r h
      exact h
    · rename_i hc
      rw [if_neg hc]
      exact h
  · intro s r h
    rw [parseSum] at h ⊢
    refine bind_mono (ih.difference s) ?_ h
    rintro ⟨c, s1⟩ r h
    dsimp only at h ⊢
    split at h
    · rename_i hc
      rw [if_pos hc]
      refine bind_mono (ih.sum _) ?_ h
      rintro ⟨t, s2⟩ r h
      exact h
    · rename_i hc
      rw [if_neg hc]
      exact h
  · intro s r h
    rw [parseProduct] at h ⊢
    refine bind_mono (ih.term s) ?_ h
    rintro ⟨c, s1⟩ r h
    dsimp only at h ⊢
    split at h
    · rename_i hc
      rw [if_pos hc]
      refine bind_mono (ih.product _) ?_ h
      rintro ⟨t, s2⟩ r h
      exact h
    · rename_i hc
      rw [if_neg hc]
      exact h
  · intro s r h
    rw [parseDifference] at h ⊢
    refine bind_mono (ih.product s) ?_ h
    rintro ⟨c, s1⟩ r h
    dsimp only at h ⊢
    split at h
    · rename_i hc
      rw [if_pos hc]
      refine bind_mono (ih.difference _) ?_ h
      rintro ⟨t, s2⟩ r h
      exact h
    · rename_i hc
      rw [if_neg hc]
      exact h
  · intro s r h
    rw [parseTerm] at h ⊢
    split at h
    · rename_i s1 hm
      split at h
      · rename_i s2 hm2
        exact ih.cast _ _ _ h
      · rename_i s2 hm2
        refine bind_mono (ih.expression _) ?_ h
        rintro ⟨t, s3⟩ r h
        exact h
    · rename_i s1 hm
      exact ih.unary _ _ h
  · intro t s r h
    rw [parseCast] at h ⊢
    refine bind_mono (fun v hv => hv) ?_ h
    intro s1 r h
    refine bind_mono (ih.term _) ?_ h
    rintro ⟨t, s3⟩ r h
    exact h
  · intro s r h
    rw [parseUnary] at h ⊢
    split at h
    · rename_i hc
      rw [if_pos hc]
      exact ih.factor _ _ h
    · rename_i hc
      rw [if_neg hc]
      split at h
      · rename_i s1 hm
        exact h
      · rename_i s1 hm
        split at h
        · rename_i s2 hm2
          exact h
        · rename_i s2 hm2
          split at h
          · rename_i hd
            rw [if_pos hd]
            exact ih.bool _ _ h
          · rename_i hd
            rw [if_neg hd]
            exact h
  · intro s r h
    rw [parseFactor] at h ⊢
    split at h
    · rename_i s1 hm
      exact h
    · rename_i s1 hm
      split at h
      · rename_i s2 hm2
        exact h
      · rename_i s2 hm2
        split at h
        · rename_i s3 hm3
          split at h
          · rename_i hd
            rw [if_pos hd]
            exact h
          · rename_i hd
            rw [if_neg hd]
            refine bind_mono (ih.symbolOrLiteral _) ?_ h
            rintro ⟨t, s3⟩ r h
            exact h
        · rename_i s3 hm3
          exact ih.symbolOrLiteral _ _ h
  · intro s r h
    rw [parseSymbolOrLiteral] at h ⊢
    split at h
    · rename_i s1 hm
      split at h
      · rename_i s2 hm2
        exact ih.functionCall _ _ h
      · rename_i s2 hm2
        split at h
        · rename_i s3 hm3
          exact h
        · rename_i s3 hm3
          split at h
          · rename_i s4 hm4
            exact h
          · rename_i s4 hm4
            split at h
            · rename_i s5 hm5
              refine bind_mono (ih.expression _) ?_ h
              rintro ⟨t, s3⟩ r h
              exact h
            · rename_i s5 hm5
              exact h
    · rename_i s1 hm
      exact h

theorem monoAt (p : FunctionParser) : ∀ n, MonoAt p n
  | 0 => monoAt_zero p
  | n + 1 => monoAt_succ p n (monoAt p n)


end FunctionParser

namespace FunctionParser

theorem fuel_le {F : Nat → ParserState → ParseResult}
    (hF : ∀ n s r, F n s = .ok r → F (n + 1) s = .ok r) {n m : Nat} (h : n ≤ m)
    {s : ParserState} {r : Statement × ParserState} (e : F n s = .ok r) : F m s = .ok r := by
  induction h with
  | refl => exact e
  | step _ ih => exact hF _ _ _ ih

theorem parses_of_eq {F : Nat → ParserState → ParseResult}
    (hF : ∀ n s r, F n s = .ok r → F (n + 1) s = .ok r) {n : Nat}
    {s t : ParserState} {x : Statement} (e : F n s = .ok (x, t)) : Parses F s x t :=
  ⟨n, fun _ hm => fuel_le hF hm e⟩

theorem parses_term (p : FunctionParser) {n : Nat} {s t : ParserState} {x : Statement}
    (e : p.parseTerm n s = .ok (x, t)) : Parses p.parseTerm s x t :=
  parses_of_eq (fun n => (monoAt p n).term) e

theorem parses_product (p : FunctionParser) {n : Nat} {s t : ParserState} {x : Statement}
    (e : p.parseProduct n s = .ok (x, t)) : Parses p.parseProduct s x t :=
  parses_of_eq (fun n => (monoAt p n).product) e

theorem parses_difference (p : FunctionParser) {n : Nat} {s t : ParserState} {x : Statement}
    (e : p.parseDifference n s = .ok (x, t)) : Parses p.parseDifference s x t :=
  parses_of_eq (fun n => (monoAt p n).difference) e

theorem parses_sum (p : FunctionParser) {n : Nat} {s t : ParserState} {x : Statement}
    (e : p.parseSum n s = .ok (x, t)) : Parses p.parseSum s x t :=
  parses_of_eq (fun n => (monoAt p n).sum) e

theorem parses_expression (p : FunctionParser) {n : Nat} {s t : ParserState} {x : Statement}
    (e : p.parseExpression n s = .ok (x, t)) : Parses p.parseExpression s x t :=
  parses_of_eq (fun n => (monoAt p n).expression) e

theorem bind_eq_ok {α β : Type} {x : Except Failure α} {f : α → Except Failure β} {r : β}
    (h : x >>= f = .ok r) : ∃ v, x = .ok v ∧ f v = .ok r := by
  cases x with
  | error e => simp [bind, Except.bind] at h
  | ok v => exact ⟨v, rfl, h⟩

theorem exists_succ_of_lt {n m : Nat} (h : n + 1 ≤ m) : ∃ k, m = k + 1 ∧ n ≤ k :=
  ⟨m - 1, by omega, by omega⟩

/-! ### The grammar rules of the arithmetic levels -/

theorem product_of_term (p : FunctionParser) {s s1 : ParserState} {a : Statement}
    (ha : Parses p.parseTerm s a s1)
    (hstop : ¬(s1.currentType = .times ∨ s1.currentType = .divide ∨
      s1.currentType = .modulo)) :
    Parses p.parseProduct s a s1 := by
  obtain ⟨n, hn⟩ := ha
  refine ⟨n + 1, fun m hm => ?_⟩
  obtain ⟨k, rfl, hk⟩ := exists_succ_of_lt hm
  rw [parseProduct, hn k hk]
  simp [bind, Except.bind, hstop, pure, Except.pure]

theorem product_of_term_op (p : FunctionParser) {s s1 s2 : ParserState} {a r : Statement}
    (ha : Parses p.parseTerm s a s1)
    (hop : s1.currentType = .times ∨ s1.currentType = .divide ∨ s1.currentType = .modulo)
    (hr : Parses p.parseProduct s1.skip r s2) :
    Parses p.parseProduct s (Operations.BinaryOp a r s1.currentType) s2 := by
  obtain ⟨n, hn⟩ := ha
  obtain ⟨n2, hn2⟩ := hr
  refine ⟨max n n2 + 1, fun m hm => ?_⟩
  obtain ⟨k, rfl, hk⟩ := exists_succ_of_lt hm
  rw [parseProduct, hn k (le_trans (le_max_left _ _) hk)]
  simp [bind, Except.bind, hop, pure, Except.pure, hn2 k (le_trans (le_max_right _ _) hk),
    createBinaryNode]

theorem difference_of_product (p : FunctionParser) {s s1 : ParserState} {a : Statement}
    (ha : Parses p.parseProduct s a s1) (hstop : s1.currentType ≠ .minus) :
    Parses p.parseDifference s a s1 := by
  obtain ⟨n, hn⟩ := ha
  refine ⟨n + 1, fun m hm => ?_⟩
  obtain ⟨k, rfl, hk⟩ := exists_succ_of_lt hm
  rw [parseDifference, hn k hk]
  simp [bind, Except.bind, hstop, pure, Except.pure]

theorem difference_of_product_minus (p : FunctionParser) {s s1 s2 : ParserState}
    {a r : Statement} (ha : Parses p.parseProduct s a s1) (hop : s1.currentType = .minus)
    (hr : Parses p.parseDifference s1.skip r s2) :
    Parses p.parseDifference s (Operations.BinaryOp a r .minus) s2 := by
  obtain ⟨n, hn⟩ := ha
  obtain ⟨n2, hn2⟩ := hr
  refine ⟨max n n2 + 1, fun m hm => ?_⟩
  obtain ⟨k, rfl, hk⟩ := exists_succ_of_lt hm
  rw [parseDifference, hn k (le_trans (le_max_left _ _) hk)]
  simp [bind, Except.bind, hop, pure, Except.pure, hn2 k (le_trans (le_max_right _ _) hk),
    createBinaryNode]

theorem sum_of_difference (p : FunctionParser) {s s1 : ParserState} {a : Statement}
    (ha : Parses p.parseDifference s a s1) (hstop : s1.currentType ≠ .plus) :
    Parses p.parseSum s a s1 := by
  obtain ⟨n, hn⟩ := ha
  refine ⟨n + 1, fun m hm => ?_⟩
  obtain ⟨k, rfl, hk⟩ := exists_succ_of_lt hm
  rw [parseSum, hn k hk]
  simp [bind, Except.bind, hstop, pure, Except.pure]

theorem sum_of_difference_plus (p : FunctionParser) {s s1 s2 : ParserState}
    {a r : Statement} (ha : Parses p.parseDifference s a s1) (hop : s1.currentType = .plus)
    (hr : Parses p.parseSum s1.skip r s2) :
    Parses p.parseSum s (Operations.BinaryOp a r .plus) s2 := by
  obtain ⟨n, hn⟩ := ha
  obtain ⟨n2, hn2⟩ := hr
  refine ⟨max n n2 + 1, fun m hm => ?_⟩
  obtain ⟨k, rfl, hk⟩ := exists_succ_of_lt hm
  rw [parseSum, hn k (le_trans (le_max_left _ _) hk)]
  simp [bind, Except.bind, hop, pure, Except.pure, hn2 k (le_trans (le_max_right _ _) hk),
    createBinaryNode]

theorem not_continues {c : TokenType} (h : continuesExpression c = false) :
    isArithmeticOp c = false ∧ c ≠ .greaterThan ∧ c ≠ .greaterThanOrEqual ∧ c ≠ .lessThan ∧
      c ≠ .lessThanOrEqual ∧ c ≠ .equals ∧ c ≠ .notEquals ∧ c ≠ .logicalAnd ∧
      c ≠ .logicalOr ∧ c ≠ .question := by
  cases c <;> simp [continuesExpression] at h <;> simp [isArithmeticOp]

theorem not_arithmetic {c : TokenType} (h : isArithmeticOp c = false) :
    c ≠ .plus ∧ c ≠ .minus ∧ ¬(c = .times ∨ c = .divide ∨ c = .modulo) := by
  cases c <;> simp [isArithmeticOp] at h <;> simp

theorem expression_of_sum (p : FunctionParser) {s s1 : ParserState} {a : Statement}
    (ha : Parses p.parseSum s a s1) (hnot : s.currentType ≠ .logicalNot)
    (hend : continuesExpression s1.currentType = false) :
    Parses p.parseExpression s a s1 := by
  obtain ⟨n, hn⟩ := ha
  refine ⟨n + 5, fun m hm => ?_⟩
  obtain ⟨k, rfl⟩ : ∃ k, m = k + 5 := ⟨m - 5, by omega⟩
  have hk : n ≤ k := by omega
  have hm : s.matchIf .logicalNot = (false, s) := by simp [ParserState.matchIf, hnot]
  rw [parseExpression, parseTernaryOperator, parseBool, hm]
  dsimp only
  rw [parseLogicOperation, parseComparation, hn k hk]
  obtain ⟨-, h1, h2, h3, h4, h5, h6, h7, h8, h9⟩ := not_continues hend
  simp [bind, Except.bind, pure, Except.pure, ParserState.matchIf, h1, h2, h3, h4, h5, h6,
    h7, h8, h9]

/-! ### Where the arithmetic levels stop -/

theorem pure_eq_ok {x t : Statement × ParserState}
    (h : (pure x : Except Failure (Statement × ParserState)) = .ok t) : x = t := by
  simpa [pure, Except.pure] using h

theorem matchIf_false {s t : ParserState} {c : TokenType}
    (h : s.matchIf c = (false, t)) : t = s := by
  unfold ParserState.matchIf at h
  split at h <;> simp_all

theorem product_stop (p : FunctionParser) : ∀ (n : Nat) (s t : ParserState) (x : Statement),
    p.parseProduct n s = .ok (x, t) →
    ¬(t.currentType = .times ∨ t.currentType = .divide ∨ t.currentType = .modulo)
  | 0, s, t, x, h => by simp [parseProduct] at h
  | n + 1, s, t, x, h => by
    rw [parseProduct] at h
    obtain ⟨⟨l, s1⟩, -, h2⟩ := bind_eq_ok h
    dsimp only at h2
    split at h2
    · obtain ⟨⟨r, s2⟩, h3, h4⟩ := bind_eq_ok h2
      have := pure_eq_ok h4
      simp only [Prod.mk.injEq] at this
      rw [← this.2]
      exact product_stop p n _ _ _ h3
    · rename_i hc
      have := pure_eq_ok h2
      simp only [Prod.mk.injEq] at this
      rw [← this.2]
      exact hc

theorem difference_stop (p : FunctionParser) : ∀ (n : Nat) (s t : ParserState) (x : Statement),
    p.parseDifference n s = .ok (x, t) →
    t.currentType ≠ .minus ∧
      ¬(t.currentType = .times ∨ t.currentType = .divide ∨ t.currentType = .modulo)
  | 0, s, t, x, h => by simp [parseDifference] at h
  | n + 1, s, t, x, h => by
    rw [parseDifference] at h
    obtain ⟨⟨l, s1⟩, h1, h2⟩ := bind_eq_ok h
    dsimp only at h2
    split at h2
    · obtain ⟨⟨r, s2⟩, h3, h4⟩ := bind_eq_ok h2
      have := pure_eq_ok h4
      simp only [Prod.mk.injEq] at this
      rw [← this.2]
      exact difference_stop p n _ _ _ h3
    · rename_i hc
      have := pure_eq_ok h2
      simp only [Prod.mk.injEq] at this
      rw [← this.2]
      exact ⟨hc, product_stop p n _ _ _ h1⟩

theorem isArithmeticOp_false {c : TokenType} (h1 : c ≠ .plus) (h2 : c ≠ .minus)
    (h3 : ¬(c = .times ∨ c = .divide ∨ c = .modulo)) : isArithmeticOp c = false := by
  cases c <;> simp_all [isArithmeticOp]

theorem sum_stop (p : FunctionParser) : ∀ (n : Nat) (s t : ParserState) (x : Statement),
    p.parseSum n s = .ok (x, t) → isArithmeticOp t.currentType = false
  | 0, s, t, x, h => by simp [parseSum] at h
  | n + 1, s, t, x, h => by
    rw [parseSum] at h
    obtain ⟨⟨l, s1⟩, h1, h2⟩ := bind_eq_ok h
    dsimp only at h2
    split at h2
    · obtain ⟨⟨r, s2⟩, h3, h4⟩ := bind_eq_ok h2
      have := pure_eq_ok h4
      simp only [Prod.mk.injEq] at this
      rw [← this.2]
      exact sum_stop p n _ _ _ h3
    · rename_i hc
      have := pure_eq_ok h2
      simp only [Prod.mk.injEq] at this
      rw [← this.2]
      have hd := difference_stop p n _ _ _ h1
      exact isArithmeticOp_false hc hd.1 hd.2

theorem comparation_stop (p : FunctionParser) (n : Nat) (s t : ParserState) (x : Statement)
    (h : p.parseComparation n s = .ok (x, t)) : isArithmeticOp t.currentType = false := by
  cases n with
  | zero => simp [parseComparation] at h
  | succ n =>
    rw [parseComparation] at h
    obtain ⟨⟨l, s1⟩, h1, h2⟩ := bind_eq_ok h
    dsimp only at h2
    split at h2
    · obtain ⟨⟨r, s2⟩, h3, h4⟩ := bind_eq_ok h2
      have := pure_eq_ok h4
      simp only [Prod.mk.injEq] at this
      rw [← this.2]
      exact sum_stop p n _ _ _ h3
    · have := pure_eq_ok h2
      simp only [Prod.mk.injEq] at this
      rw [← this.2]
      exact sum_stop p n _ _ _ h1

theorem logic_stop (p : FunctionParser) : ∀ (n : Nat) (s t : ParserState) (x : Statement),
    p.parseLogicOperation n s = .ok (x, t) → isArithmeticOp t.currentType = false
  | 0, s, t, x, h => by simp [parseLogicOperation] at h
  | n + 1, s, t, x, h => by
    rw [parseLogicOperation] at h
    obtain ⟨⟨l, s1⟩, h1, h2⟩ := bind_eq_ok h
    dsimp only at h2
    split at h2
    · obtain ⟨⟨r, s2⟩, h3, h4⟩ := bind_eq_ok h2
      have := pure_eq_ok h4
      simp only [Prod.mk.injEq] at this
      rw [← this.2]
      exact logic_stop p n _ _ _ h3
    · rename_i s3 hm
      split at h2
      · obtain ⟨⟨r, s2⟩, h3, h4⟩ := bind_eq_ok h2
        have := pure_eq_ok h4
        simp only [Prod.mk.injEq] at this
        rw [← this.2]
        exact logic_stop p n _ _ _ h3
      · rename_i s4 hm2
        have := pure_eq_ok h2
        simp only [Prod.mk.injEq] at this
        rw [← this.2]
        have e3 := matchIf_false hm
        have e4 := matchIf_false hm2
        rw [e4, e3]
        exact comparation_stop p n _ _ _ h1

theorem bool_stop (p : FunctionParser) (n : Nat) (s t : ParserState) (x : Statement)
    (h : p.parseBool n s = .ok (x, t)) : isArithmeticOp t.currentType = false := by
  cases n with
  | zero => simp [parseBool] at h
  | succ n =>
    rw [parseBool] at h
    obtain ⟨⟨l, s1⟩, h1, h2⟩ := bind_eq_ok h
    dsimp only at h2
    split at h2
    · have := pure_eq_ok h2
      simp only [Prod.mk.injEq] at this
      rw [← this.2]
      exact logic_stop p n _ _ _ h1
    · have := pure_eq_ok h2
      simp only [Prod.mk.injEq] at this
      rw [← this.2]
      exact logic_stop p n _ _ _ h1

theorem term_of_logicalNot (p : FunctionParser) (n : Nat) (s t : ParserState) (x : Statement)
    (h : p.parseTerm n s = .ok (x, t)) (hs : s.currentType = .logicalNot) :
    isArithmeticOp t.currentType = false := by
  cases n with
  | zero => simp [parseTerm] at h
  | succ n =>
    have hm : s.matchIf .openParen = (false, s) := by simp [ParserState.matchIf, hs]
    rw [parseTerm, hm] at h
    dsimp only at h
    cases n with
    | zero => simp [parseUnary] at h
    | succ n =>
      have hm1 : s.matchIf .true_ = (false, s) := by simp [ParserState.matchIf, hs]
      have hm2 : s.matchIf .false_ = (false, s) := by simp [ParserState.matchIf, hs]
      rw [parseUnary] at h
      simp only [hs, hm1, hm2] at h
      simp at h
      exact bool_stop p n _ _ _ h

theorem product_of_logicalNot (p : FunctionParser) {s t : ParserState} {x : Statement}
    (h : Parses p.parseProduct s x t) (hs : s.currentType = .logicalNot) :
    isArithmeticOp t.currentType = false := by
  obtain ⟨n, hn⟩ := h
  have h := hn (n + 1) (Nat.le_succ n)
  rw [parseProduct] at h
  obtain ⟨⟨l, s1⟩, h1, h2⟩ := bind_eq_ok h
  dsimp only at h2
  have ht := term_of_logicalNot p n s s1 l h1 hs
  rw [if_neg (not_arithmetic ht).2.2] at h2
  have := pure_eq_ok h2
  simp only [Prod.mk.injEq] at this
  rw [← this.2]
  exact ht

theorem term_to_product_start (p : FunctionParser) {s t : ParserState} {x : Statement}
    (h : Parses p.parseTerm s x t) (hop : isArithmeticOp t.currentType = true) :
    s.currentType ≠ .logicalNot := by
  intro hs
  obtain ⟨n, hn⟩ := h
  have := term_of_logicalNot p n s t x (hn n (le_refl n)) hs
  rw [this] at hop
  exact absurd hop (by simp)

theorem product_start (p : FunctionParser) {s t : ParserState} {x : Statement}
    (h : Parses p.parseProduct s x t) (hop : isArithmeticOp t.currentType = true) :
    s.currentType ≠ .logicalNot := by
  intro hs
  have := product_of_logicalNot p h hs
  rw [this] at hop
  exact absurd hop (by simp)

/-! ### Chains of operands -/

theorem chain_difference (p : FunctionParser) {s t : ParserState} {xs : List Statement}
    (h : OperandChain p.parseProduct .minus s xs t) (hstop : t.currentType ≠ .minus) :
    ∀ x rest, xs = x :: rest → Parses p.parseDifference s (rightNested .minus x rest) t := by
  induction h with
  | single hx =>
    intro x rest e
    simp only [List.cons.injEq] at e
    obtain ⟨rfl, rfl⟩ := e
    exact difference_of_product p hx hstop
  | @cons s s1 t y ys hx hop hrest ih =>
    intro x rest e
    simp only [List.cons.injEq] at e
    obtain ⟨rfl, rfl⟩ := e
    cases ys with
    | nil => cases hrest
    | cons z zs =>
      exact difference_of_product_minus p hx hop (ih hstop z zs rfl)

theorem chain_sum (p : FunctionParser) {s t : ParserState} {xs : List Statement}
    (h : OperandChain p.parseProduct .plus s xs t) (hstop : t.currentType ≠ .plus)
    (hstop2 : t.currentType ≠ .minus) :
    ∀ x rest, xs = x :: rest → Parses p.parseSum s (rightNested .plus x rest) t := by
  induction h with
  | single hx =>
    intro x rest e
    simp only [List.cons.injEq] at e
    obtain ⟨rfl, rfl⟩ := e
    exact sum_of_difference p (difference_of_product p hx hstop2) hstop
  | @cons s s1 t y ys hx hop hrest ih =>
    intro x rest e
    simp only [List.cons.injEq] at e
    obtain ⟨rfl, rfl⟩ := e
    cases ys with
    | nil => cases hrest
    | cons z zs =>
      exact sum_of_difference_plus p
        (difference_of_product p hx (by rw [hop]; decide)) hop (ih hstop hstop2 z zs rfl)

theorem chain_head {F : Nat → ParserState → ParseResult} {op : TokenType}
    {s t : ParserState} {x y : Statement} {ys : List Statement}
    (h : OperandChain F op s (x :: y :: ys) t) :
    ∃ s1, Parses F s x s1 ∧ s1.currentType = op := by
  cases h with
  | cons hx hop _ => exact ⟨_, hx, hop⟩

theorem arithmetic_of_sum_op {c : TokenType} (h : c = .plus ∨ c = .minus) :
    isArithmeticOp c = true ∧ ¬(c = .times ∨ c = .divide ∨ c = .modulo) := by
  rcases h with h | h <;> subst h <;> simp [isArithmeticOp]

theorem arithmetic_of_product_op {c : TokenType}
    (h : c = .times ∨ c = .divide ∨ c = .modulo) :
    isArithmeticOp c = true ∧ c ≠ .plus ∧ c ≠ .minus := by
  rcases h with h | h | h <;> subst h <;> simp [isArithmeticOp]

/-! ## The expression parser: properties -/

/-- C7: product binds tighter than sum. For operands `a`, `b`, `c` that
parseTerm parses at their place in the token stream, parseExpression on
`a + b * c` returns `BinaryOp(+, a, BinaryOp(*, b, c))` and on `a * b + c`
returns `BinaryOp(+, BinaryOp(*, a, b), c)`, with `+` or `-` as the one
operator and `*`, `/` or `%` as the other; nothing that continues the
expression follows `c`. -/
theorem parseExpression_product_binds_tighter (p : FunctionParser) :
    (∀ (s0 s1 s2 s3 : ParserState) (a b c : Statement),
      Parses p.parseTerm s0 a s1 →
      (s1.currentType = .plus ∨ s1.currentType = .minus) →
      Parses p.parseTerm s1.skip b s2 →
      (s2.currentType = .times ∨ s2.currentType = .divide ∨ s2.currentType = .modulo) →
      Parses p.parseTerm s2.skip c s3 →
      continuesExpression s3.currentType = false →
      Parses p.parseExpression s0
        (Operations.BinaryOp a (Operations.BinaryOp b c s2.currentType) s1.currentType) s3) ∧
    (∀ (s0 s1 s2 s3 : ParserState) (a b c : Statement),
      Parses p.parseTerm s0 a s1 →
      (s1.currentType = .times ∨ s1.currentType = .divide ∨ s1.currentType = .modulo) →
      Parses p.parseTerm s1.skip b s2 →
      (s2.currentType = .plus ∨ s2.currentType = .minus) →
      Parses p.parseTerm s2.skip c s3 →
      continuesExpression s3.currentType = false →
      Parses p.parseExpression s0
        (Operations.BinaryOp (Operations.BinaryOp a b s1.currentType) c s2.currentType) s3) := by
  constructor
  · intro s0 s1 s2 s3 a b c ha h1 hb h2 hc hend
    obtain ⟨harith, -⟩ := not_continues hend
    obtain ⟨hplus, hminus, hprod⟩ := not_arithmetic harith
    have hbc := product_of_term_op p hb h2 (product_of_term p hc hprod)
    have ha2 := product_of_term p ha (arithmetic_of_sum_op h1).2
    have hstart := term_to_product_start p ha (arithmetic_of_sum_op h1).1
    apply expression_of_sum p _ hstart hend
    rcases h1 with h1 | h1
    · rw [h1]
      exact sum_of_difference_plus p (difference_of_product p ha2 (by rw [h1]; decide)) h1
        (sum_of_difference p (difference_of_product p hbc hminus) hplus)
    · rw [h1]
      exact sum_of_difference p
        (difference_of_product_minus p ha2 h1 (difference_of_product p hbc hminus)) hplus
  · intro s0 s1 s2 s3 a b c ha h1 hb h2 hc hend
    obtain ⟨harith, -⟩ := not_continues hend
    obtain ⟨hplus, hminus, hprod⟩ := not_arithmetic harith
    have hab := product_of_term_op p ha h1 (product_of_term p hb (arithmetic_of_sum_op h2).2)
    have hc2 := product_of_term p hc hprod
    have hstart := term_to_product_start p ha (arithmetic_of_product_op h1).1
    apply expression_of_sum p _ hstart hend
    rcases h2 with h2 | h2
    · rw [h2]
      exact sum_of_difference_plus p (difference_of_product p hab (by rw [h2]; decide)) h2
        (sum_of_difference p (difference_of_product p hc2 hminus) hplus)
    · rw [h2]
      exact sum_of_difference p
        (difference_of_product_minus p hab h2 (difference_of_product p hc2 hminus)) hplus

/-- Witness of C7 on the tokens `a + b * c` and `a % b - c`. -/
theorem parseExpression_product_binds_tighter_witness :
    Parses Examples.knowsAll.parseExpression
      (.init [.ident "a", .op .plus, .ident "b", .op .times, .ident "c"])
      (Operations.BinaryOp (Examples.var "a")
        (Operations.BinaryOp (Examples.var "b") (Examples.var "c") .times) .plus)
      (Examples.after "c" []) ∧
    Parses Examples.knowsAll.parseExpression
      (.init [.ident "a", .op .modulo, .ident "b", .op .minus, .ident "c"])
      (Operations.BinaryOp
        (Operations.BinaryOp (Examples.var "a") (Examples.var "b") .modulo)
        (Examples.var "c") .minus)
      (Examples.after "c" []) :=
  ⟨(parseExpression_product_binds_tighter Examples.knowsAll).1
      (.init [.ident "a", .op .plus, .ident "b", .op .times, .ident "c"])
      (Examples.after "a" [.op .plus, .ident "b", .op .times, .ident "c"])
      (Examples.after "b" [.op .times, .ident "c"])
      (Examples.after "c" [])
      (Examples.var "a") (Examples.var "b") (Examples.var "c")
      (parses_term Examples.knowsAll (by decide : Examples.knowsAll.parseTerm 4 _ = _))
      (by decide)
      (parses_term Examples.knowsAll (by decide : Examples.knowsAll.parseTerm 4 _ = _))
      (by decide)
      (parses_term Examples.knowsAll (by decide : Examples.knowsAll.parseTerm 4 _ = _))
      (by decide),
   (parseExpression_product_binds_tighter Examples.knowsAll).2
      (.init [.ident "a", .op .modulo, .ident "b", .op .minus, .ident "c"])
      (Examples.after "a" [.op .modulo, .ident "b", .op .minus, .ident "c"])
      (Examples.after "b" [.op .minus, .ident "c"])
      (Examples.after "c" [])
      (Examples.var "a") (Examples.var "b") (Examples.var "c")
      (parses_term Examples.knowsAll (by decide : Examples.knowsAll.parseTerm 4 _ = _))
      (by decide)
      (parses_term Examples.knowsAll (by decide : Examples.knowsAll.parseTerm 4 _ = _))
      (by decide)
      (parses_term Examples.knowsAll (by decide : Examples.knowsAll.parseTerm 4 _ = _))
      (by decide)⟩

/-- C8: difference chains nest to the right, and so do chains of `+`. For
two or more operands `x1 .. xn` that parseProduct parses at their place in
the token stream, joined by `-` (or all by `+`), with nothing behind them
that continues the expression, parseExpression returns
`BinaryOp(op, x1, BinaryOp(op, x2, ... xn))`. -/
theorem parseExpression_chain_nests_right (p : FunctionParser) (op : TokenType)
    (hop : op = .minus ∨ op = .plus) (s t : ParserState) (x y : Statement)
    (ys : List Statement)
    (hchain : OperandChain p.parseProduct op s (x :: y :: ys) t)
    (hend : continuesExpression t.currentType = false) :
    Parses p.parseExpression s (rightNested op x (y :: ys)) t := by
  obtain ⟨harith, -⟩ := not_continues hend
  obtain ⟨hplus, hminus, -⟩ := not_arithmetic harith
  obtain ⟨s1, hx, h1⟩ := chain_head hchain
  have hstart : s.currentType ≠ .logicalNot :=
    product_start p hx (by rcases hop with h | h <;> subst h <;> rw [h1] <;> rfl)
  apply expression_of_sum p _ hstart hend
  rcases hop with h | h
  · subst h
    exact sum_of_difference p (chain_difference p hchain hminus x (y :: ys) rfl) hplus
  · subst h
    exact chain_sum p hchain hplus hminus x (y :: ys) rfl

/-- Witness of C8 on the tokens `a - b - c`: the tree is `a - (b - c)`, not
`(a - b) - c`. -/
theorem parseExpression_chain_nests_right_witness :
    Parses Examples.knowsAll.parseExpression
      (.init [.ident "a", .op .minus, .ident "b", .op .minus, .ident "c"])
      (Operations.BinaryOp (Examples.var "a")
        (Operations.BinaryOp (Examples.var "b") (Examples.var "c") .minus) .minus)
      (Examples.after "c" []) ∧
    Operations.BinaryOp (Examples.var "a")
        (Operations.BinaryOp (Examples.var "b") (Examples.var "c") .minus) .minus ≠
      Operations.BinaryOp
        (Operations.BinaryOp (Examples.var "a") (Examples.var "b") .minus)
        (Examples.var "c") .minus :=
  ⟨parseExpression_chain_nests_right Examples.knowsAll .minus (Or.inl rfl)
      (.init [.ident "a", .op .minus, .ident "b", .op .minus, .ident "c"])
      (Examples.after "c" [])
      (Examples.var "a") (Examples.var "b") [Examples.var "c"]
      (.cons (u := Examples.after "a" [.op .minus, .ident "b", .op .minus, .ident "c"])
        (parses_product Examples.knowsAll (by decide : Examples.knowsAll.parseProduct 5 _ = _))
        (by decide)
        (.cons (u := Examples.after "b" [.op .minus, .ident "c"])
          (parses_product Examples.knowsAll (by decide : Examples.knowsAll.parseProduct 5 _ = _))
          (by decide)
          (.single
            (parses_product Examples.knowsAll
              (by decide : Examples.knowsAll.parseProduct 5 _ = _)))))
      (by decide),
   by decide⟩

/-- C9: in a chain of operands joined by `+` and `-`, the leading run of
operands joined by `-` (right-nested) is the left operand of the first `+`
and the whole rest of the chain its right operand. With operands parsed at
product level, `a - b + c` parses to `(a - b) + c`, `a + b - c` to
`a + (b - c)` and `a - b - c + d` to `(a - (b - c)) + d`. -/
theorem parseSum_difference_binds_tighter (p : FunctionParser) :
    (∀ (s0 s1 s2 : ParserState) (x : Statement) (xs : List Statement) (rest : Statement),
      OperandChain p.parseProduct .minus s0 (x :: xs) s1 →
      s1.currentType = .plus →
      Parses p.parseSum s1.skip rest s2 →
      Parses p.parseSum s0 (Operations.BinaryOp (rightNested .minus x xs) rest .plus) s2) ∧
    (∀ (s0 s1 s2 s3 : ParserState) (a b c : Statement),
      Parses p.parseProduct s0 a s1 → s1.currentType = .minus →
      Parses p.parseProduct s1.skip b s2 → s2.currentType = .plus →
      Parses p.parseProduct s2.skip c s3 → continuesExpression s3.currentType = false →
      Parses p.parseExpression s0
        (Operations.BinaryOp (Operations.BinaryOp a b .minus) c .plus) s3) ∧
    (∀ (s0 s1 s2 s3 : ParserState) (a b c : Statement),
      Parses p.parseProduct s0 a s1 → s1.currentType = .plus →
      Parses p.parseProduct s1.skip b s2 → s2.currentType = .minus →
      Parses p.parseProduct s2.skip c s3 → continuesExpression s3.currentType = false →
      Parses p.parseExpression s0
        (Operations.BinaryOp a (Operations.BinaryOp b c .minus) .plus) s3) ∧
    (∀ (s0 s1 s2 s3 s4 : ParserState) (a b c d : Statement),
      Parses p.parseProduct s0 a s1 → s1.currentType = .minus →
      Parses p.parseProduct s1.skip b s2 → s2.currentType = .minus →
      Parses p.parseProduct s2.skip c s3 → s3.currentType = .plus →
      Parses p.parseProduct s3.skip d s4 → continuesExpression s4.currentType = false →
      Parses p.parseExpression s0
        (Operations.BinaryOp
          (Operations.BinaryOp a (Operations.BinaryOp b c .minus) .minus) d .plus) s4) := by
  have hgen : ∀ (s0 s1 s2 : ParserState) (x : Statement) (xs : List Statement)
      (rest : Statement), OperandChain p.parseProduct .minus s0 (x :: xs) s1 →
      s1.currentType = .plus → Parses p.parseSum s1.skip rest s2 →
      Parses p.parseSum s0 (Operations.BinaryOp (rightNested .minus x xs) rest .plus) s2 := by
    intro s0 s1 s2 x xs rest hrun h1 hrest
    exact sum_of_difference_plus p
      (chain_difference p hrun (by rw [h1]; decide) x xs rfl) h1 hrest
  have hlast : ∀ (s t : ParserState) (c : Statement), Parses p.parseProduct s c t →
      continuesExpression t.currentType = false → Parses p.parseSum s c t := by
    intro s t c hc hend
    obtain ⟨harith, -⟩ := not_continues hend
    obtain ⟨hplus, hminus, -⟩ := not_arithmetic harith
    exact sum_of_difference p (difference_of_product p hc hminus) hplus
  refine ⟨hgen, ?_, ?_, ?_⟩
  · intro s0 s1 s2 s3 a b c ha h1 hb h2 hc hend
    have hstart := product_start p ha (by rw [h1]; rfl)
    apply expression_of_sum p _ hstart hend
    exact hgen s0 s2 s3 a [b] c (.cons ha h1 (.single hb)) h2 (hlast _ _ _ hc hend)
  · intro s0 s1 s2 s3 a b c ha h1 hb h2 hc hend
    have hstart := product_start p ha (by rw [h1]; rfl)
    obtain ⟨harith, -⟩ := not_continues hend
    obtain ⟨hplus, hminus, -⟩ := not_arithmetic harith
    apply expression_of_sum p _ hstart hend
    have hbc : Parses p.parseSum s1.skip (Operations.BinaryOp b c .minus) s3 :=
      sum_of_difference p
        (difference_of_product_minus p hb h2 (difference_of_product p hc hminus)) hplus
    exact hgen s0 s1 s3 a [] _ (.single ha) h1 hbc
  · intro s0 s1 s2 s3 s4 a b c d ha h1 hb h2 hc h3 hd hend
    have hstart := product_start p ha (by rw [h1]; rfl)
    apply expression_of_sum p _ hstart hend
    exact hgen s0 s3 s4 a [b, c] d (.cons ha h1 (.cons hb h2 (.single hc))) h3
      (hlast _ _ _ hd hend)

/-- Witness of C9 on the tokens `a - b - c + d`, `a - b + c` and
`a + b - c`. -/
theorem parseSum_difference_binds_tighter_witness :
    Parses Examples.knowsAll.parseExpression
      (.init [.ident "a", .op .minus, .ident "b", .op .minus, .ident "c", .op .plus,
        .ident "d"])
      (Operations.BinaryOp
        (Operations.BinaryOp (Examples.var "a")
          (Operations.BinaryOp (Examples.var "b") (Examples.var "c") .minus) .minus)
        (Examples.var "d") .plus)
      (Examples.after "d" []) ∧
    Parses Examples.knowsAll.parseExpression
      (.init [.ident "a", .op .minus, .ident "b", .op .plus, .ident "c"])
      (Operations.BinaryOp
        (Operations.BinaryOp (Examples.var "a") (Examples.var "b") .minus)
        (Examples.var "c") .plus)
      (Examples.after "c" []) ∧
    Parses Examples.knowsAll.parseExpression
      (.init [.ident "a", .op .plus, .ident "b", .op .minus, .ident "c"])
      (Operations.BinaryOp (Examples.var "a")
        (Operations.BinaryOp (Examples.var "b") (Examples.var "c") .minus) .plus)
      (Examples.after "c" []) :=
  ⟨(parseSum_difference_binds_tighter Examples.knowsAll).2.2.2
    (.init [.ident "a", .op .minus, .ident "b", .op .minus, .ident "c", .op .plus,
      .ident "d"])
    (Examples.after "a" [.op .minus, .ident "b", .op .minus, .ident "c", .op .plus,
      .ident "d"])
    (Examples.after "b" [.op .minus, .ident "c", .op .plus, .ident "d"])
    (Examples.after "c" [.op .plus, .ident "d"])
    (Examples.after "d" [])
    (Examples.var "a") (Examples.var "b") (Examples.var "c") (Examples.var "d")
    (parses_product Examples.knowsAll (by decide : Examples.knowsAll.parseProduct 5 _ = _))
    (by decide)
    (parses_product Examples.knowsAll (by decide : Examples.knowsAll.parseProduct 5 _ = _))
    (by decide)
    (parses_product Examples.knowsAll (by decide : Examples.knowsAll.parseProduct 5 _ = _))
    (by decide)
    (parses_product Examples.knowsAll (by decide : Examples.knowsAll.parseProduct 5 _ = _))
    (by decide),
   (parseSum_difference_binds_tighter Examples.knowsAll).2.1
    (.init [.ident "a", .op .minus, .ident "b", .op .plus, .ident "c"])
    (Examples.after "a" [.op .minus, .ident "b", .op .plus, .ident "c"])
    (Examples.after "b" [.op .plus, .ident "c"])
    (Examples.after "c" [])
    (Examples.var "a") (Examples.var "b") (Examples.var "c")
    (parses_product Examples.knowsAll (by decide : Examples.knowsAll.parseProduct 5 _ = _))
    (by decide)
    (parses_product Examples.knowsAll (by decide : Examples.knowsAll.parseProduct 5 _ = _))
    (by decide)
    (parses_product Examples.knowsAll (by decide : Examples.knowsAll.parseProduct 5 _ = _))
    (by decide),
   (parseSum_difference_binds_tighter Examples.knowsAll).2.2.1
    (.init [.ident "a", .op .plus, .ident "b", .op .minus, .ident "c"])
    (Examples.after "a" [.op .plus, .ident "b", .op .minus, .ident "c"])
    (Examples.after "b" [.op .minus, .ident "c"])
    (Examples.after "c" [])
    (Examples.var "a") (Examples.var "b") (Examples.var "c")
    (parses_product Examples.knowsAll (by decide : Examples.knowsAll.parseProduct 5 _ = _))
    (by decide)
    (parses_product Examples.knowsAll (by decide : Examples.knowsAll.parseProduct 5 _ = _))
    (by decide)
    (parses_product Examples.knowsAll (by decide : Examples.knowsAll.parseProduct 5 _ = _))
    (by decide)⟩

theorem wrapInt32_neg (i : Int) (h1 : -2 ^ 31 < i) (h2 : i < 2 ^ 31) :
    wrapInt32 (i * -1) = -i := by
  unfold wrapInt32
  have h : (i * -1 + 2 ^ 31) % 2 ^ 32 = -i + 2 ^ 31 := by
    rw [Int.emod_eq_of_lt] <;> omega
  omega

/-- C10: sign folding of literals. In parseFactor a `-` directly followed
by a literal token gives one Immediate node and consumes both tokens: its
value is the negated value of the literal and its type the type of the
literal, for an Integer literal (whose negation is representable), a Float
literal and a Double literal; the node is not a Negation. A `-` followed by
a token that is not a literal gives the Negation node of what
parseSymbolOrLiteral returns behind the `-`. -/
theorem parseFactor_folds_sign_of_literal (p : FunctionParser) (n : Nat) :
    (∀ (s : ParserState) (m t : Token) (rest : List Token),
      s.tokens = m :: t :: rest → m.type = .minus → t.type = .literal →
      (∀ i : Int, t.value = .Integer i → -2 ^ 31 < i → i < 2 ^ 31 →
        p.parseFactor (n + 1) s =
          .ok (Operations.Immediate (.Integer (-i)), { s with tokens := rest })) ∧
      (∀ f : FloatValue, t.value = .Float f →
        p.parseFactor (n + 1) s =
          .ok (Operations.Immediate (.Float f.neg), { s with tokens := rest })) ∧
      (∀ d : FloatValue, t.value = .Double d →
        p.parseFactor (n + 1) s =
          .ok (Operations.Immediate (.Double d.neg), { s with tokens := rest })) ∧
      (∀ v : VariableStorage, v.getType = .Integer ∨ v.getType = .Float ∨
          v.getType = .Double → t.value = v →
        ∃ w : VariableStorage, w.getType = v.getType ∧
          (p.parseFactor (n + 1) s).map (fun r => r.1.kind) = .ok (.Immediate w))) ∧
    (∀ (s u : ParserState) (e : Statement),
      s.currentType = .minus → s.skip.currentType ≠ .literal →
      p.parseSymbolOrLiteral n s.skip = .ok (e, u) →
      p.parseFactor (n + 1) s = .ok (Operations.Negation e, u)) := by
  constructor
  · intro s m t rest hs hm ht
    have hc : s.currentType = .minus := by simp [ParserState.currentType, hs, hm]
    have hk : s.skip.currentType = .literal := by
      simp [ParserState.currentType, ParserState.skip, hs, ht]
    have h1 : s.matchIf .plusplus = (false, s) := by simp [ParserState.matchIf, hc]
    have h2 : s.matchIf .minusminus = (false, s) := by simp [ParserState.matchIf, hc]
    have h3 : s.matchIf .minus = (true, s.skip) := by simp [ParserState.matchIf, hc]
    have hlit : s.skip.parseVariableStorageLiteral = .ok (t.value, { s with tokens := rest }) := by
      simp [ParserState.parseVariableStorageLiteral, ParserState.skip, hs, ht]
    have hf : p.parseFactor (n + 1) s = parseLiteral true s.skip := by
      rw [parseFactor, h1]
      dsimp only
      rw [h2]
      dsimp only
      rw [h3]
      dsimp only
      rw [if_pos hk]
    have hint : ∀ i : Int, t.value = .Integer i → -2 ^ 31 < i → i < 2 ^ 31 →
        p.parseFactor (n + 1) s =
          .ok (Operations.Immediate (.Integer (-i)), { s with tokens := rest }) := by
      intro i hv hlo hhi
      have hw : wrapInt32 (-i) = -i := by
        have := wrapInt32_neg i hlo hhi
        simpa using this
      rw [hf, parseLiteral, hlit, hv]
      simp [bind, Except.bind, pure, Except.pure, intTimesMinusOne, hw]
    have hfloat : ∀ f : FloatValue, t.value = .Float f →
        p.parseFactor (n + 1) s =
          .ok (Operations.Immediate (.Float f.neg), { s with tokens := rest }) := by
      intro f hv
      rw [hf, parseLiteral, hlit, hv]
      simp [bind, Except.bind, pure, Except.pure, FloatValue.timesMinusOne, FloatValue.neg]
    have hdouble : ∀ d : FloatValue, t.value = .Double d →
        p.parseFactor (n + 1) s =
          .ok (Operations.Immediate (.Double d.neg), { s with tokens := rest }) := by
      intro d hv
      rw [hf, parseLiteral, hlit, hv]
      simp [bind, Except.bind, pure, Except.pure, FloatValue.timesMinusOne, FloatValue.neg]
    refine ⟨hint, hfloat, hdouble, ?_⟩
    intro v hty hv
    rw [hf, parseLiteral, hlit, hv]
    cases v with
    | Void => simp [VariableStorage.getType] at hty
    | Integer i =>
      exact ⟨.Integer (intTimesMinusOne i), rfl, rfl⟩
    | Float f => exact ⟨.Float f.timesMinusOne, rfl, rfl⟩
    | Double d => exact ⟨.Double d.timesMinusOne, rfl, rfl⟩
  · intro s u e hc hk he
    have h1 : s.matchIf .plusplus = (false, s) := by simp [ParserState.matchIf, hc]
    have h2 : s.matchIf .minusminus = (false, s) := by simp [ParserState.matchIf, hc]
    have h3 : s.matchIf .minus = (true, s.skip) := by simp [ParserState.matchIf, hc]
    rw [parseFactor, h1]
    dsimp only
    rw [h2]
    dsimp only
    rw [h3]
    dsimp only
    rw [if_neg hk, he]
    rfl

/-- Witness of C10 on the tokens `-5` (one Immediate node with the Integer
value -5), also through parseExpression, and on the tokens `-x` (a Negation
node). -/
theorem parseFactor_folds_sign_of_literal_witness :
    Examples.knowsAll.parseFactor 1 (.init [.op .minus, .lit (.Integer 5)]) =
      .ok (Operations.Immediate (.Integer (-5)), .init []) ∧
    Examples.knowsAll.parseExpression 11 (.init [.op .minus, .lit (.Integer 5)]) =
      .ok (Operations.Immediate (.Integer (-5)), .init []) ∧
    Examples.knowsAll.parseFactor 2 (.init [.op .minus, .ident "x"]) =
      .ok (Operations.Negation (Examples.var "x"), Examples.after "x" []) :=
  ⟨((parseFactor_folds_sign_of_literal Examples.knowsAll 0).1
      (.init [.op .minus, .lit (.Integer 5)]) (.op .minus) (.lit (.Integer 5)) []
      rfl rfl rfl).1 5 rfl (by decide) (by decide),
   by decide,
   (parseFactor_folds_sign_of_literal Examples.knowsAll 1).2
      (.init [.op .minus, .ident "x"]) (Examples.after "x" []) (Examples.var "x")
      (by decide) (by decide) (by decide)⟩

/-! ## The statement parser: recursion budget -/

theorem returnStatement_mono (p : FunctionParser) (n : Nat) (s : ParserState)
    (r : Statement × ParserState) (h : p.parseReturnStatement n s = .ok r) :
    p.parseReturnStatement (n + 1) s = .ok r := by
  cases n with
  | zero => simp [parseReturnStatement] at h
  | succ n =>
    rw [parseReturnStatement] at h ⊢
    split at h
    · rename_i hc
      rw [if_pos hc]
      exact h
    · rename_i hc
      rw [if_neg hc]
      refine bind_mono ((monoAt p n).expression s) ?_ h
      rintro ⟨e, s1⟩ r h
      exact h

theorem variableDefinition_mono (p : FunctionParser) (n : Nat) (c : Bool) (s : ParserState)
    (r : Statement × ParserState) (h : p.parseVariableDefinition n c s = .ok r) :
    p.parseVariableDefinition (n + 1) c s = .ok r := by
  cases n with
  | zero => simp [parseVariableDefinition] at h
  | succ n =>
    rw [parseVariableDefinition] at h ⊢
    split at h
    · simp at h
    · refine bind_mono (fun v hv => hv) ?_ h
      intro s1 r h
      refine bind_mono ((monoAt p n).expression _) ?_ h
      rintro ⟨e, s2⟩ r h
      exact h

theorem assignment_mono (p : FunctionParser) (n : Nat) (s : ParserState)
    (r : Statement × ParserState) (h : p.parseAssignment n s = .ok r) :
    p.parseAssignment (n + 1) s = .ok r := by
  cases n with
  | zero => simp [parseAssignment] at h
  | succ n =>
    rw [parseAssignment] at h ⊢
    refine bind_mono ((monoAt p n).expression s) ?_ h
    rintro ⟨l, s1⟩ r h
    dsimp only at h ⊢
    split at h
    · refine bind_mono ((monoAt p n).expression _) ?_ h
      rintro ⟨e, s2⟩ r h
      exact h
    · exact h

theorem monoStatementAt_zero (p : FunctionParser) : MonoStatementAt p 0 := by
  constructor <;> intros <;> simp_all [parseStatementBlockLoop, parseStatementBlock,
    parseStatement, parseLoopStatement, parseIfStatement]

theorem monoStatementAt_succ (p : FunctionParser) (n : Nat) (ih : MonoStatementAt p n) :
    MonoStatementAt p (n + 1) := by
  constructor
  · intro b s r h
    rw [parseStatementBlockLoop] at h ⊢
    split at h
    · rename_i hc
      rw [if_pos hc]
      refine bind_mono (ih.statement s) ?_ h
      rintro ⟨e, s1⟩ r h
      exact ih.blockLoop _ _ _ h
    · rename_i hc
      rw [if_neg hc]
      exact h
  · intro s r h
    rw [parseStatementBlock] at h ⊢
    refine bind_mono (ih.blockLoop _ s) ?_ h
    rintro ⟨e, s1⟩ r h
    exact h
  · intro s r h
    rw [parseStatement] at h ⊢
    split at h
    split at h
    · exact ih.ifStatement _ _ h
    · split at h
      · refine bind_mono (ih.block _) ?_ h
        rintro ⟨e, s1⟩ r h
        exact h
      · split at h
        · refine bind_mono (returnStatement_mono p n _) ?_ h
          rintro ⟨e, s1⟩ r h
          exact h
        · split at h
          · exact ih.loop _ _ h
          · split at h
            · refine bind_mono (variableDefinition_mono p n _ _) ?_ h
              rintro ⟨e, s1⟩ r h
              exact h
            · refine bind_mono (assignment_mono p n _) ?_ h
              rintro ⟨e, s1⟩ r h
              exact h
  · intro s r h
    rw [parseLoopStatement] at h ⊢
    refine bind_mono (fun v hv => hv) ?_ h
    intro s1 r h
    refine bind_mono (fun v hv => hv) ?_ h
    intro s2 r h
    refine bind_mono (fun v hv => hv) ?_ h
    intro s3 r h
    refine bind_mono (fun v hv => hv) ?_ h
    intro s4 r h
    refine bind_mono (fun v hv => hv) ?_ h
    intro s5 r h
    refine bind_mono ((monoAt p n).expression _) ?_ h
    rintro ⟨e, s6⟩ r h
    refine bind_mono (fun v hv => hv) ?_ h
    intro s7 r h
    refine bind_mono (ih.statement _) ?_ h
    rintro ⟨b, s8⟩ r h
    exact h
  · intro s r h
    rw [parseIfStatement] at h ⊢
    refine bind_mono (fun v hv => hv) ?_ h
    intro s1 r h
    refine bind_mono ((monoAt p n).bool _) ?_ h
    rintro ⟨c, s2⟩ r h
    refine bind_mono (fun v hv => hv) ?_ h
    intro s3 r h
    refine bind_mono (ih.statement _) ?_ h
    rintro ⟨t, s4⟩ r h
    dsimp only at h ⊢
    split at h
    · refine bind_mono (ih.statement _) ?_ h
      rintro ⟨f, s5⟩ r h
      exact h
    · exact h

theorem monoStatementAt (p : FunctionParser) : ∀ n, MonoStatementAt p n
  | 0 => monoStatementAt_zero p
  | n + 1 => monoStatementAt_succ p n (monoStatementAt p n)

theorem parses_bool (p : FunctionParser) {n : Nat} {s t : ParserState} {x : Statement}
    (e : p.parseBool n s = .ok (x, t)) : Parses p.parseBool s x t :=
  parses_of_eq (fun n => (monoAt p n).bool) e

theorem parses_symbolOrLiteral (p : FunctionParser) {n : Nat} {s t : ParserState}
    {x : Statement} (e : p.parseSymbolOrLiteral n s = .ok (x, t)) :
    Parses p.parseSymbolOrLiteral s x t :=
  parses_of_eq (fun n => (monoAt p n).symbolOrLiteral) e

theorem parses_statement (p : FunctionParser) {n : Nat} {s t : ParserState} {x : Statement}
    (e : p.parseStatement n s = .ok (x, t)) : Parses p.parseStatement s x t :=
  parses_of_eq (fun n => (monoStatementAt p n).statement) e

theorem parses_assignment (p : FunctionParser) {n : Nat} {s t : ParserState} {x : Statement}
    (e : p.parseAssignment n s = .ok (x, t)) : Parses p.parseAssignment s x t :=
  parses_of_eq (assignment_mono p) e

/-! ### Facts about the token source -/

theorem match_ok {s : ParserState} {e : TokenType} (h : s.currentType = e)
    (hid : e ≠ .identifier) : s.match_ e = .ok s.skip := by
  obtain ⟨tokens, sym, ty, at_⟩ := s
  cases tokens with
  | nil => simp [ParserState.match_, h, ParserState.symbolBehind, ParserState.skip]
  | cons t r =>
    have ht : t.type = e := by simpa [ParserState.currentType] using h
    have hne : t.type ≠ .identifier := by rw [ht]; exact hid
    simp [ParserState.match_, h, ParserState.symbolBehind, ParserState.skip, hne]

theorem match_fail {s : ParserState} {e : TokenType} (h : s.currentType ≠ e) :
    s.match_ e = .error (.syntaxError (.expected e)) := by
  simp [ParserState.match_, h]

theorem match_identifier {s : ParserState} {t : Token} {r : List Token}
    (hs : s.tokens = t :: r) (ht : t.type = .identifier) :
    s.match_ .identifier = .ok { s with tokens := r, currentSymbol := ⟨t.text, false⟩ } := by
  obtain ⟨tokens, sym, ty, at_⟩ := s
  simp only at hs
  subst hs
  simp [ParserState.match_, ParserState.currentType, ParserState.symbolBehind,
    ParserState.skip, ht]

theorem matchIf_of_eq {s : ParserState} {e : TokenType} (h : s.currentType = e) :
    s.matchIf e = (true, s.skip) := by
  simp [ParserState.matchIf, h]

theorem matchIf_of_ne {s : ParserState} {e : TokenType} (h : s.currentType ≠ e) :
    s.matchIf e = (false, s) := by
  simp [ParserState.matchIf, h]

theorem currentType_of_tokens {s : ParserState} {t : Token} {r : List Token}
    (hs : s.tokens = t :: r) : s.currentType = t.type := by
  simp [ParserState.currentType, hs]

theorem skip_of_tokens {s : ParserState} {t : Token} {r : List Token}
    (hs : s.tokens = t :: r) : s.skip = { s with tokens := r } := by
  simp [ParserState.skip, hs]

theorem matchIfTypeToken_of_none {s : ParserState}
    (h : ParserState.typeOfToken s.currentType = none) :
    s.matchIfTypeToken = (false, s) := by
  simp [ParserState.matchIfTypeToken, h]

theorem matchIfTypeToken_of_some {s : ParserState} {T : Types.ID}
    (h : ParserState.typeOfToken s.currentType = some T) :
    s.matchIfTypeToken = (true, { s.skip with currentHnodeType := T }) := by
  simp [ParserState.matchIfTypeToken, h]

/-! ### Where an expression can start -/

theorem unary_starts (p : FunctionParser) {n : Nat} {s : ParserState}
    {r : Statement × ParserState} (h : p.parseUnary n s = .ok r) :
    startsExpression s.currentType = true := by
  cases n with
  | zero => simp [parseUnary] at h
  | succ n =>
    rw [parseUnary] at h
    split at h
    · rename_i hc
      rcases hc with hc | hc | hc | hc | hc <;> rw [hc] <;> rfl
    · split at h
      · rename_i s1 hm
        unfold ParserState.matchIf at hm
        split at hm
        · rename_i hc; rw [hc]; rfl
        · simp at hm
      · split at h
        · rename_i _ s1 hm1 _ s2 hm
          have := matchIf_false hm1
          subst this
          unfold ParserState.matchIf at hm
          split at hm
          · rename_i hc; rw [hc]; rfl
          · simp at hm
        · rename_i _ s1 hm1 _ s2 hm2
          have e1 := matchIf_false hm1
          have e2 := matchIf_false hm2
          subst e1
          subst e2
          split at h
          · rename_i hc; rw [hc]; rfl
          · simp at h

theorem term_starts (p : FunctionParser) {n : Nat} {s : ParserState}
    {r : Statement × ParserState} (h : p.parseTerm n s = .ok r) :
    startsExpression s.currentType = true := by
  cases n with
  | zero => simp [parseTerm] at h
  | succ n =>
    rw [parseTerm] at h
    split at h
    · rename_i s1 hm
      unfold ParserState.matchIf at hm
      split at hm
      · rename_i hc; rw [hc]; rfl
      · simp at hm
    · rename_i s1 hm
      have := matchIf_false hm
      subst this
      exact unary_starts p h

theorem product_starts (p : FunctionParser) {n : Nat} {s : ParserState}
    {r : Statement × ParserState} (h : p.parseProduct n s = .ok r) :
    startsExpression s.currentType = true := by
  cases n with
  | zero => simp [parseProduct] at h
  | succ n =>
    rw [parseProduct] at h
    obtain ⟨v, h1, -⟩ := bind_eq_ok h
    exact term_starts p h1

theorem difference_starts (p : FunctionParser) {n : Nat} {s : ParserState}
    {r : Statement × ParserState} (h : p.parseDifference n s = .ok r) :
    startsExpression s.currentType = true := by
  cases n with
  | zero => simp [parseDifference] at h
  | succ n =>
    rw [parseDifference] at h
    obtain ⟨v, h1, -⟩ := bind_eq_ok h
    exact product_starts p h1

theorem sum_starts (p : FunctionParser) {n : Nat} {s : ParserState}
    {r : Statement × ParserState} (h : p.parseSum n s = .ok r) :
    startsExpression s.currentType = true := by
  cases n with
  | zero => simp [parseSum] at h
  | succ n =>
    rw [parseSum] at h
    obtain ⟨v, h1, -⟩ := bind_eq_ok h
    exact difference_starts p h1

theorem comparation_starts (p : FunctionParser) {n : Nat} {s : ParserState}
    {r : Statement × ParserState} (h : p.parseComparation n s = .ok r) :
    startsExpression s.currentType = true := by
  cases n with
  | zero => simp [parseComparation] at h
  | succ n =>
    rw [parseComparation] at h
    obtain ⟨v, h1, -⟩ := bind_eq_ok h
    exact sum_starts p h1

theorem logic_starts (p : FunctionParser) {n : Nat} {s : ParserState}
    {r : Statement × ParserState} (h : p.parseLogicOperation n s = .ok r) :
    startsExpression s.currentType = true := by
  cases n with
  | zero => simp [parseLogicOperation] at h
  | succ n =>
    rw [parseLogicOperation] at h
    obtain ⟨v, h1, -⟩ := bind_eq_ok h
    exact comparation_starts p h1

theorem bool_starts (p : FunctionParser) {n : Nat} {s : ParserState}
    {r : Statement × ParserState} (h : p.parseBool n s = .ok r) :
    startsExpression s.currentType = true := by
  cases n with
  | zero => simp [parseBool] at h
  | succ n =>
    rw [parseBool] at h
    by_cases hc : s.currentType = .logicalNot
    · rw [hc]; rfl
    · rw [matchIf_of_ne hc] at h
      obtain ⟨v, h1, -⟩ := bind_eq_ok h
      exact logic_starts p h1

theorem expression_starts (p : FunctionParser) {n : Nat} {s : ParserState}
    {r : Statement × ParserState} (h : p.parseExpression n s = .ok r) :
    startsExpression s.currentType = true := by
  cases n with
  | zero => simp [parseExpression] at h
  | succ n =>
    rw [parseExpression] at h
    cases n with
    | zero => simp [parseTernaryOperator] at h
    | succ n =>
      rw [parseTernaryOperator] at h
      obtain ⟨v, h1, -⟩ := bind_eq_ok h
      exact bool_starts p h1

theorem parses_starts (p : FunctionParser) {s t : ParserState} {x : Statement}
    (h : Parses p.parseExpression s x t) : startsExpression s.currentType = true := by
  obtain ⟨n, hn⟩ := h
  exact expression_starts p (hn n (le_refl n))

theorem exists_add_two {n m : Nat} (h : n + 2 ≤ m) : ∃ k, m = k + 2 ∧ n ≤ k :=
  ⟨m - 2, by omega, by omega⟩

/-! ### How parseStatement dispatches -/

theorem dispatch_of_starts {c : TokenType} (h : startsExpression c = true) :
    c ≠ .const_ ∧ c ≠ .if_ ∧ c ≠ .openBrace ∧ c ≠ .return_ ∧ c ≠ .for_ ∧
      ParserState.typeOfToken c = none ∧ c ≠ .closeBrace ∧ c ≠ .closeParen ∧ c ≠ .eof ∧
      c ≠ .semicolon := by
  cases c <;> simp [startsExpression] at h <;> simp [ParserState.typeOfToken]

theorem statement_of_other (p : FunctionParser) (n : Nat) {s : ParserState}
    (h1 : s.currentType ≠ .const_) (h2 : s.currentType ≠ .if_)
    (h3 : s.currentType ≠ .openBrace) (h4 : s.currentType ≠ .return_)
    (h5 : s.currentType ≠ .for_) (h6 : ParserState.typeOfToken s.currentType = none) :
    p.parseStatement (n + 1) s =
      (p.parseAssignment n s >>= fun r =>
        r.2.match_ .semicolon >>= fun s2 => pure (r.1, s2)) := by
  rw [parseStatement, matchIf_of_ne h1]
  dsimp only
  rw [matchIf_of_ne h2]
  dsimp only
  rw [matchIf_of_ne h3]
  dsimp only
  rw [matchIf_of_ne h4]
  dsimp only
  rw [matchIf_of_ne h5]
  dsimp only
  rw [matchIfTypeToken_of_none h6]

theorem assignment_starts (p : FunctionParser) {n : Nat} {s : ParserState}
    {r : Statement × ParserState} (h : p.parseAssignment n s = .ok r) :
    startsExpression s.currentType = true := by
  cases n with
  | zero => simp [parseAssignment] at h
  | succ n =>
    rw [parseAssignment] at h
    obtain ⟨v, h1, -⟩ := bind_eq_ok h
    exact expression_starts p h1

theorem statement_not_closing (p : FunctionParser) {n : Nat} {s : ParserState}
    {r : Statement × ParserState} (h : p.parseStatement n s = .ok r) :
    s.currentType ≠ .eof ∧ s.currentType ≠ .closeBrace := by
  cases n with
  | zero => simp [parseStatement] at h
  | succ n =>
    by_contra hc
    have hc2 : s.currentType = .eof ∨ s.currentType = .closeBrace := by
      by_cases h1 : s.currentType = .eof
      · exact Or.inl h1
      · by_cases h2 : s.currentType = .closeBrace
        · exact Or.inr h2
        · exact absurd ⟨h1, h2⟩ hc
    have hst : startsExpression s.currentType = false := by
      rcases hc2 with e | e <;> rw [e] <;> rfl
    rw [statement_of_other p n (by rcases hc2 with e | e <;> rw [e] <;> decide)
      (by rcases hc2 with e | e <;> rw [e] <;> decide)
      (by rcases hc2 with e | e <;> rw [e] <;> decide)
      (by rcases hc2 with e | e <;> rw [e] <;> decide)
      (by rcases hc2 with e | e <;> rw [e] <;> decide)
      (by rcases hc2 with e | e <;> rw [e] <;> rfl)] at h
    obtain ⟨v, h1, -⟩ := bind_eq_ok h
    have := assignment_starts p h1
    rw [hst] at this
    exact absurd this (by simp)

theorem loop_condition_of_ne {s : ParserState} {c : TokenType}
    (h1 : s.currentType ≠ .eof) (h2 : s.currentType ≠ c) :
    (!s.isEOF && s.currentType != c) = true := by
  simp [ParserState.isEOF, h1, h2]

theorem loop_condition_of_end {s : ParserState} {c : TokenType}
    (h : s.isEOF = true ∨ s.currentType = c) :
    (!s.isEOF && s.currentType != c) = false := by
  rcases h with h | h <;> simp [h]

/-! ### The loops of parseStatementBlock and parseFunctionCall -/

theorem blockLoop_of_seq (p : FunctionParser) {s t : ParserState} {xs : List Statement}
    (h : StatementSeq p s xs t) (hend : t.isEOF = true ∨ t.currentType = .closeBrace) :
    ∀ (k : Kind) (cs : List Statement), ∃ n, ∀ m, n ≤ m →
      p.parseStatementBlockLoop m (.node k cs) s = .ok (.node k (cs ++ xs), t) := by
  induction h with
  | nil =>
    intro k cs
    refine ⟨1, fun m hm => ?_⟩
    obtain ⟨j, rfl, -⟩ := exists_succ_of_lt hm
    rw [parseStatementBlockLoop, loop_condition_of_end hend]
    simp [pure, Except.pure]
  | @cons s u t x xs hx _ ih =>
    intro k cs
    obtain ⟨n1, h1⟩ := hx
    obtain ⟨n2, h2⟩ := ih hend k (cs ++ [x])
    refine ⟨max n1 n2 + 1, fun m hm => ?_⟩
    obtain ⟨j, rfl, hj⟩ := exists_succ_of_lt hm
    have hs := statement_not_closing p (h1 n1 (le_refl n1))
    rw [parseStatementBlockLoop, loop_condition_of_ne hs.1 hs.2]
    simp only [if_true, h1 j (le_trans (le_max_left _ _) hj), bind, Except.bind,
      Statement.addStatement]
    rw [h2 j (le_trans (le_max_right _ _) hj)]
    simp

theorem callLoop_of_arguments (p : FunctionParser) {s t : ParserState} {es : List Statement}
    (h : ArgumentList p s es t) (hend : t.isEOF = true ∨ t.currentType = .closeParen) :
    ∀ (k : Kind) (cs : List Statement), ∃ n, ∀ m, n ≤ m →
      p.parseFunctionCallLoop m (.node k cs) s = .ok (.node k (cs ++ es), t) := by
  induction h with
  | nil =>
    intro k cs
    refine ⟨1, fun m hm => ?_⟩
    obtain ⟨j, rfl, -⟩ := exists_succ_of_lt hm
    rw [parseFunctionCallLoop, loop_condition_of_end hend]
    simp [pure, Except.pure]
  | @cons s u t x xs hx _ ih =>
    intro k cs
    have hd := dispatch_of_starts (parses_starts p hx)
    obtain ⟨n1, h1⟩ := hx
    obtain ⟨n2, h2⟩ := ih hend k (cs ++ [x])
    refine ⟨max n1 n2 + 1, fun m hm => ?_⟩
    obtain ⟨j, rfl, hj⟩ := exists_succ_of_lt hm
    rw [parseFunctionCallLoop, loop_condition_of_ne hd.2.2.2.2.2.2.2.2.1 hd.2.2.2.2.2.2.2.1]
    simp only [if_true, h1 j (le_trans (le_max_left _ _) hj), bind, Except.bind,
      Statement.addStatement]
    rw [h2 j (le_trans (le_max_right _ _) hj)]
    simp

theorem block_of_seq (p : FunctionParser) {s t : ParserState} {xs : List Statement}
    (h : StatementSeq p s xs t) (hend : t.currentType = .closeBrace) :
    Parses p.parseStatementBlock s (Operations.StatementBlock xs) t.skip := by
  obtain ⟨n, hn⟩ := blockLoop_of_seq p h (Or.inr hend) .StatementBlock []
  refine ⟨n + 1, fun m hm => ?_⟩
  obtain ⟨j, rfl, hj⟩ := exists_succ_of_lt hm
  rw [parseStatementBlock]
  simp only [Operations.StatementBlock, hn j hj, bind, Except.bind,
    match_ok hend (by decide : TokenType.closeBrace ≠ .identifier)]
  rfl

theorem isEOF_iff {s : ParserState} : s.isEOF = true ↔ s.currentType = .eof := by
  simp [ParserState.isEOF]

theorem block_fails_at_eof (p : FunctionParser) {s t : ParserState} {xs : List Statement}
    (h : StatementSeq p s xs t) (hend : t.isEOF = true) :
    Fails p.parseStatementBlock s (.expected .closeBrace) := by
  obtain ⟨n, hn⟩ := blockLoop_of_seq p h (Or.inl hend) .StatementBlock []
  refine ⟨n + 1, fun m hm => ?_⟩
  obtain ⟨j, rfl, hj⟩ := exists_succ_of_lt hm
  have hne : t.currentType ≠ .closeBrace := by
    rw [isEOF_iff.mp hend]; decide
  rw [parseStatementBlock]
  simp only [Operations.StatementBlock, hn j hj, bind, Except.bind, match_fail hne]

theorem functionCall_of_arguments (p : FunctionParser) {s t : ParserState}
    {es : List Statement} (h : ArgumentList p s es t) (hend : t.currentType = .closeParen) :
    Parses p.parseFunctionCall s (.node (.FunctionCall s.currentSymbol) es) t.skip := by
  obtain ⟨n, hn⟩ := callLoop_of_arguments p h (Or.inr hend) (.FunctionCall s.currentSymbol) []
  refine ⟨n + 1, fun m hm => ?_⟩
  obtain ⟨j, rfl, hj⟩ := exists_succ_of_lt hm
  rw [parseFunctionCall]
  simp only [Operations.FunctionCall, ParserState.getCurrentSymbol, hn j hj, bind,
    Except.bind, match_ok hend (by decide : TokenType.closeParen ≠ .identifier)]
  rfl

theorem functionCall_fails_at_eof (p : FunctionParser) {s t : ParserState}
    {es : List Statement} (h : ArgumentList p s es t) (hend : t.isEOF = true) :
    Fails p.parseFunctionCall s (.expected .closeParen) := by
  obtain ⟨n, hn⟩ := callLoop_of_arguments p h (Or.inl hend) (.FunctionCall s.currentSymbol) []
  refine ⟨n + 1, fun m hm => ?_⟩
  obtain ⟨j, rfl, hj⟩ := exists_succ_of_lt hm
  have hne : t.currentType ≠ .closeParen := by
    rw [isEOF_iff.mp hend]; decide
  rw [parseFunctionCall]
  simp only [Operations.FunctionCall, ParserState.getCurrentSymbol, hn j hj, bind,
    Except.bind, match_fail hne]

theorem statement_of_if (p : FunctionParser) (n : Nat) {s : ParserState}
    (h : s.currentType = .if_) :
    p.parseStatement (n + 1) s = p.parseIfStatement n s.skip := by
  rw [parseStatement, matchIf_of_ne (by rw [h]; decide)]
  dsimp only
  rw [matchIf_of_eq h]

theorem statement_of_return (p : FunctionParser) (n : Nat) {s : ParserState}
    (h : s.currentType = .return_) :
    p.parseStatement (n + 1) s =
      (p.parseReturnStatement n s.skip >>= fun r =>
        r.2.match_ .semicolon >>= fun s2 => pure (r.1, s2)) := by
  rw [parseStatement, matchIf_of_ne (by rw [h]; decide)]
  dsimp only
  rw [matchIf_of_ne (by rw [h]; decide)]
  dsimp only
  rw [matchIf_of_ne (by rw [h]; decide)]
  dsimp only
  rw [matchIf_of_eq h]

theorem expression_fails_of_not_start (p : FunctionParser) (n : Nat) {s : ParserState}
    (h : startsExpression s.currentType = false) :
    p.parseExpression (n + 10) s = .error (.syntaxError (.message "Parsing error")) := by
  have hn : s.currentType ≠ .logicalNot := by
    intro e; rw [e] at h; simp [startsExpression] at h
  have hp : s.currentType ≠ .openParen := by
    intro e; rw [e] at h; simp [startsExpression] at h
  have h1 : s.currentType ≠ .true_ := by
    intro e; rw [e] at h; simp [startsExpression] at h
  have h2 : s.currentType ≠ .false_ := by
    intro e; rw [e] at h; simp [startsExpression] at h
  have h3 : ¬(s.currentType = .identifier ∨ s.currentType = .literal ∨
      s.currentType = .minus ∨ s.currentType = .plusplus ∨ s.currentType = .minusminus) := by
    intro e
    rcases e with e | e | e | e | e <;> rw [e] at h <;> simp [startsExpression] at h
  rw [parseExpression, parseTernaryOperator, parseBool, matchIf_of_ne hn]
  dsimp only
  rw [parseLogicOperation, parseComparation, parseSum, parseDifference, parseProduct,
    parseTerm, matchIf_of_ne hp]
  dsimp only
  rw [parseUnary, if_neg h3, matchIf_of_ne h1]
  dsimp only
  rw [matchIf_of_ne h2]
  dsimp only
  rw [if_neg hn]
  rfl

theorem matchIfAssignmentType_of_true {s : ParserState}
    (h : ParserState.isAssignmentType s.currentType = true) :
    s.matchIfAssignmentType =
      (true, { s.skip with currentAssignmentType := s.currentType }) := by
  simp [ParserState.matchIfAssignmentType, h]

theorem matchIfAssignmentType_of_false {s : ParserState}
    (h : ParserState.isAssignmentType s.currentType = false) :
    s.matchIfAssignmentType = (false, s) := by
  simp [ParserState.matchIfAssignmentType, h]

theorem parses_assignment_starts (p : FunctionParser) {s t : ParserState} {x : Statement}
    (h : Parses p.parseAssignment s x t) : startsExpression s.currentType = true := by
  obtain ⟨n, hn⟩ := h
  exact assignment_starts p (hn n (le_refl n))

/-! ## The statement parser and the remaining expression forms: properties -/

/-- C11: a cast applies to the single following term. When `(` is followed
by a type token for the type `T` and by `)`, and parseTerm parses the term
behind the `)` to `e`, then parseTerm returns `Cast(T, e)` and leaves the
state that the term `e` leaves, so that a binary operator behind `e` takes
the cast as its left operand. When the token behind the type token is not
`)`, parseTerm raises a syntax error. -/
theorem parseTerm_cast_takes_one_term (p : FunctionParser) :
    (∀ (s t : ParserState) (T : Types.ID) (e : Statement),
      s.currentType = .openParen →
      ParserState.typeOfToken s.skip.currentType = some T →
      s.skip.skip.currentType = .closeParen →
      Parses p.parseTerm { s.skip.skip.skip with currentHnodeType := T } e t →
      Parses p.parseTerm s (Operations.Cast e T) t) ∧
    (∀ (n : Nat) (s : ParserState) (T : Types.ID),
      s.currentType = .openParen →
      ParserState.typeOfToken s.skip.currentType = some T →
      s.skip.skip.currentType ≠ .closeParen →
      p.parseTerm (n + 2) s = .error (.syntaxError (.expected .closeParen))) := by
  constructor
  · intro s t T e h1 h2 h3 he
    obtain ⟨n, hn⟩ := he
    refine ⟨n + 2, fun m hm => ?_⟩
    obtain ⟨k, rfl, hk⟩ := exists_add_two hm
    rw [parseTerm, matchIf_of_eq h1]
    dsimp only
    rw [matchIfTypeToken_of_some h2]
    dsimp only
    have h3b : ({ s.skip.skip with currentHnodeType := T } : ParserState).currentType =
        .closeParen := h3
    rw [parseCast, match_ok h3b (by decide)]
    have hk2 := hn k hk
    simp only [ParserState.skip] at hk2 ⊢
    simp [bind, Except.bind, pure, Except.pure, hk2]
  · intro n s T h1 h2 h3
    rw [parseTerm, matchIf_of_eq h1]
    dsimp only
    rw [matchIfTypeToken_of_some h2]
    dsimp only
    have h3b : ({ s.skip.skip with currentHnodeType := T } : ParserState).currentType ≠
        .closeParen := h3
    rw [parseCast, match_fail h3b]
    rfl

/-- Witness of C11 on the tokens `(int)x + 1`: the cast is the left operand
of the sum, it does not contain the sum; and on the tokens `(int x`. -/
theorem parseTerm_cast_takes_one_term_witness :
    Parses Examples.knowsAll.parseTerm
      (.init [.op .openParen, .op .int_, .op .closeParen, .ident "x", .op .plus,
        .lit (.Integer 1)])
      (Operations.Cast (Examples.var "x") .Integer)
      ⟨[.op .plus, .lit (.Integer 1)], ⟨"x", false⟩, .Integer, .assign_⟩ ∧
    Examples.knowsAll.parseExpression 14
      (.init [.op .openParen, .op .int_, .op .closeParen, .ident "x", .op .plus,
        .lit (.Integer 1)]) =
      .ok (Operations.BinaryOp (Operations.Cast (Examples.var "x") .Integer)
        (Examples.int 1) .plus, ⟨[], ⟨"x", false⟩, .Integer, .assign_⟩) ∧
    Operations.BinaryOp (Operations.Cast (Examples.var "x") .Integer) (Examples.int 1) .plus ≠
      Operations.Cast (Operations.BinaryOp (Examples.var "x") (Examples.int 1) .plus)
        .Integer ∧
    Examples.knowsAll.parseTerm 2 (.init [.op .openParen, .op .int_, .ident "x"]) =
      .error (.syntaxError (.expected .closeParen)) :=
  ⟨(parseTerm_cast_takes_one_term Examples.knowsAll).1
      (.init [.op .openParen, .op .int_, .op .closeParen, .ident "x", .op .plus,
        .lit (.Integer 1)])
      ⟨[.op .plus, .lit (.Integer 1)], ⟨"x", false⟩, .Integer, .assign_⟩
      .Integer (Examples.var "x") (by decide) (by decide) (by decide)
      (parses_term Examples.knowsAll (by decide : Examples.knowsAll.parseTerm 4 _ = _)),
   by decide, by decide,
   (parseTerm_cast_takes_one_term Examples.knowsAll).2 0
      (.init [.op .openParen, .op .int_, .ident "x"]) .Integer
      (by decide) (by decide) (by decide)⟩

/-- C12: the loop statement. On the tokens `for ( auto & id :` followed by an
expression that parseExpression parses to `e`, by `)` and by a statement that
parseStatement parses to `body`, parseStatement returns the BlockLoop node
with the iteration symbol `id`, the iterable `e` and the body `body`, and it
leaves the state that the body leaves: no further token is consumed. -/
theorem parseStatement_loop (p : FunctionParser) (s u t : ParserState)
    (t1 t2 t3 t4 tid t6 : Token) (rest : List Token) (e body : Statement)
    (hs : s.tokens = t1 :: t2 :: t3 :: t4 :: tid :: t6 :: rest)
    (h1 : t1.type = .for_) (h2 : t2.type = .openParen) (h3 : t3.type = .auto_)
    (h4 : t4.type = .bitwiseAnd) (hid : tid.type = .identifier) (h6 : t6.type = .colon)
    (he : Parses p.parseExpression
      { s with tokens := rest, currentSymbol := ⟨tid.text, false⟩ } e u)
    (hu : u.currentType = .closeParen)
    (hb : Parses p.parseStatement u.skip body t) :
    Parses p.parseStatement s (Operations.BlockLoop ⟨tid.text, false⟩ e body) t := by
  obtain ⟨ne, hne⟩ := he
  obtain ⟨nb, hnb⟩ := hb
  refine ⟨max ne nb + 2, fun m hm => ?_⟩
  obtain ⟨k, rfl, hk⟩ := exists_add_two hm
  have hke : ne ≤ k := le_trans (le_max_left _ _) hk
  have hkb : nb ≤ k := le_trans (le_max_right _ _) hk
  obtain ⟨tokens, sym, ty, at_⟩ := s
  simp only at hs
  subst hs
  have hE := hne k hke
  have hB := hnb k hkb
  obtain ⟨utokens, usym, uty, uat⟩ := u
  cases utokens with
  | nil => simp [ParserState.currentType] at hu
  | cons ut ur =>
    have hut : ut.type = .closeParen := by simpa [ParserState.currentType] using hu
    simp only [ParserState.skip, List.tail_cons] at hB
    rw [parseStatement]
    simp only [ParserState.matchIf, ParserState.currentType, ParserState.skip, h1,
      List.tail_cons, reduceCtorEq, if_false, if_true]
    rw [parseLoopStatement]
    simp only [ParserState.match_, ParserState.currentType, ParserState.skip,
      ParserState.symbolBehind, ParserState.getCurrentSymbol, h1, h2, h3, h4, hid, h6, hut,
      List.tail_cons, reduceCtorEq, if_false, if_true, bind, Except.bind, hE, hB]
    rfl

/-- Witness of C12 on the tokens `for (auto &i : buffer) { x = x + i; }`: a
loop over `buffer` with the symbol `i` whose body is a block with exactly one
child, an Assignment. -/
theorem parseStatement_loop_witness :
    Parses Examples.knowsAll.parseStatement (.init Examples.loopTokens)
      (Operations.BlockLoop ⟨"i", false⟩ (Examples.var "buffer")
        (Operations.StatementBlock
          [Operations.Assignment (Examples.var "x") .assign_
            (Operations.BinaryOp (Examples.var "x") (Examples.var "i") .plus)]))
      (Examples.after "i" []) :=
  parseStatement_loop Examples.knowsAll (.init Examples.loopTokens)
    (Examples.after "buffer" (Examples.loopTokens.drop 7)) (Examples.after "i" [])
    (.op .for_) (.op .openParen) (.op .auto_) (.op .bitwiseAnd) (.ident "i") (.op .colon)
    (Examples.loopTokens.drop 6)
    (Examples.var "buffer")
    (Operations.StatementBlock
      [Operations.Assignment (Examples.var "x") .assign_
        (Operations.BinaryOp (Examples.var "x") (Examples.var "i") .plus)])
    rfl rfl rfl rfl rfl rfl rfl
    (parses_expression Examples.knowsAll
      (by decide : Examples.knowsAll.parseExpression 12 _ = _))
    (by decide)
    (parses_statement Examples.knowsAll
      (by decide : Examples.knowsAll.parseStatement 20 _ = _))

/-- C13: a malformed loop header is rejected. parseLoopStatement, which
starts behind `for`, raises a syntax error and returns no node when the
current token is not `(`, when the token behind `(` is not `auto`, when the
next is not `&`, when the next is not an identifier, when the next is not
`:`, and when the iterable expression is not followed by `)`. -/
theorem parseLoopStatement_rejects_malformed_header (p : FunctionParser) (n : Nat)
    (s : ParserState) :
    (s.currentType ≠ .openParen →
      p.parseLoopStatement (n + 1) s = .error (.syntaxError (.expected .openParen))) ∧
    (∀ s1, s.match_ .openParen = .ok s1 → s1.currentType ≠ .auto_ →
      p.parseLoopStatement (n + 1) s = .error (.syntaxError (.expected .auto_))) ∧
    (∀ s1 s2, s.match_ .openParen = .ok s1 → s1.match_ .auto_ = .ok s2 →
      s2.currentType ≠ .bitwiseAnd →
      p.parseLoopStatement (n + 1) s = .error (.syntaxError (.expected .bitwiseAnd))) ∧
    (∀ s1 s2 s3, s.match_ .openParen = .ok s1 → s1.match_ .auto_ = .ok s2 →
      s2.match_ .bitwiseAnd = .ok s3 → s3.currentType ≠ .identifier →
      p.parseLoopStatement (n + 1) s = .error (.syntaxError (.expected .identifier))) ∧
    (∀ s1 s2 s3 s4, s.match_ .openParen = .ok s1 → s1.match_ .auto_ = .ok s2 →
      s2.match_ .bitwiseAnd = .ok s3 → s3.match_ .identifier = .ok s4 →
      s4.currentType ≠ .colon →
      p.parseLoopStatement (n + 1) s = .error (.syntaxError (.expected .colon))) ∧
    (∀ s1 s2 s3 s4 s5 e u, s.match_ .openParen = .ok s1 → s1.match_ .auto_ = .ok s2 →
      s2.match_ .bitwiseAnd = .ok s3 → s3.match_ .identifier = .ok s4 →
      s4.match_ .colon = .ok s5 → p.parseExpression n s5 = .ok (e, u) →
      u.currentType ≠ .closeParen →
      p.parseLoopStatement (n + 1) s = .error (.syntaxError (.expected .closeParen))) := by
  refine ⟨?_, ?_, ?_, ?_, ?_, ?_⟩
  · intro h
    rw [parseLoopStatement, match_fail h]
    rfl
  · intro s1 h1 h
    rw [parseLoopStatement, h1]
    simp only [bind, Except.bind, match_fail h]
  · intro s1 s2 h1 h2 h
    rw [parseLoopStatement, h1]
    simp only [bind, Except.bind, h2, match_fail h]
  · intro s1 s2 s3 h1 h2 h3 h
    rw [parseLoopStatement, h1]
    simp only [bind, Except.bind, h2, h3, match_fail h]
  · intro s1 s2 s3 s4 h1 h2 h3 h4 h
    rw [parseLoopStatement, h1]
    simp only [bind, Except.bind, h2, h3, h4, match_fail h]
  · intro s1 s2 s3 s4 s5 e u h1 h2 h3 h4 h5 he h
    rw [parseLoopStatement, h1]
    simp only [bind, Except.bind, h2, h3, h4, h5, he, match_fail h]

/-- Witness of C13 on the tokens `for (int i : b) x;` and
`for (auto i : b) x;`, behind the `for` and through parseStatement. -/
theorem parseLoopStatement_rejects_malformed_header_witness :
    Examples.knowsAll.parseLoopStatement 1
        (.init [.op .openParen, .op .int_, .ident "i", .op .colon, .ident "b",
          .op .closeParen, .ident "x", .op .semicolon]) =
      .error (.syntaxError (.expected .auto_)) ∧
    Examples.knowsAll.parseLoopStatement 1
        (.init [.op .openParen, .op .auto_, .ident "i", .op .colon, .ident "b",
          .op .closeParen, .ident "x", .op .semicolon]) =
      .error (.syntaxError (.expected .bitwiseAnd)) ∧
    Examples.knowsAll.parseStatement 30
        (.init [.op .for_, .op .openParen, .op .int_, .ident "i", .op .colon, .ident "b",
          .op .closeParen, .ident "x", .op .semicolon]) =
      .error (.syntaxError (.expected .auto_)) ∧
    Examples.knowsAll.parseStatement 30
        (.init [.op .for_, .op .openParen, .op .auto_, .ident "i", .op .colon, .ident "b",
          .op .closeParen, .ident "x", .op .semicolon]) =
      .error (.syntaxError (.expected .bitwiseAnd)) :=
  ⟨(parseLoopStatement_rejects_malformed_header Examples.knowsAll 0
      (.init [.op .openParen, .op .int_, .ident "i", .op .colon, .ident "b",
        .op .closeParen, .ident "x", .op .semicolon])).2.1
      (.init [.op .int_, .ident "i", .op .colon, .ident "b",
        .op .closeParen, .ident "x", .op .semicolon]) (by decide) (by decide),
   (parseLoopStatement_rejects_malformed_header Examples.knowsAll 0
      (.init [.op .openParen, .op .auto_, .ident "i", .op .colon, .ident "b",
        .op .closeParen, .ident "x", .op .semicolon])).2.2.1
      (.init [.op .auto_, .ident "i", .op .colon, .ident "b",
        .op .closeParen, .ident "x", .op .semicolon])
      (.init [.ident "i", .op .colon, .ident "b",
        .op .closeParen, .ident "x", .op .semicolon]) (by decide) (by decide) (by decide),
   by decide, by decide⟩

/-- C14: the children of a block. When the tokens behind the opening brace
are `n` statements that parseStatement parses to `x1 .. xn`, followed by
`}`, parseStatementBlock returns the StatementBlock whose children are
exactly `x1 .. xn` in source order and consumes the closing brace; with no
statement (`{}`) the block has no children. -/
theorem parseStatementBlock_children (p : FunctionParser) (s t : ParserState)
    (xs : List Statement) (h : StatementSeq p s xs t)
    (hend : t.currentType = .closeBrace) :
    Parses p.parseStatementBlock s (Operations.StatementBlock xs) t.skip ∧
      (Operations.StatementBlock xs).kind = .StatementBlock ∧
      (Operations.StatementBlock xs).childStatements = xs :=
  ⟨block_of_seq p h hend, rfl, rfl⟩

/-- Witness of C14 on the tokens `}` (the block `{}`) and on the tokens
`x = 1; return x; }`. -/
theorem parseStatementBlock_children_witness :
    Parses Examples.knowsAll.parseStatementBlock (.init [.op .closeBrace])
      (Operations.StatementBlock []) (.init []) ∧
    Parses Examples.knowsAll.parseStatementBlock
      (.init [.ident "x", .op .assign_, .lit (.Integer 1), .op .semicolon,
        .op .return_, .ident "x", .op .semicolon, .op .closeBrace])
      (Operations.StatementBlock
        [Operations.Assignment (Examples.var "x") .assign_ (Examples.int 1),
         Operations.ReturnStatement (some (Examples.var "x"))])
      (Examples.after "x" []) :=
  ⟨(parseStatementBlock_children Examples.knowsAll (.init [.op .closeBrace])
      (.init [.op .closeBrace]) [] .nil (by decide)).1,
   (parseStatementBlock_children Examples.knowsAll
      (.init [.ident "x", .op .assign_, .lit (.Integer 1), .op .semicolon,
        .op .return_, .ident "x", .op .semicolon, .op .closeBrace])
      (Examples.after "x" [.op .closeBrace])
      [Operations.Assignment (Examples.var "x") .assign_ (Examples.int 1),
       Operations.ReturnStatement (some (Examples.var "x"))]
      (.cons (u := Examples.after "x" [.op .return_, .ident "x", .op .semicolon,
          .op .closeBrace])
        (parses_statement Examples.knowsAll
          (by decide : Examples.knowsAll.parseStatement 14 _ = _))
        (.cons (u := Examples.after "x" [.op .closeBrace])
          (parses_statement Examples.knowsAll
            (by decide : Examples.knowsAll.parseStatement 14 _ = _))
          .nil))
      (by decide)).1⟩

/-- C15: the arguments of a call. When a symbol `f` is followed by `(`, by
`n` expressions that parseExpression parses to `e1 .. en`, each followed by
a comma that is consumed when it is there, and by `)`, parseSymbolOrLiteral
returns the FunctionCall node on `f` whose children are exactly `e1 .. en`
in source order; with no expression (`f()`) the call has no argument, and a
comma before the `)` adds none. -/
theorem parseSymbolOrLiteral_functionCall (p : FunctionParser) (s t : ParserState)
    (tf tp : Token) (rest : List Token) (es : List Statement)
    (hs : s.tokens = tf :: tp :: rest) (hf : tf.type = .identifier)
    (hsym : p.isSymbol tf.text = true) (hp : tp.type = .openParen)
    (hargs : ArgumentList p
      { s with tokens := rest, currentSymbol := ⟨tf.text, false⟩ } es t)
    (hend : t.currentType = .closeParen) :
    Parses p.parseSymbolOrLiteral s (.node (.FunctionCall ⟨tf.text, false⟩) es) t.skip := by
  obtain ⟨n, hn⟩ := functionCall_of_arguments p hargs hend
  refine ⟨n + 1, fun m hm => ?_⟩
  obtain ⟨j, rfl, hj⟩ := exists_succ_of_lt hm
  obtain ⟨tokens, sym, ty, at_⟩ := s
  simp only at hs
  subst hs
  have hcall := hn j hj
  rw [parseSymbolOrLiteral]
  simp only [matchIfSymbol, hf, hsym, and_self, if_true, ParserState.skip, List.tail_cons,
    ParserState.matchIf, ParserState.currentType, hp]
  exact hcall

/-- Witness of C15 on the tokens `f()` and `f(a, b,)`. -/
theorem parseSymbolOrLiteral_functionCall_witness :
    Parses Examples.knowsAll.parseSymbolOrLiteral
      (.init [.ident "f", .op .openParen, .op .closeParen])
      (.node (.FunctionCall ⟨"f", false⟩) []) (Examples.after "f" []) ∧
    Parses Examples.knowsAll.parseSymbolOrLiteral
      (.init [.ident "f", .op .openParen, .ident "a", .op .comma, .ident "b", .op .comma,
        .op .closeParen])
      (.node (.FunctionCall ⟨"f", false⟩) [Examples.var "a", Examples.var "b"])
      (Examples.after "b" []) :=
  ⟨parseSymbolOrLiteral_functionCall Examples.knowsAll
      (.init [.ident "f", .op .openParen, .op .closeParen])
      (Examples.after "f" [.op .closeParen])
      (.ident "f") (.op .openParen) [.op .closeParen] [] rfl rfl rfl rfl .nil (by decide),
   parseSymbolOrLiteral_functionCall Examples.knowsAll
      (.init [.ident "f", .op .openParen, .ident "a", .op .comma, .ident "b", .op .comma,
        .op .closeParen])
      (Examples.after "b" [.op .closeParen])
      (.ident "f") (.op .openParen)
      [.ident "a", .op .comma, .ident "b", .op .comma, .op .closeParen]
      [Examples.var "a", Examples.var "b"] rfl rfl rfl rfl
      (.cons (u := Examples.after "a" [.op .comma, .ident "b", .op .comma, .op .closeParen])
        (parses_expression Examples.knowsAll
          (by decide : Examples.knowsAll.parseExpression 13 _ = _))
        (.cons (u := Examples.after "b" [.op .comma, .op .closeParen])
          (parses_expression Examples.knowsAll
            (by decide : Examples.knowsAll.parseExpression 13 _ = _))
          .nil))
      (by decide)⟩

/-- C16: the if statement. On `if ( c ) s1 else s2`, with the condition
parsed by parseBool to `c` and the statements parsed by parseStatement to
`x` and `y`, parseStatement returns the IfStatement with condition `c`, true
branch `x` and false branch `y`. On `if ( c ) s1` with a next token that is
not `else` it returns the IfStatement without a false branch and leaves the
state that `s1` leaves. Behind `if`, a token that is not `(`, and a token
behind the condition that is not `)`, raise a syntax error. -/
theorem parseStatement_if (p : FunctionParser) :
    (∀ (s s1 s2 s3 : ParserState) (c x y : Statement),
      s.currentType = .if_ → s.skip.currentType = .openParen →
      Parses p.parseBool s.skip.skip c s1 → s1.currentType = .closeParen →
      Parses p.parseStatement s1.skip x s2 → s2.currentType = .else_ →
      Parses p.parseStatement s2.skip y s3 →
      Parses p.parseStatement s (Operations.IfStatement c x (some y)) s3 ∧
        Operations.getTrueBranch (Operations.IfStatement c x (some y)) = some x ∧
        Operations.getFalseBranch (Operations.IfStatement c x (some y)) = some y) ∧
    (∀ (s s1 s2 : ParserState) (c x : Statement),
      s.currentType = .if_ → s.skip.currentType = .openParen →
      Parses p.parseBool s.skip.skip c s1 → s1.currentType = .closeParen →
      Parses p.parseStatement s1.skip x s2 → s2.currentType ≠ .else_ →
      Parses p.parseStatement s (Operations.IfStatement c x none) s2 ∧
        Operations.hasFalseBranch (Operations.IfStatement c x none) = false) ∧
    (∀ (n : Nat) (s : ParserState), s.currentType ≠ .openParen →
      p.parseIfStatement (n + 1) s = .error (.syntaxError (.expected .openParen))) ∧
    (∀ (n : Nat) (s s1 : ParserState) (c : Statement), s.currentType = .openParen →
      p.parseBool n s.skip = .ok (c, s1) → s1.currentType ≠ .closeParen →
      p.parseIfStatement (n + 1) s = .error (.syntaxError (.expected .closeParen))) := by
  refine ⟨?_, ?_, ?_, ?_⟩
  · intro s s1 s2 s3 c x y hif hop hc hcl hx hel hy
    refine ⟨?_, rfl, rfl⟩
    obtain ⟨nc, hnc⟩ := hc
    obtain ⟨nx, hnx⟩ := hx
    obtain ⟨ny, hny⟩ := hy
    refine ⟨max nc (max nx ny) + 2, fun m hm => ?_⟩
    obtain ⟨k, rfl, hk⟩ := exists_add_two hm
    have hkc : nc ≤ k := le_trans (le_max_left _ _) hk
    have hkx : nx ≤ k := le_trans (le_trans (le_max_left _ _) (le_max_right _ _)) hk
    have hky : ny ≤ k := le_trans (le_trans (le_max_right _ _) (le_max_right _ _)) hk
    rw [statement_of_if p (k + 1) hif, parseIfStatement,
      match_ok hop (by decide : TokenType.openParen ≠ .identifier)]
    simp only [bind, Except.bind, hnc k hkc,
      match_ok hcl (by decide : TokenType.closeParen ≠ .identifier), hnx k hkx,
      matchIf_of_eq hel, hny k hky]
    rfl
  · intro s s1 s2 c x hif hop hc hcl hx hel
    refine ⟨?_, rfl⟩
    obtain ⟨nc, hnc⟩ := hc
    obtain ⟨nx, hnx⟩ := hx
    refine ⟨max nc nx + 2, fun m hm => ?_⟩
    obtain ⟨k, rfl, hk⟩ := exists_add_two hm
    have hkc : nc ≤ k := le_trans (le_max_left _ _) hk
    have hkx : nx ≤ k := le_trans (le_max_right _ _) hk
    rw [statement_of_if p (k + 1) hif, parseIfStatement,
      match_ok hop (by decide : TokenType.openParen ≠ .identifier)]
    simp only [bind, Except.bind, hnc k hkc,
      match_ok hcl (by decide : TokenType.closeParen ≠ .identifier), hnx k hkx,
      matchIf_of_ne hel]
    rfl
  · intro n s h
    rw [parseIfStatement, match_fail h]
    rfl
  · intro n s s1 c hop hc hcl
    rw [parseIfStatement, match_ok hop (by decide : TokenType.openParen ≠ .identifier)]
    simp only [bind, Except.bind, hc, match_fail hcl]

/-- Witness of C16 on the tokens `if (c) x = 1; else x = 2;` and
`if (c) x = 1; y = 2;`. -/
theorem parseStatement_if_witness :
    Parses Examples.knowsAll.parseStatement
      (.init [.op .if_, .op .openParen, .ident "c", .op .closeParen,
        .ident "x", .op .assign_, .lit (.Integer 1), .op .semicolon, .op .else_,
        .ident "x", .op .assign_, .lit (.Integer 2), .op .semicolon])
      (Operations.IfStatement (Examples.var "c")
        (Operations.Assignment (Examples.var "x") .assign_ (Examples.int 1))
        (some (Operations.Assignment (Examples.var "x") .assign_ (Examples.int 2))))
      (Examples.after "x" []) ∧
    Parses Examples.knowsAll.parseStatement
      (.init [.op .if_, .op .openParen, .ident "c", .op .closeParen,
        .ident "x", .op .assign_, .lit (.Integer 1), .op .semicolon,
        .ident "y", .op .assign_, .lit (.Integer 2), .op .semicolon])
      (Operations.IfStatement (Examples.var "c")
        (Operations.Assignment (Examples.var "x") .assign_ (Examples.int 1)) none)
      (Examples.after "x" [.ident "y", .op .assign_, .lit (.Integer 2), .op .semicolon]) :=
  ⟨((parseStatement_if Examples.knowsAll).1
      (.init [.op .if_, .op .openParen, .ident "c", .op .closeParen,
        .ident "x", .op .assign_, .lit (.Integer 1), .op .semicolon, .op .else_,
        .ident "x", .op .assign_, .lit (.Integer 2), .op .semicolon])
      (Examples.after "c" [.op .closeParen,
        .ident "x", .op .assign_, .lit (.Integer 1), .op .semicolon, .op .else_,
        .ident "x", .op .assign_, .lit (.Integer 2), .op .semicolon])
      (Examples.after "x" [.op .else_,
        .ident "x", .op .assign_, .lit (.Integer 2), .op .semicolon])
      (Examples.after "x" [])
      (Examples.var "c")
      (Operations.Assignment (Examples.var "x") .assign_ (Examples.int 1))
      (Operations.Assignment (Examples.var "x") .assign_ (Examples.int 2))
      (by decide) (by decide)
      (parses_bool Examples.knowsAll (by decide : Examples.knowsAll.parseBool 11 _ = _))
      (by decide)
      (parses_statement Examples.knowsAll
        (by decide : Examples.knowsAll.parseStatement 14 _ = _))
      (by decide)
      (parses_statement Examples.knowsAll
        (by decide : Examples.knowsAll.parseStatement 14 _ = _))).1,
   ((parseStatement_if Examples.knowsAll).2.1
      (.init [.op .if_, .op .openParen, .ident "c", .op .closeParen,
        .ident "x", .op .assign_, .lit (.Integer 1), .op .semicolon,
        .ident "y", .op .assign_, .lit (.Integer 2), .op .semicolon])
      (Examples.after "c" [.op .closeParen,
        .ident "x", .op .assign_, .lit (.Integer 1), .op .semicolon,
        .ident "y", .op .assign_, .lit (.Integer 2), .op .semicolon])
      (Examples.after "x" [.ident "y", .op .assign_, .lit (.Integer 2), .op .semicolon])
      (Examples.var "c")
      (Operations.Assignment (Examples.var "x") .assign_ (Examples.int 1))
      (by decide) (by decide)
      (parses_bool Examples.knowsAll (by decide : Examples.knowsAll.parseBool 11 _ = _))
      (by decide)
      (parses_statement Examples.knowsAll
        (by decide : Examples.knowsAll.parseStatement 14 _ = _))
      (by decide)).1⟩

/-- C17: end of input before the closing token. When the statements behind
an opening brace reach the end of input, parseStatementBlock raises the
syntax error of the missing `}`; when the arguments of a call reach the end
of input, parseFunctionCall raises the syntax error of the missing `)`. No
node is returned. -/
theorem eof_before_closing_token (p : FunctionParser) :
    (∀ (s t : ParserState) (xs : List Statement),
      StatementSeq p s xs t → t.isEOF = true →
      Fails p.parseStatementBlock s (.expected .closeBrace)) ∧
    (∀ (s t : ParserState) (es : List Statement),
      ArgumentList p s es t → t.isEOF = true →
      Fails p.parseFunctionCall s (.expected .closeParen)) :=
  ⟨fun _ _ _ h hend => block_fails_at_eof p h hend,
   fun _ _ _ h hend => functionCall_fails_at_eof p h hend⟩

/-- Witness of C17 on the tokens `x = 1;` behind an opening brace and on the
tokens `a,` behind the opening parenthesis of a call. -/
theorem eof_before_closing_token_witness :
    Fails Examples.knowsAll.parseStatementBlock
      (.init [.ident "x", .op .assign_, .lit (.Integer 1), .op .semicolon])
      (.expected .closeBrace) ∧
    Fails Examples.knowsAll.parseFunctionCall
      (Examples.after "f" [.ident "a", .op .comma]) (.expected .closeParen) ∧
    Examples.knowsAll.parseStatement 30
      (.init [.op .openBrace, .ident "x", .op .assign_, .lit (.Integer 1), .op .semicolon]) =
      .error (.syntaxError (.expected .closeBrace)) :=
  ⟨(eof_before_closing_token Examples.knowsAll).1
      (.init [.ident "x", .op .assign_, .lit (.Integer 1), .op .semicolon])
      (Examples.after "x" [])
      [Operations.Assignment (Examples.var "x") .assign_ (Examples.int 1)]
      (.cons (u := Examples.after "x" [])
        (parses_statement Examples.knowsAll
          (by decide : Examples.knowsAll.parseStatement 14 _ = _))
        .nil)
      (by decide),
   (eof_before_closing_token Examples.knowsAll).2
      (Examples.after "f" [.ident "a", .op .comma])
      (Examples.after "a" [])
      [Examples.var "a"]
      (.cons (u := Examples.after "a" [.op .comma])
        (parses_expression Examples.knowsAll
          (by decide : Examples.knowsAll.parseExpression 13 _ = _))
        .nil)
      (by decide),
   by decide⟩

/-- C18: the return statement. On `return ;` parseStatement returns the
ReturnStatement without a value and consumes both tokens. On `return E ;`,
with `E` parsed by parseExpression to `e`, it returns the ReturnStatement
with the value `e`. When the token behind `E` is not `;`, and when the token
behind `return` is neither `;` nor the start of an expression, it raises a
syntax error. -/
theorem parseStatement_return (p : FunctionParser) :
    (∀ (n : Nat) (s : ParserState), s.currentType = .return_ →
      s.skip.currentType = .semicolon →
      p.parseStatement (n + 2) s = .ok (Operations.ReturnStatement none, s.skip.skip)) ∧
    (∀ (s u : ParserState) (e : Statement), s.currentType = .return_ →
      Parses p.parseExpression s.skip e u → u.currentType = .semicolon →
      Parses p.parseStatement s (Operations.ReturnStatement (some e)) u.skip) ∧
    (∀ (s u : ParserState) (e : Statement), s.currentType = .return_ →
      Parses p.parseExpression s.skip e u → u.currentType ≠ .semicolon →
      Fails p.parseStatement s (.expected .semicolon)) ∧
    (∀ (s : ParserState), s.currentType = .return_ →
      s.skip.currentType ≠ .semicolon → startsExpression s.skip.currentType = false →
      Fails p.parseStatement s (.message "Parsing error")) := by
  refine ⟨?_, ?_, ?_, ?_⟩
  · intro n s hr hsemi
    rw [statement_of_return p (n + 1) hr, parseReturnStatement, if_pos hsemi]
    simp only [bind, Except.bind, pure, Except.pure,
      match_ok hsemi (by decide : TokenType.semicolon ≠ .identifier)]
  · intro s u e hr he hsemi
    have hns := (dispatch_of_starts (parses_starts p he)).2.2.2.2.2.2.2.2.2
    obtain ⟨n, hn⟩ := he
    refine ⟨n + 2, fun m hm => ?_⟩
    obtain ⟨k, rfl, hk⟩ := exists_add_two hm
    rw [statement_of_return p (k + 1) hr, parseReturnStatement, if_neg hns]
    simp only [bind, Except.bind, pure, Except.pure, hn k hk,
      match_ok hsemi (by decide : TokenType.semicolon ≠ .identifier)]
  · intro s u e hr he hsemi
    have hns := (dispatch_of_starts (parses_starts p he)).2.2.2.2.2.2.2.2.2
    obtain ⟨n, hn⟩ := he
    refine ⟨n + 2, fun m hm => ?_⟩
    obtain ⟨k, rfl, hk⟩ := exists_add_two hm
    rw [statement_of_return p (k + 1) hr, parseReturnStatement, if_neg hns]
    simp only [bind, Except.bind, pure, Except.pure, hn k hk, match_fail hsemi]
  · intro s hr hns hst
    refine ⟨12, fun m hm => ?_⟩
    obtain ⟨k, rfl⟩ : ∃ k, m = k + 12 := ⟨m - 12, by omega⟩
    rw [statement_of_return p (k + 11) hr, parseReturnStatement, if_neg hns,
      expression_fails_of_not_start p k hst]
    rfl

/-- Witness of C18 on the tokens `return ;`, `return x + 1;`, `return x }`
and `return }`. -/
theorem parseStatement_return_witness :
    Examples.knowsAll.parseStatement 2 (.init [.op .return_, .op .semicolon]) =
      .ok (Operations.ReturnStatement none, .init []) ∧
    Parses Examples.knowsAll.parseStatement
      (.init [.op .return_, .ident "x", .op .plus, .lit (.Integer 1), .op .semicolon])
      (Operations.ReturnStatement
        (some (Operations.BinaryOp (Examples.var "x") (Examples.int 1) .plus)))
      (Examples.after "x" []) ∧
    Fails Examples.knowsAll.parseStatement
      (.init [.op .return_, .ident "x", .op .closeBrace]) (.expected .semicolon) ∧
    Fails Examples.knowsAll.parseStatement
      (.init [.op .return_, .op .closeBrace]) (.message "Parsing error") :=
  ⟨(parseStatement_return Examples.knowsAll).1 0
      (.init [.op .return_, .op .semicolon]) (by decide) (by decide),
   (parseStatement_return Examples.knowsAll).2.1
      (.init [.op .return_, .ident "x", .op .plus, .lit (.Integer 1), .op .semicolon])
      (Examples.after "x" [.op .semicolon])
      (Operations.BinaryOp (Examples.var "x") (Examples.int 1) .plus)
      (by decide)
      (parses_expression Examples.knowsAll
        (by decide : Examples.knowsAll.parseExpression 14 _ = _))
      (by decide),
   (parseStatement_return Examples.knowsAll).2.2.1
      (.init [.op .return_, .ident "x", .op .closeBrace])
      (Examples.after "x" [.op .closeBrace])
      (Examples.var "x")
      (by decide)
      (parses_expression Examples.knowsAll
        (by decide : Examples.knowsAll.parseExpression 14 _ = _))
      (by decide),
   (parseStatement_return Examples.knowsAll).2.2.2
      (.init [.op .return_, .op .closeBrace]) (by decide) (by decide) (by decide)⟩

/-- C20: parseAssignment parses one expression `L`. When an assignment
operator `op` follows, it parses a second expression `R` and returns
`BlockAssignment(L, op, R)` exactly when `L` is a BlockAccess node, and
`Assignment(L, op, R)` otherwise. When no assignment operator follows, it
returns `L` itself. parseStatement then consumes the `;` behind the
assignment and raises a syntax error when another token stands there. -/
theorem parseAssignment_shapes (p : FunctionParser) :
    (∀ (s s1 s2 : ParserState) (L R : Statement),
      Parses p.parseExpression s L s1 →
      ParserState.isAssignmentType s1.currentType = true →
      Parses p.parseExpression
        { s1.skip with currentAssignmentType := s1.currentType } R s2 →
      Parses p.parseAssignment s
        (if L.kind = .BlockAccess then Operations.BlockAssignment L s1.currentType R
          else Operations.Assignment L s1.currentType R) s2) ∧
    (∀ (s s1 : ParserState) (L : Statement),
      Parses p.parseExpression s L s1 →
      ParserState.isAssignmentType s1.currentType = false →
      Parses p.parseAssignment s L s1) ∧
    (∀ (s t : ParserState) (x : Statement),
      Parses p.parseAssignment s x t → t.currentType = .semicolon →
      Parses p.parseStatement s x t.skip) ∧
    (∀ (s t : ParserState) (x : Statement),
      Parses p.parseAssignment s x t → t.currentType ≠ .semicolon →
      Fails p.parseStatement s (.expected .semicolon)) := by
  refine ⟨?_, ?_, ?_, ?_⟩
  · intro s s1 s2 L R hL hop hR
    obtain ⟨nl, hnl⟩ := hL
    obtain ⟨nr, hnr⟩ := hR
    refine ⟨max nl nr + 1, fun m hm => ?_⟩
    obtain ⟨k, rfl, hk⟩ := exists_succ_of_lt hm
    rw [parseAssignment, hnl k (le_trans (le_max_left _ _) hk)]
    simp only [bind, Except.bind, matchIfAssignmentType_of_true hop,
      hnr k (le_trans (le_max_right _ _) hk), isBlockAccess]
    by_cases hk2 : L.kind = .BlockAccess
    · simp [hk2, pure, Except.pure]
    · simp [hk2, pure, Except.pure]
  · intro s s1 L hL hop
    obtain ⟨nl, hnl⟩ := hL
    refine ⟨nl + 1, fun m hm => ?_⟩
    obtain ⟨k, rfl, hk⟩ := exists_succ_of_lt hm
    rw [parseAssignment, hnl k hk]
    simp only [bind, Except.bind, matchIfAssignmentType_of_false hop]
    rfl
  · intro s t x hx hsemi
    have hd := dispatch_of_starts (parses_assignment_starts p hx)
    obtain ⟨n, hn⟩ := hx
    refine ⟨n + 1, fun m hm => ?_⟩
    obtain ⟨k, rfl, hk⟩ := exists_succ_of_lt hm
    rw [statement_of_other p k hd.1 hd.2.1 hd.2.2.1 hd.2.2.2.1 hd.2.2.2.2.1 hd.2.2.2.2.2.1,
      hn k hk]
    simp only [bind, Except.bind, pure, Except.pure,
      match_ok hsemi (by decide : TokenType.semicolon ≠ .identifier)]
  · intro s t x hx hsemi
    have hd := dispatch_of_starts (parses_assignment_starts p hx)
    obtain ⟨n, hn⟩ := hx
    refine ⟨n + 1, fun m hm => ?_⟩
    obtain ⟨k, rfl, hk⟩ := exists_succ_of_lt hm
    rw [statement_of_other p k hd.1 hd.2.1 hd.2.2.1 hd.2.2.2.1 hd.2.2.2.2.1 hd.2.2.2.2.2.1,
      hn k hk]
    simp only [bind, Except.bind, match_fail hsemi]

/-- Witness of C20 on the tokens `x[i] += 2;` (a BlockAssignment), `x = 2;`
(an Assignment), `f();` (the expression itself) and `x = 2 }` (a syntax
error). -/
theorem parseAssignment_shapes_witness :
    Parses Examples.knowsAll.parseAssignment
      (.init [.ident "x", .op .openBracket, .ident "i", .op .closeBracket, .op .plusEquals,
        .lit (.Integer 2), .op .semicolon])
      (Operations.BlockAssignment (Operations.BlockAccess (Examples.var "x") (Examples.var "i"))
        .plusEquals (Examples.int 2))
      ⟨[.op .semicolon], ⟨"i", false⟩, .Void, .plusEquals⟩ ∧
    Parses Examples.knowsAll.parseAssignment
      (.init [.ident "x", .op .assign_, .lit (.Integer 2), .op .semicolon])
      (Operations.Assignment (Examples.var "x") .assign_ (Examples.int 2))
      (Examples.after "x" [.op .semicolon]) ∧
    Parses Examples.knowsAll.parseAssignment
      (.init [.ident "f", .op .openParen, .op .closeParen, .op .semicolon])
      (.node (.FunctionCall ⟨"f", false⟩) []) (Examples.after "f" [.op .semicolon]) ∧
    Parses Examples.knowsAll.parseStatement
      (.init [.ident "x", .op .assign_, .lit (.Integer 2), .op .semicolon])
      (Operations.Assignment (Examples.var "x") .assign_ (Examples.int 2))
      (Examples.after "x" []) ∧
    Fails Examples.knowsAll.parseStatement
      (.init [.ident "x", .op .assign_, .lit (.Integer 2), .op .closeBrace])
      (.expected .semicolon) :=
  ⟨(parseAssignment_shapes Examples.knowsAll).1
      (.init [.ident "x", .op .openBracket, .ident "i", .op .closeBracket, .op .plusEquals,
        .lit (.Integer 2), .op .semicolon])
      (Examples.after "i" [.op .plusEquals, .lit (.Integer 2), .op .semicolon])
      ⟨[.op .semicolon], ⟨"i", false⟩, .Void, .plusEquals⟩
      (Operations.BlockAccess (Examples.var "x") (Examples.var "i")) (Examples.int 2)
      (parses_expression Examples.knowsAll
        (by decide : Examples.knowsAll.parseExpression 26 _ = _))
      (by decide)
      (parses_expression Examples.knowsAll
        (by decide : Examples.knowsAll.parseExpression 13 _ = _)),
   (parseAssignment_shapes Examples.knowsAll).1
      (.init [.ident "x", .op .assign_, .lit (.Integer 2), .op .semicolon])
      (Examples.after "x" [.op .assign_, .lit (.Integer 2), .op .semicolon])
      (Examples.after "x" [.op .semicolon])
      (Examples.var "x") (Examples.int 2)
      (parses_expression Examples.knowsAll
        (by decide : Examples.knowsAll.parseExpression 13 _ = _))
      (by decide)
      (parses_expression Examples.knowsAll
        (by decide : Examples.knowsAll.parseExpression 13 _ = _)),
   (parseAssignment_shapes Examples.knowsAll).2.1
      (.init [.ident "f", .op .openParen, .op .closeParen, .op .semicolon])
      (Examples.after "f" [.op .semicolon])
      (.node (.FunctionCall ⟨"f", false⟩) [])
      (parses_expression Examples.knowsAll
        (by decide : Examples.knowsAll.parseExpression 40 _ = _))
      (by decide),
   (parseAssignment_shapes Examples.knowsAll).2.2.1
      (.init [.ident "x", .op .assign_, .lit (.Integer 2), .op .semicolon])
      (Examples.after "x" [.op .semicolon])
      (Operations.Assignment (Examples.var "x") .assign_ (Examples.int 2))
      (parses_assignment Examples.knowsAll
        (by decide : Examples.knowsAll.parseAssignment 14 _ = _))
      (by decide),
   (parseAssignment_shapes Examples.knowsAll).2.2.2
      (.init [.ident "x", .op .assign_, .lit (.Integer 2), .op .closeBrace])
      (Examples.after "x" [.op .closeBrace])
      (Operations.Assignment (Examples.var "x") .assign_ (Examples.int 2))
      (parses_assignment Examples.knowsAll
        (by decide : Examples.knowsAll.parseAssignment 14 _ = _))
      (by decide)⟩

/-- C19 as stated fails on `int x = 1;`: the node that parseStatement
returns is of the class Assignment with the operator `=`, the class and
operator of the node it returns for the plain assignment `x = 1;`, not of a
class of its own; in this embedding the two nodes are equal. -/
theorem variableDefinition_is_assignment_node :
    (Examples.knowsAll.parseStatement 14
        (.init [.op .int_, .ident "x", .op .assign_, .lit (.Integer 1), .op .semicolon])).map
      (fun r => r.1.kind) = .ok (.Assignment .assign_) ∧
    (Examples.knowsAll.parseStatement 14
        (.init [.ident "x", .op .assign_, .lit (.Integer 1), .op .semicolon])).map
      (fun r => r.1.kind) = .ok (.Assignment .assign_) ∧
    (Examples.knowsAll.parseStatement 14
        (.init [.op .int_, .ident "x", .op .assign_, .lit (.Integer 1), .op .semicolon])).map
      (fun r => r.1) =
    (Examples.knowsAll.parseStatement 14
        (.init [.ident "x", .op .assign_, .lit (.Integer 1), .op .semicolon])).map
      (fun r => r.1) := by
  decide

/-- C19, amended: a variable definition `T x = E ;`, with `T` a type token,
`x` a symbol and `E` parsed by parseExpression to `e`, parses to the
Assignment node with the operator `=` whose target is the reference to the
symbol `x` and whose value is `e`; with `const` in front the symbol of the
target is marked const, without it is not, so that the two nodes differ. -/
theorem parseStatement_variableDefinition (p : FunctionParser) :
    (∀ (s u : ParserState) (tT tx ta : Token) (rest : List Token) (T : Types.ID)
      (e : Statement),
      s.tokens = tT :: tx :: ta :: rest →
      ParserState.typeOfToken tT.type = some T → tx.type = .identifier →
      p.isSymbol tx.text = true → ta.type = .assign_ →
      Parses p.parseExpression
        { s with tokens := rest, currentSymbol := ⟨tx.text, false⟩,
                 currentHnodeType := T } e u →
      u.currentType = .semicolon →
      Parses p.parseStatement s
        (Operations.Assignment (Operations.VariableReference ⟨tx.text, false⟩) .assign_ e)
        u.skip) ∧
    (∀ (s u : ParserState) (tc tT tx ta : Token) (rest : List Token) (T : Types.ID)
      (e : Statement),
      s.tokens = tc :: tT :: tx :: ta :: rest → tc.type = .const_ →
      ParserState.typeOfToken tT.type = some T → tx.type = .identifier →
      p.isSymbol tx.text = true → ta.type = .assign_ →
      Parses p.parseExpression
        { s with tokens := rest, currentSymbol := ⟨tx.text, true⟩,
                 currentHnodeType := T } e u →
      u.currentType = .semicolon →
      Parses p.parseStatement s
        (Operations.Assignment (Operations.VariableReference ⟨tx.text, true⟩) .assign_ e)
        u.skip) ∧
    (∀ (x : String) (e : Statement),
      Operations.Assignment (Operations.VariableReference ⟨x, true⟩) .assign_ e ≠
        Operations.Assignment (Operations.VariableReference ⟨x, false⟩) .assign_ e) := by
  refine ⟨?_, ?_, ?_⟩
  · intro s u tT tx ta rest T e hs hT hx hsym ha he hu
    obtain ⟨n, hn⟩ := he
    refine ⟨n + 2, fun m hm => ?_⟩
    obtain ⟨k, rfl, hk⟩ := exists_add_two hm
    obtain ⟨tokens, sym, ty, at_⟩ := s
    simp only at hs
    subst hs
    have hE := hn k hk
    obtain ⟨utokens, usym, uty, uat⟩ := u
    have hut : ∃ ut ur, utokens = ut :: ur ∧ ut.type = .semicolon := by
      cases utokens with
      | nil => simp [ParserState.currentType] at hu
      | cons ut ur => exact ⟨ut, ur, rfl, by simpa [ParserState.currentType] using hu⟩
    obtain ⟨ut, ur, rfl, hut⟩ := hut
    have hne : tT.type ≠ .const_ ∧ tT.type ≠ .if_ ∧ tT.type ≠ .openBrace ∧
        tT.type ≠ .return_ ∧ tT.type ≠ .for_ := by
      generalize tT.type = c at hT
      cases c <;> simp [ParserState.typeOfToken] at hT <;> simp
    rw [parseStatement]
    simp only [ParserState.matchIf, ParserState.currentType, ParserState.skip,
      ParserState.matchIfTypeToken, List.tail_cons, hne.1, hne.2.1, hne.2.2.1, hne.2.2.2.1,
      hne.2.2.2.2, hT, if_false]
    rw [parseVariableDefinition]
    simp only [matchIfSymbol, hx, hsym, and_self, if_true, ParserState.skip, List.tail_cons,
      ParserState.match_, ParserState.currentType, ParserState.symbolBehind, ha,
      ParserState.getCurrentSymbol, reduceCtorEq, if_false, bind, Except.bind, hE, hut,
      pure, Except.pure]
  · intro s u tc tT tx ta rest T e hs hc hT hx hsym ha he hu
    obtain ⟨n, hn⟩ := he
    refine ⟨n + 2, fun m hm => ?_⟩
    obtain ⟨k, rfl, hk⟩ := exists_add_two hm
    obtain ⟨tokens, sym, ty, at_⟩ := s
    simp only at hs
    subst hs
    have hE := hn k hk
    obtain ⟨utokens, usym, uty, uat⟩ := u
    have hut : ∃ ut ur, utokens = ut :: ur ∧ ut.type = .semicolon := by
      cases utokens with
      | nil => simp [ParserState.currentType] at hu
      | cons ut ur => exact ⟨ut, ur, rfl, by simpa [ParserState.currentType] using hu⟩
    obtain ⟨ut, ur, rfl, hut⟩ := hut
    have hne : tT.type ≠ .const_ ∧ tT.type ≠ .if_ ∧ tT.type ≠ .openBrace ∧
        tT.type ≠ .return_ ∧ tT.type ≠ .for_ := by
      generalize tT.type = c at hT
      cases c <;> simp [ParserState.typeOfToken] at hT <;> simp
    rw [parseStatement]
    simp only [ParserState.matchIf, ParserState.currentType, ParserState.skip,
      ParserState.matchIfTypeToken, List.tail_cons, hc, hne.2.1, hne.2.2.1, hne.2.2.2.1,
      hne.2.2.2.2, hT, if_false, if_true]
    rw [parseVariableDefinition]
    simp only [matchIfSymbol, hx, hsym, and_self, if_true, ParserState.skip, List.tail_cons,
      ParserState.match_, ParserState.currentType, ParserState.symbolBehind, ha,
      ParserState.getCurrentSymbol, reduceCtorEq, if_false, bind, Except.bind, hE, hut,
      pure, Except.pure]
  · intro x e h
    simp [Operations.Assignment, Operations.VariableReference] at h

/-- Witness of the amended C19 on the tokens `int x = 1;` and
`const int x = 1;`. -/
theorem parseStatement_variableDefinition_witness :
    Parses Examples.knowsAll.parseStatement
      (.init [.op .int_, .ident "x", .op .assign_, .lit (.Integer 1), .op .semicolon])
      (Operations.Assignment (Operations.VariableReference ⟨"x", false⟩) .assign_
        (Examples.int 1))
      ⟨[], ⟨"x", false⟩, .Integer, .assign_⟩ ∧
    Parses Examples.knowsAll.parseStatement
      (.init [.op .const_, .op .int_, .ident "x", .op .assign_, .lit (.Integer 1),
        .op .semicolon])
      (Operations.Assignment (Operations.VariableReference ⟨"x", true⟩) .assign_
        (Examples.int 1))
      ⟨[], ⟨"x", true⟩, .Integer, .assign_⟩ :=
  ⟨(parseStatement_variableDefinition Examples.knowsAll).1
      (.init [.op .int_, .ident "x", .op .assign_, .lit (.Integer 1), .op .semicolon])
      ⟨[.op .semicolon], ⟨"x", false⟩, .Integer, .assign_⟩
      (.op .int_) (.ident "x") (.op .assign_) [.lit (.Integer 1), .op .semicolon] .Integer
      (Examples.int 1) rfl rfl rfl rfl rfl
      (parses_expression Examples.knowsAll
        (by decide : Examples.knowsAll.parseExpression 13 _ = _))
      (by decide),
   (parseStatement_variableDefinition Examples.knowsAll).2.1
      (.init [.op .const_, .op .int_, .ident "x", .op .assign_, .lit (.Integer 1),
        .op .semicolon])
      ⟨[.op .semicolon], ⟨"x", true⟩, .Integer, .assign_⟩
      (.op .const_) (.op .int_) (.ident "x") (.op .assign_)
      [.lit (.Integer 1), .op .semicolon] .Integer
      (Examples.int 1) rfl rfl rfl rfl rfl rfl
      (parses_expression Examples.knowsAll
        (by decide : Examples.knowsAll.parseExpression 13 _ = _))
      (by decide)⟩

/-- C22: the dispatch of parseUnary. The token `true` gives the Integer
Immediate 1 and `false` the Integer Immediate 0, and the token is consumed.
When the current token is none of identifier, literal, `-`, `++`, `--`,
`true`, `false` and `!`, parseUnary raises the syntax error "Parsing error";
the two `matchIf` calls on the way to the error consume nothing. -/
theorem parseUnary_dispatch (p : FunctionParser) (n : Nat) (s : ParserState) :
    (s.currentType = .true_ →
      p.parseUnary (n + 1) s = .ok (Operations.Immediate (.Integer 1), s.skip)) ∧
    (s.currentType = .false_ →
      p.parseUnary (n + 1) s = .ok (Operations.Immediate (.Integer 0), s.skip)) ∧
    (s.currentType ≠ .identifier → s.currentType ≠ .literal → s.currentType ≠ .minus →
      s.currentType ≠ .plusplus → s.currentType ≠ .minusminus → s.currentType ≠ .true_ →
      s.currentType ≠ .false_ → s.currentType ≠ .logicalNot →
      p.parseUnary (n + 1) s = .error (.syntaxError (.message "Parsing error")) ∧
        (s.matchIf .true_).2 = s ∧ (s.matchIf .false_).2 = s) := by
  refine ⟨?_, ?_, ?_⟩
  · intro h
    have h3 : ¬(s.currentType = .identifier ∨ s.currentType = .literal ∨
        s.currentType = .minus ∨ s.currentType = .plusplus ∨
        s.currentType = .minusminus) := by
      rw [h]; decide
    rw [parseUnary, if_neg h3, matchIf_of_eq h]
    rfl
  · intro h
    have h3 : ¬(s.currentType = .identifier ∨ s.currentType = .literal ∨
        s.currentType = .minus ∨ s.currentType = .plusplus ∨
        s.currentType = .minusminus) := by
      rw [h]; decide
    rw [parseUnary, if_neg h3, matchIf_of_ne (by rw [h]; decide)]
    dsimp only
    rw [matchIf_of_eq h]
    rfl
  · intro h1 h2 h3 h4 h5 h6 h7 h8
    have hc : ¬(s.currentType = .identifier ∨ s.currentType = .literal ∨
        s.currentType = .minus ∨ s.currentType = .plusplus ∨
        s.currentType = .minusminus) := by
      rintro (e | e | e | e | e) <;> contradiction
    refine ⟨?_, by rw [matchIf_of_ne h6], by rw [matchIf_of_ne h7]⟩
    rw [parseUnary, if_neg hc, matchIf_of_ne h6]
    dsimp only
    rw [matchIf_of_ne h7]
    dsimp only
    rw [if_neg h8]

/-- Witness of C22 on the tokens `true`, `false`, `+`, `)`, `;`, `*` and on
the end of input. -/
theorem parseUnary_dispatch_witness :
    Examples.knowsAll.parseUnary 1 (.init [.op .true_]) =
      .ok (Operations.Immediate (.Integer 1), .init []) ∧
    Examples.knowsAll.parseUnary 1 (.init [.op .false_]) =
      .ok (Operations.Immediate (.Integer 0), .init []) ∧
    Examples.knowsAll.parseUnary 1 (.init [.op .plus, .ident "x"]) =
      .error (.syntaxError (.message "Parsing error")) ∧
    Examples.knowsAll.parseUnary 1 (.init [.op .closeParen]) =
      .error (.syntaxError (.message "Parsing error")) ∧
    Examples.knowsAll.parseUnary 1 (.init [.op .semicolon]) =
      .error (.syntaxError (.message "Parsing error")) ∧
    Examples.knowsAll.parseUnary 1 (.init [.op .times, .ident "x"]) =
      .error (.syntaxError (.message "Parsing error")) ∧
    Examples.knowsAll.parseUnary 1 (.init []) =
      .error (.syntaxError (.message "Parsing error")) :=
  ⟨(parseUnary_dispatch Examples.knowsAll 0 (.init [.op .true_])).1 (by decide),
   (parseUnary_dispatch Examples.knowsAll 0 (.init [.op .false_])).2.1 (by decide),
   ((parseUnary_dispatch Examples.knowsAll 0 (.init [.op .plus, .ident "x"])).2.2
      (by decide) (by decide) (by decide) (by decide) (by decide) (by decide) (by decide)
      (by decide)).1,
   ((parseUnary_dispatch Examples.knowsAll 0 (.init [.op .closeParen])).2.2
      (by decide) (by decide) (by decide) (by decide) (by decide) (by decide) (by decide)
      (by decide)).1,
   ((parseUnary_dispatch Examples.knowsAll 0 (.init [.op .semicolon])).2.2
      (by decide) (by decide) (by decide) (by decide) (by decide) (by decide) (by decide)
      (by decide)).1,
   ((parseUnary_dispatch Examples.knowsAll 0 (.init [.op .times, .ident "x"])).2.2
      (by decide) (by decide) (by decide) (by decide) (by decide) (by decide) (by decide)
      (by decide)).1,
   ((parseUnary_dispatch Examples.knowsAll 0 (.init [])).2.2
      (by decide) (by decide) (by decide) (by decide) (by decide) (by decide) (by decide)
      (by decide)).1⟩

/-- C26 as stated fails on `f(a b)`: the two argument expressions stand
without a comma between them and the call is parsed, with both as its
arguments, to the node that `f(a, b)` gives. -/
theorem functionCall_without_comma_is_parsed :
    Examples.knowsAll.parseExpression 40
        (.init [.ident "f", .op .openParen, .ident "a", .ident "b", .op .closeParen]) =
      .ok (.node (.FunctionCall ⟨"f", false⟩) [Examples.var "a", Examples.var "b"],
        Examples.after "b" []) ∧
    Examples.knowsAll.parseExpression 40
        (.init [.ident "f", .op .openParen, .ident "a", .op .comma, .ident "b",
          .op .closeParen]) =
      .ok (.node (.FunctionCall ⟨"f", false⟩) [Examples.var "a", Examples.var "b"],
        Examples.after "b" []) := by
  decide

/-- C26, amended: the comma between two arguments of a call is consumed when
it is there and is not required. When the expression `e1` is directly
followed by the expression `e2` (the token behind `e1` is not a comma) and
`e2`, after a comma if there is one, by `)`, parseFunctionCall returns the
call with the two arguments `e1` and `e2`. -/
theorem parseFunctionCall_comma_optional (p : FunctionParser) (s u t : ParserState)
    (e1 e2 : Statement)
    (h1 : Parses p.parseExpression s e1 u) (hno : u.currentType ≠ .comma)
    (h2 : Parses p.parseExpression u e2 t)
    (hend : (t.matchIf .comma).2.currentType = .closeParen) :
    Parses p.parseFunctionCall s (.node (.FunctionCall s.currentSymbol) [e1, e2])
      (t.matchIf .comma).2.skip := by
  apply functionCall_of_arguments p _ hend
  refine .cons h1 ?_
  rw [matchIf_of_ne hno]
  exact .cons h2 .nil

/-- Witness of the amended C26 on the arguments `a b)` of a call of `f`. -/
theorem parseFunctionCall_comma_optional_witness :
    Parses Examples.knowsAll.parseFunctionCall
      (Examples.after "f" [.ident "a", .ident "b", .op .closeParen])
      (.node (.FunctionCall ⟨"f", false⟩) [Examples.var "a", Examples.var "b"])
      (Examples.after "b" []) :=
  parseFunctionCall_comma_optional Examples.knowsAll
    (Examples.after "f" [.ident "a", .ident "b", .op .closeParen])
    (Examples.after "a" [.ident "b", .op .closeParen])
    (Examples.after "b" [.op .closeParen])
    (Examples.var "a") (Examples.var "b")
    (parses_expression Examples.knowsAll
      (by decide : Examples.knowsAll.parseExpression 13 _ = _))
    (by decide)
    (parses_expression Examples.knowsAll
      (by decide : Examples.knowsAll.parseExpression 13 _ = _))
    (by decide)

/-! ## The levels above the sums: grammar rules -/

theorem comparison_cases {c : TokenType} :
    isComparisonOp c = true ↔
      (c = .greaterThan ∨ c = .greaterThanOrEqual ∨ c = .lessThan ∨ c = .lessThanOrEqual ∨
        c = .equals ∨ c = .notEquals) := by
  cases c <;> simp [isComparisonOp]

theorem logic_cases {c : TokenType} :
    isLogicOp c = true ↔ (c = .logicalAnd ∨ c = .logicalOr) := by
  cases c <;> simp [isLogicOp]

theorem not_continues_upper {c : TokenType} (h : continuesExpression c = false) :
    isComparisonOp c = false ∧ isLogicOp c = false ∧ c ≠ .question := by
  cases c <;> simp [continuesExpression] at h <;> simp [isComparisonOp, isLogicOp]

theorem comparation_of_sum (p : FunctionParser) {s s1 : ParserState} {a : Statement}
    (ha : Parses p.parseSum s a s1) (hstop : isComparisonOp s1.currentType = false) :
    Parses p.parseComparation s a s1 := by
  obtain ⟨n, hn⟩ := ha
  refine ⟨n + 1, fun m hm => ?_⟩
  obtain ⟨k, rfl, hk⟩ := exists_succ_of_lt hm
  have hc : ¬(s1.currentType = .greaterThan ∨ s1.currentType = .greaterThanOrEqual ∨
      s1.currentType = .lessThan ∨ s1.currentType = .lessThanOrEqual ∨
      s1.currentType = .equals ∨ s1.currentType = .notEquals) := by
    rw [← comparison_cases, hstop]; simp
  rw [parseComparation, hn k hk]
  simp only [bind, Except.bind]
  rw [if_neg hc]
  rfl

theorem comparation_of_sum_op (p : FunctionParser) {s s1 s2 : ParserState} {l r : Statement}
    (hl : Parses p.parseSum s l s1) (hop : isComparisonOp s1.currentType = true)
    (hr : Parses p.parseSum s1.skip r s2) :
    Parses p.parseComparation s (Operations.Compare l r s1.currentType) s2 := by
  obtain ⟨n, hn⟩ := hl
  obtain ⟨n2, hn2⟩ := hr
  refine ⟨max n n2 + 1, fun m hm => ?_⟩
  obtain ⟨k, rfl, hk⟩ := exists_succ_of_lt hm
  rw [parseComparation, hn k (le_trans (le_max_left _ _) hk)]
  simp only [bind, Except.bind]
  rw [if_pos (comparison_cases.mp hop), hn2 k (le_trans (le_max_right _ _) hk)]
  rfl

theorem logic_of_comparation (p : FunctionParser) {s s1 : ParserState} {a : Statement}
    (ha : Parses p.parseComparation s a s1) (hstop : isLogicOp s1.currentType = false) :
    Parses p.parseLogicOperation s a s1 := by
  obtain ⟨n, hn⟩ := ha
  refine ⟨n + 1, fun m hm => ?_⟩
  obtain ⟨k, rfl, hk⟩ := exists_succ_of_lt hm
  have h1 : s1.currentType ≠ .logicalAnd := by
    intro e; rw [e] at hstop; simp [isLogicOp] at hstop
  have h2 : s1.currentType ≠ .logicalOr := by
    intro e; rw [e] at hstop; simp [isLogicOp] at hstop
  rw [parseLogicOperation, hn k hk]
  simp only [bind, Except.bind, matchIf_of_ne h1, matchIf_of_ne h2]
  rfl

theorem logic_of_comparation_op (p : FunctionParser) {s s1 s2 : ParserState}
    {a r : Statement} (ha : Parses p.parseComparation s a s1)
    (hop : isLogicOp s1.currentType = true)
    (hr : Parses p.parseLogicOperation s1.skip r s2) :
    Parses p.parseLogicOperation s (Operations.BinaryOp a r s1.currentType) s2 := by
  obtain ⟨n, hn⟩ := ha
  obtain ⟨n2, hn2⟩ := hr
  refine ⟨max n n2 + 1, fun m hm => ?_⟩
  obtain ⟨k, rfl, hk⟩ := exists_succ_of_lt hm
  rw [parseLogicOperation, hn k (le_trans (le_max_left _ _) hk)]
  rcases logic_cases.mp hop with h | h
  · simp only [bind, Except.bind, matchIf_of_eq h,
      hn2 k (le_trans (le_max_right _ _) hk)]
    rw [h]
    rfl
  · have hne : s1.currentType ≠ .logicalAnd := by rw [h]; decide
    simp only [bind, Except.bind, matchIf_of_ne hne, matchIf_of_eq h,
      hn2 k (le_trans (le_max_right _ _) hk)]
    rw [h]
    rfl

theorem bool_of_logic (p : FunctionParser) {s t : ParserState} {a : Statement}
    (hnot : s.currentType ≠ .logicalNot) (ha : Parses p.parseLogicOperation s a t) :
    Parses p.parseBool s a t := by
  obtain ⟨n, hn⟩ := ha
  refine ⟨n + 1, fun m hm => ?_⟩
  obtain ⟨k, rfl, hk⟩ := exists_succ_of_lt hm
  rw [parseBool, matchIf_of_ne hnot]
  dsimp only
  rw [hn k hk]
  rfl

theorem bool_of_not (p : FunctionParser) {s t : ParserState} {a : Statement}
    (hnot : s.currentType = .logicalNot) (ha : Parses p.parseLogicOperation s.skip a t) :
    Parses p.parseBool s (Operations.LogicalNot a) t := by
  obtain ⟨n, hn⟩ := ha
  refine ⟨n + 1, fun m hm => ?_⟩
  obtain ⟨k, rfl, hk⟩ := exists_succ_of_lt hm
  rw [parseBool, matchIf_of_eq hnot]
  dsimp only
  rw [hn k hk]
  rfl

theorem expression_of_bool (p : FunctionParser) {s t : ParserState} {a : Statement}
    (ha : Parses p.parseBool s a t) (hstop : t.currentType ≠ .question) :
    Parses p.parseExpression s a t := by
  obtain ⟨n, hn⟩ := ha
  refine ⟨n + 2, fun m hm => ?_⟩
  obtain ⟨k, rfl, hk⟩ := exists_add_two hm
  rw [parseExpression, parseTernaryOperator, hn k hk]
  simp only [bind, Except.bind, matchIf_of_ne hstop]
  rfl

theorem expression_of_bool_question (p : FunctionParser) {s s1 s2 s3 : ParserState}
    {c x y : Statement} (hc : Parses p.parseBool s c s1) (hq : s1.currentType = .question)
    (hx : Parses p.parseExpression s1.skip x s2) (hcolon : s2.currentType = .colon)
    (hy : Parses p.parseExpression s2.skip y s3) :
    Parses p.parseExpression s (Operations.TernaryOp c x y) s3 := by
  obtain ⟨n, hn⟩ := hc
  obtain ⟨n2, hn2⟩ := hx
  obtain ⟨n3, hn3⟩ := hy
  refine ⟨max n (max n2 n3) + 2, fun m hm => ?_⟩
  obtain ⟨k, rfl, hk⟩ := exists_add_two hm
  have k1 : n ≤ k := le_trans (le_max_left _ _) hk
  have k2 : n2 ≤ k := le_trans (le_trans (le_max_left _ _) (le_max_right _ _)) hk
  have k3 : n3 ≤ k := le_trans (le_trans (le_max_right _ _) (le_max_right _ _)) hk
  rw [parseExpression, parseTernaryOperator, hn k k1]
  simp only [bind, Except.bind, matchIf_of_eq hq, hn2 k k2,
    match_ok hcolon (by decide), hn3 k k3]
  rfl

theorem expression_fails_without_colon (p : FunctionParser) {s s1 s2 : ParserState}
    {c x : Statement} (hc : Parses p.parseBool s c s1) (hq : s1.currentType = .question)
    (hx : Parses p.parseExpression s1.skip x s2) (hcolon : s2.currentType ≠ .colon) :
    Fails p.parseExpression s (.expected .colon) := by
  obtain ⟨n, hn⟩ := hc
  obtain ⟨n2, hn2⟩ := hx
  refine ⟨max n n2 + 2, fun m hm => ?_⟩
  obtain ⟨k, rfl, hk⟩ := exists_add_two hm
  rw [parseExpression, parseTernaryOperator, hn k (le_trans (le_max_left _ _) hk)]
  simp only [bind, Except.bind, matchIf_of_eq hq, hn2 k (le_trans (le_max_right _ _) hk),
    match_fail hcolon]

theorem unary_of_bool (p : FunctionParser) {s t : ParserState} {a : Statement}
    (hnot : s.currentType = .logicalNot) (ha : Parses p.parseBool s a t) :
    Parses p.parseUnary s a t := by
  obtain ⟨n, hn⟩ := ha
  refine ⟨n + 1, fun m hm => ?_⟩
  obtain ⟨k, rfl, hk⟩ := exists_succ_of_lt hm
  have h3 : ¬(s.currentType = .identifier ∨ s.currentType = .literal ∨
      s.currentType = .minus ∨ s.currentType = .plusplus ∨
      s.currentType = .minusminus) := by
    rw [hnot]; decide
  rw [parseUnary, if_neg h3, matchIf_of_ne (by rw [hnot]; decide)]
  dsimp only
  rw [matchIf_of_ne (by rw [hnot]; decide)]
  dsimp only
  rw [if_pos hnot]
  exact hn k hk

theorem term_of_unary (p : FunctionParser) {s t : ParserState} {a : Statement}
    (hopen : s.currentType ≠ .openParen) (ha : Parses p.parseUnary s a t) :
    Parses p.parseTerm s a t := by
  obtain ⟨n, hn⟩ := ha
  refine ⟨n + 1, fun m hm => ?_⟩
  obtain ⟨k, rfl, hk⟩ := exists_succ_of_lt hm
  rw [parseTerm, matchIf_of_ne hopen]
  exact hn k hk

/-- An operand that begins with `!`: the logical-not takes the whole logic
operation behind it, and what comes back is an operand of the comparison
level when no relational operator follows. -/
theorem comparation_of_not (p : FunctionParser) {s t : ParserState} {a : Statement}
    (hnot : s.currentType = .logicalNot) (ha : Parses p.parseLogicOperation s.skip a t)
    (hstop : isComparisonOp t.currentType = false) :
    Parses p.parseComparation s (Operations.LogicalNot a) t := by
  have harith : isArithmeticOp t.currentType = false := by
    obtain ⟨n, hn⟩ := ha
    exact logic_stop p n _ _ _ (hn n (le_refl n))
  obtain ⟨h1, h2, h3⟩ := not_arithmetic harith
  have hterm := term_of_unary p (by rw [hnot]; decide)
    (unary_of_bool p hnot (bool_of_not p hnot ha))
  exact comparation_of_sum p
    (sum_of_difference p (difference_of_product p (product_of_term p hterm h3) h2) h1) hstop

theorem chain_logic (p : FunctionParser) {s t : ParserState} {x : Statement}
    {rest : List (TokenType × Statement)}
    (h : OperatorChain p.parseComparation isLogicOp s x rest t)
    (hstop : isLogicOp t.currentType = false) :
    Parses p.parseLogicOperation s (rightNestedMixed x rest) t := by
  induction h with
  | single hx => exact logic_of_comparation p hx hstop
  | cons hx hop _ ih => exact logic_of_comparation_op p hx hop (ih hstop)

theorem assignment_of_expression (p : FunctionParser) {s t : ParserState} {x : Statement}
    (hx : Parses p.parseExpression s x t)
    (hstop : ParserState.isAssignmentType t.currentType = false) :
    Parses p.parseAssignment s x t := by
  obtain ⟨n, hn⟩ := hx
  refine ⟨n + 1, fun m hm => ?_⟩
  obtain ⟨k, rfl, hk⟩ := exists_succ_of_lt hm
  rw [parseAssignment, hn k hk]
  simp only [bind, Except.bind, matchIfAssignmentType_of_false hstop]
  rfl

theorem parses_comparation (p : FunctionParser) {n : Nat} {s t : ParserState}
    {x : Statement} (e : p.parseComparation n s = .ok (x, t)) :
    Parses p.parseComparation s x t :=
  parses_of_eq (fun n => (monoAt p n).comparation) e

theorem parses_logic (p : FunctionParser) {n : Nat} {s t : ParserState}
    {x : Statement} (e : p.parseLogicOperation n s = .ok (x, t)) :
    Parses p.parseLogicOperation s x t :=
  parses_of_eq (fun n => (monoAt p n).logic) e

/-! ## The levels above the sums: properties -/

/-- C27: a logical-not covers the whole logic operation behind it. When the
expression begins with `!`, the node is the LogicalNot of what
parseLogicOperation parses behind the `!`: `!a && b` gives
`LogicalNot(BinaryOp(&&, a, b))` and `!a == b` gives
`LogicalNot(Compare(==, a, b))`. A `!` in operand position does the same:
`b && !a && c` gives `BinaryOp(&&, b, LogicalNot(BinaryOp(&&, a, c)))`. The
operands of `&&` are parsed at the comparison level and those of `==` at the
sum level, and nothing that continues the expression follows. -/
theorem parseBool_not_covers_logic_operation (p : FunctionParser) :
    (∀ (s t : ParserState) (x : Statement),
      s.currentType = .logicalNot → Parses p.parseLogicOperation s.skip x t →
      t.currentType ≠ .question →
      Parses p.parseExpression s (Operations.LogicalNot x) t) ∧
    (∀ (s s1 s2 : ParserState) (a b : Statement),
      s.currentType = .logicalNot → Parses p.parseComparation s.skip a s1 →
      s1.currentType = .logicalAnd → Parses p.parseComparation s1.skip b s2 →
      continuesExpression s2.currentType = false →
      Parses p.parseExpression s
        (Operations.LogicalNot (Operations.BinaryOp a b .logicalAnd)) s2) ∧
    (∀ (s s1 s2 : ParserState) (a b : Statement),
      s.currentType = .logicalNot → Parses p.parseSum s.skip a s1 →
      s1.currentType = .equals → Parses p.parseSum s1.skip b s2 →
      continuesExpression s2.currentType = false →
      Parses p.parseExpression s
        (Operations.LogicalNot (Operations.Compare a b .equals)) s2) ∧
    (∀ (s s1 s2 s3 : ParserState) (a b c : Statement),
      s.currentType ≠ .logicalNot → Parses p.parseComparation s b s1 →
      s1.currentType = .logicalAnd → s1.skip.currentType = .logicalNot →
      Parses p.parseComparation s1.skip.skip a s2 →
      s2.currentType = .logicalAnd → Parses p.parseComparation s2.skip c s3 →
      continuesExpression s3.currentType = false →
      Parses p.parseExpression s
        (Operations.BinaryOp b
          (Operations.LogicalNot (Operations.BinaryOp a c .logicalAnd)) .logicalAnd) s3) := by
  refine ⟨?_, ?_, ?_, ?_⟩
  · intro s t x hnot hx hq
    exact expression_of_bool p (bool_of_not p hnot hx) hq
  · intro s s1 s2 a b hnot ha hand hb hend
    obtain ⟨-, hl, hq⟩ := not_continues_upper hend
    have h := logic_of_comparation_op p ha (by rw [hand]; rfl)
      (logic_of_comparation p hb hl)
    rw [hand] at h
    exact expression_of_bool p (bool_of_not p hnot h) hq
  · intro s s1 s2 a b hnot ha heq hb hend
    obtain ⟨-, hl, hq⟩ := not_continues_upper hend
    have h := comparation_of_sum_op p ha (by rw [heq]; rfl) hb
    rw [heq] at h
    exact expression_of_bool p (bool_of_not p hnot (logic_of_comparation p h hl)) hq
  · intro s s1 s2 s3 a b c hstart hb hand hnot ha hand2 hc hend
    obtain ⟨hcmp, hl, hq⟩ := not_continues_upper hend
    have hac := logic_of_comparation_op p ha (by rw [hand2]; rfl)
      (logic_of_comparation p hc hl)
    rw [hand2] at hac
    have hop := logic_of_comparation p (comparation_of_not p hnot hac hcmp) hl
    have h := logic_of_comparation_op p hb (by rw [hand]; rfl) hop
    rw [hand] at h
    exact expression_of_bool p (bool_of_logic p hstart h) hq

/-- Witness of C27 on the tokens `!a && b`, `!a == b` and `b && !a && c`. -/
theorem parseBool_not_covers_logic_operation_witness :
    Parses Examples.knowsAll.parseExpression
      (.init [.op .logicalNot, .ident "a", .op .logicalAnd, .ident "b"])
      (Operations.LogicalNot
        (Operations.BinaryOp (Examples.var "a") (Examples.var "b") .logicalAnd))
      (Examples.after "b" []) ∧
    Parses Examples.knowsAll.parseExpression
      (.init [.op .logicalNot, .ident "a", .op .equals, .ident "b"])
      (Operations.LogicalNot
        (Operations.Compare (Examples.var "a") (Examples.var "b") .equals))
      (Examples.after "b" []) ∧
    Parses Examples.knowsAll.parseExpression
      (.init [.ident "b", .op .logicalAnd, .op .logicalNot, .ident "a", .op .logicalAnd,
        .ident "c"])
      (Operations.BinaryOp (Examples.var "b")
        (Operations.LogicalNot
          (Operations.BinaryOp (Examples.var "a") (Examples.var "c") .logicalAnd))
        .logicalAnd)
      (Examples.after "c" []) :=
  ⟨(parseBool_not_covers_logic_operation Examples.knowsAll).2.1
      (.init [.op .logicalNot, .ident "a", .op .logicalAnd, .ident "b"])
      (Examples.after "a" [.op .logicalAnd, .ident "b"])
      (Examples.after "b" [])
      (Examples.var "a") (Examples.var "b") (by decide)
      (parses_comparation Examples.knowsAll
        (by decide : Examples.knowsAll.parseComparation 9 _ = _))
      (by decide)
      (parses_comparation Examples.knowsAll
        (by decide : Examples.knowsAll.parseComparation 9 _ = _))
      (by decide),
   (parseBool_not_covers_logic_operation Examples.knowsAll).2.2.1
      (.init [.op .logicalNot, .ident "a", .op .equals, .ident "b"])
      (Examples.after "a" [.op .equals, .ident "b"])
      (Examples.after "b" [])
      (Examples.var "a") (Examples.var "b") (by decide)
      (parses_sum Examples.knowsAll
        (by decide : Examples.knowsAll.parseSum 8 _ = _))
      (by decide)
      (parses_sum Examples.knowsAll
        (by decide : Examples.knowsAll.parseSum 8 _ = _))
      (by decide),
   (parseBool_not_covers_logic_operation Examples.knowsAll).2.2.2
      (.init [.ident "b", .op .logicalAnd, .op .logicalNot, .ident "a", .op .logicalAnd,
        .ident "c"])
      (Examples.after "b" [.op .logicalAnd, .op .logicalNot, .ident "a", .op .logicalAnd,
        .ident "c"])
      (Examples.after "a" [.op .logicalAnd, .ident "c"])
      (Examples.after "c" [])
      (Examples.var "a") (Examples.var "b") (Examples.var "c") (by decide)
      (parses_comparation Examples.knowsAll
        (by decide : Examples.knowsAll.parseComparation 9 _ = _))
      (by decide) (by decide)
      (parses_comparation Examples.knowsAll
        (by decide : Examples.knowsAll.parseComparation 9 _ = _))
      (by decide)
      (parses_comparation Examples.knowsAll
        (by decide : Examples.knowsAll.parseComparation 9 _ = _))
      (by decide)⟩

/-- C28: `&&` and `||` share one level and nest to the right. For operands
that parseComparation parses at their place in the token stream, joined by
any mix of `&&` and `||`, with no further `&&` or `||` behind the last one,
parseLogicOperation returns the fully right-nested tree
`x1 op1 (x2 op2 (... xn))`: `a && b || c` gives
`BinaryOp(&&, a, BinaryOp(||, b, c))` and `a || b && c` gives
`BinaryOp(||, a, BinaryOp(&&, b, c))`. parseExpression returns the same tree
when the run does not begin with `!` and no `?` follows it. -/
theorem parseLogicOperation_nests_right (p : FunctionParser) (s t : ParserState)
    (x : Statement) (rest : List (TokenType × Statement))
    (hchain : OperatorChain p.parseComparation isLogicOp s x rest t)
    (hstop : isLogicOp t.currentType = false) :
    Parses p.parseLogicOperation s (rightNestedMixed x rest) t ∧
    (s.currentType ≠ .logicalNot → t.currentType ≠ .question →
      Parses p.parseExpression s (rightNestedMixed x rest) t) :=
  ⟨chain_logic p hchain hstop,
   fun hnot hq => expression_of_bool p (bool_of_logic p hnot (chain_logic p hchain hstop)) hq⟩

/-- Witness of C28 on the tokens `a && b || c` and `a || b && c`. -/
theorem parseLogicOperation_nests_right_witness :
    Parses Examples.knowsAll.parseExpression
      (.init [.ident "a", .op .logicalAnd, .ident "b", .op .logicalOr, .ident "c"])
      (Operations.BinaryOp (Examples.var "a")
        (Operations.BinaryOp (Examples.var "b") (Examples.var "c") .logicalOr) .logicalAnd)
      (Examples.after "c" []) ∧
    Parses Examples.knowsAll.parseExpression
      (.init [.ident "a", .op .logicalOr, .ident "b", .op .logicalAnd, .ident "c"])
      (Operations.BinaryOp (Examples.var "a")
        (Operations.BinaryOp (Examples.var "b") (Examples.var "c") .logicalAnd) .logicalOr)
      (Examples.after "c" []) :=
  ⟨(parseLogicOperation_nests_right Examples.knowsAll
      (.init [.ident "a", .op .logicalAnd, .ident "b", .op .logicalOr, .ident "c"])
      (Examples.after "c" []) (Examples.var "a")
      [(.logicalAnd, Examples.var "b"), (.logicalOr, Examples.var "c")]
      (.cons (u := Examples.after "a" [.op .logicalAnd, .ident "b", .op .logicalOr,
          .ident "c"])
        (parses_comparation Examples.knowsAll
          (by decide : Examples.knowsAll.parseComparation 9 _ = _))
        (by decide)
        (.cons (u := Examples.after "b" [.op .logicalOr, .ident "c"])
          (parses_comparation Examples.knowsAll
            (by decide : Examples.knowsAll.parseComparation 9 _ = _))
          (by decide)
          (.single (parses_comparation Examples.knowsAll
            (by decide : Examples.knowsAll.parseComparation 9 _ = _)))))
      (by decide)).2 (by decide) (by decide),
   (parseLogicOperation_nests_right Examples.knowsAll
      (.init [.ident "a", .op .logicalOr, .ident "b", .op .logicalAnd, .ident "c"])
      (Examples.after "c" []) (Examples.var "a")
      [(.logicalOr, Examples.var "b"), (.logicalAnd, Examples.var "c")]
      (.cons (u := Examples.after "a" [.op .logicalOr, .ident "b", .op .logicalAnd,
          .ident "c"])
        (parses_comparation Examples.knowsAll
          (by decide : Examples.knowsAll.parseComparation 9 _ = _))
        (by decide)
        (.cons (u := Examples.after "b" [.op .logicalAnd, .ident "c"])
          (parses_comparation Examples.knowsAll
            (by decide : Examples.knowsAll.parseComparation 9 _ = _))
          (by decide)
          (.single (parses_comparation Examples.knowsAll
            (by decide : Examples.knowsAll.parseComparation 9 _ = _)))))
      (by decide)).2 (by decide) (by decide)⟩

/-- C29: the ternary operator nests to the right and takes a full expression
in both branches. When parseBool parses the condition, a `?` follows, the
true branch is an expression followed by `:` and the false branch an
expression, parseExpression returns the TernaryOp of the three:
`a ? b : c ? d : e` gives `TernaryOp(a, b, TernaryOp(c, d, e))` and
`a ? b ? c : d : e` gives `TernaryOp(a, TernaryOp(b, c, d), e)`. When the
expression behind the `?` is not followed by `:`, parseExpression raises the
syntax error of the expected `:`. -/
theorem parseTernaryOperator_nests_right (p : FunctionParser) :
    (∀ (s s1 s2 s3 : ParserState) (c x y : Statement),
      Parses p.parseBool s c s1 → s1.currentType = .question →
      Parses p.parseExpression s1.skip x s2 → s2.currentType = .colon →
      Parses p.parseExpression s2.skip y s3 →
      Parses p.parseExpression s (Operations.TernaryOp c x y) s3) ∧
    (∀ (s0 s1 s2 s3 s4 s5 : ParserState) (a b c d e : Statement),
      Parses p.parseBool s0 a s1 → s1.currentType = .question →
      Parses p.parseBool s1.skip b s2 → s2.currentType = .colon →
      Parses p.parseBool s2.skip c s3 → s3.currentType = .question →
      Parses p.parseBool s3.skip d s4 → s4.currentType = .colon →
      Parses p.parseBool s4.skip e s5 → s5.currentType ≠ .question →
      Parses p.parseExpression s0
        (Operations.TernaryOp a b (Operations.TernaryOp c d e)) s5) ∧
    (∀ (s0 s1 s2 s3 s4 s5 : ParserState) (a b c d e : Statement),
      Parses p.parseBool s0 a s1 → s1.currentType = .question →
      Parses p.parseBool s1.skip b s2 → s2.currentType = .question →
      Parses p.parseBool s2.skip c s3 → s3.currentType = .colon →
      Parses p.parseBool s3.skip d s4 → s4.currentType = .colon →
      Parses p.parseBool s4.skip e s5 → s5.currentType ≠ .question →
      Parses p.parseExpression s0
        (Operations.TernaryOp a (Operations.TernaryOp b c d) e) s5) ∧
    (∀ (s s1 s2 : ParserState) (c x : Statement),
      Parses p.parseBool s c s1 → s1.currentType = .question →
      Parses p.parseExpression s1.skip x s2 → s2.currentType ≠ .colon →
      Fails p.parseExpression s (.expected .colon)) := by
  refine ⟨?_, ?_, ?_, ?_⟩
  · intro s s1 s2 s3 c x y hc hq hx hcolon hy
    exact expression_of_bool_question p hc hq hx hcolon hy
  · intro s0 s1 s2 s3 s4 s5 a b c d e ha h1 hb h2 hc h3 hd h4 he h5
    exact expression_of_bool_question p ha h1
      (expression_of_bool p hb (by rw [h2]; decide)) h2
      (expression_of_bool_question p hc h3
        (expression_of_bool p hd (by rw [h4]; decide)) h4 (expression_of_bool p he h5))
  · intro s0 s1 s2 s3 s4 s5 a b c d e ha h1 hb h2 hc h3 hd h4 he h5
    exact expression_of_bool_question p ha h1
      (expression_of_bool_question p hb h2
        (expression_of_bool p hc (by rw [h3]; decide)) h3
        (expression_of_bool p hd (by rw [h4]; decide))) h4
      (expression_of_bool p he h5)
  · intro s s1 s2 c x hc hq hx hcolon
    exact expression_fails_without_colon p hc hq hx hcolon

/-- Witness of C29 on the tokens `a ? b : c ? d : e`, `a ? b ? c : d : e`
and `a ? b ;`. -/
theorem parseTernaryOperator_nests_right_witness :
    Parses Examples.knowsAll.parseExpression
      (.init [.ident "a", .op .question, .ident "b", .op .colon, .ident "c", .op .question,
        .ident "d", .op .colon, .ident "e"])
      (Operations.TernaryOp (Examples.var "a") (Examples.var "b")
        (Operations.TernaryOp (Examples.var "c") (Examples.var "d") (Examples.var "e")))
      (Examples.after "e" []) ∧
    Parses Examples.knowsAll.parseExpression
      (.init [.ident "a", .op .question, .ident "b", .op .question, .ident "c", .op .colon,
        .ident "d", .op .colon, .ident "e"])
      (Operations.TernaryOp (Examples.var "a")
        (Operations.TernaryOp (Examples.var "b") (Examples.var "c") (Examples.var "d"))
        (Examples.var "e"))
      (Examples.after "e" []) ∧
    Fails Examples.knowsAll.parseExpression
      (.init [.ident "a", .op .question, .ident "b", .op .semicolon])
      (.expected .colon) :=
  ⟨(parseTernaryOperator_nests_right Examples.knowsAll).2.1
      (.init [.ident "a", .op .question, .ident "b", .op .colon, .ident "c", .op .question,
        .ident "d", .op .colon, .ident "e"])
      (Examples.after "a" [.op .question, .ident "b", .op .colon, .ident "c", .op .question,
        .ident "d", .op .colon, .ident "e"])
      (Examples.after "b" [.op .colon, .ident "c", .op .question, .ident "d", .op .colon,
        .ident "e"])
      (Examples.after "c" [.op .question, .ident "d", .op .colon, .ident "e"])
      (Examples.after "d" [.op .colon, .ident "e"])
      (Examples.after "e" [])
      (Examples.var "a") (Examples.var "b") (Examples.var "c") (Examples.var "d")
      (Examples.var "e")
      (parses_bool Examples.knowsAll (by decide : Examples.knowsAll.parseBool 11 _ = _))
      (by decide)
      (parses_bool Examples.knowsAll (by decide : Examples.knowsAll.parseBool 11 _ = _))
      (by decide)
      (parses_bool Examples.knowsAll (by decide : Examples.knowsAll.parseBool 11 _ = _))
      (by decide)
      (parses_bool Examples.knowsAll (by decide : Examples.knowsAll.parseBool 11 _ = _))
      (by decide)
      (parses_bool Examples.knowsAll (by decide : Examples.knowsAll.parseBool 11 _ = _))
      (by decide),
   (parseTernaryOperator_nests_right Examples.knowsAll).2.2.1
      (.init [.ident "a", .op .question, .ident "b", .op .question, .ident "c", .op .colon,
        .ident "d", .op .colon, .ident "e"])
      (Examples.after "a" [.op .question, .ident "b", .op .question, .ident "c", .op .colon,
        .ident "d", .op .colon, .ident "e"])
      (Examples.after "b" [.op .question, .ident "c", .op .colon, .ident "d", .op .colon,
        .ident "e"])
      (Examples.after "c" [.op .colon, .ident "d", .op .colon, .ident "e"])
      (Examples.after "d" [.op .colon, .ident "e"])
      (Examples.after "e" [])
      (Examples.var "a") (Examples.var "b") (Examples.var "c") (Examples.var "d")
      (Examples.var "e")
      (parses_bool Examples.knowsAll (by decide : Examples.knowsAll.parseBool 11 _ = _))
      (by decide)
      (parses_bool Examples.knowsAll (by decide : Examples.knowsAll.parseBool 11 _ = _))
      (by decide)
      (parses_bool Examples.knowsAll (by decide : Examples.knowsAll.parseBool 11 _ = _))
      (by decide)
      (parses_bool Examples.knowsAll (by decide : Examples.knowsAll.parseBool 11 _ = _))
      (by decide)
      (parses_bool Examples.knowsAll (by decide : Examples.knowsAll.parseBool 11 _ = _))
      (by decide),
   (parseTernaryOperator_nests_right Examples.knowsAll).2.2.2
      (.init [.ident "a", .op .question, .ident "b", .op .semicolon])
      (Examples.after "a" [.op .question, .ident "b", .op .semicolon])
      (Examples.after "b" [.op .semicolon])
      (Examples.var "a") (Examples.var "b")
      (parses_bool Examples.knowsAll (by decide : Examples.knowsAll.parseBool 11 _ = _))
      (by decide)
      (parses_expression Examples.knowsAll
        (by decide : Examples.knowsAll.parseExpression 13 _ = _))
      (by decide)⟩

/-- C30: comparisons do not chain. For a relational operator between two
operands that parseSum parses at their place in the token stream,
parseComparation returns `Compare(op, l, r)` and stops behind `r`, whatever
follows, another relational operator included: it takes one relational
operator at most. parseExpression returns the same node when nothing that
continues the expression follows (`a + 1 < b * 2` gives
`Compare(<, a + 1, b * 2)`). When a second relational operator follows `r`,
as in `a < b < c;`, parseStatement raises the syntax error of the expected
`;`. -/
theorem parseComparation_does_not_chain (p : FunctionParser) (s s1 s2 : ParserState)
    (l r : Statement) (hl : Parses p.parseSum s l s1)
    (hop : isComparisonOp s1.currentType = true)
    (hr : Parses p.parseSum s1.skip r s2) :
    Parses p.parseComparation s (Operations.Compare l r s1.currentType) s2 ∧
    (s.currentType ≠ .logicalNot → continuesExpression s2.currentType = false →
      Parses p.parseExpression s (Operations.Compare l r s1.currentType) s2) ∧
    (s.currentType ≠ .logicalNot → isComparisonOp s2.currentType = true →
      Fails p.parseStatement s (.expected .semicolon)) := by
  have hcmp := comparation_of_sum_op p hl hop hr
  refine ⟨hcmp, ?_, ?_⟩
  · intro hnot hend
    obtain ⟨-, hlog, hq⟩ := not_continues_upper hend
    exact expression_of_bool p (bool_of_logic p hnot (logic_of_comparation p hcmp hlog)) hq
  · intro hnot hop2
    have hc := comparison_cases.mp hop2
    have hlog : isLogicOp s2.currentType = false := by
      rcases hc with h | h | h | h | h | h <;> rw [h] <;> rfl
    have hq : s2.currentType ≠ .question := by
      rcases hc with h | h | h | h | h | h <;> rw [h] <;> decide
    have hassign : ParserState.isAssignmentType s2.currentType = false := by
      rcases hc with h | h | h | h | h | h <;> rw [h] <;> rfl
    have hsemi : s2.currentType ≠ .semicolon := by
      rcases hc with h | h | h | h | h | h <;> rw [h] <;> decide
    have hexpr := expression_of_bool p
      (bool_of_logic p hnot (logic_of_comparation p hcmp hlog)) hq
    obtain ⟨h1, h2, h3, h4, h5, h6, -⟩ := dispatch_of_starts (parses_starts p hexpr)
    obtain ⟨n, hn⟩ := assignment_of_expression p hexpr hassign
    refine ⟨n + 1, fun m hm => ?_⟩
    obtain ⟨k, rfl, hk⟩ := exists_succ_of_lt hm
    rw [statement_of_other p k h1 h2 h3 h4 h5 h6, hn k hk]
    simp only [bind, Except.bind, match_fail hsemi]

/-- Witness of C30 on the tokens `a + 1 < b * 2` and `a < b < c ;`. -/
theorem parseComparation_does_not_chain_witness :
    Parses Examples.knowsAll.parseExpression
      (.init [.ident "a", .op .plus, .lit (.Integer 1), .op .lessThan, .ident "b",
        .op .times, .lit (.Integer 2)])
      (Operations.Compare
        (Operations.BinaryOp (Examples.var "a") (Examples.int 1) .plus)
        (Operations.BinaryOp (Examples.var "b") (Examples.int 2) .times) .lessThan)
      (Examples.after "b" []) ∧
    Parses Examples.knowsAll.parseComparation
      (.init [.ident "a", .op .lessThan, .ident "b", .op .lessThan, .ident "c",
        .op .semicolon])
      (Operations.Compare (Examples.var "a") (Examples.var "b") .lessThan)
      (Examples.after "b" [.op .lessThan, .ident "c", .op .semicolon]) ∧
    Fails Examples.knowsAll.parseStatement
      (.init [.ident "a", .op .lessThan, .ident "b", .op .lessThan, .ident "c",
        .op .semicolon])
      (.expected .semicolon) :=
  ⟨(parseComparation_does_not_chain Examples.knowsAll
      (.init [.ident "a", .op .plus, .lit (.Integer 1), .op .lessThan, .ident "b",
        .op .times, .lit (.Integer 2)])
      (Examples.after "a" [.op .lessThan, .ident "b", .op .times, .lit (.Integer 2)])
      (Examples.after "b" [])
      (Operations.BinaryOp (Examples.var "a") (Examples.int 1) .plus)
      (Operations.BinaryOp (Examples.var "b") (Examples.int 2) .times)
      (parses_sum Examples.knowsAll (by decide : Examples.knowsAll.parseSum 9 _ = _))
      (by decide)
      (parses_sum Examples.knowsAll (by decide : Examples.knowsAll.parseSum 9 _ = _))).2.1
      (by decide) (by decide),
   (parseComparation_does_not_chain Examples.knowsAll
      (.init [.ident "a", .op .lessThan, .ident "b", .op .lessThan, .ident "c",
        .op .semicolon])
      (Examples.after "a" [.op .lessThan, .ident "b", .op .lessThan, .ident "c",
        .op .semicolon])
      (Examples.after "b" [.op .lessThan, .ident "c", .op .semicolon])
      (Examples.var "a") (Examples.var "b")
      (parses_sum Examples.knowsAll (by decide : Examples.knowsAll.parseSum 9 _ = _))
      (by decide)
      (parses_sum Examples.knowsAll (by decide : Examples.knowsAll.parseSum 9 _ = _))).1,
   (parseComparation_does_not_chain Examples.knowsAll
      (.init [.ident "a", .op .lessThan, .ident "b", .op .lessThan, .ident "c",
        .op .semicolon])
      (Examples.after "a" [.op .lessThan, .ident "b", .op .lessThan, .ident "c",
        .op .semicolon])
      (Examples.after "b" [.op .lessThan, .ident "c", .op .semicolon])
      (Examples.var "a") (Examples.var "b")
      (parses_sum Examples.knowsAll (by decide : Examples.knowsAll.parseSum 9 _ = _))
      (by decide)
      (parses_sum Examples.knowsAll (by decide : Examples.knowsAll.parseSum 9 _ = _))).2.2
      (by decide) (by decide)⟩

/-! ## Termination: every function that returns has moved the cursor -/

theorem len_skip_le (s : ParserState) : s.skip.tokens.length ≤ s.tokens.length := by
  simp [ParserState.skip]

theorem len_skip_lt {s : ParserState} (h : s.currentType ≠ .eof) :
    s.skip.tokens.length < s.tokens.length := by
  obtain ⟨tokens, sym, ty, at_⟩ := s
  cases tokens with
  | nil => simp [ParserState.currentType] at h
  | cons t r => simp [ParserState.skip]

theorem len_matchIf (s : ParserState) (e : TokenType) :
    (s.matchIf e).2.tokens.length ≤ s.tokens.length := by
  unfold ParserState.matchIf
  split
  · exact len_skip_le s
  · exact le_refl _

theorem len_matchIf_pair {s t : ParserState} {e : TokenType} {b : Bool}
    (h : s.matchIf e = (b, t)) : t.tokens.length ≤ s.tokens.length := by
  have := len_matchIf s e
  rw [h] at this
  exact this

theorem len_matchIf_true {s t : ParserState} {e : TokenType}
    (h : s.matchIf e = (true, t)) (he : e ≠ .eof) :
    t.tokens.length < s.tokens.length := by
  unfold ParserState.matchIf at h
  split at h
  · rename_i hc
    simp only [Prod.mk.injEq, true_and] at h
    subst h
    exact len_skip_lt (by rw [hc]; exact he)
  · simp at h

theorem len_match {s t : ParserState} {e : TokenType} (h : s.match_ e = .ok t)
    (he : e ≠ .eof) : t.tokens.length < s.tokens.length := by
  unfold ParserState.match_ at h
  split at h
  · rename_i hc
    simp only [Except.ok.injEq] at h
    subst h
    exact len_skip_lt (by rw [hc]; exact he)
  · simp at h

theorem len_matchIfSymbol (p : FunctionParser) (c : Bool) (s : ParserState) :
    (p.matchIfSymbol c s).2.tokens.length ≤ s.tokens.length := by
  unfold matchIfSymbol
  split
  · split
    · simp [ParserState.skip]
    · exact le_refl _
  · exact le_refl _

theorem len_matchIfSymbol_true {p : FunctionParser} {c : Bool} {s t : ParserState}
    (h : p.matchIfSymbol c s = (true, t)) : t.tokens.length < s.tokens.length := by
  unfold matchIfSymbol at h
  split at h
  · rename_i tk r hs
    split at h
    · simp only [Prod.mk.injEq, true_and] at h
      subst h
      simp [ParserState.skip, hs]
    · simp at h
  · simp at h

theorem typeOfToken_ne_eof {c : TokenType} {T : Types.ID}
    (h : ParserState.typeOfToken c = some T) : c ≠ .eof := by
  intro e
  rw [e] at h
  simp [ParserState.typeOfToken] at h

theorem len_matchIfTypeToken_pair {s t : ParserState} {b : Bool}
    (h : s.matchIfTypeToken = (b, t)) : t.tokens.length ≤ s.tokens.length := by
  unfold ParserState.matchIfTypeToken at h
  split at h
  · simp only [Prod.mk.injEq] at h
    rw [← h.2]
    exact len_skip_le s
  · simp only [Prod.mk.injEq] at h
    rw [← h.2]

theorem len_matchIfTypeToken_true {s t : ParserState}
    (h : s.matchIfTypeToken = (true, t)) : t.tokens.length < s.tokens.length := by
  unfold ParserState.matchIfTypeToken at h
  split at h
  · rename_i T hT
    simp only [Prod.mk.injEq, true_and] at h
    rw [← h]
    exact len_skip_lt (typeOfToken_ne_eof hT)
  · simp at h

theorem len_matchIfAssignmentType_pair {s t : ParserState} {b : Bool}
    (h : s.matchIfAssignmentType = (b, t)) : t.tokens.length ≤ s.tokens.length := by
  unfold ParserState.matchIfAssignmentType at h
  split at h
  · simp only [Prod.mk.injEq] at h
    rw [← h.2]
    exact len_skip_le s
  · simp only [Prod.mk.injEq] at h
    rw [← h.2]

theorem len_parseLiteral {b : Bool} {s t : ParserState} {x : Statement}
    (h : parseLiteral b s = .ok (x, t)) : t.tokens.length < s.tokens.length := by
  unfold parseLiteral at h
  obtain ⟨⟨v, s1⟩, h1, h2⟩ := bind_eq_ok h
  have e := pure_eq_ok h2
  simp only [Prod.mk.injEq] at e
  rw [← e.2]
  unfold ParserState.parseVariableStorageLiteral at h1
  split at h1
  · rename_i tk r hs
    split at h1
    · simp only [Except.ok.injEq, Prod.mk.injEq] at h1
      rw [← h1.2]
      simp [ParserState.skip, hs]
    · simp at h1
  · simp at h1

theorem pure_ok_state {x y : Statement} {u t : ParserState}
    (h : (pure (y, u) : Except Failure (Statement × ParserState)) = .ok (x, t)) : t = u := by
  have := pure_eq_ok h
  simp only [Prod.mk.injEq] at this
  exact this.2.symm

theorem progressAt_zero (p : FunctionParser) : ProgressAt p 0 := by
  constructor <;> intros <;> simp_all [parseFunctionCallLoop, parseFunctionCall,
    parseExpression, parseTernaryOperator, parseBool, parseLogicOperation, parseComparation,
    parseSum, parseProduct, parseDifference, parseTerm, parseCast, parseUnary, parseFactor,
    parseSymbolOrLiteral]

theorem progressAt_succ (p : FunctionParser) (n : Nat) (ih : ProgressAt p n) :
    ProgressAt p (n + 1) := by
  constructor
  · intro f s x t h
    rw [parseFunctionCallLoop] at h
    split at h
    · obtain ⟨⟨e, s1⟩, h1, h2⟩ := bind_eq_ok h
      dsimp only at h2
      have a := ih.expression _ _ _ h1
      have b := ih.functionCallLoop _ _ _ _ h2
      have c := len_matchIf s1 .comma
      omega
    · have e := pure_ok_state h
      subst e
      exact le_refl _
  · intro s x t h
    rw [parseFunctionCall] at h
    obtain ⟨⟨f, s1⟩, h1, h2⟩ := bind_eq_ok h
    dsimp only at h2
    obtain ⟨s2, h3, h4⟩ := bind_eq_ok h2
    have e := pure_ok_state h4
    subst e
    have a := ih.functionCallLoop _ _ _ _ h1
    have b := len_match h3 (by decide)
    omega
  · intro s x t h
    rw [parseExpression] at h
    exact ih.ternary _ _ _ h
  · intro s x t h
    rw [parseTernaryOperator] at h
    obtain ⟨⟨c, s1⟩, h1, h2⟩ := bind_eq_ok h
    dsimp only at h2
    have a := ih.bool _ _ _ h1
    split at h2
    · rename_i s2 hm
      obtain ⟨⟨tb, s3⟩, h3, h4⟩ := bind_eq_ok h2
      dsimp only at h4
      obtain ⟨s4, h5, h6⟩ := bind_eq_ok h4
      obtain ⟨⟨fb, s5⟩, h7, h8⟩ := bind_eq_ok h6
      have e := pure_ok_state h8
      subst e
      have b := len_matchIf_pair hm
      have c := ih.expression _ _ _ h3
      have d := len_match h5 (by decide)
      have g := ih.expression _ _ _ h7
      omega
    · rename_i s2 hm
      have e := pure_ok_state h2
      subst e
      have b := len_matchIf_pair hm
      omega
  · intro s x t h
    rw [parseBool] at h
    rcases hm : s.matchIf .logicalNot with ⟨b0, s0⟩
    rw [hm] at h
    dsimp only at h
    obtain ⟨⟨c, s1⟩, h1, h2⟩ := bind_eq_ok h
    dsimp only at h2
    have a := ih.logic _ _ _ h1
    have b := len_matchIf_pair hm
    split at h2
    · have e := pure_ok_state h2
      subst e
      omega
    · have e := pure_ok_state h2
      subst e
      omega
  · intro s x t h
    rw [parseLogicOperation] at h
    obtain ⟨⟨c, s1⟩, h1, h2⟩ := bind_eq_ok h
    dsimp only at h2
    have a := ih.comparation _ _ _ h1
    split at h2
    · rename_i s2 hm
      obtain ⟨⟨r, s3⟩, h3, h4⟩ := bind_eq_ok h2
      have e := pure_ok_state h4
      subst e
      have b := len_matchIf_pair hm
      have c := ih.logic _ _ _ h3
      omega
    · rename_i s2 hm
      split at h2
      · rename_i s3 hm2
        obtain ⟨⟨r, s4⟩, h3, h4⟩ := bind_eq_ok h2
        have e := pure_ok_state h4
        subst e
        have b := len_matchIf_pair hm
        have b2 := len_matchIf_pair hm2
        have c := ih.logic _ _ _ h3
        omega
      · rename_i s3 hm2
        have e := pure_ok_state h2
        subst e
        have b := len_matchIf_pair hm
        have b2 := len_matchIf_pair hm2
        omega
  · intro s x t h
    rw [parseComparation] at h
    obtain ⟨⟨c, s1⟩, h1, h2⟩ := bind_eq_ok h
    dsimp only at h2
    have a := ih.sum _ _ _ h1
    split at h2
    · obtain ⟨⟨r, s3⟩, h3, h4⟩ := bind_eq_ok h2
      have e := pure_ok_state h4
      subst e
      have b := len_skip_le s1
      have c := ih.sum _ _ _ h3
      omega
    · have e := pure_ok_state h2
      subst e
      omega
  · intro s x t h
    rw [parseSum] at h
    obtain ⟨⟨c, s1⟩, h1, h2⟩ := bind_eq_ok h
    dsimp only at h2
    have a := ih.difference _ _ _ h1
    split at h2
    · obtain ⟨⟨r, s3⟩, h3, h4⟩ := bind_eq_ok h2
      have e := pure_ok_state h4
      subst e
      have b := len_skip_le s1
      have c := ih.sum _ _ _ h3
      omega
    · have e := pure_ok_state h2
      subst e
      omega
  · intro s x t h
    rw [parseProduct] at h
    obtain ⟨⟨c, s1⟩, h1, h2⟩ := bind_eq_ok h
    dsimp only at h2
    have a := ih.term _ _ _ h1
    split at h2
    · obtain ⟨⟨r, s3⟩, h3, h4⟩ := bind_eq_ok h2
      have e := pure_ok_state h4
      subst e
      have b := len_skip_le s1
      have c := ih.product _ _ _ h3
      omega
    · have e := pure_ok_state h2
      subst e
      omega
  · intro s x t h
    rw [parseDifference] at h
    obtain ⟨⟨c, s1⟩, h1, h2⟩ := bind_eq_ok h
    dsimp only at h2
    have a := ih.product _ _ _ h1
    split at h2
    · obtain ⟨⟨r, s3⟩, h3, h4⟩ := bind_eq_ok h2
      have e := pure_ok_state h4
      subst e
      have b := len_skip_le s1
      have c := ih.difference _ _ _ h3
      omega
    · have e := pure_ok_state h2
      subst e
      omega
  · intro s x t h
    rw [parseTerm] at h
    split at h
    · rename_i s1 hm
      have a := len_matchIf_true hm (by decide)
      split at h
      · rename_i s2 hm2
        have b := len_matchIfTypeToken_pair hm2
        have c := ih.cast _ _ _ _ h
        omega
      · rename_i s2 hm2
        have b := len_matchIfTypeToken_pair hm2
        obtain ⟨⟨r, s3⟩, h3, h4⟩ := bind_eq_ok h
        dsimp only at h4
        obtain ⟨s4, h5, h6⟩ := bind_eq_ok h4
        have e := pure_ok_state h6
        subst e
        have c := ih.expression _ _ _ h3
        have d := len_match h5 (by decide)
        omega
    · rename_i s1 hm
      have a := len_matchIf_pair hm
      have c := ih.unary _ _ _ h
      omega
  · intro ty s x t h
    rw [parseCast] at h
    obtain ⟨s1, h1, h2⟩ := bind_eq_ok h
    obtain ⟨⟨r, s3⟩, h3, h4⟩ := bind_eq_ok h2
    have e := pure_ok_state h4
    subst e
    have a := len_match h1 (by decide)
    have c := ih.term _ _ _ h3
    omega
  · intro s x t h
    rw [parseUnary] at h
    split at h
    · exact ih.factor _ _ _ h
    · split at h
      · rename_i s1 hm
        have e := pure_ok_state h
        subst e
        exact len_matchIf_true hm (by decide)
      · rename_i s1 hm
        have a := len_matchIf_pair hm
        split at h
        · rename_i s2 hm2
          have e := pure_ok_state h
          subst e
          have b := len_matchIf_true hm2 (by decide)
          omega
        · rename_i s2 hm2
          have b := len_matchIf_pair hm2
          split at h
          · have c := ih.bool _ _ _ h
            omega
          · simp at h
  · intro s x t h
    rw [parseFactor] at h
    split at h
    · rename_i s1 hm
      dsimp only at h
      have e := pure_ok_state h
      subst e
      have a := len_matchIf_true hm (by decide)
      have b := len_matchIfSymbol p false s1
      omega
    · rename_i s1 hm
      have a := len_matchIf_pair hm
      split at h
      · rename_i s2 hm2
        dsimp only at h
        have e := pure_ok_state h
        subst e
        have a2 := len_matchIf_true hm2 (by decide)
        have b := len_matchIfSymbol p false s2
        omega
      · rename_i s2 hm2
        have a2 := len_matchIf_pair hm2
        split at h
        · rename_i s3 hm3
          have a3 := len_matchIf_true hm3 (by decide)
          split at h
          · have c := len_parseLiteral h
            omega
          · obtain ⟨⟨r, s4⟩, h3, h4⟩ := bind_eq_ok h
            have e := pure_ok_state h4
            subst e
            have c := ih.symbolOrLiteral _ _ _ h3
            omega
        · rename_i s3 hm3
          have a3 := len_matchIf_pair hm3
          have c := ih.symbolOrLiteral _ _ _ h
          omega
  · intro s x t h
    rw [parseSymbolOrLiteral] at h
    split at h
    · rename_i s1 hm
      have a := len_matchIfSymbol_true hm
      split at h
      · rename_i s2 hm2
        have b := len_matchIf_pair hm2
        have c := ih.functionCall _ _ _ h
        omega
      · rename_i s2 hm2
        have b := len_matchIf_pair hm2
        split at h
        · rename_i s3 hm3
          have e := pure_ok_state h
          subst e
          have b3 := len_matchIf_pair hm3
          omega
        · rename_i s3 hm3
          have b3 := len_matchIf_pair hm3
          split at h
          · rename_i s4 hm4
            have e := pure_ok_state h
            subst e
            have b4 := len_matchIf_pair hm4
            omega
          · rename_i s4 hm4
            have b4 := len_matchIf_pair hm4
            split at h
            · rename_i s5 hm5
              have b5 := len_matchIf_pair hm5
              obtain ⟨⟨r, s6⟩, h3, h4⟩ := bind_eq_ok h
              dsimp only at h4
              obtain ⟨s7, h5, h6⟩ := bind_eq_ok h4
              have e := pure_ok_state h6
              subst e
              have c := ih.expression _ _ _ h3
              have d := len_match h5 (by decide)
              omega
            · rename_i s5 hm5
              have b5 := len_matchIf_pair hm5
              have e := pure_ok_state h
              subst e
              omega
    · rename_i s1 hm
      have c := len_parseLiteral h
      have : s1 = s := by
        unfold matchIfSymbol at hm
        split at hm
        · split at hm
          · simp at hm
          · simp only [Prod.mk.injEq, true_and] at hm
            exact hm.symm
        · simp only [Prod.mk.injEq, true_and] at hm
          exact hm.symm
      subst this
      exact c

theorem progressAt (p : FunctionParser) : ∀ n, ProgressAt p n
  | 0 => progressAt_zero p
  | n + 1 => progressAt_succ p n (progressAt p n)

theorem len_returnStatement (p : FunctionParser) {n : Nat} {s t : ParserState}
    {x : Statement} (h : p.parseReturnStatement n s = .ok (x, t)) :
    t.tokens.length ≤ s.tokens.length := by
  cases n with
  | zero => simp [parseReturnStatement] at h
  | succ n =>
    rw [parseReturnStatement] at h
    split at h
    · have e := pure_ok_state h
      subst e
      exact le_refl _
    · obtain ⟨⟨r, s1⟩, h1, h2⟩ := bind_eq_ok h
      have e := pure_ok_state h2
      subst e
      exact le_of_lt ((progressAt p n).expression _ _ _ h1)

theorem len_variableDefinition (p : FunctionParser) {n : Nat} {c : Bool}
    {s t : ParserState} {x : Statement} (h : p.parseVariableDefinition n c s = .ok (x, t)) :
    t.tokens.length < s.tokens.length := by
  cases n with
  | zero => simp [parseVariableDefinition] at h
  | succ n =>
    rw [parseVariableDefinition] at h
    split at h
    · simp at h
    · rename_i s1 hm
      have a := len_matchIfSymbol_true hm
      obtain ⟨s2, h1, h2⟩ := bind_eq_ok h
      obtain ⟨⟨r, s3⟩, h3, h4⟩ := bind_eq_ok h2
      have e := pure_ok_state h4
      subst e
      have b := len_match h1 (by decide)
      have c := (progressAt p n).expression _ _ _ h3
      omega

theorem len_assignment (p : FunctionParser) {n : Nat} {s t : ParserState}
    {x : Statement} (h : p.parseAssignment n s = .ok (x, t)) :
    t.tokens.length < s.tokens.length := by
  cases n with
  | zero => simp [parseAssignment] at h
  | succ n =>
    rw [parseAssignment] at h
    obtain ⟨⟨l, s1⟩, h1, h2⟩ := bind_eq_ok h
    dsimp only at h2
    have a := (progressAt p n).expression _ _ _ h1
    split at h2
    · rename_i s2 hm
      have b := len_matchIfAssignmentType_pair hm
      obtain ⟨⟨r, s3⟩, h3, h4⟩ := bind_eq_ok h2
      dsimp only at h4
      have c := (progressAt p n).expression _ _ _ h3
      split at h4
      · have e := pure_ok_state h4
        subst e
        omega
      · have e := pure_ok_state h4
        subst e
        omega
    · rename_i s2 hm
      have b := len_matchIfAssignmentType_pair hm
      have e := pure_ok_state h2
      subst e
      omega

theorem progressStatementAt_zero (p : FunctionParser) : ProgressStatementAt p 0 := by
  constructor <;> intros <;> simp_all [parseStatementBlockLoop, parseStatementBlock,
    parseStatement, parseLoopStatement, parseIfStatement]

theorem progressStatementAt_succ (p : FunctionParser) (n : Nat)
    (ih : ProgressStatementAt p n) : ProgressStatementAt p (n + 1) := by
  constructor
  · intro b s x t h
    rw [parseStatementBlockLoop] at h
    split at h
    · obtain ⟨⟨e, s1⟩, h1, h2⟩ := bind_eq_ok h
      dsimp only at h2
      have a := ih.statement _ _ _ h1
      have c := ih.blockLoop _ _ _ _ h2
      omega
    · have e := pure_ok_state h
      subst e
      exact le_refl _
  · intro s x t h
    rw [parseStatementBlock] at h
    obtain ⟨⟨f, s1⟩, h1, h2⟩ := bind_eq_ok h
    dsimp only at h2
    obtain ⟨s2, h3, h4⟩ := bind_eq_ok h2
    have e := pure_ok_state h4
    subst e
    have a := ih.blockLoop _ _ _ _ h1
    have b := len_match h3 (by decide)
    omega
  · intro s x t h
    rw [parseStatement] at h
    split at h
    rename_i isConst s0 hm0
    have a0 := len_matchIf_pair hm0
    split at h
    · rename_i s1 hm
      have a := len_matchIf_true hm (by decide)
      have c := ih.ifStatement _ _ _ h
      omega
    · rename_i s1 hm
      have a1 := len_matchIf_pair hm
      split at h
      · rename_i s2 hm2
        have a := len_matchIf_true hm2 (by decide)
        obtain ⟨⟨st, s3⟩, h1, h2⟩ := bind_eq_ok h
        dsimp only at h2
        have e := pure_ok_state h2
        subst e
        have c := ih.block _ _ _ h1
        have d := len_matchIf s3 .semicolon
        omega
      · rename_i s2 hm2
        have a2 := len_matchIf_pair hm2
        split at h
        · rename_i s3 hm3
          have a := len_matchIf_true hm3 (by decide)
          obtain ⟨⟨st, s4⟩, h1, h2⟩ := bind_eq_ok h
          dsimp only at h2
          obtain ⟨s5, h3, h4⟩ := bind_eq_ok h2
          have e := pure_ok_state h4
          subst e
          have c := len_returnStatement p h1
          have d := len_match h3 (by decide)
          omega
        · rename_i s3 hm3
          have a3 := len_matchIf_pair hm3
          split at h
          · rename_i s4 hm4
            have a := len_matchIf_true hm4 (by decide)
            have c := ih.loop _ _ _ h
            omega
          · rename_i s4 hm4
            have a4 := len_matchIf_pair hm4
            split at h
            · rename_i s5 hm5
              have a := len_matchIfTypeToken_true hm5
              obtain ⟨⟨st, s6⟩, h1, h2⟩ := bind_eq_ok h
              dsimp only at h2
              obtain ⟨s7, h3, h4⟩ := bind_eq_ok h2
              have e := pure_ok_state h4
              subst e
              have c := len_variableDefinition p h1
              have d := len_match h3 (by decide)
              omega
            · rename_i s5 hm5
              have a5 := len_matchIfTypeToken_pair hm5
              obtain ⟨⟨st, s6⟩, h1, h2⟩ := bind_eq_ok h
              dsimp only at h2
              obtain ⟨s7, h3, h4⟩ := bind_eq_ok h2
              have e := pure_ok_state h4
              subst e
              have c := len_assignment p h1
              have d := len_match h3 (by decide)
              omega
  · intro s x t h
    rw [parseLoopStatement] at h
    obtain ⟨s1, h1, h2⟩ := bind_eq_ok h
    obtain ⟨s2, h3, h4⟩ := bind_eq_ok h2
    obtain ⟨s3, h5, h6⟩ := bind_eq_ok h4
    obtain ⟨s4, h7, h8⟩ := bind_eq_ok h6
    dsimp only at h8
    obtain ⟨s5, h9, h10⟩ := bind_eq_ok h8
    obtain ⟨⟨lb, s6⟩, h11, h12⟩ := bind_eq_ok h10
    dsimp only at h12
    obtain ⟨s7, h13, h14⟩ := bind_eq_ok h12
    obtain ⟨⟨bl, s8⟩, h15, h16⟩ := bind_eq_ok h14
    have e := pure_ok_state h16
    subst e
    have a1 := len_match h1 (by decide)
    have a2 := len_match h3 (by decide)
    have a3 := len_match h5 (by decide)
    have a4 := len_match h7 (by decide)
    have a5 := len_match h9 (by decide)
    have a6 := (progressAt p n).expression _ _ _ h11
    have a7 := len_match h13 (by decide)
    have a8 := ih.statement _ _ _ h15
    omega
  · intro s x t h
    rw [parseIfStatement] at h
    obtain ⟨s1, h1, h2⟩ := bind_eq_ok h
    obtain ⟨⟨c, s2⟩, h3, h4⟩ := bind_eq_ok h2
    dsimp only at h4
    obtain ⟨s3, h5, h6⟩ := bind_eq_ok h4
    obtain ⟨⟨tb, s4⟩, h7, h8⟩ := bind_eq_ok h6
    dsimp only at h8
    have a1 := len_match h1 (by decide)
    have a2 := (progressAt p n).bool _ _ _ h3
    have a3 := len_match h5 (by decide)
    have a4 := ih.statement _ _ _ h7
    split at h8
    · rename_i s5 hm
      have a5 := len_matchIf_pair hm
      obtain ⟨⟨fb, s6⟩, h9, h10⟩ := bind_eq_ok h8
      have e := pure_ok_state h10
      subst e
      have a6 := ih.statement _ _ _ h9
      omega
    · rename_i s5 hm
      have a5 := len_matchIf_pair hm
      have e := pure_ok_state h8
      subst e
      omega

theorem progressStatementAt (p : FunctionParser) : ∀ n, ProgressStatementAt p n
  | 0 => progressStatementAt_zero p
  | n + 1 => progressStatementAt_succ p n (progressStatementAt p n)

/-! ## Termination: a result that is there stays, a syntax error included -/

theorem bind_stable {α β : Type} {x y : Except Failure α} {f g : α → Except Failure β}
    {r : Except Failure β} (hx : ∀ v, x = v → v ≠ .error .outOfFuel → y = v)
    (hf : ∀ v r, f v = r → r ≠ .error .outOfFuel → g v = r)
    (h : x >>= f = r) (hr : r ≠ .error .outOfFuel) : y >>= g = r := by
  cases x with
  | error e =>
    have he : (Except.error e : Except Failure β) = r := h
    have hne : (Except.error e : Except Failure α) ≠ .error .outOfFuel := by
      intro c
      cases c
      exact hr he.symm
    rw [hx _ rfl hne]
    exact he
  | ok v =>
    rw [hx _ rfl (by simp)]
    exact hf v r h hr

theorem stableAt_zero (p : FunctionParser) : StableAt p 0 := by
  constructor <;> intros <;> simp_all [parseFunctionCallLoop, parseFunctionCall,
    parseExpression, parseTernaryOperator, parseBool, parseLogicOperation, parseComparation,
    parseSum, parseProduct, parseDifference, parseTerm, parseCast, parseUnary, parseFactor,
    parseSymbolOrLiteral]

theorem stableAt_succ (p : FunctionParser) (n : Nat) (ih : StableAt p n) : StableAt p (n + 1) := by
  constructor
  · intro f s r h hr
    rw [parseFunctionCallLoop] at h ⊢
    split at h
    · rename_i hc
      rw [if_pos hc]
      refine bind_stable (ih.expression s) ?_ h hr
      rintro ⟨e, s1⟩ r h hr
      exact ih.functionCallLoop _ _ _ h hr
    · rename_i hc
      rw [if_neg hc]
      exact h
  · intro s r h hr
    rw [parseFunctionCall] at h ⊢
    refine bind_stable (ih.functionCallLoop _ s) ?_ h hr
    rintro ⟨e, s1⟩ r h hr
    exact h
  · intro s r h hr
    rw [parseExpression] at h ⊢
    exact ih.ternary s r h hr
  · intro s r h hr
    rw [parseTernaryOperator] at h ⊢
    refine bind_stable (ih.bool s) ?_ h hr
    rintro ⟨c, s1⟩ r h hr
    dsimp only at h ⊢
    split at h
    · refine bind_stable (ih.expression _) ?_ h hr
      rintro ⟨t, s2⟩ r h hr
      refine bind_stable (fun v hv _ => hv) ?_ h hr
      intro s3 r h hr
      refine bind_stable (ih.expression _) ?_ h hr
      rintro ⟨t, s2⟩ r h hr
      exact h
    · exact h
  · intro s r h hr
    rw [parseBool] at h ⊢
    refine bind_stable (ih.logic _) ?_ h hr
    rintro ⟨c, s1⟩ r h hr
    exact h
  · intro s r h hr
    rw [parseLogicOperation] at h ⊢
    refine bind_stable (ih.comparation s) ?_ h hr
    rintro ⟨c, s1⟩ r h hr
    dsimp only at h ⊢
    split at h
    · refine bind_stable (ih.logic _) ?_ h hr
      rintro ⟨t, s2⟩ r h hr
      exact h
    · split at h
      · refine bind_stable (ih.logic _) ?_ h hr
        rintro ⟨t, s2⟩ r h hr
        exact h
      · exact h
  · intro s r h hr
    rw [parseComparation] at h ⊢
    refine bind_stable (ih.sum s) ?_ h hr
    rintro ⟨c, s1⟩ r h hr
    dsimp only at h ⊢
    split at h
    · rename_i hc
      rw [if_pos hc]
      refine bind_stable (ih.sum _) ?_ h hr
      rintro ⟨t, s2⟩ r h hr
      exact h
    · rename_i hc
      rw [if_neg hc]
      exact h
  · intro s r h hr
    rw [parseSum] at h ⊢
    refine bind_stable (ih.difference s) ?_ h hr
    rintro ⟨c, s1⟩ r h hr
    dsimp only at h ⊢
    split at h
    · rename_i hc
      rw [if_pos hc]
      refine bind_stable (ih.sum _) ?_ h hr
      rintro ⟨t, s2⟩ r h hr
      exact h
    · rename_i hc
      rw [if_neg hc]
      exact h
  · intro s r h hr
    rw [parseProduct] at h ⊢
    refine bind_stable (ih.term s) ?_ h hr
    rintro ⟨c, s1⟩ r h hr
    dsimp only at h ⊢
    split at h
    · rename_i hc
      rw [if_pos hc]
      refine bind_stable (ih.product _) ?_ h hr
      rintro ⟨t, s2⟩ r h hr
      exact h
    · rename_i hc
      rw [if_neg hc]
      exact h
  · intro s r h hr
    rw [parseDifference] at h ⊢
    refine bind_stable (ih.product s) ?_ h hr
    rintro ⟨c, s1⟩ r h hr
    dsimp only at h ⊢
    split at h
    · rename_i hc
      rw [if_pos hc]
      refine bind_stable (ih.difference _) ?_ h hr
      rintro ⟨t, s2⟩ r h hr
      exact h
    · rename_i hc
      rw [if_neg hc]
      exact h
  · intro s r h hr
    rw [parseTerm] at h ⊢
    split at h
    · rename_i s1 hm
      split at h
      · rename_i s2 hm2
        exact ih.cast _ _ _ h hr
      · rename_i s2 hm2
        refine bind_stable (ih.expression _) ?_ h hr
        rintro ⟨t, s3⟩ r h hr
        exact h
    · rename_i s1 hm
      exact ih.unary _ _ h hr
  · intro t s r h hr
    rw [parseCast] at h ⊢
    refine bind_stable (fun v hv _ => hv) ?_ h hr
    intro s1 r h hr
    refine bind_stable (ih.term _) ?_ h hr
    rintro ⟨t, s3⟩ r h hr
    exact h
  · intro s r h hr
    rw [parseUnary] at h ⊢
    split at h
    · rename_i hc
      rw [if_pos hc]
      exact ih.factor _ _ h hr
    · rename_i hc
      rw [if_neg hc]
      split at h
      · rename_i s1 hm
        exact h
      · rename_i s1 hm
        split at h
        · rename_i s2 hm2
          exact h
        · rename_i s2 hm2
          split at h
          · rename_i hd
            rw [if_pos hd]
            exact ih.bool _ _ h hr
          · rename_i hd
            rw [if_neg hd]
            exact h
  · intro s r h hr
    rw [parseFactor] at h ⊢
    split at h
    · rename_i s1 hm
      exact h
    · rename_i s1 hm
      split at h
      · rename_i s2 hm2
        exact h
      · rename_i s2 hm2
        split at h
        · rename_i s3 hm3
          split at h
          · rename_i hd
            rw [if_pos hd]
            exact h
          · rename_i hd
            rw [if_neg hd]
            refine bind_stable (ih.symbolOrLiteral _) ?_ h hr
            rintro ⟨t, s3⟩ r h hr
            exact h
        · rename_i s3 hm3
          exact ih.symbolOrLiteral _ _ h hr
  · intro s r h hr
    rw [parseSymbolOrLiteral] at h ⊢
    split at h
    · rename_i s1 hm
      split at h
      · rename_i s2 hm2
        exact ih.functionCall _ _ h hr
      · rename_i s2 hm2
        split at h
        · rename_i s3 hm3
          exact h
        · rename_i s3 hm3
          split at h
          · rename_i s4 hm4
            exact h
          · rename_i s4 hm4
            split at h
            · rename_i s5 hm5
              refine bind_stable (ih.expression _) ?_ h hr
              rintro ⟨t, s3⟩ r h hr
              exact h
            · rename_i s5 hm5
              exact h
    · rename_i s1 hm
      exact h

theorem stableAt (p : FunctionParser) : ∀ n, StableAt p n
  | 0 => stableAt_zero p
  | n + 1 => stableAt_succ p n (stableAt p n)



theorem returnStatement_stable (p : FunctionParser) (n : Nat) (s : ParserState)
    (r : ParseResult) (h : p.parseReturnStatement n s = r)
    (hr : r ≠ .error .outOfFuel) :
    p.parseReturnStatement (n + 1) s = r := by
  cases n with
  | zero =>
    rw [parseReturnStatement] at h
    exact absurd h.symm hr
  | succ n =>
    rw [parseReturnStatement] at h ⊢
    split at h
    · rename_i hc
      rw [if_pos hc]
      exact h
    · rename_i hc
      rw [if_neg hc]
      refine bind_stable ((stableAt p n).expression s) ?_ h hr
      rintro ⟨e, s1⟩ r h hr
      exact h

theorem variableDefinition_stable (p : FunctionParser) (n : Nat) (c : Bool) (s : ParserState)
    (r : ParseResult) (h : p.parseVariableDefinition n c s = r)
    (hr : r ≠ .error .outOfFuel) :
    p.parseVariableDefinition (n + 1) c s = r := by
  cases n with
  | zero =>
    rw [parseVariableDefinition] at h
    exact absurd h.symm hr
  | succ n =>
    rw [parseVariableDefinition] at h ⊢
    split at h
    · exact h
    · refine bind_stable (fun v hv _ => hv) ?_ h hr
      intro s1 r h hr
      refine bind_stable ((stableAt p n).expression _) ?_ h hr
      rintro ⟨e, s2⟩ r h hr
      exact h

theorem assignment_stable (p : FunctionParser) (n : Nat) (s : ParserState)
    (r : ParseResult) (h : p.parseAssignment n s = r)
    (hr : r ≠ .error .outOfFuel) :
    p.parseAssignment (n + 1) s = r := by
  cases n with
  | zero =>
    rw [parseAssignment] at h
    exact absurd h.symm hr
  | succ n =>
    rw [parseAssignment] at h ⊢
    refine bind_stable ((stableAt p n).expression s) ?_ h hr
    rintro ⟨l, s1⟩ r h hr
    dsimp only at h ⊢
    split at h
    · refine bind_stable ((stableAt p n).expression _) ?_ h hr
      rintro ⟨e, s2⟩ r h hr
      exact h
    · exact h

theorem stableStatementAt_zero (p : FunctionParser) : StableStatementAt p 0 := by
  constructor <;> intros <;> simp_all [parseStatementBlockLoop, parseStatementBlock,
    parseStatement, parseLoopStatement, parseIfStatement]

theorem stableStatementAt_succ (p : FunctionParser) (n : Nat) (ih : StableStatementAt p n) :
    StableStatementAt p (n + 1) := by
  constructor
  · intro b s r h hr
    rw [parseStatementBlockLoop] at h ⊢
    split at h
    · rename_i hc
      rw [if_pos hc]
      refine bind_stable (ih.statement s) ?_ h hr
      rintro ⟨e, s1⟩ r h hr
      exact ih.blockLoop _ _ _ h hr
    · rename_i hc
      rw [if_neg hc]
      exact h
  · intro s r h hr
    rw [parseStatementBlock] at h ⊢
    refine bind_stable (ih.blockLoop _ s) ?_ h hr
    rintro ⟨e, s1⟩ r h hr
    exact h
  · intro s r h hr
    rw [parseStatement] at h ⊢
    split at h
    split at h
    · exact ih.ifStatement _ _ h hr
    · split at h
      · refine bind_stable (ih.block _) ?_ h hr
        rintro ⟨e, s1⟩ r h hr
        exact h
      · split at h
        · refine bind_stable (returnStatement_stable p n _) ?_ h hr
          rintro ⟨e, s1⟩ r h hr
          exact h
        · split at h
          · exact ih.loop _ _ h hr
          · split at h
            · refine bind_stable (variableDefinition_stable p n _ _) ?_ h hr
              rintro ⟨e, s1⟩ r h hr
              exact h
            · refine bind_stable (assignment_stable p n _) ?_ h hr
              rintro ⟨e, s1⟩ r h hr
              exact h
  · intro s r h hr
    rw [parseLoopStatement] at h ⊢
    refine bind_stable (fun v hv _ => hv) ?_ h hr
    intro s1 r h hr
    refine bind_stable (fun v hv _ => hv) ?_ h hr
    intro s2 r h hr
    refine bind_stable (fun v hv _ => hv) ?_ h hr
    intro s3 r h hr
    refine bind_stable (fun v hv _ => hv) ?_ h hr
    intro s4 r h hr
    refine bind_stable (fun v hv _ => hv) ?_ h hr
    intro s5 r h hr
    refine bind_stable ((stableAt p n).expression _) ?_ h hr
    rintro ⟨e, s6⟩ r h hr
    refine bind_stable (fun v hv _ => hv) ?_ h hr
    intro s7 r h hr
    refine bind_stable (ih.statement _) ?_ h hr
    rintro ⟨b, s8⟩ r h hr
    exact h
  · intro s r h hr
    rw [parseIfStatement] at h ⊢
    refine bind_stable (fun v hv _ => hv) ?_ h hr
    intro s1 r h hr
    refine bind_stable ((stableAt p n).bool _) ?_ h hr
    rintro ⟨c, s2⟩ r h hr
    refine bind_stable (fun v hv _ => hv) ?_ h hr
    intro s3 r h hr
    refine bind_stable (ih.statement _) ?_ h hr
    rintro ⟨t, s4⟩ r h hr
    dsimp only at h ⊢
    split at h
    · refine bind_stable (ih.statement _) ?_ h hr
      rintro ⟨f, s5⟩ r h hr
      exact h
    · exact h

theorem stableStatementAt (p : FunctionParser) : ∀ n, StableStatementAt p n
  | 0 => stableStatementAt_zero p
  | n + 1 => stableStatementAt_succ p n (stableStatementAt p n)


/-! ## Termination: a budget that is enough -/

theorem settled_bind {α β : Type} {x : Except Failure α} {f : α → Except Failure β}
    (hx : x ≠ .error .outOfFuel) (hf : ∀ v, x = .ok v → f v ≠ .error .outOfFuel) :
    x >>= f ≠ .error .outOfFuel := by
  cases x with
  | error e =>
    intro h
    have he : (Except.error e : Except Failure β) = .error .outOfFuel := h
    cases he
    exact hx rfl
  | ok v => exact hf v rfl

theorem pure_settled {α : Type} {v : α} :
    (pure v : Except Failure α) ≠ .error .outOfFuel := by
  simp [pure, Except.pure]

theorem match_settled (s : ParserState) (e : TokenType) :
    s.match_ e ≠ .error .outOfFuel := by
  unfold ParserState.match_
  split <;> simp

theorem parseLiteral_settled (b : Bool) (s : ParserState) :
    parseLiteral b s ≠ .error .outOfFuel := by
  unfold parseLiteral
  refine settled_bind ?_ ?_
  · unfold ParserState.parseVariableStorageLiteral
    split
    · split <;> simp
    · simp
  · rintro ⟨v, s1⟩ _
    exact pure_settled

theorem settledAt_zero (p : FunctionParser) : SettledAt p 0 := by
  constructor <;> intros <;> omega

theorem settledAt_succ (p : FunctionParser) (n : Nat) (ih : SettledAt p n) :
    SettledAt p (n + 1) := by
  have pr := progressAt p n
  constructor
  · intro f s hb
    rw [parseFunctionCallLoop]
    split
    · refine settled_bind (ih.expression s (by omega)) ?_
      rintro ⟨e, s1⟩ h1
      dsimp only
      have a := pr.expression _ _ _ h1
      have c := len_matchIf s1 .comma
      exact ih.functionCallLoop _ _ (by omega)
    · exact pure_settled
  · intro s hb
    rw [parseFunctionCall]
    refine settled_bind (ih.functionCallLoop _ s (by omega)) ?_
    rintro ⟨f, s1⟩ h1
    dsimp only
    refine settled_bind (match_settled _ _) ?_
    intro s2 h2
    exact pure_settled
  · intro s hb
    rw [parseExpression]
    exact ih.ternary s (by omega)
  · intro s hb
    rw [parseTernaryOperator]
    refine settled_bind (ih.bool s (by omega)) ?_
    rintro ⟨c, s1⟩ h1
    dsimp only
    have a := pr.bool _ _ _ h1
    split
    · rename_i s2 hm
      have b := len_matchIf_pair hm
      refine settled_bind (ih.expression _ (by omega)) ?_
      rintro ⟨tb, s3⟩ h3
      dsimp only
      have c := pr.expression _ _ _ h3
      refine settled_bind (match_settled _ _) ?_
      intro s4 h4
      have d := len_match h4 (by decide)
      refine settled_bind (ih.expression _ (by omega)) ?_
      rintro ⟨fb, s5⟩ h5
      exact pure_settled
    · exact pure_settled
  · intro s hb
    rw [parseBool]
    rcases hm : s.matchIf .logicalNot with ⟨b0, s0⟩
    dsimp only
    have b := len_matchIf_pair hm
    refine settled_bind (ih.logic _ (by omega)) ?_
    rintro ⟨c, s1⟩ h1
    dsimp only
    split <;> exact pure_settled
  · intro s hnot hb
    rw [parseBool, matchIf_of_eq hnot]
    dsimp only
    have b := len_skip_lt (s := s) (by rw [hnot]; decide)
    refine settled_bind (ih.logic _ (by omega)) ?_
    rintro ⟨c, s1⟩ h1
    exact pure_settled
  · intro s hb
    rw [parseLogicOperation]
    refine settled_bind (ih.comparation s (by omega)) ?_
    rintro ⟨c, s1⟩ h1
    dsimp only
    have a := pr.comparation _ _ _ h1
    split
    · rename_i s2 hm
      have b := len_matchIf_pair hm
      refine settled_bind (ih.logic _ (by omega)) ?_
      rintro ⟨r, s3⟩ h3
      exact pure_settled
    · rename_i s2 hm
      have b := len_matchIf_pair hm
      split
      · rename_i s3 hm2
        have b2 := len_matchIf_pair hm2
        refine settled_bind (ih.logic _ (by omega)) ?_
        rintro ⟨r, s4⟩ h3
        exact pure_settled
      · exact pure_settled
  · intro s hb
    rw [parseComparation]
    refine settled_bind (ih.sum s (by omega)) ?_
    rintro ⟨c, s1⟩ h1
    dsimp only
    have a := pr.sum _ _ _ h1
    have b := len_skip_le s1
    split
    · refine settled_bind (ih.sum _ (by omega)) ?_
      rintro ⟨r, s3⟩ h3
      exact pure_settled
    · exact pure_settled
  · intro s hb
    rw [parseSum]
    refine settled_bind (ih.difference s (by omega)) ?_
    rintro ⟨c, s1⟩ h1
    dsimp only
    have a := pr.difference _ _ _ h1
    have b := len_skip_le s1
    split
    · refine settled_bind (ih.sum _ (by omega)) ?_
      rintro ⟨r, s3⟩ h3
      exact pure_settled
    · exact pure_settled
  · intro s hb
    rw [parseDifference]
    refine settled_bind (ih.product s (by omega)) ?_
    rintro ⟨c, s1⟩ h1
    dsimp only
    have a := pr.product _ _ _ h1
    have b := len_skip_le s1
    split
    · refine settled_bind (ih.difference _ (by omega)) ?_
      rintro ⟨r, s3⟩ h3
      exact pure_settled
    · exact pure_settled
  · intro s hb
    rw [parseProduct]
    refine settled_bind (ih.term s (by omega)) ?_
    rintro ⟨c, s1⟩ h1
    dsimp only
    have a := pr.term _ _ _ h1
    have b := len_skip_le s1
    split
    · refine settled_bind (ih.product _ (by omega)) ?_
      rintro ⟨r, s3⟩ h3
      exact pure_settled
    · exact pure_settled
  · intro s hb
    rw [parseTerm]
    split
    · rename_i s1 hm
      have a := len_matchIf_true hm (by decide)
      split
      · rename_i s2 hm2
        have b := len_matchIfTypeToken_pair hm2
        exact ih.cast _ _ (by omega)
      · rename_i s2 hm2
        have b := len_matchIfTypeToken_pair hm2
        refine settled_bind (ih.expression _ (by omega)) ?_
        rintro ⟨r, s3⟩ h3
        dsimp only
        refine settled_bind (match_settled _ _) ?_
        intro s4 h4
        exact pure_settled
    · rename_i s1 hm
      have a := len_matchIf_pair hm
      exact ih.unary _ (by omega)
  · intro ty s hb
    rw [parseCast]
    refine settled_bind (match_settled _ _) ?_
    intro s1 h1
    have a := len_match h1 (by decide)
    refine settled_bind (ih.term _ (by omega)) ?_
    rintro ⟨r, s3⟩ h3
    exact pure_settled
  · intro s hb
    rw [parseUnary]
    split
    · exact ih.factor _ (by omega)
    · split
      · exact pure_settled
      · rename_i s1 hm
        have e1 := matchIf_false hm
        subst e1
        split
        · exact pure_settled
        · rename_i s2 hm2
          have e2 := matchIf_false hm2
          subst e2
          split
          · rename_i hnot
            exact ih.boolNot _ hnot (by omega)
          · simp
  · intro s hb
    rw [parseFactor]
    split
    · exact pure_settled
    · rename_i s1 hm
      have a := len_matchIf_pair hm
      split
      · exact pure_settled
      · rename_i s2 hm2
        have a2 := len_matchIf_pair hm2
        split
        · rename_i s3 hm3
          have a3 := len_matchIf_true hm3 (by decide)
          split
          · exact parseLiteral_settled _ _
          · refine settled_bind (ih.symbolOrLiteral _ (by omega)) ?_
            rintro ⟨r, s4⟩ h3
            exact pure_settled
        · rename_i s3 hm3
          have a3 := len_matchIf_pair hm3
          exact ih.symbolOrLiteral _ (by omega)
  · intro s hb
    rw [parseSymbolOrLiteral]
    split
    · rename_i s1 hm
      have a := len_matchIfSymbol_true hm
      split
      · rename_i s2 hm2
        have b := len_matchIf_true hm2 (by decide)
        exact ih.functionCall _ (by omega)
      · rename_i s2 hm2
        have b := len_matchIf_pair hm2
        dsimp only
        split
        · exact pure_settled
        · rename_i s3 hm3
          have b3 := len_matchIf_pair hm3
          split
          · exact pure_settled
          · rename_i s4 hm4
            have b4 := len_matchIf_pair hm4
            split
            · rename_i s5 hm5
              have b5 := len_matchIf_pair hm5
              refine settled_bind (ih.expression _ (by omega)) ?_
              rintro ⟨r, s6⟩ h3
              dsimp only
              refine settled_bind (match_settled _ _) ?_
              intro s7 h5
              exact pure_settled
            · exact pure_settled
    · exact parseLiteral_settled _ _

theorem settledAt (p : FunctionParser) : ∀ n, SettledAt p n
  | 0 => settledAt_zero p
  | n + 1 => settledAt_succ p n (settledAt p n)

theorem returnStatement_settled (p : FunctionParser) (n : Nat) (s : ParserState)
    (hb : 20 * s.tokens.length + 13 ≤ n) :
    p.parseReturnStatement n s ≠ .error .outOfFuel := by
  obtain ⟨k, rfl⟩ : ∃ k, n = k + 1 := ⟨n - 1, by omega⟩
  rw [parseReturnStatement]
  split
  · exact pure_settled
  · refine settled_bind ((settledAt p k).expression s (by omega)) ?_
    rintro ⟨e, s1⟩ h1
    exact pure_settled

theorem variableDefinition_settled (p : FunctionParser) (n : Nat) (c : Bool)
    (s : ParserState) (hb : 20 * s.tokens.length + 1 ≤ n) :
    p.parseVariableDefinition n c s ≠ .error .outOfFuel := by
  obtain ⟨k, rfl⟩ : ∃ k, n = k + 1 := ⟨n - 1, by omega⟩
  rw [parseVariableDefinition]
  split
  · simp
  · rename_i s1 hm
    have a := len_matchIfSymbol_true hm
    refine settled_bind (match_settled _ _) ?_
    intro s2 h2
    have b := len_match h2 (by decide)
    refine settled_bind ((settledAt p k).expression _ (by omega)) ?_
    rintro ⟨e, s3⟩ h3
    exact pure_settled

theorem assignment_settled (p : FunctionParser) (n : Nat) (s : ParserState)
    (hb : 20 * s.tokens.length + 13 ≤ n) :
    p.parseAssignment n s ≠ .error .outOfFuel := by
  obtain ⟨k, rfl⟩ : ∃ k, n = k + 1 := ⟨n - 1, by omega⟩
  rw [parseAssignment]
  refine settled_bind ((settledAt p k).expression s (by omega)) ?_
  rintro ⟨l, s1⟩ h1
  dsimp only
  have a := (progressAt p k).expression _ _ _ h1
  split
  · rename_i s2 hm
    have b := len_matchIfAssignmentType_pair hm
    refine settled_bind ((settledAt p k).expression _ (by omega)) ?_
    rintro ⟨r, s3⟩ h3
    dsimp only
    split <;> exact pure_settled
  · exact pure_settled

theorem settledStatementAt_zero (p : FunctionParser) : SettledStatementAt p 0 := by
  constructor <;> intros <;> omega

theorem settledStatementAt_succ (p : FunctionParser) (n : Nat)
    (ih : SettledStatementAt p n) : SettledStatementAt p (n + 1) := by
  have pr := progressStatementAt p n
  constructor
  · intro b s hb
    rw [parseStatementBlockLoop]
    split
    · refine settled_bind (ih.statement s (by omega)) ?_
      rintro ⟨e, s1⟩ h1
      dsimp only
      have a := pr.statement _ _ _ h1
      exact ih.blockLoop _ _ (by omega)
    · exact pure_settled
  · intro s hb
    rw [parseStatementBlock]
    refine settled_bind (ih.blockLoop _ s (by omega)) ?_
    rintro ⟨f, s1⟩ h1
    dsimp only
    refine settled_bind (match_settled _ _) ?_
    intro s2 h2
    exact pure_settled
  · intro s hb
    rw [parseStatement]
    split
    rename_i isConst s0 hm0
    have a0 := len_matchIf_pair hm0
    split
    · rename_i s1 hm
      have a := len_matchIf_true hm (by decide)
      exact ih.ifStatement _ (by omega)
    · rename_i s1 hm
      have a1 := len_matchIf_pair hm
      split
      · rename_i s2 hm2
        have a := len_matchIf_true hm2 (by decide)
        refine settled_bind (ih.block _ (by omega)) ?_
        rintro ⟨st, s3⟩ h1
        exact pure_settled
      · rename_i s2 hm2
        have a2 := len_matchIf_pair hm2
        split
        · rename_i s3 hm3
          have a := len_matchIf_true hm3 (by decide)
          refine settled_bind (returnStatement_settled p n _ (by omega)) ?_
          rintro ⟨st, s4⟩ h1
          dsimp only
          refine settled_bind (match_settled _ _) ?_
          intro s5 h5
          exact pure_settled
        · rename_i s3 hm3
          have a3 := len_matchIf_pair hm3
          split
          · rename_i s4 hm4
            have a := len_matchIf_true hm4 (by decide)
            exact ih.loop _ (by omega)
          · rename_i s4 hm4
            have a4 := len_matchIf_pair hm4
            split
            · rename_i s5 hm5
              have a := len_matchIfTypeToken_true hm5
              refine settled_bind (variableDefinition_settled p n _ _ (by omega)) ?_
              rintro ⟨st, s6⟩ h1
              dsimp only
              refine settled_bind (match_settled _ _) ?_
              intro s7 h7
              exact pure_settled
            · rename_i s5 hm5
              have a5 := len_matchIfTypeToken_pair hm5
              refine settled_bind (assignment_settled p n _ (by omega)) ?_
              rintro ⟨st, s6⟩ h1
              dsimp only
              refine settled_bind (match_settled _ _) ?_
              intro s7 h7
              exact pure_settled
  · intro s hb
    rw [parseLoopStatement]
    refine settled_bind (match_settled _ _) ?_
    intro s1 h1
    refine settled_bind (match_settled _ _) ?_
    intro s2 h2
    refine settled_bind (match_settled _ _) ?_
    intro s3 h3
    refine settled_bind (match_settled _ _) ?_
    intro s4 h4
    dsimp only
    refine settled_bind (match_settled _ _) ?_
    intro s5 h5
    have a1 := len_match h1 (by decide)
    have a2 := len_match h2 (by decide)
    have a3 := len_match h3 (by decide)
    have a4 := len_match h4 (by decide)
    have a5 := len_match h5 (by decide)
    refine settled_bind ((settledAt p n).expression _ (by omega)) ?_
    rintro ⟨lb, s6⟩ h6
    dsimp only
    have a6 := (progressAt p n).expression _ _ _ h6
    refine settled_bind (match_settled _ _) ?_
    intro s7 h7
    have a7 := len_match h7 (by decide)
    refine settled_bind (ih.statement _ (by omega)) ?_
    rintro ⟨bl, s8⟩ h8
    exact pure_settled
  · intro s hb
    rw [parseIfStatement]
    refine settled_bind (match_settled _ _) ?_
    intro s1 h1
    have a1 := len_match h1 (by decide)
    refine settled_bind ((settledAt p n).bool _ (by omega)) ?_
    rintro ⟨c, s2⟩ h2
    dsimp only
    have a2 := (progressAt p n).bool _ _ _ h2
    refine settled_bind (match_settled _ _) ?_
    intro s3 h3
    have a3 := len_match h3 (by decide)
    refine settled_bind (ih.statement _ (by omega)) ?_
    rintro ⟨tb, s4⟩ h4
    dsimp only
    have a4 := pr.statement _ _ _ h4
    split
    · rename_i s5 hm
      have a5 := len_matchIf_pair hm
      refine settled_bind (ih.statement _ (by omega)) ?_
      rintro ⟨fb, s6⟩ h6
      exact pure_settled
    · exact pure_settled

theorem settledStatementAt (p : FunctionParser) : ∀ n, SettledStatementAt p n
  | 0 => settledStatementAt_zero p
  | n + 1 => settledStatementAt_succ p n (settledStatementAt p n)

/-- From a budget on at which the result is there, every budget gives that
result. -/
theorem settles {F : Nat → ParserState → ParseResult} {s : ParserState} {b : Nat}
    (hstable : ∀ n r, F n s = r → r ≠ .error .outOfFuel → F (n + 1) s = r)
    (hb : F b s ≠ .error .outOfFuel) : ∀ n, b ≤ n → F n s = F b s := by
  intro n hn
  induction hn with
  | refl => rfl
  | step _ ih => exact hstable _ _ ih hb

/-- A result that every budget from the recursion budget on gives is a tree
or a syntax error, for every budget from some budget on. -/
theorem parses_or_fails {F : Nat → ParserState → ParseResult} {s : ParserState} {b : Nat}
    (hb : F b s ≠ .error .outOfFuel) (h : ∀ n, b ≤ n → F n s = F b s) :
    (∃ x t, Parses F s x t) ∨ (∃ e, Fails F s e) := by
  cases hr : F b s with
  | ok v =>
    obtain ⟨x, t⟩ := v
    exact .inl ⟨x, t, b, fun m hm => by rw [h m hm, hr]⟩
  | error e =>
    cases e with
    | outOfFuel => exact absurd hr hb
    | syntaxError err => exact .inr ⟨err, b, fun m hm => by rw [h m hm, hr]⟩

theorem terminates_of_settled {F : Nat → ParserState → ParseResult} {s : ParserState}
    (hstable : ∀ n r, F n s = r → r ≠ .error .outOfFuel → F (n + 1) s = r)
    (hb : F (recursionBudget s) s ≠ .error .outOfFuel) : Terminates F s :=
  ⟨F (recursionBudget s) s, hb, settles hstable hb⟩

/-! ## Termination: the property -/

/-- C21: the parser terminates on every finite token stream. Every call of
parseStatement and of parseExpression that returns a node leaves fewer tokens
than it found, so each round of the loops of parseStatementBlock and
parseFunctionCall and each way round the recursion of the expression levels
has fewer tokens in front of it. Therefore a recursion budget of twenty
levels for each token that is left and twenty more is enough on every state:
from that budget on parseStatement, parseExpression, parseStatementBlock and
parseFunctionCall give one and the same result, which is a tree or a syntax
error. -/
theorem parser_terminates (p : FunctionParser) (s : ParserState) :
    (∀ n x t, p.parseStatement n s = .ok (x, t) → t.tokens.length < s.tokens.length) ∧
    (∀ n x t, p.parseExpression n s = .ok (x, t) → t.tokens.length < s.tokens.length) ∧
    Terminates p.parseStatement s ∧ Terminates p.parseExpression s ∧
    Terminates p.parseStatementBlock s ∧ Terminates p.parseFunctionCall s ∧
    ((∃ x t, Parses p.parseStatement s x t) ∨ (∃ e, Fails p.parseStatement s e)) ∧
    ((∃ x t, Parses p.parseExpression s x t) ∨ (∃ e, Fails p.parseExpression s e)) := by
  have hs : p.parseStatement (recursionBudget s) s ≠ .error .outOfFuel :=
    (settledStatementAt p _).statement s (by unfold recursionBudget; omega)
  have he : p.parseExpression (recursionBudget s) s ≠ .error .outOfFuel :=
    (settledAt p _).expression s (by unfold recursionBudget; omega)
  have hb : p.parseStatementBlock (recursionBudget s) s ≠ .error .outOfFuel :=
    (settledStatementAt p _).block s (by unfold recursionBudget; omega)
  have hc : p.parseFunctionCall (recursionBudget s) s ≠ .error .outOfFuel :=
    (settledAt p _).functionCall s (by unfold recursionBudget; omega)
  have ss := fun n => (stableStatementAt p n).statement s
  have se := fun n => (stableAt p n).expression s
  exact ⟨fun n => (progressStatementAt p n).statement s,
    fun n => (progressAt p n).expression s,
    terminates_of_settled ss hs,
    terminates_of_settled se he,
    terminates_of_settled (fun n => (stableStatementAt p n).block s) hb,
    terminates_of_settled (fun n => (stableAt p n).functionCall s) hc,
    parses_or_fails hs (settles ss hs),
    parses_or_fails he (settles se he)⟩

/-- Witness of C21 on the statement `x = 1 ;`, which is parsed to the end,
and on the expression `( x`, which ends in a syntax error. -/
theorem parser_terminates_witness :
    ((Examples.after "x" []).tokens.length <
        (ParserState.init [.ident "x", .op .assign_, .lit (.Integer 1),
          .op .semicolon]).tokens.length ∧
      Terminates Examples.knowsAll.parseStatement
        (.init [.ident "x", .op .assign_, .lit (.Integer 1), .op .semicolon])) ∧
    (Examples.knowsAll.parseExpression (recursionBudget (.init [.op .openParen, .ident "x"]))
        (.init [.op .openParen, .ident "x"]) =
        .error (.syntaxError (.expected .closeParen)) ∧
      Terminates Examples.knowsAll.parseExpression (.init [.op .openParen, .ident "x"])) :=
  ⟨⟨(parser_terminates Examples.knowsAll
      (.init [.ident "x", .op .assign_, .lit (.Integer 1), .op .semicolon])).1 20
      (Operations.Assignment (Examples.var "x") .assign_ (Examples.int 1))
      (Examples.after "x" []) (by decide),
    (parser_terminates Examples.knowsAll
      (.init [.ident "x", .op .assign_, .lit (.Integer 1), .op .semicolon])).2.2.1⟩,
   ⟨by decide,
    (parser_terminates Examples.knowsAll (.init [.op .openParen, .ident "x"])).2.2.2.1⟩⟩

/-! ## Products, nested ifs and parentheses -/

theorem product_cases {c : TokenType} :
    isProductOp c = true ↔ (c = .times ∨ c = .divide ∨ c = .modulo) := by
  cases c <;> simp [isProductOp]

theorem chain_product (p : FunctionParser) {s t : ParserState} {x : Statement}
    {rest : List (TokenType × Statement)}
    (h : OperatorChain p.parseTerm isProductOp s x rest t)
    (hstop : isProductOp t.currentType = false) :
    Parses p.parseProduct s (rightNestedMixed x rest) t := by
  induction h with
  | single hx =>
    refine product_of_term p hx ?_
    rw [← product_cases, hstop]
    simp
  | cons hx hop _ ih => exact product_of_term_op p hx (product_cases.mp hop) (ih hstop)

/-- C31: `*`, `/` and `%` share one level and nest to the right. For
operands that parseTerm parses at their place in the token stream, joined by
any mix of `*`, `/` and `%`, with no further such operator behind the last
one, parseProduct returns the fully right-nested tree
`t1 op1 (t2 op2 (... tn))` with the operators in source order: `a / b * c`
gives `BinaryOp(/, a, BinaryOp(*, b, c))` and `a / b / c` gives
`BinaryOp(/, a, BinaryOp(/, b, c))`. parseExpression returns the same tree
when nothing that continues the expression follows the chain and the chain
does not begin with `!`. -/
theorem parseProduct_nests_right (p : FunctionParser) (s t : ParserState)
    (x : Statement) (rest : List (TokenType × Statement))
    (hchain : OperatorChain p.parseTerm isProductOp s x rest t)
    (hstop : isProductOp t.currentType = false) :
    Parses p.parseProduct s (rightNestedMixed x rest) t ∧
    (s.currentType ≠ .logicalNot → continuesExpression t.currentType = false →
      Parses p.parseExpression s (rightNestedMixed x rest) t) := by
  have hprod := chain_product p hchain hstop
  refine ⟨hprod, fun hnot hend => ?_⟩
  obtain ⟨harith, -⟩ := not_continues hend
  obtain ⟨hplus, hminus, -⟩ := not_arithmetic harith
  exact expression_of_sum p
    (sum_of_difference p (difference_of_product p hprod hminus) hplus) hnot hend

/-- Witness of C31 on the tokens `a / b * c` and `a / b / c`. -/
theorem parseProduct_nests_right_witness :
    Parses Examples.knowsAll.parseExpression
      (.init [.ident "a", .op .divide, .ident "b", .op .times, .ident "c"])
      (Operations.BinaryOp (Examples.var "a")
        (Operations.BinaryOp (Examples.var "b") (Examples.var "c") .times) .divide)
      (Examples.after "c" []) ∧
    Parses Examples.knowsAll.parseExpression
      (.init [.ident "a", .op .divide, .ident "b", .op .divide, .ident "c"])
      (Operations.BinaryOp (Examples.var "a")
        (Operations.BinaryOp (Examples.var "b") (Examples.var "c") .divide) .divide)
      (Examples.after "c" []) :=
  ⟨(parseProduct_nests_right Examples.knowsAll
      (.init [.ident "a", .op .divide, .ident "b", .op .times, .ident "c"])
      (Examples.after "c" []) (Examples.var "a")
      [(.divide, Examples.var "b"), (.times, Examples.var "c")]
      (.cons (u := Examples.after "a" [.op .divide, .ident "b", .op .times, .ident "c"])
        (parses_term Examples.knowsAll (by decide : Examples.knowsAll.parseTerm 5 _ = _))
        (by decide)
        (.cons (u := Examples.after "b" [.op .times, .ident "c"])
          (parses_term Examples.knowsAll (by decide : Examples.knowsAll.parseTerm 5 _ = _))
          (by decide)
          (.single (parses_term Examples.knowsAll
            (by decide : Examples.knowsAll.parseTerm 5 _ = _)))))
      (by decide)).2 (by decide) (by decide),
   (parseProduct_nests_right Examples.knowsAll
      (.init [.ident "a", .op .divide, .ident "b", .op .divide, .ident "c"])
      (Examples.after "c" []) (Examples.var "a")
      [(.divide, Examples.var "b"), (.divide, Examples.var "c")]
      (.cons (u := Examples.after "a" [.op .divide, .ident "b", .op .divide, .ident "c"])
        (parses_term Examples.knowsAll (by decide : Examples.knowsAll.parseTerm 5 _ = _))
        (by decide)
        (.cons (u := Examples.after "b" [.op .divide, .ident "c"])
          (parses_term Examples.knowsAll (by decide : Examples.knowsAll.parseTerm 5 _ = _))
          (by decide)
          (.single (parses_term Examples.knowsAll
            (by decide : Examples.knowsAll.parseTerm 5 _ = _)))))
      (by decide)).2 (by decide) (by decide)⟩

theorem statement_if_else (p : FunctionParser) {s s1 s2 s3 : ParserState}
    {c x y : Statement} (hif : s.currentType = .if_) (hop : s.skip.currentType = .openParen)
    (hc : Parses p.parseBool s.skip.skip c s1) (hcl : s1.currentType = .closeParen)
    (hx : Parses p.parseStatement s1.skip x s2) (hel : s2.currentType = .else_)
    (hy : Parses p.parseStatement s2.skip y s3) :
    Parses p.parseStatement s (Operations.IfStatement c x (some y)) s3 := by
  obtain ⟨nc, hnc⟩ := hc
  obtain ⟨nx, hnx⟩ := hx
  obtain ⟨ny, hny⟩ := hy
  refine ⟨max nc (max nx ny) + 2, fun m hm => ?_⟩
  obtain ⟨k, rfl, hk⟩ := exists_add_two hm
  have hkc : nc ≤ k := le_trans (le_max_left _ _) hk
  have hkx : nx ≤ k := le_trans (le_trans (le_max_left _ _) (le_max_right _ _)) hk
  have hky : ny ≤ k := le_trans (le_trans (le_max_right _ _) (le_max_right _ _)) hk
  rw [statement_of_if p (k + 1) hif, parseIfStatement,
    match_ok hop (by decide : TokenType.openParen ≠ .identifier)]
  simp only [bind, Except.bind, hnc k hkc,
    match_ok hcl (by decide : TokenType.closeParen ≠ .identifier), hnx k hkx,
    matchIf_of_eq hel, hny k hky]
  rfl

theorem statement_if_plain (p : FunctionParser) {s s1 s2 : ParserState}
    {c x : Statement} (hif : s.currentType = .if_) (hop : s.skip.currentType = .openParen)
    (hc : Parses p.parseBool s.skip.skip c s1) (hcl : s1.currentType = .closeParen)
    (hx : Parses p.parseStatement s1.skip x s2) (hel : s2.currentType ≠ .else_) :
    Parses p.parseStatement s (Operations.IfStatement c x none) s2 := by
  obtain ⟨nc, hnc⟩ := hc
  obtain ⟨nx, hnx⟩ := hx
  refine ⟨max nc nx + 2, fun m hm => ?_⟩
  obtain ⟨k, rfl, hk⟩ := exists_add_two hm
  have hkc : nc ≤ k := le_trans (le_max_left _ _) hk
  have hkx : nx ≤ k := le_trans (le_max_right _ _) hk
  rw [statement_of_if p (k + 1) hif, parseIfStatement,
    match_ok hop (by decide : TokenType.openParen ≠ .identifier)]
  simp only [bind, Except.bind, hnc k hkc,
    match_ok hcl (by decide : TokenType.closeParen ≠ .identifier), hnx k hkx,
    matchIf_of_ne hel]
  rfl

/-- C33: a dangling else binds to the nearest if. On
`if ( a ) if ( b ) s1 else s2`, with the conditions parsed by parseBool to
`a` and `b` and the statements parsed by parseStatement to `x` and `y`, and
no second `else` behind `s2`, parseStatement returns the IfStatement with
condition `a`, no false branch, and as true branch the IfStatement with
condition `b`, true branch `x` and false branch `y`. -/
theorem parseStatement_dangling_else (p : FunctionParser)
    (s0 s1 s2 s3 s4 : ParserState) (a b x y : Statement)
    (hif : s0.currentType = .if_) (hop : s0.skip.currentType = .openParen)
    (ha : Parses p.parseBool s0.skip.skip a s1) (hcl : s1.currentType = .closeParen)
    (hif2 : s1.skip.currentType = .if_) (hop2 : s1.skip.skip.currentType = .openParen)
    (hb : Parses p.parseBool s1.skip.skip.skip b s2) (hcl2 : s2.currentType = .closeParen)
    (hx : Parses p.parseStatement s2.skip x s3) (hel : s3.currentType = .else_)
    (hy : Parses p.parseStatement s3.skip y s4) (hno : s4.currentType ≠ .else_) :
    Parses p.parseStatement s0
      (Operations.IfStatement a (Operations.IfStatement b x (some y)) none) s4 ∧
    Operations.hasFalseBranch
      (Operations.IfStatement a (Operations.IfStatement b x (some y)) none) = false ∧
    Operations.getTrueBranch
      (Operations.IfStatement a (Operations.IfStatement b x (some y)) none) =
        some (Operations.IfStatement b x (some y)) ∧
    Operations.getFalseBranch (Operations.IfStatement b x (some y)) = some y :=
  ⟨statement_if_plain p hif hop ha hcl (statement_if_else p hif2 hop2 hb hcl2 hx hel hy) hno,
   rfl, rfl, rfl⟩

/-- Witness of C33 on the tokens `if (a) if (b) x = 1; else x = 2;`. -/
theorem parseStatement_dangling_else_witness :
    Parses Examples.knowsAll.parseStatement
      (.init [.op .if_, .op .openParen, .ident "a", .op .closeParen,
        .op .if_, .op .openParen, .ident "b", .op .closeParen,
        .ident "x", .op .assign_, .lit (.Integer 1), .op .semicolon, .op .else_,
        .ident "x", .op .assign_, .lit (.Integer 2), .op .semicolon])
      (Operations.IfStatement (Examples.var "a")
        (Operations.IfStatement (Examples.var "b")
          (Operations.Assignment (Examples.var "x") .assign_ (Examples.int 1))
          (some (Operations.Assignment (Examples.var "x") .assign_ (Examples.int 2))))
        none)
      (Examples.after "x" []) :=
  (parseStatement_dangling_else Examples.knowsAll
    (.init [.op .if_, .op .openParen, .ident "a", .op .closeParen,
      .op .if_, .op .openParen, .ident "b", .op .closeParen,
      .ident "x", .op .assign_, .lit (.Integer 1), .op .semicolon, .op .else_,
      .ident "x", .op .assign_, .lit (.Integer 2), .op .semicolon])
    (Examples.after "a" [.op .closeParen,
      .op .if_, .op .openParen, .ident "b", .op .closeParen,
      .ident "x", .op .assign_, .lit (.Integer 1), .op .semicolon, .op .else_,
      .ident "x", .op .assign_, .lit (.Integer 2), .op .semicolon])
    (Examples.after "b" [.op .closeParen,
      .ident "x", .op .assign_, .lit (.Integer 1), .op .semicolon, .op .else_,
      .ident "x", .op .assign_, .lit (.Integer 2), .op .semicolon])
    (Examples.after "x" [.op .else_,
      .ident "x", .op .assign_, .lit (.Integer 2), .op .semicolon])
    (Examples.after "x" [])
    (Examples.var "a") (Examples.var "b")
    (Operations.Assignment (Examples.var "x") .assign_ (Examples.int 1))
    (Operations.Assignment (Examples.var "x") .assign_ (Examples.int 2))
    (by decide) (by decide)
    (parses_bool Examples.knowsAll (by decide : Examples.knowsAll.parseBool 11 _ = _))
    (by decide) (by decide) (by decide)
    (parses_bool Examples.knowsAll (by decide : Examples.knowsAll.parseBool 11 _ = _))
    (by decide)
    (parses_statement Examples.knowsAll
      (by decide : Examples.knowsAll.parseStatement 30 _ = _))
    (by decide)
    (parses_statement Examples.knowsAll
      (by decide : Examples.knowsAll.parseStatement 30 _ = _))
    (by decide)).1

theorem term_of_parens (p : FunctionParser) {s t : ParserState} {x : Statement}
    (hopen : s.currentType = .openParen)
    (hty : ParserState.typeOfToken s.skip.currentType = none)
    (hx : Parses p.parseExpression s.skip x t) (hclose : t.currentType = .closeParen) :
    Parses p.parseTerm s x t.skip := by
  obtain ⟨n, hn⟩ := hx
  refine ⟨n + 1, fun m hm => ?_⟩
  obtain ⟨k, rfl, hk⟩ := exists_succ_of_lt hm
  rw [parseTerm, matchIf_of_eq hopen]
  dsimp only
  rw [matchIfTypeToken_of_none hty]
  dsimp only
  rw [hn k hk]
  simp only [bind, Except.bind,
    match_ok hclose (by decide : TokenType.closeParen ≠ .identifier)]
  rfl

theorem term_fails_unclosed (p : FunctionParser) {s t : ParserState} {x : Statement}
    (hopen : s.currentType = .openParen)
    (hty : ParserState.typeOfToken s.skip.currentType = none)
    (hx : Parses p.parseExpression s.skip x t) (hclose : t.currentType ≠ .closeParen) :
    Fails p.parseTerm s (.expected .closeParen) := by
  obtain ⟨n, hn⟩ := hx
  refine ⟨n + 1, fun m hm => ?_⟩
  obtain ⟨k, rfl, hk⟩ := exists_succ_of_lt hm
  rw [parseTerm, matchIf_of_eq hopen]
  dsimp only
  rw [matchIfTypeToken_of_none hty]
  dsimp only
  rw [hn k hk]
  simp only [bind, Except.bind, match_fail hclose]

theorem expression_of_term (p : FunctionParser) {s t : ParserState} {x : Statement}
    (hx : Parses p.parseTerm s x t) (hnot : s.currentType ≠ .logicalNot)
    (hend : continuesExpression t.currentType = false) :
    Parses p.parseExpression s x t := by
  obtain ⟨harith, -⟩ := not_continues hend
  obtain ⟨hplus, hminus, hprod⟩ := not_arithmetic harith
  exact expression_of_sum p
    (sum_of_difference p (difference_of_product p (product_of_term p hx hprod) hminus) hplus)
    hnot hend

theorem not_continues_of_assignment {c : TokenType}
    (h : ParserState.isAssignmentType c = true) : continuesExpression c = false := by
  cases c <;> simp [ParserState.isAssignmentType] at h <;> rfl

theorem assignment_of_two_expressions (p : FunctionParser) {s s1 s2 : ParserState}
    {L R : Statement} (hL : Parses p.parseExpression s L s1)
    (hop : ParserState.isAssignmentType s1.currentType = true)
    (hR : Parses p.parseExpression
      { s1.skip with currentAssignmentType := s1.currentType } R s2) :
    Parses p.parseAssignment s
      (if L.kind = .BlockAccess then Operations.BlockAssignment L s1.currentType R
        else Operations.Assignment L s1.currentType R) s2 := by
  obtain ⟨nl, hnl⟩ := hL
  obtain ⟨nr, hnr⟩ := hR
  refine ⟨max nl nr + 1, fun m hm => ?_⟩
  obtain ⟨k, rfl, hk⟩ := exists_succ_of_lt hm
  rw [parseAssignment, hnl k (le_trans (le_max_left _ _) hk)]
  simp only [bind, Except.bind, matchIfAssignmentType_of_true hop,
    hnr k (le_trans (le_max_right _ _) hk), isBlockAccess]
  by_cases hk2 : L.kind = .BlockAccess
  · simp [hk2, pure, Except.pure]
  · simp [hk2, pure, Except.pure]

theorem statement_of_assignment (p : FunctionParser) {s t : ParserState} {x : Statement}
    (hx : Parses p.parseAssignment s x t) (hsemi : t.currentType = .semicolon) :
    Parses p.parseStatement s x t.skip := by
  have hd := dispatch_of_starts (parses_assignment_starts p hx)
  obtain ⟨n, hn⟩ := hx
  refine ⟨n + 1, fun m hm => ?_⟩
  obtain ⟨k, rfl, hk⟩ := exists_succ_of_lt hm
  rw [statement_of_other p k hd.1 hd.2.1 hd.2.2.1 hd.2.2.2.1 hd.2.2.2.2.1 hd.2.2.2.2.2.1,
    hn k hk]
  simp only [bind, Except.bind, pure, Except.pure,
    match_ok hsemi (by decide : TokenType.semicolon ≠ .identifier)]

/-- C34: parentheses make no node, they only group. When `(` is followed
by a token that is not a type token and by an expression that
parseExpression parses to `x`, and `)` follows, parseTerm returns `x`
itself and consumes the `)`. So `(a + b) * c` parses to
`BinaryOp(*, BinaryOp(+, a, b), c)`, and a statement `(L) op R;` whose `L`
is a BlockAccess node is a BlockAssignment. When the token behind the
expression is not `)`, parseTerm raises the syntax error of the expected
`)`. -/
theorem parseTerm_parentheses (p : FunctionParser) :
    (∀ (s t : ParserState) (x : Statement),
      s.currentType = .openParen → ParserState.typeOfToken s.skip.currentType = none →
      Parses p.parseExpression s.skip x t → t.currentType = .closeParen →
      Parses p.parseTerm s x t.skip) ∧
    (∀ (s s1 s2 s3 : ParserState) (a b c : Statement),
      s.currentType = .openParen → Parses p.parseTerm s.skip a s1 →
      s1.currentType = .plus → Parses p.parseTerm s1.skip b s2 →
      s2.currentType = .closeParen → s2.skip.currentType = .times →
      Parses p.parseTerm s2.skip.skip c s3 → continuesExpression s3.currentType = false →
      Parses p.parseExpression s
        (Operations.BinaryOp (Operations.BinaryOp a b .plus) c .times) s3) ∧
    (∀ (s t u : ParserState) (L R : Statement),
      s.currentType = .openParen → Parses p.parseExpression s.skip L t →
      L.kind = .BlockAccess → t.currentType = .closeParen →
      ParserState.isAssignmentType t.skip.currentType = true →
      Parses p.parseExpression
        { t.skip.skip with currentAssignmentType := t.skip.currentType } R u →
      u.currentType = .semicolon →
      Parses p.parseStatement s
        (Operations.BlockAssignment L t.skip.currentType R) u.skip) ∧
    (∀ (s t : ParserState) (x : Statement),
      s.currentType = .openParen → ParserState.typeOfToken s.skip.currentType = none →
      Parses p.parseExpression s.skip x t → t.currentType ≠ .closeParen →
      Fails p.parseTerm s (.expected .closeParen)) := by
  refine ⟨?_, ?_, ?_, ?_⟩
  · intro s t x hopen hty hx hclose
    exact term_of_parens p hopen hty hx hclose
  · intro s s1 s2 s3 a b c hopen ha hplus hb hclose htimes hc hend
    have hstart : s.skip.currentType ≠ .logicalNot :=
      term_to_product_start p ha (by rw [hplus]; rfl)
    have hsumb : Parses p.parseSum s1.skip b s2 :=
      sum_of_difference p
        (difference_of_product p
          (product_of_term p hb (by rw [hclose]; decide)) (by rw [hclose]; decide))
        (by rw [hclose]; decide)
    have hsum : Parses p.parseSum s.skip (Operations.BinaryOp a b .plus) s2 :=
      sum_of_difference_plus p
        (difference_of_product p
          (product_of_term p ha (by rw [hplus]; decide)) (by rw [hplus]; decide))
        hplus hsumb
    have hinner := expression_of_sum p hsum hstart (by rw [hclose]; rfl)
    have hty := (dispatch_of_starts (parses_starts p hinner)).2.2.2.2.2.1
    have hterm := term_of_parens p hopen hty hinner hclose
    obtain ⟨harith, -⟩ := not_continues hend
    obtain ⟨hp, hm, hpr⟩ := not_arithmetic harith
    have hprod := product_of_term_op p hterm (Or.inl htimes) (product_of_term p hc hpr)
    rw [htimes] at hprod
    exact expression_of_sum p
      (sum_of_difference p (difference_of_product p hprod hm) hp)
      (by rw [hopen]; decide) hend
  · intro s t u L R hopen hL hkind hclose hop hR hsemi
    have hty := (dispatch_of_starts (parses_starts p hL)).2.2.2.2.2.1
    have hterm := term_of_parens p hopen hty hL hclose
    have hexpr := expression_of_term p hterm (by rw [hopen]; decide)
      (not_continues_of_assignment hop)
    have h := assignment_of_two_expressions p hexpr hop hR
    rw [if_pos hkind] at h
    exact statement_of_assignment p h hsemi
  · intro s t x hopen hty hx hclose
    exact term_fails_unclosed p hopen hty hx hclose

/-- Witness of C34 on the tokens `( a + b )`, `( a + b ) * c`,
`( x [ i ] ) = v ;` and `( a + b ;`. -/
theorem parseTerm_parentheses_witness :
    Parses Examples.knowsAll.parseTerm
      (.init [.op .openParen, .ident "a", .op .plus, .ident "b", .op .closeParen])
      (Operations.BinaryOp (Examples.var "a") (Examples.var "b") .plus)
      (Examples.after "b" []) ∧
    Parses Examples.knowsAll.parseExpression
      (.init [.op .openParen, .ident "a", .op .plus, .ident "b", .op .closeParen,
        .op .times, .ident "c"])
      (Operations.BinaryOp
        (Operations.BinaryOp (Examples.var "a") (Examples.var "b") .plus)
        (Examples.var "c") .times)
      (Examples.after "c" []) ∧
    Parses Examples.knowsAll.parseStatement
      (.init [.op .openParen, .ident "x", .op .openBracket, .ident "i", .op .closeBracket,
        .op .closeParen, .op .assign_, .ident "v", .op .semicolon])
      (Operations.BlockAssignment
        (Operations.BlockAccess (Examples.var "x") (Examples.var "i")) .assign_
        (Examples.var "v"))
      (Examples.after "v" []) ∧
    Fails Examples.knowsAll.parseTerm
      (.init [.op .openParen, .ident "a", .op .plus, .ident "b", .op .semicolon])
      (.expected .closeParen) :=
  ⟨(parseTerm_parentheses Examples.knowsAll).1
      (.init [.op .openParen, .ident "a", .op .plus, .ident "b", .op .closeParen])
      (Examples.after "b" [.op .closeParen])
      (Operations.BinaryOp (Examples.var "a") (Examples.var "b") .plus)
      (by decide) (by decide)
      (parses_expression Examples.knowsAll
        (by decide : Examples.knowsAll.parseExpression 14 _ = _))
      (by decide),
   (parseTerm_parentheses Examples.knowsAll).2.1
      (.init [.op .openParen, .ident "a", .op .plus, .ident "b", .op .closeParen,
        .op .times, .ident "c"])
      (Examples.after "a" [.op .plus, .ident "b", .op .closeParen, .op .times, .ident "c"])
      (Examples.after "b" [.op .closeParen, .op .times, .ident "c"])
      (Examples.after "c" [])
      (Examples.var "a") (Examples.var "b") (Examples.var "c")
      (by decide)
      (parses_term Examples.knowsAll (by decide : Examples.knowsAll.parseTerm 5 _ = _))
      (by decide)
      (parses_term Examples.knowsAll (by decide : Examples.knowsAll.parseTerm 5 _ = _))
      (by decide) (by decide)
      (parses_term Examples.knowsAll (by decide : Examples.knowsAll.parseTerm 5 _ = _))
      (by decide),
   (parseTerm_parentheses Examples.knowsAll).2.2.1
      (.init [.op .openParen, .ident "x", .op .openBracket, .ident "i", .op .closeBracket,
        .op .closeParen, .op .assign_, .ident "v", .op .semicolon])
      (Examples.after "i" [.op .closeParen, .op .assign_, .ident "v", .op .semicolon])
      (Examples.after "v" [.op .semicolon])
      (Operations.BlockAccess (Examples.var "x") (Examples.var "i")) (Examples.var "v")
      (by decide)
      (parses_expression Examples.knowsAll
        (by decide : Examples.knowsAll.parseExpression 30 _ = _))
      (by decide) (by decide) (by decide)
      (parses_expression Examples.knowsAll
        (by decide : Examples.knowsAll.parseExpression 14 _ = _))
      (by decide),
   (parseTerm_parentheses Examples.knowsAll).2.2.2
      (.init [.op .openParen, .ident "a", .op .plus, .ident "b", .op .semicolon])
      (Examples.after "b" [.op .semicolon])
      (Operations.BinaryOp (Examples.var "a") (Examples.var "b") .plus)
      (by decide) (by decide)
      (parses_expression Examples.knowsAll
        (by decide : Examples.knowsAll.parseExpression 14 _ = _))
      (by decide)⟩

/-! ## Increments, block access, definitions and the const qualifier -/

/-- C35: the flags of an Increment. For a symbol `x`, parseFactor returns
on `++x` the Increment of the reference to `x` with the flags prefix and not
decrement, on `--x` with the flags prefix and decrement; parseSymbolOrLiteral
returns on `x++` the Increment with the flags not prefix and not decrement,
on `x--` with not prefix and decrement. Both tokens are consumed. A symbol
followed by `[`, an expression parsed to `E` and `]` gives
`BlockAccess(VariableReference(x), E)`; when the token behind the
expression is not `]`, the syntax error of the expected `]` is raised. -/
theorem parseFactor_increment_flags (p : FunctionParser) (s : ParserState)
    (t1 t2 : Token) (rest : List Token) (hs : s.tokens = t1 :: t2 :: rest) :
    (t1.type = .plusplus → t2.type = .identifier → p.isSymbol t2.text = true →
      ∀ n, p.parseFactor (n + 1) s =
        .ok (Operations.Increment (Operations.VariableReference ⟨t2.text, false⟩) true false,
          { s with tokens := rest, currentSymbol := ⟨t2.text, false⟩ })) ∧
    (t1.type = .minusminus → t2.type = .identifier → p.isSymbol t2.text = true →
      ∀ n, p.parseFactor (n + 1) s =
        .ok (Operations.Increment (Operations.VariableReference ⟨t2.text, false⟩) true true,
          { s with tokens := rest, currentSymbol := ⟨t2.text, false⟩ })) ∧
    (t1.type = .identifier → p.isSymbol t1.text = true → t2.type = .plusplus →
      ∀ n, p.parseSymbolOrLiteral (n + 1) s =
        .ok (Operations.Increment (Operations.VariableReference ⟨t1.text, false⟩)
            false false,
          { s with tokens := rest, currentSymbol := ⟨t1.text, false⟩ })) ∧
    (t1.type = .identifier → p.isSymbol t1.text = true → t2.type = .minusminus →
      ∀ n, p.parseSymbolOrLiteral (n + 1) s =
        .ok (Operations.Increment (Operations.VariableReference ⟨t1.text, false⟩)
            false true,
          { s with tokens := rest, currentSymbol := ⟨t1.text, false⟩ })) ∧
    (t1.type = .identifier → p.isSymbol t1.text = true → t2.type = .openBracket →
      ∀ (E : Statement) (u : ParserState),
        Parses p.parseExpression
          { s with tokens := rest, currentSymbol := ⟨t1.text, false⟩ } E u →
        (u.currentType = .closeBracket →
          Parses p.parseSymbolOrLiteral s
            (Operations.BlockAccess (Operations.VariableReference ⟨t1.text, false⟩) E)
            u.skip) ∧
        (u.currentType ≠ .closeBracket →
          Fails p.parseSymbolOrLiteral s (.expected .closeBracket))) := by
  obtain ⟨tokens, sym, ty, at_⟩ := s
  simp only at hs
  subst hs
  refine ⟨?_, ?_, ?_, ?_, ?_⟩
  · intro h1 h2 hsym n
    rw [parseFactor]
    simp [ParserState.matchIf, ParserState.currentType, h1, matchIfSymbol, ParserState.skip,
      h2, hsym, parseReference, ParserState.getCurrentSymbol, pure, Except.pure]
  · intro h1 h2 hsym n
    rw [parseFactor]
    simp [ParserState.matchIf, ParserState.currentType, h1, matchIfSymbol, ParserState.skip,
      h2, hsym, parseReference, ParserState.getCurrentSymbol, pure, Except.pure]
  · intro h1 hsym h2 n
    rw [parseSymbolOrLiteral]
    simp [ParserState.matchIf, ParserState.currentType, h1, matchIfSymbol, ParserState.skip,
      h2, hsym, parseReference, ParserState.getCurrentSymbol, pure, Except.pure]
  · intro h1 hsym h2 n
    rw [parseSymbolOrLiteral]
    simp [ParserState.matchIf, ParserState.currentType, h1, matchIfSymbol, ParserState.skip,
      h2, hsym, parseReference, ParserState.getCurrentSymbol, pure, Except.pure]
  · intro h1 hsym h2 E u hE
    obtain ⟨n, hn⟩ := hE
    have hsymbol : p.matchIfSymbol false ⟨t1 :: t2 :: rest, sym, ty, at_⟩ =
        (true, ⟨t2 :: rest, ⟨t1.text, false⟩, ty, at_⟩) := by
      simp [matchIfSymbol, h1, hsym, ParserState.skip]
    have hcur : (⟨t2 :: rest, ⟨t1.text, false⟩, ty, at_⟩ : ParserState).currentType =
        .openBracket := h2
    have hstep : ∀ k, p.parseSymbolOrLiteral (k + 1) ⟨t1 :: t2 :: rest, sym, ty, at_⟩ =
        (p.parseExpression k ⟨rest, ⟨t1.text, false⟩, ty, at_⟩ >>= fun r =>
          r.2.match_ .closeBracket >>= fun s2 =>
            pure (Operations.BlockAccess
              (Operations.VariableReference ⟨t1.text, false⟩) r.1, s2)) := by
      intro k
      rw [parseSymbolOrLiteral, hsymbol]
      dsimp only
      rw [matchIf_of_ne (by rw [hcur]; decide)]
      dsimp only
      rw [matchIf_of_ne (by rw [hcur]; decide)]
      dsimp only
      rw [matchIf_of_ne (by rw [hcur]; decide)]
      dsimp only
      rw [matchIf_of_eq hcur]
      rfl
    constructor
    · intro hclose
      refine ⟨n + 1, fun m hm => ?_⟩
      obtain ⟨k, rfl, hk⟩ := exists_succ_of_lt hm
      have he : p.parseExpression k ⟨rest, ⟨t1.text, false⟩, ty, at_⟩ = .ok (E, u) :=
        hn k hk
      rw [hstep, he]
      simp only [bind, Except.bind,
        match_ok hclose (by decide : TokenType.closeBracket ≠ .identifier)]
      rfl
    · intro hclose
      refine ⟨n + 1, fun m hm => ?_⟩
      obtain ⟨k, rfl, hk⟩ := exists_succ_of_lt hm
      have he : p.parseExpression k ⟨rest, ⟨t1.text, false⟩, ty, at_⟩ = .ok (E, u) :=
        hn k hk
      rw [hstep, he]
      simp only [bind, Except.bind, match_fail hclose]

/-- Witness of C35 on the tokens `++x`, `--x`, `x++`, `x--`, `x[i]` and
`x[i;`. -/
theorem parseFactor_increment_flags_witness :
    Examples.knowsAll.parseFactor 1 (.init [.op .plusplus, .ident "x"]) =
      .ok (Operations.Increment (Examples.var "x") true false, Examples.after "x" []) ∧
    Examples.knowsAll.parseFactor 1 (.init [.op .minusminus, .ident "x"]) =
      .ok (Operations.Increment (Examples.var "x") true true, Examples.after "x" []) ∧
    Examples.knowsAll.parseSymbolOrLiteral 1 (.init [.ident "x", .op .plusplus]) =
      .ok (Operations.Increment (Examples.var "x") false false, Examples.after "x" []) ∧
    Examples.knowsAll.parseSymbolOrLiteral 1 (.init [.ident "x", .op .minusminus]) =
      .ok (Operations.Increment (Examples.var "x") false true, Examples.after "x" []) ∧
    Parses Examples.knowsAll.parseSymbolOrLiteral
      (.init [.ident "x", .op .openBracket, .ident "i", .op .closeBracket])
      (Operations.BlockAccess (Examples.var "x") (Examples.var "i"))
      (Examples.after "i" []) ∧
    Fails Examples.knowsAll.parseSymbolOrLiteral
      (.init [.ident "x", .op .openBracket, .ident "i", .op .semicolon])
      (.expected .closeBracket) :=
  ⟨(parseFactor_increment_flags Examples.knowsAll (.init [.op .plusplus, .ident "x"])
      (.op .plusplus) (.ident "x") [] rfl).1 rfl rfl rfl 0,
   (parseFactor_increment_flags Examples.knowsAll (.init [.op .minusminus, .ident "x"])
      (.op .minusminus) (.ident "x") [] rfl).2.1 rfl rfl rfl 0,
   (parseFactor_increment_flags Examples.knowsAll (.init [.ident "x", .op .plusplus])
      (.ident "x") (.op .plusplus) [] rfl).2.2.1 rfl rfl rfl 0,
   (parseFactor_increment_flags Examples.knowsAll (.init [.ident "x", .op .minusminus])
      (.ident "x") (.op .minusminus) [] rfl).2.2.2.1 rfl rfl rfl 0,
   ((parseFactor_increment_flags Examples.knowsAll
      (.init [.ident "x", .op .openBracket, .ident "i", .op .closeBracket])
      (.ident "x") (.op .openBracket) [.ident "i", .op .closeBracket] rfl).2.2.2.2
      rfl rfl rfl (Examples.var "i") (Examples.after "i" [.op .closeBracket])
      (parses_expression Examples.knowsAll
        (by decide : Examples.knowsAll.parseExpression 13 _ = _))).1 (by decide),
   ((parseFactor_increment_flags Examples.knowsAll
      (.init [.ident "x", .op .openBracket, .ident "i", .op .semicolon])
      (.ident "x") (.op .openBracket) [.ident "i", .op .semicolon] rfl).2.2.2.2
      rfl rfl rfl (Examples.var "i") (Examples.after "i" [.op .semicolon])
      (parses_expression Examples.knowsAll
        (by decide : Examples.knowsAll.parseExpression 13 _ = _))).2 (by decide)⟩

theorem dispatch_of_type {c : TokenType} {T : Types.ID}
    (h : ParserState.typeOfToken c = some T) :
    c ≠ .const_ ∧ c ≠ .if_ ∧ c ≠ .openBrace ∧ c ≠ .return_ ∧ c ≠ .for_ := by
  cases c <;> simp [ParserState.typeOfToken] at h <;> simp

theorem statement_of_type (p : FunctionParser) (n : Nat) {s : ParserState} {T : Types.ID}
    (h : ParserState.typeOfToken s.currentType = some T) :
    p.parseStatement (n + 1) s =
      (p.parseVariableDefinition n false { s.skip with currentHnodeType := T } >>= fun r =>
        r.2.match_ .semicolon >>= fun s2 => pure (r.1, s2)) := by
  obtain ⟨h1, h2, h3, h4, h5⟩ := dispatch_of_type h
  rw [parseStatement, matchIf_of_ne h1]
  dsimp only
  rw [matchIf_of_ne h2]
  dsimp only
  rw [matchIf_of_ne h3]
  dsimp only
  rw [matchIf_of_ne h4]
  dsimp only
  rw [matchIf_of_ne h5]
  dsimp only
  rw [matchIfTypeToken_of_some h]

theorem variableDefinition_without_symbol (p : FunctionParser) (n : Nat) (c : Bool)
    (s : ParserState) (h : (p.matchIfSymbol c s).1 = false) :
    p.parseVariableDefinition (n + 1) c s =
      .error (.syntaxError (.message "Expected symbol")) := by
  rw [parseVariableDefinition]
  rcases hm : p.matchIfSymbol c s with ⟨b, s1⟩
  rw [hm] at h
  simp only at h
  subst h
  rfl

theorem variableDefinition_of_symbol (p : FunctionParser) (n : Nat) (c : Bool)
    {s s1 : ParserState} (h : p.matchIfSymbol c s = (true, s1)) :
    p.parseVariableDefinition (n + 1) c s =
      (s1.match_ .assign_ >>= fun s2 =>
        p.parseExpression n s2 >>= fun r =>
          pure (Operations.Assignment
            (Operations.VariableReference (s1.getCurrentSymbol true)) .assign_ r.1, r.2)) := by
  rw [parseVariableDefinition, h]

/-- C36: a variable definition needs a symbol, `=`, an initialiser and `;`.
parseVariableDefinition raises "Expected symbol" when matchIfSymbol finds no
symbol, and the syntax error of the expected `=` when another token follows
the symbol. A statement that begins with a type token raises these errors
in the same way (so `int x;` is rejected), raises "Parsing error" when no
expression begins behind the `=`, and raises the syntax error of the
expected `;` when another token follows the initialiser. -/
theorem parseVariableDefinition_requirements (p : FunctionParser) :
    (∀ (n : Nat) (c : Bool) (s : ParserState), (p.matchIfSymbol c s).1 = false →
      p.parseVariableDefinition (n + 1) c s =
        .error (.syntaxError (.message "Expected symbol"))) ∧
    (∀ (n : Nat) (c : Bool) (s s1 : ParserState), p.matchIfSymbol c s = (true, s1) →
      s1.currentType ≠ .assign_ →
      p.parseVariableDefinition (n + 1) c s = .error (.syntaxError (.expected .assign_))) ∧
    (∀ (s : ParserState) (T : Types.ID), ParserState.typeOfToken s.currentType = some T →
      ((p.matchIfSymbol false { s.skip with currentHnodeType := T }).1 = false →
        Fails p.parseStatement s (.message "Expected symbol")) ∧
      (∀ s1, p.matchIfSymbol false { s.skip with currentHnodeType := T } = (true, s1) →
        (s1.currentType ≠ .assign_ → Fails p.parseStatement s (.expected .assign_)) ∧
        (s1.currentType = .assign_ → startsExpression s1.skip.currentType = false →
          Fails p.parseStatement s (.message "Parsing error")) ∧
        (∀ (e : Statement) (u : ParserState), s1.currentType = .assign_ →
          Parses p.parseExpression s1.skip e u → u.currentType ≠ .semicolon →
          Fails p.parseStatement s (.expected .semicolon)))) := by
  refine ⟨?_, ?_, ?_⟩
  · intro n c s h
    exact variableDefinition_without_symbol p n c s h
  · intro n c s s1 h hne
    rw [variableDefinition_of_symbol p n c h, match_fail hne]
    rfl
  · intro s T hT
    refine ⟨?_, ?_⟩
    · intro h
      refine ⟨2, fun m hm => ?_⟩
      obtain ⟨k, rfl, -⟩ := exists_add_two hm
      rw [statement_of_type p (k + 1) hT, variableDefinition_without_symbol p k false _ h]
      rfl
    · intro s1 h
      refine ⟨?_, ?_, ?_⟩
      · intro hne
        refine ⟨2, fun m hm => ?_⟩
        obtain ⟨k, rfl, -⟩ := exists_add_two hm
        rw [statement_of_type p (k + 1) hT, variableDefinition_of_symbol p k false h,
          match_fail hne]
        rfl
      · intro heq hstart
        refine ⟨12, fun m hm => ?_⟩
        obtain ⟨k, rfl⟩ : ∃ k, m = k + 10 + 2 := ⟨m - 12, by omega⟩
        rw [statement_of_type p (k + 10 + 1) hT, variableDefinition_of_symbol p (k + 10) false h,
          match_ok heq (by decide : TokenType.assign_ ≠ .identifier)]
        simp only [bind, Except.bind, expression_fails_of_not_start p k hstart]
      · intro e u heq he hsemi
        obtain ⟨n, hn⟩ := he
        refine ⟨n + 2, fun m hm => ?_⟩
        obtain ⟨k, rfl, hk⟩ := exists_add_two hm
        rw [statement_of_type p (k + 1) hT, variableDefinition_of_symbol p k false h,
          match_ok heq (by decide : TokenType.assign_ ≠ .identifier)]
        simp only [bind, Except.bind, hn k hk, pure, Except.pure, match_fail hsemi]

/-- Witness of C36 on the tokens `int ;`, `int x ;`, `int x = ;` and
`int x = 1 }`. -/
theorem parseVariableDefinition_requirements_witness :
    Fails Examples.knowsAll.parseStatement (.init [.op .int_, .op .semicolon])
      (.message "Expected symbol") ∧
    Fails Examples.knowsAll.parseStatement (.init [.op .int_, .ident "x", .op .semicolon])
      (.expected .assign_) ∧
    Fails Examples.knowsAll.parseStatement
      (.init [.op .int_, .ident "x", .op .assign_, .op .semicolon])
      (.message "Parsing error") ∧
    Fails Examples.knowsAll.parseStatement
      (.init [.op .int_, .ident "x", .op .assign_, .lit (.Integer 1), .op .closeBrace])
      (.expected .semicolon) :=
  ⟨((parseVariableDefinition_requirements Examples.knowsAll).2.2
      (.init [.op .int_, .op .semicolon]) .Integer rfl).1 (by decide),
   (((parseVariableDefinition_requirements Examples.knowsAll).2.2
      (.init [.op .int_, .ident "x", .op .semicolon]) .Integer rfl).2
      ⟨[.op .semicolon], ⟨"x", false⟩, .Integer, .assign_⟩ (by decide)).1 (by decide),
   (((parseVariableDefinition_requirements Examples.knowsAll).2.2
      (.init [.op .int_, .ident "x", .op .assign_, .op .semicolon]) .Integer rfl).2
      ⟨[.op .assign_, .op .semicolon], ⟨"x", false⟩, .Integer, .assign_⟩ (by decide)).2.1
      (by decide) (by decide),
   (((parseVariableDefinition_requirements Examples.knowsAll).2.2
      (.init [.op .int_, .ident "x", .op .assign_, .lit (.Integer 1), .op .closeBrace])
      .Integer rfl).2
      ⟨[.op .assign_, .lit (.Integer 1), .op .closeBrace], ⟨"x", false⟩, .Integer, .assign_⟩
      (by decide)).2.2
      (Examples.int 1) ⟨[.op .closeBrace], ⟨"x", false⟩, .Integer, .assign_⟩ (by decide)
      (parses_expression Examples.knowsAll
        (by decide : Examples.knowsAll.parseExpression 13 _ = _))
      (by decide)⟩

theorem statement_const_dropped (p : FunctionParser) (n : Nat) {s : ParserState}
    (hc : s.currentType = .const_) (hnc : s.skip.currentType ≠ .const_)
    (hty : ParserState.typeOfToken s.skip.currentType = none) :
    p.parseStatement (n + 1) s = p.parseStatement (n + 1) s.skip := by
  rw [parseStatement, parseStatement, matchIf_of_eq hc, matchIf_of_ne hnc]
  dsimp only
  by_cases h1 : s.skip.currentType = .if_
  · rw [matchIf_of_eq h1]
  rw [matchIf_of_ne h1]
  dsimp only
  by_cases h2 : s.skip.currentType = .openBrace
  · rw [matchIf_of_eq h2]
  rw [matchIf_of_ne h2]
  dsimp only
  by_cases h3 : s.skip.currentType = .return_
  · rw [matchIf_of_eq h3]
  rw [matchIf_of_ne h3]
  dsimp only
  by_cases h4 : s.skip.currentType = .for_
  · rw [matchIf_of_eq h4]
  rw [matchIf_of_ne h4]
  dsimp only
  rw [matchIfTypeToken_of_none hty]

/-- C38: a `const` in front of a statement that is not a variable definition
is consumed and dropped. When the token behind `const` is neither a type
token nor a second `const`, parseStatement on `const S` gives for every
recursion budget the result that it gives on `S`, a tree with its end state
or an error: whenever it returns a node on `S`, it returns the same node on
`const S`. The qualifier is consumed once: a second `const` behind it is
taken for the start of an expression and raises "Parsing error". -/
theorem parseStatement_const_is_dropped (p : FunctionParser) (s : ParserState)
    (hc : s.currentType = .const_) :
    (s.skip.currentType ≠ .const_ → ParserState.typeOfToken s.skip.currentType = none →
      (∀ n, p.parseStatement (n + 1) s = p.parseStatement (n + 1) s.skip) ∧
      (∀ x t, Parses p.parseStatement s.skip x t → Parses p.parseStatement s x t)) ∧
    (s.skip.currentType = .const_ →
      Fails p.parseStatement s (.message "Parsing error")) := by
  constructor
  · intro hnc hty
    refine ⟨fun n => statement_const_dropped p n hc hnc hty, ?_⟩
    rintro x t ⟨n, hn⟩
    refine ⟨n + 1, fun m hm => ?_⟩
    obtain ⟨k, rfl, hk⟩ := exists_succ_of_lt hm
    rw [statement_const_dropped p k hc hnc hty]
    exact hn (k + 1) (by omega)
  · intro hcc
    refine ⟨12, fun m hm => ?_⟩
    obtain ⟨k, rfl⟩ : ∃ k, m = k + 10 + 1 + 1 := ⟨m - 12, by omega⟩
    rw [parseStatement, matchIf_of_eq hc]
    dsimp only
    rw [matchIf_of_ne (by rw [hcc]; decide)]
    dsimp only
    rw [matchIf_of_ne (by rw [hcc]; decide)]
    dsimp only
    rw [matchIf_of_ne (by rw [hcc]; decide)]
    dsimp only
    rw [matchIf_of_ne (by rw [hcc]; decide)]
    dsimp only
    rw [matchIfTypeToken_of_none (by rw [hcc]; rfl)]
    dsimp only
    rw [parseAssignment, expression_fails_of_not_start p k (by rw [hcc]; rfl)]
    rfl

/-- Witness of C38 on the tokens `const return 1 ;`, `const x = 5 ;` and
`const const return 1 ;`. -/
theorem parseStatement_const_is_dropped_witness :
    Parses Examples.knowsAll.parseStatement
      (.init [.op .const_, .op .return_, .lit (.Integer 1), .op .semicolon])
      (Operations.ReturnStatement (some (Examples.int 1))) (.init []) ∧
    Parses Examples.knowsAll.parseStatement
      (.init [.op .const_, .ident "x", .op .assign_, .lit (.Integer 5), .op .semicolon])
      (Operations.Assignment (Examples.var "x") .assign_ (Examples.int 5))
      (Examples.after "x" []) ∧
    Fails Examples.knowsAll.parseStatement
      (.init [.op .const_, .op .const_, .op .return_, .lit (.Integer 1), .op .semicolon])
      (.message "Parsing error") :=
  ⟨((parseStatement_const_is_dropped Examples.knowsAll
      (.init [.op .const_, .op .return_, .lit (.Integer 1), .op .semicolon]) rfl).1
      (by decide) (by decide)).2 _ _
      (parses_statement Examples.knowsAll
        (by decide : Examples.knowsAll.parseStatement 20
          (.init [.op .return_, .lit (.Integer 1), .op .semicolon]) = _)),
   ((parseStatement_const_is_dropped Examples.knowsAll
      (.init [.op .const_, .ident "x", .op .assign_, .lit (.Integer 5), .op .semicolon])
      rfl).1 (by decide) (by decide)).2 _ _
      (parses_statement Examples.knowsAll
        (by decide : Examples.knowsAll.parseStatement 20
          (.init [.ident "x", .op .assign_, .lit (.Integer 5), .op .semicolon]) = _)),
   (parseStatement_const_is_dropped Examples.knowsAll
      (.init [.op .const_, .op .const_, .op .return_, .lit (.Integer 1), .op .semicolon])
      rfl).2 (by decide)⟩

/-! ## Mixed chains of `+` and `-` against the left-associative tree -/

theorem sum_cases {c : TokenType} : isSumOp c = true ↔ (c = .plus ∨ c = .minus) := by
  cases c <;> simp [isSumOp]

theorem countNodes_BinaryOp (l r : Statement) (op : TokenType) :
    countNodes (Operations.BinaryOp l r op) = 1 + countNodes l + countNodes r := by
  simp [Operations.BinaryOp, countNodes, countNodesList]
  omega

theorem countNodes_leftNested : ∀ (rest : List (TokenType × Statement)) (x : Statement),
    countNodes (leftNested x rest) = countNodes x + chainWeight rest
  | [], x => by simp [leftNested, chainWeight]
  | (op, y) :: rest, x => by
    rw [leftNested, countNodes_leftNested rest, countNodes_BinaryOp, chainWeight]
    omega

theorem leftNested_append : ∀ (a b : List (TokenType × Statement)) (x : Statement),
    leftNested x (a ++ b) = leftNested (leftNested x a) b
  | [], b, x => rfl
  | (op, y) :: a, b, x => by
    rw [List.cons_append, leftNested, leftNested, leftNested_append a b]

theorem leftChild_leftNested_one (x : Statement) (a : List (TokenType × Statement))
    (e : TokenType × Statement) : leftChild (leftNested x (a ++ [e])) = leftNested x a := by
  rw [leftNested_append]
  obtain ⟨op, y⟩ := e
  rfl

theorem chainWeight_pos {a : List (TokenType × Statement)} (h : a ≠ []) :
    0 < chainWeight a := by
  cases a with
  | nil => exact absurd rfl h
  | cons e r =>
    obtain ⟨op, y⟩ := e
    rw [chainWeight]
    omega

theorem leftNested_ne_self {a : List (TokenType × Statement)} (x : Statement) (h : a ≠ []) :
    leftNested x a ≠ x := by
  intro e
  have := countNodes_leftNested a x
  rw [e] at this
  have := chainWeight_pos h
  omega

/-- Where the first operand of a chain sits in the tree that parseSum
builds: it is the left child of the root, or, behind a `-` when a `+`
follows later, the left child of the left child. -/
theorem leftChild_sumTree (x y : Statement) (op : TokenType)
    (rest : List (TokenType × Statement)) :
    leftChild (sumTree x ((op, y) :: rest)) = x ∨
    (leftChild (leftChild (sumTree x ((op, y) :: rest))) = x ∧ op = .minus ∧
      (sumParts y rest).2.isSome = true) := by
  unfold sumTree
  rw [sumParts]
  by_cases hop : op = .minus
  · rw [if_pos hop]
    dsimp only
    cases h : (sumParts y rest).2 with
    | none => exact .inl rfl
    | some r => exact .inr ⟨rfl, hop, rfl⟩
  · rw [if_neg hop]
    exact .inl rfl

theorem sumParts_single (y z : Statement) (op : TokenType)
    (h : (sumParts y [(op, z)]).2.isSome = true) : op ≠ .minus := by
  intro e
  subst e
  simp [sumParts] at h

theorem sumTree_eq_leftNested_iff (x : Statement) (rest : List (TokenType × Statement))
    (hops : ∀ e ∈ rest, isSumOp e.1 = true) (hlen : 2 ≤ rest.length) :
    sumTree x rest = leftNested x rest ↔ ∃ y z, rest = [(.minus, y), (.plus, z)] := by
  constructor
  · intro heq
    obtain ⟨a, e2, rfl⟩ : ∃ a e2, rest = a ++ [e2] := by
      rcases List.eq_nil_or_concat rest with h | ⟨a, e2, h⟩
      · subst h
        simp at hlen
      · exact ⟨a, e2, by simpa using h⟩
    have ha : a ≠ [] := by
      intro e
      subst e
      simp at hlen
    obtain ⟨a1, e1, rfl⟩ : ∃ a1 e1, a = a1 ++ [e1] := by
      rcases List.eq_nil_or_concat a with h | ⟨a1, e1, h⟩
      · exact absurd h ha
      · exact ⟨a1, e1, by simpa using h⟩
    have hl1 : leftChild (leftNested x (a1 ++ [e1] ++ [e2])) = leftNested x (a1 ++ [e1]) :=
      leftChild_leftNested_one x _ e2
    have hl2 : leftChild (leftNested x (a1 ++ [e1])) = leftNested x a1 :=
      leftChild_leftNested_one x _ e1
    cases hrest : a1 ++ [e1] ++ [e2] with
    | nil => simp at hrest
    | cons hd tl =>
      obtain ⟨op, y⟩ := hd
      rw [hrest] at heq hl1
      rcases leftChild_sumTree x y op tl with h | ⟨h, hop, hsome⟩
      · rw [heq, hl1] at h
        exact absurd h (leftNested_ne_self x (by simp))
      · rw [heq, hl1, hl2] at h
        have ha1 : a1 = [] := by
          by_contra hne
          exact leftNested_ne_self x hne h
        subst ha1
        simp only [List.nil_append, List.singleton_append, List.cons.injEq] at hrest
        obtain ⟨h1, h2⟩ := hrest
        subst h1
        subst h2
        obtain ⟨op2, z⟩ := e2
        have hne := sumParts_single y z op2 hsome
        have hsum := hops (op2, z) (by simp)
        rcases sum_cases.mp hsum with hp | hm
        · simp only at hp hop
          subst hp
          subst hop
          exact ⟨y, z, rfl⟩
        · exact absurd hm hne
  · rintro ⟨y, z, rfl⟩
    rfl

/-- What the levels of the sums do on a chain of operands joined by `+` and
`-`: parseDifference takes the operands in front of the first `+`, and
parseSum behind that `+` the rest. -/
theorem chain_sumParts (p : FunctionParser) {s t : ParserState} {x : Statement}
    {rest : List (TokenType × Statement)}
    (h : OperatorChain p.parseProduct isSumOp s x rest t)
    (hstop : isSumOp t.currentType = false) :
    ((sumParts x rest).2 = none → Parses p.parseDifference s (sumParts x rest).1 t) ∧
    (∀ r, (sumParts x rest).2 = some r →
      ∃ u, Parses p.parseDifference s (sumParts x rest).1 u ∧ u.currentType = .plus ∧
        Parses p.parseSum u.skip r t) := by
  have hp : t.currentType ≠ .plus := by
    intro e; rw [e] at hstop; simp [isSumOp] at hstop
  have hm : t.currentType ≠ .minus := by
    intro e; rw [e] at hstop; simp [isSumOp] at hstop
  induction h with
  | single hx =>
    refine ⟨fun _ => difference_of_product p hx hm, ?_⟩
    intro r hr
    simp [sumParts] at hr
  | @cons s u t x y rest hx hop hrest ih =>
    obtain ⟨ih1, ih2⟩ := ih hstop hp hm
    have hsum : Parses p.parseSum u.skip (sumTree y rest) t := by
      unfold sumTree
      cases hr : (sumParts y rest).2 with
      | none => exact sum_of_difference p (ih1 hr) hp
      | some r =>
        obtain ⟨v, hd, hv, hs⟩ := ih2 r hr
        exact sum_of_difference_plus p hd hv hs
    rw [sumParts]
    rcases sum_cases.mp hop with hplus | hminus
    · have hne : u.currentType ≠ .minus := by rw [hplus]; decide
      rw [if_neg hne]
      refine ⟨fun h => by simp at h, ?_⟩
      intro r hr
      simp only [Option.some.injEq] at hr
      subst hr
      exact ⟨u, difference_of_product p hx hne, hplus, hsum⟩
    · rw [if_pos hminus]
      dsimp only
      refine ⟨fun h => difference_of_product_minus p hx hminus (ih1 h), ?_⟩
      intro r hr
      obtain ⟨v, hd, hv, hs⟩ := ih2 r hr
      exact ⟨v, difference_of_product_minus p hx hminus hd, hv, hs⟩

theorem chain_sumTree (p : FunctionParser) {s t : ParserState} {x : Statement}
    {rest : List (TokenType × Statement)}
    (h : OperatorChain p.parseProduct isSumOp s x rest t)
    (hstop : isSumOp t.currentType = false) :
    Parses p.parseSum s (sumTree x rest) t := by
  have hp : t.currentType ≠ .plus := by
    intro e; rw [e] at hstop; simp [isSumOp] at hstop
  obtain ⟨h1, h2⟩ := chain_sumParts p h hstop
  unfold sumTree
  cases hr : (sumParts x rest).2 with
  | none => exact sum_of_difference p (h1 hr) hp
  | some r =>
    obtain ⟨v, hd, hv, hs⟩ := h2 r hr
    exact sum_of_difference_plus p hd hv hs

theorem chain_ops {F : Nat → ParserState → ParseResult} {isOp : TokenType → Bool}
    {s t : ParserState} {x : Statement} {rest : List (TokenType × Statement)}
    (h : OperatorChain F isOp s x rest t) : ∀ e ∈ rest, isOp e.1 = true := by
  induction h with
  | single _ => simp
  | cons _ hop _ ih =>
    intro e he
    rcases List.mem_cons.mp he with rfl | h2
    · exact hop
    · exact ih e h2

/-- C37 as stated fails on `a - b + c`, a chain of three operands in which
both operators occur: parseSum builds `BinaryOp(+, BinaryOp(-, a, b), c)`,
which is the conventional left-associative tree of the chain. -/
theorem parseSum_builds_left_associative_tree :
    Examples.knowsAll.parseSum 20
        (.init [.ident "a", .op .minus, .ident "b", .op .plus, .ident "c"]) =
      .ok (Operations.BinaryOp
          (Operations.BinaryOp (Examples.var "a") (Examples.var "b") .minus)
          (Examples.var "c") .plus,
        Examples.after "c" []) ∧
    leftNested (Examples.var "a") [(.minus, Examples.var "b"), (.plus, Examples.var "c")] =
      Operations.BinaryOp
        (Operations.BinaryOp (Examples.var "a") (Examples.var "b") .minus)
        (Examples.var "c") .plus := by
  decide

/-- C37, amended: on a chain of operands that parseProduct parses at their
place in the token stream, joined by `+` and `-`, parseSum builds the tree
whose root is the first `+`, with the right-nested difference of the
operands in front of it as left operand and the tree of the rest of the
chain as right operand. For three or more operands this tree differs from
the conventional left-associative tree of the chain in every case but one:
the chain `t1 - t2 + t3`, on which the two trees are the same. -/
theorem parseSum_mixed_chain (p : FunctionParser) (s t : ParserState) (x : Statement)
    (rest : List (TokenType × Statement))
    (hchain : OperatorChain p.parseProduct isSumOp s x rest t)
    (hstop : isSumOp t.currentType = false) :
    Parses p.parseSum s (sumTree x rest) t ∧
    (2 ≤ rest.length →
      (sumTree x rest = leftNested x rest ↔ ∃ y z, rest = [(.minus, y), (.plus, z)])) :=
  ⟨chain_sumTree p hchain hstop,
   fun hlen => sumTree_eq_leftNested_iff x rest (chain_ops hchain) hlen⟩

/-- Witness of the amended C37 on the tokens `a + b - c`, where the tree
`a + (b - c)` is not the left-associative one, and `a - b + c`, where it
is. -/
theorem parseSum_mixed_chain_witness :
    (Parses Examples.knowsAll.parseSum
        (.init [.ident "a", .op .plus, .ident "b", .op .minus, .ident "c"])
        (Operations.BinaryOp (Examples.var "a")
          (Operations.BinaryOp (Examples.var "b") (Examples.var "c") .minus) .plus)
        (Examples.after "c" []) ∧
      sumTree (Examples.var "a") [(.plus, Examples.var "b"), (.minus, Examples.var "c")] ≠
        leftNested (Examples.var "a")
          [(.plus, Examples.var "b"), (.minus, Examples.var "c")]) ∧
    (Parses Examples.knowsAll.parseSum
        (.init [.ident "a", .op .minus, .ident "b", .op .plus, .ident "c"])
        (Operations.BinaryOp
          (Operations.BinaryOp (Examples.var "a") (Examples.var "b") .minus)
          (Examples.var "c") .plus)
        (Examples.after "c" []) ∧
      sumTree (Examples.var "a") [(.minus, Examples.var "b"), (.plus, Examples.var "c")] =
        leftNested (Examples.var "a")
          [(.minus, Examples.var "b"), (.plus, Examples.var "c")]) :=
  ⟨⟨(parseSum_mixed_chain Examples.knowsAll
        (.init [.ident "a", .op .plus, .ident "b", .op .minus, .ident "c"])
        (Examples.after "c" []) (Examples.var "a")
        [(.plus, Examples.var "b"), (.minus, Examples.var "c")]
        (.cons (u := Examples.after "a" [.op .plus, .ident "b", .op .minus, .ident "c"])
          (parses_product Examples.knowsAll
            (by decide : Examples.knowsAll.parseProduct 6 _ = _))
          (by decide)
          (.cons (u := Examples.after "b" [.op .minus, .ident "c"])
            (parses_product Examples.knowsAll
              (by decide : Examples.knowsAll.parseProduct 6 _ = _))
            (by decide)
            (.single (parses_product Examples.knowsAll
              (by decide : Examples.knowsAll.parseProduct 6 _ = _)))))
        (by decide)).1,
     fun h => by
      have := ((parseSum_mixed_chain Examples.knowsAll
        (.init [.ident "a", .op .plus, .ident "b", .op .minus, .ident "c"])
        (Examples.after "c" []) (Examples.var "a")
        [(.plus, Examples.var "b"), (.minus, Examples.var "c")]
        (.cons (u := Examples.after "a" [.op .plus, .ident "b", .op .minus, .ident "c"])
          (parses_product Examples.knowsAll
            (by decide : Examples.knowsAll.parseProduct 6 _ = _))
          (by decide)
          (.cons (u := Examples.after "b" [.op .minus, .ident "c"])
            (parses_product Examples.knowsAll
              (by decide : Examples.knowsAll.parseProduct 6 _ = _))
            (by decide)
            (.single (parses_product Examples.knowsAll
              (by decide : Examples.knowsAll.parseProduct 6 _ = _)))))
        (by decide)).2 (by decide)).mp h
      obtain ⟨y, z, e⟩ := this
      simp at e⟩,
   ⟨(parseSum_mixed_chain Examples.knowsAll
        (.init [.ident "a", .op .minus, .ident "b", .op .plus, .ident "c"])
        (Examples.after "c" []) (Examples.var "a")
        [(.minus, Examples.var "b"), (.plus, Examples.var "c")]
        (.cons (u := Examples.after "a" [.op .minus, .ident "b", .op .plus, .ident "c"])
          (parses_product Examples.knowsAll
            (by decide : Examples.knowsAll.parseProduct 6 _ = _))
          (by decide)
          (.cons (u := Examples.after "b" [.op .plus, .ident "c"])
            (parses_product Examples.knowsAll
              (by decide : Examples.knowsAll.parseProduct 6 _ = _))
            (by decide)
            (.single (parses_product Examples.knowsAll
              (by decide : Examples.knowsAll.parseProduct 6 _ = _)))))
        (by decide)).1,
    rfl⟩⟩

/-! ## Operand order: what the token source consumes -/

theorem tokens_of_skip {s : ParserState} {e : TokenType} (h : s.currentType = e)
    (he : e ≠ .eof) : ∃ tk, s.tokens = tk :: s.skip.tokens ∧ tk.type = e := by
  obtain ⟨tokens, sym, ty, at_⟩ := s
  cases tokens with
  | nil =>
    simp only [ParserState.currentType] at h
    exact absurd h.symm he
  | cons tk r => exact ⟨tk, rfl, h⟩

theorem tokens_of_matchIf {s t : ParserState} {e : TokenType}
    (h : s.matchIf e = (true, t)) (he : e ≠ .eof) :
    ∃ tk, s.tokens = tk :: t.tokens ∧ tk.type = e := by
  unfold ParserState.matchIf at h
  split at h
  · rename_i hc
    simp only [Prod.mk.injEq, true_and] at h
    subst h
    exact tokens_of_skip hc he
  · simp at h

theorem tokens_of_match {s t : ParserState} {e : TokenType} (h : s.match_ e = .ok t)
    (he : e ≠ .eof) : ∃ tk, s.tokens = tk :: t.tokens ∧ tk.type = e := by
  unfold ParserState.match_ at h
  split at h
  · rename_i hc
    simp only [Except.ok.injEq] at h
    subst h
    exact tokens_of_skip hc he
  · simp at h

theorem tokens_of_matchIfSymbol {p : FunctionParser} {c : Bool} {s t : ParserState}
    (h : p.matchIfSymbol c s = (true, t)) :
    ∃ tk, s.tokens = tk :: t.tokens ∧ tk.type = .identifier ∧
      t.currentSymbol = ⟨tk.text, c⟩ := by
  unfold matchIfSymbol at h
  split at h
  · rename_i tk r hs
    split at h
    · rename_i hc
      simp only [Prod.mk.injEq, true_and] at h
      subst h
      exact ⟨tk, by simp [ParserState.skip, hs], hc.1, rfl⟩
    · simp at h
  · simp at h

theorem matchIfSymbol_false {p : FunctionParser} {c : Bool} {s t : ParserState}
    (h : p.matchIfSymbol c s = (false, t)) : t = s := by
  unfold matchIfSymbol at h
  split at h
  · split at h
    · simp at h
    · simp only [Prod.mk.injEq, true_and] at h
      exact h.symm
  · simp only [Prod.mk.injEq, true_and] at h
    exact h.symm

theorem suffix_of_matchIfSymbol (p : FunctionParser) (c : Bool) (s : ParserState) :
    ∃ l, s.tokens = l ++ (p.matchIfSymbol c s).2.tokens := by
  rcases h : p.matchIfSymbol c s with ⟨b, t⟩
  cases b with
  | true =>
    obtain ⟨tk, hs, -, -⟩ := tokens_of_matchIfSymbol h
    exact ⟨[tk], by simpa using hs⟩
  | false =>
    have := matchIfSymbol_false h
    subst this
    exact ⟨[], rfl⟩

theorem tokens_of_matchIfTypeToken {s t : ParserState}
    (h : s.matchIfTypeToken = (true, t)) :
    ∃ tk T, s.tokens = tk :: t.tokens ∧ ParserState.typeOfToken tk.type = some T := by
  unfold ParserState.matchIfTypeToken at h
  split at h
  · rename_i T hT
    simp only [Prod.mk.injEq, true_and] at h
    subst h
    obtain ⟨tk, hs, htk⟩ := tokens_of_skip (s := s) rfl (typeOfToken_ne_eof hT)
    exact ⟨tk, T, hs, by rw [htk]; exact hT⟩
  · simp at h

theorem matchIfTypeToken_false {s t : ParserState}
    (h : s.matchIfTypeToken = (false, t)) : t = s := by
  unfold ParserState.matchIfTypeToken at h
  split at h
  · simp at h
  · simp only [Prod.mk.injEq, true_and] at h
    exact h.symm

theorem tokens_of_parseLiteral {b : Bool} {s t : ParserState} {x : Statement}
    (h : parseLiteral b s = .ok (x, t)) :
    ∃ tk, s.tokens = tk :: t.tokens ∧ tk.type = .literal ∧
      (b = false → x = Operations.Immediate tk.value) := by
  unfold parseLiteral at h
  obtain ⟨⟨v, s1⟩, h1, h2⟩ := bind_eq_ok h
  have e := pure_eq_ok h2
  simp only [Prod.mk.injEq] at e
  obtain ⟨e1, e2⟩ := e
  subst e2
  unfold ParserState.parseVariableStorageLiteral at h1
  split at h1
  · rename_i tk r hs
    split at h1
    · rename_i hc
      simp only [Except.ok.injEq, Prod.mk.injEq] at h1
      obtain ⟨hv, hs1⟩ := h1
      subst hs1
      refine ⟨tk, by simp [ParserState.skip, hs], hc, ?_⟩
      intro hb
      subst hb
      rw [← e1, ← hv]
      rfl
    · simp at h1
  · simp at h1

/-! ## Operand order: the scan, the leaves and the operators -/

theorem plainScan_append : ∀ (a b : List Token) (f : Bool),
    plainScan f (a ++ b) = (plainScan f a).bind (fun g => plainScan g b)
  | [], b, f => by simp [plainScan]
  | tk :: a, b, true => by
    simp only [List.cons_append, plainScan]
    split
    · exact plainScan_append a b false
    · split
      · exact plainScan_append a b true
      · rfl
  | tk :: a, b, false => by
    simp only [List.cons_append, plainScan]
    split
    · exact plainScan_append a b true
    · split
      · exact plainScan_append a b false
      · rfl

theorem plainScan_expecting_none {tk : Token} (ts : List Token)
    (h1 : tk.type ≠ .identifier) (h2 : tk.type ≠ .literal) (h3 : tk.type ≠ .openParen) :
    plainScan true (tk :: ts) = none := by
  simp [plainScan, h1, h2, h3]

theorem plainScan_operand {tk : Token} (ts : List Token)
    (h : tk.type = .identifier ∨ tk.type = .literal) :
    plainScan true (tk :: ts) = plainScan false ts := by
  simp [plainScan, h]

theorem plainScan_open {tk : Token} (ts : List Token) (h : tk.type = .openParen) :
    plainScan true (tk :: ts) = plainScan true ts := by
  simp [plainScan, h]

theorem plainScan_operator {tk : Token} (ts : List Token)
    (h : isOperatorToken tk.type = true ∨ tk.type = .colon) :
    plainScan false (tk :: ts) = plainScan true ts := by
  simp only [plainScan]
  rw [if_pos h]

theorem plainScan_close {tk : Token} (ts : List Token) (h : tk.type = .closeParen) :
    plainScan false (tk :: ts) = plainScan false ts := by
  simp [plainScan, h, isOperatorToken]

theorem plainScan_done_none {tk : Token} (ts : List Token)
    (h1 : isOperatorToken tk.type = false) (h2 : tk.type ≠ .colon)
    (h3 : tk.type ≠ .closeParen) : plainScan false (tk :: ts) = none := by
  simp [plainScan, h1, h2, h3]

/-- The scan of an operand, a token that does not start an operand and
more: when the whole is accepted, the operand is, and what the token starts
is scanned after an operand. -/
theorem plainScan_split {a : List Token} {tk : Token} {b : List Token} {r : Bool}
    (h : plainScan true (a ++ tk :: b) = some r)
    (h1 : tk.type ≠ .identifier) (h2 : tk.type ≠ .literal) (h3 : tk.type ≠ .openParen) :
    plainScan true a = some false ∧ plainScan false (tk :: b) = some r := by
  rw [plainScan_append] at h
  cases ha : plainScan true a with
  | none => rw [ha] at h; simp at h
  | some g =>
    rw [ha] at h
    simp only [Option.some_bind] at h
    cases g with
    | true =>
      rw [plainScan_expecting_none b h1 h2 h3] at h
      simp at h
    | false => exact ⟨rfl, h⟩

theorem operandLeaves_append (a b : List Token) :
    operandLeaves (a ++ b) = operandLeaves a ++ operandLeaves b := by
  simp [operandLeaves, List.filterMap_append]

theorem operatorTokens_append (a b : List Token) :
    operatorTokens (a ++ b) = operatorTokens a + operatorTokens b := by
  simp [operatorTokens, List.filter_append]

theorem operandLeaves_cons_other {tk : Token} (ts : List Token)
    (h1 : tk.type ≠ .identifier) (h2 : tk.type ≠ .literal) :
    operandLeaves (tk :: ts) = operandLeaves ts := by
  simp [operandLeaves, List.filterMap_cons, leafOfToken, h1, h2]

theorem operatorTokens_cons_operator {tk : Token} (ts : List Token)
    (h : isOperatorToken tk.type = true) :
    operatorTokens (tk :: ts) = 1 + operatorTokens ts := by
  simp [operatorTokens, List.filter_cons, h]
  omega

theorem operatorTokens_cons_other {tk : Token} (ts : List Token)
    (h : isOperatorToken tk.type = false) :
    operatorTokens (tk :: ts) = operatorTokens ts := by
  simp [operatorTokens, List.filter_cons, h]

theorem leaves_two (k : Kind) (l r : Statement) :
    leaves (.node k [l, r]) = leaves l ++ leaves r := by
  simp [leaves, leavesList]

theorem leaves_three (k : Kind) (a b c : Statement) :
    leaves (.node k [a, b, c]) = leaves a ++ (leaves b ++ leaves c) := by
  simp [leaves, leavesList]

theorem operatorNodes_two (k : Kind) (l r : Statement) (h : isOperatorKind k = true) :
    operatorNodes (.node k [l, r]) = 1 + (operatorNodes l + operatorNodes r) := by
  simp [operatorNodes, operatorNodesList, h]

theorem operatorNodes_three (k : Kind) (a b c : Statement) (h : isOperatorKind k = true) :
    operatorNodes (.node k [a, b, c]) =
      1 + (operatorNodes a + (operatorNodes b + operatorNodes c)) := by
  simp [operatorNodes, operatorNodesList, h]

theorem operatorToken_ne {c : TokenType} (h : isOperatorToken c = true) :
    c ≠ .eof ∧ c ≠ .identifier ∧ c ≠ .literal ∧ c ≠ .openParen := by
  cases c <;> simp [isOperatorToken] at h <;> simp

theorem keepsOrder_of_none {x : Statement} {c : List Token}
    (h : plainScan true c = none) : KeepsOrder x c := by
  intro hs
  rw [h] at hs
  simp at hs

theorem keepsOrder_binary {k : Kind} {l r : Statement} {c1 c2 : List Token} {tk : Token}
    (hk : isOperatorKind k = true) (htk : isOperatorToken tk.type = true)
    (h1 : KeepsOrder l c1) (h2 : KeepsOrder r c2) :
    KeepsOrder (.node k [l, r]) (c1 ++ tk :: c2) := by
  intro hs
  obtain ⟨-, n1, n2, n3⟩ := operatorToken_ne htk
  obtain ⟨hs1, hs2⟩ := plainScan_split hs n1 n2 n3
  rw [plainScan_operator c2 (.inl htk)] at hs2
  obtain ⟨a1, b1⟩ := h1 hs1
  obtain ⟨a2, b2⟩ := h2 hs2
  rw [leaves_two, operatorNodes_two k l r hk, operandLeaves_append, operatorTokens_append,
    operandLeaves_cons_other c2 n1 n2, operatorTokens_cons_operator c2 htk, a1, a2, b1, b2]
  exact ⟨rfl, by omega⟩

theorem keepsOrder_ternary {a b c : Statement} {c1 c2 c3 : List Token} {tq tc : Token}
    (hq : tq.type = .question) (hc : tc.type = .colon)
    (h1 : KeepsOrder a c1) (h2 : KeepsOrder b c2) (h3 : KeepsOrder c c3) :
    KeepsOrder (.node .TernaryOp [a, b, c]) (c1 ++ tq :: (c2 ++ tc :: c3)) := by
  intro hs
  obtain ⟨hs1, hs2⟩ := plainScan_split hs (by rw [hq]; decide) (by rw [hq]; decide)
    (by rw [hq]; decide)
  rw [plainScan_operator _ (.inl (by rw [hq]; rfl))] at hs2
  obtain ⟨hs3, hs4⟩ := plainScan_split hs2 (by rw [hc]; decide) (by rw [hc]; decide)
    (by rw [hc]; decide)
  rw [plainScan_operator _ (.inr hc)] at hs4
  obtain ⟨a1, b1⟩ := h1 hs1
  obtain ⟨a2, b2⟩ := h2 hs3
  obtain ⟨a3, b3⟩ := h3 hs4
  rw [leaves_three, operatorNodes_three .TernaryOp a b c rfl, operandLeaves_append,
    operatorTokens_append,
    operandLeaves_cons_other _ (by rw [hq]; decide) (by rw [hq]; decide),
    operatorTokens_cons_operator _ (by rw [hq]; rfl), operandLeaves_append,
    operatorTokens_append,
    operandLeaves_cons_other _ (by rw [hc]; decide) (by rw [hc]; decide),
    operatorTokens_cons_other _ (by rw [hc]; rfl), a1, a2, a3, b1, b2, b3]
  exact ⟨rfl, by omega⟩

theorem keepsOrder_parens {x : Statement} {c : List Token} {tp tc : Token}
    (ho : tp.type = .openParen) (hc : tc.type = .closeParen) (h : KeepsOrder x c) :
    KeepsOrder x (tp :: (c ++ [tc])) := by
  intro hs
  rw [plainScan_open _ ho] at hs
  obtain ⟨hs1, -⟩ := plainScan_split hs (by rw [hc]; decide) (by rw [hc]; decide)
    (by rw [hc]; decide)
  obtain ⟨a1, b1⟩ := h hs1
  rw [operandLeaves_cons_other _ (by rw [ho]; decide) (by rw [ho]; decide),
    operatorTokens_cons_other _ (by rw [ho]; rfl), operandLeaves_append,
    operatorTokens_append,
    operandLeaves_cons_other _ (by rw [hc]; decide) (by rw [hc]; decide),
    operatorTokens_cons_other _ (by rw [hc]; rfl), a1, b1]
  simp [operandLeaves, operatorTokens]

theorem keepsOrder_identifier {tk : Token} (h : tk.type = .identifier) :
    KeepsOrder (Operations.VariableReference ⟨tk.text, false⟩) [tk] := by
  intro _
  simp [leaves, Operations.VariableReference, operandLeaves, leafOfToken, h, operatorNodes,
    operatorNodesList, isOperatorKind, operatorTokens, isOperatorToken]

theorem keepsOrder_literal {tk : Token} (h : tk.type = .literal) :
    KeepsOrder (Operations.Immediate tk.value) [tk] := by
  intro _
  simp [leaves, Operations.Immediate, operandLeaves, leafOfToken, h, operatorNodes,
    operatorNodesList, isOperatorKind, operatorTokens, isOperatorToken]

/-- An identifier followed by a token that is neither an operator nor `:`
nor `)`: the scan does not accept it. -/
theorem keepsOrder_identifier_then {x : Statement} {tk tk2 : Token} {c : List Token}
    (h : tk.type = .identifier) (h1 : isOperatorToken tk2.type = false)
    (h2 : tk2.type ≠ .colon) (h3 : tk2.type ≠ .closeParen) :
    KeepsOrder x (tk :: tk2 :: c) := by
  apply keepsOrder_of_none
  rw [plainScan_operand _ (.inl h), plainScan_done_none _ h1 h2 h3]

theorem keepsOrder_not_operand {x : Statement} {tk : Token} {c : List Token}
    (h1 : tk.type ≠ .identifier) (h2 : tk.type ≠ .literal) (h3 : tk.type ≠ .openParen) :
    KeepsOrder x (tk :: c) :=
  keepsOrder_of_none (plainScan_expecting_none c h1 h2 h3)

theorem typeToken_ne {c : TokenType} {T : Types.ID}
    (h : ParserState.typeOfToken c = some T) :
    c ≠ .identifier ∧ c ≠ .literal ∧ c ≠ .openParen := by
  cases c <;> simp [ParserState.typeOfToken] at h <;> simp

theorem suffix_of_skip (s : ParserState) : ∃ l, s.tokens = l ++ s.skip.tokens := by
  obtain ⟨tokens, sym, ty, at_⟩ := s
  cases tokens with
  | nil => exact ⟨[], rfl⟩
  | cons tk r => exact ⟨[tk], rfl⟩

theorem suffix_of_matchIf (s : ParserState) (e : TokenType) :
    ∃ l, s.tokens = l ++ (s.matchIf e).2.tokens := by
  unfold ParserState.matchIf
  split
  · exact suffix_of_skip s
  · exact ⟨[], rfl⟩

theorem keepsOrder_open_then {x : Statement} {tp tk : Token} {c : List Token}
    (ho : tp.type = .openParen) (h1 : tk.type ≠ .identifier) (h2 : tk.type ≠ .literal)
    (h3 : tk.type ≠ .openParen) : KeepsOrder x (tp :: tk :: c) := by
  apply keepsOrder_of_none
  rw [plainScan_open _ ho, plainScan_expecting_none _ h1 h2 h3]

theorem orderAt_zero (p : FunctionParser) : OrderAt p 0 := by
  constructor <;> intros <;> simp_all [parseFunctionCallLoop, parseFunctionCall,
    parseExpression, parseTernaryOperator, parseBool, parseLogicOperation, parseComparation,
    parseSum, parseProduct, parseDifference, parseTerm, parseCast, parseUnary, parseFactor,
    parseSymbolOrLiteral]

/-- One binary level: the left operand, and behind an operator token the
right operand under a node of an operator kind. -/
theorem order_level {k : Kind} {l r : Statement} {s s1 t : ParserState}
    {c1 c2 : List Token} (hk : isOperatorKind k = true)
    (hop : isOperatorToken s1.currentType = true)
    (h1 : s.tokens = c1 ++ s1.tokens) (k1 : KeepsOrder l c1)
    (h2 : s1.skip.tokens = c2 ++ t.tokens) (k2 : KeepsOrder r c2) :
    ∃ c, s.tokens = c ++ t.tokens ∧ KeepsOrder (.node k [l, r]) c := by
  obtain ⟨tk, htk, hty⟩ := tokens_of_skip (s := s1) rfl (operatorToken_ne hop).1
  refine ⟨c1 ++ tk :: c2, ?_, keepsOrder_binary hk (by rw [hty]; exact hop) k1 k2⟩
  rw [h1, htk, h2]
  simp

theorem orderAt_succ (p : FunctionParser) (n : Nat) (ih : OrderAt p n) :
    OrderAt p (n + 1) := by
  constructor
  · intro f s x t h
    rw [parseFunctionCallLoop] at h
    split at h
    · obtain ⟨⟨e, s1⟩, h1, h2⟩ := bind_eq_ok h
      dsimp only at h2
      obtain ⟨c1, hc1, -⟩ := ih.expression _ _ _ h1
      obtain ⟨c2, hc2⟩ := ih.functionCallLoop _ _ _ _ h2
      obtain ⟨c3, hc3⟩ := suffix_of_matchIf s1 .comma
      exact ⟨c1 ++ (c3 ++ c2), by rw [hc1, hc3, hc2]; simp⟩
    · have e := pure_ok_state h
      subst e
      exact ⟨[], rfl⟩
  · intro s x t h
    rw [parseFunctionCall] at h
    obtain ⟨⟨f, s1⟩, h1, h2⟩ := bind_eq_ok h
    dsimp only at h2
    obtain ⟨s2, h3, h4⟩ := bind_eq_ok h2
    have e := pure_ok_state h4
    subst e
    obtain ⟨c1, hc1⟩ := ih.functionCallLoop _ _ _ _ h1
    obtain ⟨tk, htk, -⟩ := tokens_of_match h3 (by decide)
    exact ⟨c1 ++ [tk], by rw [hc1, htk]; simp⟩
  · intro s x t h
    rw [parseExpression] at h
    exact ih.ternary _ _ _ h
  · intro s x t h
    rw [parseTernaryOperator] at h
    obtain ⟨⟨c, s1⟩, h1, h2⟩ := bind_eq_ok h
    dsimp only at h2
    obtain ⟨c1, hc1, k1⟩ := ih.bool _ _ _ h1
    split at h2
    · rename_i s2 hm
      obtain ⟨⟨tb, s3⟩, h3, h4⟩ := bind_eq_ok h2
      dsimp only at h4
      obtain ⟨s4, h5, h6⟩ := bind_eq_ok h4
      obtain ⟨⟨fb, s5⟩, h7, h8⟩ := bind_eq_ok h6
      have e := pure_eq_ok h8
      simp only [Prod.mk.injEq] at e
      obtain ⟨ex, et⟩ := e
      subst et
      subst ex
      obtain ⟨tq, htq, hq⟩ := tokens_of_matchIf hm (by decide)
      obtain ⟨c2, hc2, k2⟩ := ih.expression _ _ _ h3
      obtain ⟨tc, htc, hc⟩ := tokens_of_match h5 (by decide)
      obtain ⟨c3, hc3, k3⟩ := ih.expression _ _ _ h7
      refine ⟨c1 ++ tq :: (c2 ++ tc :: c3), ?_, keepsOrder_ternary hq hc k1 k2 k3⟩
      rw [hc1, htq, hc2, htc, hc3]
      simp
    · rename_i s2 hm
      have e2 := matchIf_false hm
      subst e2
      have e := pure_eq_ok h2
      simp only [Prod.mk.injEq] at e
      obtain ⟨ex, et⟩ := e
      subst et
      subst ex
      exact ⟨c1, hc1, k1⟩
  · intro s x t h
    rw [parseBool] at h
    rcases hm : s.matchIf .logicalNot with ⟨b0, s0⟩
    rw [hm] at h
    dsimp only at h
    obtain ⟨⟨c, s1⟩, h1, h2⟩ := bind_eq_ok h
    dsimp only at h2
    obtain ⟨c1, hc1, k1⟩ := ih.logic _ _ _ h1
    cases b0 with
    | true =>
      obtain ⟨tk, htk, hty⟩ := tokens_of_matchIf hm (by decide)
      have e : t = s1 := by
        split at h2 <;> exact pure_ok_state h2
      subst e
      exact ⟨tk :: c1, by rw [htk, hc1]; simp,
        keepsOrder_not_operand (by rw [hty]; decide) (by rw [hty]; decide)
          (by rw [hty]; decide)⟩
    | false =>
      have e2 := matchIf_false hm
      subst e2
      have h3 : (pure (c, s1) : Except Failure (Statement × ParserState)) = .ok (x, t) := h2
      have e := pure_eq_ok h3
      simp only [Prod.mk.injEq] at e
      obtain ⟨ex, et⟩ := e
      subst et
      subst ex
      exact ⟨c1, hc1, k1⟩
  · intro s x t h
    rw [parseLogicOperation] at h
    obtain ⟨⟨l, s1⟩, h1, h2⟩ := bind_eq_ok h
    dsimp only at h2
    obtain ⟨c1, hc1, k1⟩ := ih.comparation _ _ _ h1
    split at h2
    · rename_i s2 hm
      obtain ⟨⟨r, s3⟩, h3, h4⟩ := bind_eq_ok h2
      have e := pure_eq_ok h4
      simp only [Prod.mk.injEq] at e
      obtain ⟨ex, et⟩ := e
      subst et
      subst ex
      obtain ⟨tk, htk, hty⟩ := tokens_of_matchIf hm (by decide)
      obtain ⟨c2, hc2, k2⟩ := ih.logic _ _ _ h3
      refine ⟨c1 ++ tk :: c2, by rw [hc1, htk, hc2]; simp, ?_⟩
      exact keepsOrder_binary rfl (by rw [hty]; rfl) k1 k2
    · rename_i s2 hm
      have e2 := matchIf_false hm
      subst e2
      split at h2
      · rename_i s3 hm2
        obtain ⟨⟨r, s4⟩, h3, h4⟩ := bind_eq_ok h2
        have e := pure_eq_ok h4
        simp only [Prod.mk.injEq] at e
        obtain ⟨ex, et⟩ := e
        subst et
        subst ex
        obtain ⟨tk, htk, hty⟩ := tokens_of_matchIf hm2 (by decide)
        obtain ⟨c2, hc2, k2⟩ := ih.logic _ _ _ h3
        refine ⟨c1 ++ tk :: c2, by rw [hc1, htk, hc2]; simp, ?_⟩
        exact keepsOrder_binary rfl (by rw [hty]; rfl) k1 k2
      · rename_i s3 hm2
        have e3 := matchIf_false hm2
        subst e3
        have e := pure_eq_ok h2
        simp only [Prod.mk.injEq] at e
        obtain ⟨ex, et⟩ := e
        subst et
        subst ex
        exact ⟨c1, hc1, k1⟩
  · intro s x t h
    rw [parseComparation] at h
    obtain ⟨⟨l, s1⟩, h1, h2⟩ := bind_eq_ok h
    dsimp only at h2
    obtain ⟨c1, hc1, k1⟩ := ih.sum _ _ _ h1
    split at h2
    · rename_i hc
      obtain ⟨⟨r, s3⟩, h3, h4⟩ := bind_eq_ok h2
      have e := pure_eq_ok h4
      simp only [Prod.mk.injEq] at e
      obtain ⟨ex, et⟩ := e
      subst et
      subst ex
      obtain ⟨c2, hc2, k2⟩ := ih.sum _ _ _ h3
      exact order_level rfl (by rcases hc with h | h | h | h | h | h <;> rw [h] <;> rfl)
        hc1 k1 hc2 k2
    · have e := pure_eq_ok h2
      simp only [Prod.mk.injEq] at e
      obtain ⟨ex, et⟩ := e
      subst et
      subst ex
      exact ⟨c1, hc1, k1⟩
  · intro s x t h
    rw [parseSum] at h
    obtain ⟨⟨l, s1⟩, h1, h2⟩ := bind_eq_ok h
    dsimp only at h2
    obtain ⟨c1, hc1, k1⟩ := ih.difference _ _ _ h1
    split at h2
    · rename_i hc
      obtain ⟨⟨r, s3⟩, h3, h4⟩ := bind_eq_ok h2
      have e := pure_eq_ok h4
      simp only [Prod.mk.injEq] at e
      obtain ⟨ex, et⟩ := e
      subst et
      subst ex
      obtain ⟨c2, hc2, k2⟩ := ih.sum _ _ _ h3
      exact order_level rfl (by rw [hc]; rfl) hc1 k1 hc2 k2
    · have e := pure_eq_ok h2
      simp only [Prod.mk.injEq] at e
      obtain ⟨ex, et⟩ := e
      subst et
      subst ex
      exact ⟨c1, hc1, k1⟩
  · intro s x t h
    rw [parseProduct] at h
    obtain ⟨⟨l, s1⟩, h1, h2⟩ := bind_eq_ok h
    dsimp only at h2
    obtain ⟨c1, hc1, k1⟩ := ih.term _ _ _ h1
    split at h2
    · rename_i hc
      obtain ⟨⟨r, s3⟩, h3, h4⟩ := bind_eq_ok h2
      have e := pure_eq_ok h4
      simp only [Prod.mk.injEq] at e
      obtain ⟨ex, et⟩ := e
      subst et
      subst ex
      obtain ⟨c2, hc2, k2⟩ := ih.product _ _ _ h3
      exact order_level rfl (by rcases hc with h | h | h <;> rw [h] <;> rfl) hc1 k1 hc2 k2
    · have e := pure_eq_ok h2
      simp only [Prod.mk.injEq] at e
      obtain ⟨ex, et⟩ := e
      subst et
      subst ex
      exact ⟨c1, hc1, k1⟩
  · intro s x t h
    rw [parseDifference] at h
    obtain ⟨⟨l, s1⟩, h1, h2⟩ := bind_eq_ok h
    dsimp only at h2
    obtain ⟨c1, hc1, k1⟩ := ih.product _ _ _ h1
    split at h2
    · rename_i hc
      obtain ⟨⟨r, s3⟩, h3, h4⟩ := bind_eq_ok h2
      have e := pure_eq_ok h4
      simp only [Prod.mk.injEq] at e
      obtain ⟨ex, et⟩ := e
      subst et
      subst ex
      obtain ⟨c2, hc2, k2⟩ := ih.difference _ _ _ h3
      exact order_level rfl (by rw [hc]; rfl) hc1 k1 hc2 k2
    · have e := pure_eq_ok h2
      simp only [Prod.mk.injEq] at e
      obtain ⟨ex, et⟩ := e
      subst et
      subst ex
      exact ⟨c1, hc1, k1⟩
  · intro s x t h
    rw [parseTerm] at h
    split at h
    · rename_i s1 hm
      obtain ⟨tp, htp, hp⟩ := tokens_of_matchIf hm (by decide)
      split at h
      · rename_i s2 hm2
        obtain ⟨tt, T, htt, hT⟩ := tokens_of_matchIfTypeToken hm2
        obtain ⟨tk, c, hc, -⟩ := ih.cast _ _ _ _ h
        obtain ⟨n1, n2, n3⟩ := typeToken_ne hT
        exact ⟨tp :: tt :: tk :: c, by rw [htp, htt, hc]; simp,
          keepsOrder_open_then hp n1 n2 n3⟩
      · rename_i s2 hm2
        have e2 := matchIfTypeToken_false hm2
        subst e2
        obtain ⟨⟨r, s3⟩, h3, h4⟩ := bind_eq_ok h
        dsimp only at h4
        obtain ⟨s4, h5, h6⟩ := bind_eq_ok h4
        have e := pure_eq_ok h6
        simp only [Prod.mk.injEq] at e
        obtain ⟨ex, et⟩ := e
        subst et
        subst ex
        obtain ⟨c1, hc1, k1⟩ := ih.expression _ _ _ h3
        obtain ⟨tc, htc, hc⟩ := tokens_of_match h5 (by decide)
        exact ⟨tp :: (c1 ++ [tc]), by rw [htp, hc1, htc]; simp, keepsOrder_parens hp hc k1⟩
    · rename_i s1 hm
      have e1 := matchIf_false hm
      subst e1
      exact ih.unary _ _ _ h
  · intro ty s x t h
    rw [parseCast] at h
    obtain ⟨s1, h1, h2⟩ := bind_eq_ok h
    obtain ⟨⟨r, s3⟩, h3, h4⟩ := bind_eq_ok h2
    have e := pure_ok_state h4
    subst e
    obtain ⟨tk, htk, hty⟩ := tokens_of_match h1 (by decide)
    obtain ⟨c1, hc1, -⟩ := ih.term _ _ _ h3
    exact ⟨tk, c1, by rw [htk, hc1]; rfl, hty⟩
  · intro s x t h
    rw [parseUnary] at h
    split at h
    · exact ih.factor _ _ _ h
    · split at h
      · rename_i s1 hm
        have e := pure_ok_state h
        subst e
        obtain ⟨tk, htk, hty⟩ := tokens_of_matchIf hm (by decide)
        exact ⟨[tk], by rw [htk]; rfl,
          keepsOrder_not_operand (by rw [hty]; decide) (by rw [hty]; decide)
            (by rw [hty]; decide)⟩
      · rename_i s1 hm
        have e1 := matchIf_false hm
        subst e1
        split at h
        · rename_i s2 hm2
          have e := pure_ok_state h
          subst e
          obtain ⟨tk, htk, hty⟩ := tokens_of_matchIf hm2 (by decide)
          exact ⟨[tk], by rw [htk]; rfl,
            keepsOrder_not_operand (by rw [hty]; decide) (by rw [hty]; decide)
              (by rw [hty]; decide)⟩
        · rename_i s2 hm2
          have e2 := matchIf_false hm2
          subst e2
          split at h
          · exact ih.bool _ _ _ h
          · simp at h
  · intro s x t h
    rw [parseFactor] at h
    split at h
    · rename_i s1 hm
      dsimp only at h
      have e := pure_ok_state h
      subst e
      obtain ⟨tk, htk, hty⟩ := tokens_of_matchIf hm (by decide)
      obtain ⟨l, hl⟩ := suffix_of_matchIfSymbol p false s1
      exact ⟨tk :: l, by rw [htk, hl]; rfl,
        keepsOrder_not_operand (by rw [hty]; decide) (by rw [hty]; decide)
          (by rw [hty]; decide)⟩
    · rename_i s1 hm
      have e1 := matchIf_false hm
      subst e1
      split at h
      · rename_i s2 hm2
        dsimp only at h
        have e := pure_ok_state h
        subst e
        obtain ⟨tk, htk, hty⟩ := tokens_of_matchIf hm2 (by decide)
        obtain ⟨l, hl⟩ := suffix_of_matchIfSymbol p false s2
        exact ⟨tk :: l, by rw [htk, hl]; rfl,
          keepsOrder_not_operand (by rw [hty]; decide) (by rw [hty]; decide)
            (by rw [hty]; decide)⟩
      · rename_i s2 hm2
        have e2 := matchIf_false hm2
        subst e2
        split at h
        · rename_i s3 hm3
          obtain ⟨tk, htk, hty⟩ := tokens_of_matchIf hm3 (by decide)
          split at h
          · obtain ⟨tk2, htk2, -, -⟩ := tokens_of_parseLiteral h
            exact ⟨tk :: [tk2], by rw [htk, htk2]; rfl,
              keepsOrder_not_operand (by rw [hty]; decide) (by rw [hty]; decide)
                (by rw [hty]; decide)⟩
          · obtain ⟨⟨r, s4⟩, h3, h4⟩ := bind_eq_ok h
            have e := pure_ok_state h4
            subst e
            obtain ⟨c1, hc1, -⟩ := ih.symbolOrLiteral _ _ _ h3
            exact ⟨tk :: c1, by rw [htk, hc1]; rfl,
              keepsOrder_not_operand (by rw [hty]; decide) (by rw [hty]; decide)
                (by rw [hty]; decide)⟩
        · rename_i s3 hm3
          have e3 := matchIf_false hm3
          subst e3
          exact ih.symbolOrLiteral _ _ _ h
  · intro s x t h
    rw [parseSymbolOrLiteral] at h
    split at h
    · rename_i s1 hm
      obtain ⟨tk, htk, hty, hsym⟩ := tokens_of_matchIfSymbol hm
      split at h
      · rename_i s2 hm2
        obtain ⟨tk2, htk2, hty2⟩ := tokens_of_matchIf hm2 (by decide)
        obtain ⟨c, hc⟩ := ih.functionCall _ _ _ h
        exact ⟨tk :: tk2 :: c, by rw [htk, htk2, hc]; rfl,
          keepsOrder_identifier_then hty (by rw [hty2]; rfl) (by rw [hty2]; decide)
            (by rw [hty2]; decide)⟩
      · rename_i s2 hm2
        have e2 := matchIf_false hm2
        subst e2
        dsimp only at h
        split at h
        · rename_i s3 hm3
          have e := pure_ok_state h
          subst e
          obtain ⟨tk2, htk2, hty2⟩ := tokens_of_matchIf hm3 (by decide)
          exact ⟨tk :: tk2 :: [], by rw [htk, htk2]; rfl,
            keepsOrder_identifier_then hty (by rw [hty2]; rfl) (by rw [hty2]; decide)
              (by rw [hty2]; decide)⟩
        · rename_i s3 hm3
          have e3 := matchIf_false hm3
          subst e3
          split at h
          · rename_i s4 hm4
            have e := pure_ok_state h
            subst e
            obtain ⟨tk2, htk2, hty2⟩ := tokens_of_matchIf hm4 (by decide)
            exact ⟨tk :: tk2 :: [], by rw [htk, htk2]; rfl,
              keepsOrder_identifier_then hty (by rw [hty2]; rfl) (by rw [hty2]; decide)
                (by rw [hty2]; decide)⟩
          · rename_i s4 hm4
            have e4 := matchIf_false hm4
            subst e4
            split at h
            · rename_i s5 hm5
              obtain ⟨tk2, htk2, hty2⟩ := tokens_of_matchIf hm5 (by decide)
              obtain ⟨⟨r, s6⟩, h3, h4⟩ := bind_eq_ok h
              dsimp only at h4
              obtain ⟨s7, h5, h6⟩ := bind_eq_ok h4
              have e := pure_ok_state h6
              subst e
              obtain ⟨c1, hc1, -⟩ := ih.expression _ _ _ h3
              obtain ⟨tk3, htk3, -⟩ := tokens_of_match h5 (by decide)
              exact ⟨tk :: tk2 :: (c1 ++ [tk3]), by rw [htk, htk2, hc1, htk3]; simp,
                keepsOrder_identifier_then hty (by rw [hty2]; rfl) (by rw [hty2]; decide)
                  (by rw [hty2]; decide)⟩
            · rename_i s5 hm5
              have e5 := matchIf_false hm5
              subst e5
              have e := pure_eq_ok h
              simp only [Prod.mk.injEq] at e
              obtain ⟨ex, et⟩ := e
              subst et
              subst ex
              refine ⟨[tk], by rw [htk]; rfl, ?_⟩
              have hk := keepsOrder_identifier hty
              simp only [parseReference, ParserState.getCurrentSymbol, hsym]
              exact hk
    · rename_i s1 hm
      have e1 := matchIfSymbol_false hm
      subst e1
      obtain ⟨tk, htk, hty, hx⟩ := tokens_of_parseLiteral h
      rw [hx rfl]
      exact ⟨[tk], by rw [htk]; rfl, keepsOrder_literal hty⟩

theorem orderAt (p : FunctionParser) : ∀ n, OrderAt p n
  | 0 => orderAt_zero p
  | n + 1 => orderAt_succ p n (orderAt p n)

/-! ## Operand order: the property -/

/-- C32: operand order is preserved. When parseExpression returns the tree
`x` and the tokens `c` that it has consumed are an expression built from
identifiers, literals, grouping parentheses and the binary, comparison,
logic and ternary operators only, then the leaves of `x` from left to right
are the references and Immediates of the identifier and literal tokens of
`c` in source order, and `x` has as many operator nodes (BinaryOp, Compare,
TernaryOp) as `c` has operator tokens, a ternary `? :` counted once. -/
theorem parseExpression_keeps_operand_order (p : FunctionParser) (n : Nat)
    (s t : ParserState) (x : Statement) (c : List Token)
    (h : p.parseExpression n s = .ok (x, t)) (hc : s.tokens = c ++ t.tokens)
    (hplain : plainScan true c = some false) :
    leaves x = operandLeaves c ∧ operatorNodes x = operatorTokens c := by
  obtain ⟨c2, hc2, k⟩ := (orderAt p n).expression s x t h
  have e : c = c2 := List.append_cancel_right (hc.symm.trans hc2)
  subst e
  exact k hplain

/-- Witness of C32 on the tokens `( a + b ) * c < d ? x : 2`: six leaves in
source order and four operator nodes. -/
theorem parseExpression_keeps_operand_order_witness :
    leaves (Operations.TernaryOp
        (Operations.Compare
          (Operations.BinaryOp
            (Operations.BinaryOp (Examples.var "a") (Examples.var "b") .plus)
            (Examples.var "c") .times)
          (Examples.var "d") .lessThan)
        (Examples.var "x") (Examples.int 2)) =
      [Examples.var "a", Examples.var "b", Examples.var "c", Examples.var "d",
        Examples.var "x", Examples.int 2] ∧
    operatorNodes (Operations.TernaryOp
        (Operations.Compare
          (Operations.BinaryOp
            (Operations.BinaryOp (Examples.var "a") (Examples.var "b") .plus)
            (Examples.var "c") .times)
          (Examples.var "d") .lessThan)
        (Examples.var "x") (Examples.int 2)) = 4 :=
  parseExpression_keeps_operand_order Examples.knowsAll 40
    (.init [.op .openParen, .ident "a", .op .plus, .ident "b", .op .closeParen, .op .times,
      .ident "c", .op .lessThan, .ident "d", .op .question, .ident "x", .op .colon,
      .lit (.Integer 2)])
    (Examples.after "x" [])
    (Operations.TernaryOp
      (Operations.Compare
        (Operations.BinaryOp
          (Operations.BinaryOp (Examples.var "a") (Examples.var "b") .plus)
          (Examples.var "c") .times)
        (Examples.var "d") .lessThan)
      (Examples.var "x") (Examples.int 2))
    [.op .openParen, .ident "a", .op .plus, .ident "b", .op .closeParen, .op .times,
      .ident "c", .op .lessThan, .ident "d", .op .question, .ident "x", .op .colon,
      .lit (.Integer 2)]
    (by decide) (by decide) (by decide)

end FunctionParser

end jit
end snex

namespace hise
namespace DocUpdater
namespace Helpers

/-! ## The result codes of the documentation updater: properties -/

theorem land_zero (r : Int) : Int.land r 0 = 0 := by
  cases r with
  | ofNat m =>
    show Int.land (Int.ofNat m) (Int.ofNat 0) = 0
    simp [Int.land]
  | negSucc m =>
    show Int.land (Int.negSucc m) (Int.ofNat 0) = 0
    simp [Int.land, Nat.ldiff]

/-- C39: `wasOk(r)` is false for every `int` r. The comparison `0b1000 == 0`
is evaluated first and is false, so the function returns `r & 0`, which is
zero. It is false in particular for NothingUpdated, ImagesUpdated,
ContentUpdated and EverythingUpdated, whose error bit `0b1000` is clear, and
`somethingDownloaded(r)` is false for every result code. -/
theorem wasOk_always_false :
    (∀ r : Int, wasOk r = false ∧ wasOk r = intToBool (Int.land r 0)) ∧
    (∀ d : DownloadResult,
      (d = .NothingUpdated ∨ d = .ImagesUpdated ∨ d = .ContentUpdated ∨
          d = .EverythingUpdated) →
        errorBitClear d.toInt = true ∧ wasOk d.toInt = false) ∧
    (∀ d : DownloadResult, somethingDownloaded d = false) := by
  have h : ∀ r : Int, wasOk r = false := by
    intro r
    have h0 : boolToInt ((0b1000 : Int) == 0) = 0 := by decide
    unfold wasOk
    rw [h0, land_zero]
    rfl
  refine ⟨fun r => ⟨h r, rfl⟩, ?_, ?_⟩
  · intro d hd
    refine ⟨?_, h _⟩
    rcases hd with e | e | e | e <;> subst e <;> decide
  · intro d
    unfold somethingDownloaded
    rw [h]
    rfl

/-- Witness of C39 on the four result codes whose error bit is clear. -/
theorem wasOk_always_false_witness :
    (errorBitClear DownloadResult.NothingUpdated.toInt = true ∧
      wasOk DownloadResult.NothingUpdated.toInt = false) ∧
    (errorBitClear DownloadResult.ImagesUpdated.toInt = true ∧
      wasOk DownloadResult.ImagesUpdated.toInt = false) ∧
    (errorBitClear DownloadResult.ContentUpdated.toInt = true ∧
      wasOk DownloadResult.ContentUpdated.toInt = false) ∧
    (errorBitClear DownloadResult.EverythingUpdated.toInt = true ∧
      wasOk DownloadResult.EverythingUpdated.toInt = false) :=
  ⟨wasOk_always_false.2.1 .NothingUpdated (Or.inl rfl),
   wasOk_always_false.2.1 .ImagesUpdated (Or.inr (Or.inl rfl)),
   wasOk_always_false.2.1 .ContentUpdated (Or.inr (Or.inr (Or.inl rfl))),
   wasOk_always_false.2.1 .EverythingUpdated (Or.inr (Or.inr (Or.inr rfl)))⟩

end Helpers
end DocUpdater
end hise
